import Mathlib

/-!
# LPrefab: actor serializers (generations 3, 6, 7) and sequence object references

A shallow embedding of
`Source/LPrefab/Private/PrefabSystem/ActorSerializer{3,6,7}_Serialize.cpp` and
`Source/LPrefab/Private/PrefabAnimation/LPrefabSequenceObjectReference.cpp`.

Engine objects are handles (`UObject`); what the engine answers about an object
(validity, flags, label, attachment, components) is read from a `World`.
Recursion over the attachment hierarchy carries a depth budget (`fuel`).
-/

namespace LPrefab

/-! ## Engine vocabulary -/

/-- A non-null engine object pointer (`UObject*`, `AActor*`, `UActorComponent*`). -/
abbrev UObject := Nat

/-- A 128-bit identifier; `0` is the zero (invalid) GUID. -/
abbrev FGuid := Nat

/-- A class descriptor (`UClass*`). -/
abbrev UClass := Nat

/-- An engine string, a sequence of characters. -/
abbrev FString := List Char

/-- An engine name. -/
abbrev FName := List Char

/-- A byte buffer (`TArray<uint8>`). -/
abbrev Bytes := List Nat

/-- The engine map `TMap<K, V>`: entries in insertion order, at most one entry per key. -/
abbrev TMap (K V : Type) := List (K × V)

namespace TMap

variable {K V : Type} [DecidableEq K]

/-- The lookup `TMap::Find`: the value stored under the key, if any. -/
def Find : TMap K V → K → Option V
  | [], _ => none
  | (k', v) :: m, k => if k' = k then some v else Find m k

/-- The test `TMap::Contains`. -/
def Contains (m : TMap K V) (k : K) : Bool := (Find m k).isSome

/-- The insertion `TMap::Add`: replaces the value of an existing key, else appends a new entry. -/
def Add : TMap K V → K → V → TMap K V
  | [], k, v => [(k, v)]
  | (k', v') :: m, k, v => if k' = k then (k, v) :: m else (k', v') :: Add m k v

/-- The indexing `TMap::operator[]`: a checked lookup. The engine asserts when the key is
missing; the default value (the zero GUID for a GUID map) stands for that failure. -/
def FindChecked [Inhabited V] (m : TMap K V) (k : K) : V := (Find m k).getD default

/-- The keys of the map, in entry order. -/
def Keys (m : TMap K V) : List K := m.map Prod.fst

end TMap

/-- The comparison `FString::operator==`: the engine compares strings ignoring ASCII case. -/
def FString_Equals (a b : FString) : Bool := decide (a.map Char.toLower = b.map Char.toLower)

/-- The test `A.Compare(B) < 0` with the default case-sensitive search: `A` comes strictly
before `B` in the lexicographic order of the characters. The characters are compared by
code point; the engine compares UTF-16 code units, which orders two labels the same way
unless one of them has a character beyond the basic plane. -/
def FString_CompareLess (a b : FString) : Bool := decide (a < b)

/-! ## Algo::Sort -/

/-- The scan of one pass of the engine's sort over a short range
(`for (Max = Min, Item = Min + 1; Item <= Max; Item++) if (Predicate(*Max, *Item)) Max = Item;`):
`pre` are the elements before the current maximum `mv`, `mid` the scanned elements after
it; the scan ends on the first greatest element. -/
def Algo_Sort_scan {α : Type} (Predicate : α → α → Bool) :
    List α → α → List α → List α → List α × α × List α
  | pre, mv, mid, [] => (pre, mv, mid)
  | pre, mv, mid, x :: xs =>
    if Predicate mv x then Algo_Sort_scan Predicate (pre ++ mv :: mid) x [] xs
    else Algo_Sort_scan Predicate pre mv (mid ++ [x]) xs

/-- What is left of the range after `Swap(*Max, *Current.Max--)`: the maximum has
changed places with the last element and the range is shortened by one. -/
def Algo_Sort_rest {α : Type} (pre mid : List α) : List α :=
  match mid.getLast? with
  | none => pre
  | some last => pre ++ last :: mid.dropLast

/-- The passes of the sort, `n` bounding their number. -/
def Algo_Sort_passes {α : Type} (Predicate : α → α → Bool) : Nat → List α → List α
  | 0, l => l
  | _ + 1, [] => []
  | n + 1, a :: rest =>
    match Algo_Sort_scan Predicate [] a [] rest with
    | (pre, mv, mid) => Algo_Sort_passes Predicate n (Algo_Sort_rest pre mid) ++ [mv]

/-- The engine call `Algo::Sort(Range, Predicate)`. The engine's sort is an introsort that is not
stable; a range of at most 8 elements is sorted by moving, pass after pass, the first
greatest element to the end of the range, which is the procedure followed here for
every length (the engine partitions a longer range first; its result is sorted by
`Predicate` all the same). -/
def Algo_Sort {α : Type} (Predicate : α → α → Bool) (l : List α) : List α :=
  Algo_Sort_passes Predicate l.length l

/-! ## Save records -/

/-- The struct `FLPrefabOverrideParameterData`: an object of a sub-prefab and its overridden members. -/
structure FLPrefabOverrideParameterData where
  /-- The weak pointer `Object.Get()`; `none` is the null pointer. -/
  Object : Option UObject
  MemberPropertyNames : List FName
  deriving DecidableEq, Repr, Inhabited

/-- The struct `FLSubPrefabData`: what the parent prefab knows of one sub-prefab instance. -/
structure FLSubPrefabData where
  PrefabAsset : Nat
  MapObjectGuidFromParentPrefabToSubPrefab : TMap FGuid FGuid
  MapGuidToObject : TMap FGuid (Option UObject)
  ObjectOverrideParameterArray : List FLPrefabOverrideParameterData
  deriving DecidableEq, Repr, Inhabited

/-- The struct `FLPrefabOverrideParameterSaveData` (generations 6 and 7). -/
structure FLPrefabOverrideParameterSaveData where
  OverrideParameterData : Bytes
  OverrideParameterNames : List FName
  deriving DecidableEq, Repr, Inhabited

/-- The struct `FLGUIObjectSaveData` (generations 6 and 7): the record of a component or object. -/
structure FLGUIObjectSaveData where
  ObjectClass : Nat
  ObjectName : FName
  ObjectFlags : Nat
  OuterObjectGuid : FGuid
  DefaultSubObjectGuidArray : List FGuid
  DefaultSubObjectNameArray : List FName
  deriving DecidableEq, Repr, Inhabited

/-- The prefab asset `ULPrefab`, as far as the serializers write it. -/
structure ULPrefab where
  BinaryData : Bytes
  ThumbnailDirty : Bool
  CreateTime : Nat
  ReferenceAssetList : List Nat
  ReferenceClassList : List UClass
  ReferenceNameList : List FName
  ReferenceTextList : List FString
  ReferenceStringList : List FString
  ArchiveVersion : Nat
  ArchiveVersionUE5 : Nat
  ArchiveLicenseeVer : Nat
  ArEngineNetVer : Nat
  ArGameNetVer : Nat
  BinaryDataForBuild : Bytes
  ReferenceAssetListForBuild : List Nat
  ReferenceClassListForBuild : List UClass
  ReferenceNameListForBuild : List FName
  ArchiveVersion_ForBuild : Nat
  ArchiveVersionUE5_ForBuild : Nat
  ArchiveLicenseeVer_ForBuild : Nat
  ArEngineNetVer_ForBuild : Nat
  ArGameNetVer_ForBuild : Nat
  EngineMajorVersion : Nat
  EngineMinorVersion : Nat
  PrefabVersion : Nat
  PackageDirty : Bool
  deriving DecidableEq, Repr, Inhabited

namespace LPrefabSystem7

/-- The struct `FLGUIActorSaveData` of generation 7: one entry of the flat `SavedActors` array. -/
structure FLGUIActorSaveData where
  bIsPrefab : Bool
  PrefabAssetIndex : Nat
  ActorGuid : FGuid
  MapObjectGuidFromParentPrefabToSubPrefab : TMap FGuid FGuid
  MapObjectGuidToSubPrefabOverrideParameter : TMap FGuid FLPrefabOverrideParameterSaveData
  ObjectClass : Nat
  ObjectFlags : Nat
  RootComponentGuid : FGuid
  DefaultSubObjectGuidArray : List FGuid
  DefaultSubObjectNameArray : List FName
  deriving DecidableEq, Repr, Inhabited

/-- The struct `FLPrefabSaveData` of generation 7. -/
structure FLPrefabSaveData where
  SavedActors : List FLGUIActorSaveData
  SavedObjects : TMap FGuid FLGUIObjectSaveData
  SavedObjectData : TMap FGuid Bytes
  MapSceneComponentToParent : TMap FGuid FGuid
  deriving DecidableEq, Repr, Inhabited

end LPrefabSystem7

namespace LPrefabSystem6

/-- The struct `FLGUIActorSaveData` of generation 6: the record of an actor, which holds
the records of the actors attached to it. -/
inductive FLGUIActorSaveData where
  | mk (bIsPrefab : Bool) (PrefabAssetIndex : Nat) (ActorGuid : FGuid)
      (MapObjectGuidFromParentPrefabToSubPrefab : TMap FGuid FGuid)
      (MapObjectGuidToSubPrefabOverrideParameter : TMap FGuid FLPrefabOverrideParameterSaveData)
      (ObjectClass : Nat) (ObjectFlags : Nat) (RootComponentGuid : FGuid)
      (DefaultSubObjectGuidArray : List FGuid) (DefaultSubObjectNameArray : List FName)
      (ChildrenActorDataArray : List FLGUIActorSaveData)

/-- A default-constructed record. -/
def FLGUIActorSaveData.New : FLGUIActorSaveData :=
  .mk false 0 0 [] [] 0 0 0 [] [] []

/-- The field `ActorGuid`. -/
def FLGUIActorSaveData.ActorGuid : FLGUIActorSaveData → FGuid
  | .mk _ _ g _ _ _ _ _ _ _ _ => g

/-- The field `bIsPrefab`. -/
def FLGUIActorSaveData.bIsPrefab : FLGUIActorSaveData → Bool
  | .mk b _ _ _ _ _ _ _ _ _ _ => b

/-- The field `ChildrenActorDataArray`. -/
def FLGUIActorSaveData.ChildrenActorDataArray : FLGUIActorSaveData → List FLGUIActorSaveData
  | .mk _ _ _ _ _ _ _ _ _ _ c => c

/-- The struct `FLPrefabSaveData` of generation 6. -/
structure FLPrefabSaveData where
  SavedActor : FLGUIActorSaveData
  SavedObjects : TMap FGuid FLGUIObjectSaveData
  SavedObjectData : TMap FGuid Bytes
  MapSceneComponentToParent : TMap FGuid FGuid

end LPrefabSystem6

namespace LPrefabSystem3

/-- The struct `FLPrefabOverrideParameterRecordData` of generation 3. -/
structure FLPrefabOverrideParameterRecordData where
  ObjectGuid : FGuid
  OverrideParameterData : Bytes
  OverrideParameterNames : List FName
  deriving DecidableEq, Repr, Inhabited

/-- The struct `FLGUIActorSaveData` of generation 3: the record of an actor, with its
property data and the records of the actors attached to it. -/
inductive FLGUIActorSaveData where
  | mk (bIsPrefab : Bool) (PrefabAssetIndex : Nat) (ActorGuid : FGuid)
      (MapObjectGuidFromParentPrefabToSubPrefab : TMap FGuid FGuid)
      (ObjectOverrideParameterArray : List FLPrefabOverrideParameterRecordData)
      (ActorClass : Nat) (ObjectFlags : Nat) (ActorPropertyData : Bytes)
      (RootComponentGuid : FGuid)
      (DefaultSubObjectGuidArray : List FGuid) (DefaultSubObjectNameArray : List FName)
      (ChildActorData : List FLGUIActorSaveData)

/-- A default-constructed record. -/
def FLGUIActorSaveData.New : FLGUIActorSaveData :=
  .mk false 0 0 [] [] 0 0 [] 0 [] [] []

/-- The field `ActorGuid`. -/
def FLGUIActorSaveData.ActorGuid : FLGUIActorSaveData → FGuid
  | .mk _ _ g _ _ _ _ _ _ _ _ _ => g

/-- The field `bIsPrefab`. -/
def FLGUIActorSaveData.bIsPrefab : FLGUIActorSaveData → Bool
  | .mk b _ _ _ _ _ _ _ _ _ _ _ => b

/-- The field `ChildActorData`. -/
def FLGUIActorSaveData.ChildActorData : FLGUIActorSaveData → List FLGUIActorSaveData
  | .mk _ _ _ _ _ _ _ _ _ _ _ c => c

/-- The struct `FLGUIComponentSaveData` of generation 3. -/
structure FLGUIComponentSaveData where
  ComponentClass : Nat
  ComponentName : FName
  ComponentGuid : FGuid
  ObjectFlags : Nat
  OuterObjectGuid : FGuid
  SceneComponentParentGuid : FGuid
  PropertyData : Bytes
  deriving DecidableEq, Repr, Inhabited

/-- The struct `FLGUIObjectSaveData` of generation 3. -/
structure FLGUIObjectSaveData where
  ObjectClass : Nat
  ObjectGuid : FGuid
  ObjectFlags : Nat
  OuterObjectGuid : FGuid
  PropertyData : Bytes
  deriving DecidableEq, Repr, Inhabited

/-- The struct `FLPrefabSaveData` of generation 3. -/
structure FLPrefabSaveData where
  SavedActor : FLGUIActorSaveData
  SavedObjects : List FLGUIObjectSaveData
  SavedComponents : List FLGUIComponentSaveData

end LPrefabSystem3

/-! ## The world and the serializer state -/

/-- What the engine (and the parts of the plugin outside the serializers) answer
about the objects of a level at the time of a call. -/
structure World where
  /-- The test `IsValid(Object)` for a non-null pointer: the object is not being destroyed. -/
  IsValid : UObject → Bool
  /-- Whether `GetWorld()` is non-null. -/
  HasWorld : UObject → Bool
  /-- The flag test `HasAnyFlags(RF_Transient)`. -/
  IsTransient : UObject → Bool
  /-- The virtual `IsEditorOnly()`. -/
  IsEditorOnly : UObject → Bool
  /-- The actor field `bIsEditorOnlyActor`. -/
  bIsEditorOnlyActor : UObject → Bool
  /-- Whether `Cast<AActor>(Object)` succeeds. -/
  IsActor : UObject → Bool
  /-- Whether `Cast<UActorComponent>(Object)` succeeds. -/
  IsActorComponent : UObject → Bool
  /-- Whether `Cast<USceneComponent>(Object)` succeeds. -/
  IsSceneComponent : UObject → Bool
  GetClass : UObject → UClass
  GetFlags : UObject → Nat
  GetFName : UObject → FName
  GetOuter : UObject → UObject
  GetActorLabel : UObject → FString
  /-- The actors attached to an actor, in attachment order (`GetAttachedActors`). -/
  GetAttachedActors : UObject → List UObject
  GetAttachParentActor : UObject → Option UObject
  /-- The test `Actor->IsAttachedTo(Other)` of the engine. -/
  IsAttachedTo : UObject → UObject → Bool
  /-- The level an actor lives in (`GetLevel`). -/
  GetLevel : UObject → Nat
  /-- The world that a level belongs to (`ULevel::OwningWorld`); a world may hold several
  levels. -/
  OwningWorld : Nat → Nat
  /-- The test `IsValid(Class)` for a non-null class pointer. -/
  IsValidClass : UClass → Bool
  GetRootComponent : UObject → Option UObject
  /-- The attach parent of a scene component (`USceneComponent::GetAttachParent`). -/
  GetAttachParent : UObject → Option UObject
  /-- The owner of a component (`UActorComponent::GetOwner`). -/
  GetOwner : UObject → Option UObject
  /-- The components of an actor, in the order `GetComponents` lists them. -/
  GetComponents : UObject → List UObject
  /-- Whether a class is the given class or derives from it (`UClass::IsChildOf`). -/
  IsChildOf : UClass → UClass → Bool
  CollectDefaultSubobjects : UObject → List UObject
  /-- The call `CollectDefaultSubobjects(DefaultSubObjects, true)`, nested sub-objects included. -/
  CollectDefaultSubobjectsNested : UObject → List UObject
  /-- The class `AActor::StaticClass()`. -/
  AActor_StaticClass : UClass
  /-- The class `UActorComponent::StaticClass()`. -/
  UActorComponent_StaticClass : UClass
  /-- The delegate `ULPrefabManagerObject::Serialize_SortChildrenActors`, `none` when unbound. -/
  Serialize_SortChildrenActors : Option (List UObject → List UObject)
  /-- The GUID that the `n`-th call of `FGuid::NewGuid()` returns. -/
  NewGuid : Nat → FGuid
  /-- The objects that the serialized properties of an object refer to, in the order
  the property writer meets them (the flag: the scene-component exclusions apply). -/
  PropertyObjects : UObject → Bool → List UObject
  /-- The bytes the property writer emits for an object, given the GUIDs its references resolve to. -/
  PropertyBytes : UObject → Bool → TMap UObject FGuid → Bytes
  /-- The objects that the named override properties of an object refer to. -/
  OverridePropertyObjects : UObject → List FName → List UObject
  /-- The bytes the override-parameter writer emits for the named properties of an object. -/
  OverridePropertyBytes : UObject → List FName → TMap UObject FGuid → Bytes
  /-- The archive that `ToBinary << SaveData` produces from the records of generation 7
  (the flag: the structured archive of the editor is used). -/
  ToBinary7 : Bool → LPrefabSystem7.FLPrefabSaveData → Bytes
  /-- The archive of the records of generation 6. -/
  ToBinary6 : Bool → LPrefabSystem6.FLPrefabSaveData → Bytes
  /-- The archive of the records of generation 3 (`ToBinary << SaveData`). -/
  ToBinary3 : LPrefabSystem3.FLPrefabSaveData → Bytes
  Now : Nat
  UtcNow : Nat
  FileVersionUE4 : Nat
  FileVersionUE5 : Nat
  LicenseeUEVersion : Nat
  EngineNetworkProtocolVersion : Nat
  GameNetworkProtocolVersion : Nat
  ENGINE_MAJOR_VERSION : Nat
  ENGINE_MINOR_VERSION : Nat
  LPREFAB_CURRENT_VERSION : Nat

/-- The members of `ActorSerializerBase` that the save path reads and writes. -/
structure ActorSerializer where
  bIsEditorOrRuntime : Bool
  MapObjectToGuid : TMap UObject FGuid
  SubPrefabMap : TMap UObject FLSubPrefabData
  /-- Generation 7 only: the actors that belong to a sub-prefab. -/
  SubPrefabActorArray : List UObject
  WillSerializeActorArray : List UObject
  /-- Generation 7 only. -/
  TrySerializeActorArray : List UObject
  WillSerializeObjectArray : List UObject
  ReferenceAssetList : List Nat
  ReferenceClassList : List UClass
  ReferenceNameList : List FName
  /-- The number of calls of `FGuid::NewGuid()` made so far. -/
  NewGuidCalls : Nat
  deriving DecidableEq, Repr, Inhabited

/-- A freshly constructed serializer (`ActorSerializer serializer;`). -/
def ActorSerializer.New : ActorSerializer :=
  { bIsEditorOrRuntime := false, MapObjectToGuid := [], SubPrefabMap := [],
    SubPrefabActorArray := [], WillSerializeActorArray := [], TrySerializeActorArray := [],
    WillSerializeObjectArray := [], ReferenceAssetList := [], ReferenceClassList := [],
    ReferenceNameList := [], NewGuidCalls := 0 }

/-- Modelled from the spec: the reference tables are "deduplicated lists (asset refs,
class refs, name refs) referenced by index from records"; `FindOrAddClassFromList` and
`FindOrAddAssetIdFromList` (not among the sources) return the index of the element,
appending it when the list does not hold it yet. -/
def FindOrAdd (l : List Nat) (x : Nat) : Nat × List Nat :=
  if x ∈ l then (l.indexOf x, l) else (l.length, l ++ [x])

/-- The class-table call `FindOrAddClassFromList`. -/
def FindOrAddClassFromList (s : ActorSerializer) (c : UClass) : Nat × ActorSerializer :=
  ((FindOrAdd s.ReferenceClassList c).1,
    { s with ReferenceClassList := (FindOrAdd s.ReferenceClassList c).2 })

/-- The asset-table call `FindOrAddAssetIdFromList`. -/
def FindOrAddAssetIdFromList (s : ActorSerializer) (a : Nat) : Nat × ActorSerializer :=
  ((FindOrAdd s.ReferenceAssetList a).1,
    { s with ReferenceAssetList := (FindOrAdd s.ReferenceAssetList a).2 })

/-- The statement `if (!MapObjectToGuid.Contains(Object)) MapObjectToGuid.Add(Object, FGuid::NewGuid());`
of the collectors: an object that the identity map does not hold yet gets a new GUID. -/
def AddNewGuidIfAbsent (W : World) (s : ActorSerializer) (Object : UObject) : ActorSerializer :=
  if !TMap.Contains s.MapObjectToGuid Object then
    { s with MapObjectToGuid := TMap.Add s.MapObjectToGuid Object (W.NewGuid s.NewGuidCalls),
             NewGuidCalls := s.NewGuidCalls + 1 }
  else s

/-- Modelled from the spec: a node is "enqueued into the serialize worklist only if not
already visited", that is, unless one of the worklists holds it. -/
def EnqueueObjectIfNotVisited (s : ActorSerializer) (Object : UObject) : ActorSerializer :=
  if Object ∈ s.WillSerializeObjectArray ∨ Object ∈ s.WillSerializeActorArray
      ∨ Object ∈ s.TrySerializeActorArray then s
  else { s with WillSerializeObjectArray := s.WillSerializeObjectArray ++ [Object] }

/-- Modelled from the spec: `CollectObjectToSerailize` is not among the sources. The spec's
identity map "returns existing mapping or allocates a new random 128-bit id and records it"
and "never reassigns an existing node's GUID"; the collector skips a node that is
"transient or (in non-editor/build mode) editor-only", and a node is "given a GUID and
enqueued into the serialize worklist only if not already visited". The result says
whether the object was accepted. -/
def CollectObjectToSerailize (W : World) (s : ActorSerializer) (Object : UObject) :
    Bool × ActorSerializer :=
  if W.IsTransient Object then (false, s)
  else if !s.bIsEditorOrRuntime && W.IsEditorOnly Object then (false, s)
  else (true, EnqueueObjectIfNotVisited (AddNewGuidIfAbsent W s Object) Object)

/-- Modelled from the spec: the property writer (`FLPrefabObjectWriter`, not among the
sources) is the Property Codec, which "encodes a typed object's fields to a byte buffer,
given an exclusion set of field names and a reference-resolution callback": every object
the properties refer to goes through `CollectObjectToSerailize`, then the bytes are emitted. -/
def WriterOrReaderFunction (W : World) (s : ActorSerializer) (InObject : UObject)
    (InIsSceneComponent : Bool) : Bytes × ActorSerializer :=
  let s1 := (W.PropertyObjects InObject InIsSceneComponent).foldl
    (fun st o => (CollectObjectToSerailize W st o).2) s
  (W.PropertyBytes InObject InIsSceneComponent s1.MapObjectToGuid, s1)

/-- Modelled from the spec: the override-parameter writer
(`FLPrefabOverrideParameterObjectWriter`, not among the sources) encodes "only fields
explicitly registered as overridden", resolving references through the same callback. -/
def WriterOrReaderFunctionForSubPrefabOverride (W : World) (s : ActorSerializer)
    (InObject : UObject) (InOverridePropertyNames : List FName) : Bytes × ActorSerializer :=
  let s1 := (W.OverridePropertyObjects InObject InOverridePropertyNames).foldl
    (fun st o => (CollectObjectToSerailize W st o).2) s
  (W.OverridePropertyBytes InObject InOverridePropertyNames s1.MapObjectToGuid, s1)

/-- The children of an actor in the order the serializer visits them: the bound hook
reorders them, otherwise they are sorted on the actor label
(`A->GetActorLabel().Compare(B->GetActorLabel()) < 0`). -/
def SortChildrenActors (W : World) (ChildrenActors : List UObject) : List UObject :=
  match W.Serialize_SortChildrenActors with
  | some hook => hook ChildrenActors
  | none =>
    Algo_Sort (fun A B => FString_CompareLess (W.GetActorLabel A) (W.GetActorLabel B))
      ChildrenActors

/-- The preprocessing loop of `SavePrefab` ("Preprocess the map, ignore invalid object"):
the entries of the caller's map whose key is a valid object are added to the
serializer's map, which starts empty. -/
def PreprocessMap (W : World) (InOutMapObjectToGuid : TMap UObject FGuid) :
    TMap UObject FGuid :=
  InOutMapObjectToGuid.foldl
    (fun m KeyValue => if W.IsValid KeyValue.1 then TMap.Add m KeyValue.1 KeyValue.2 else m) []

/-- The loop over the default sub-objects of an actor or object, shared by
`SerializeActorArray`, `SerializeActorRecursive` (generation 6) and `SerializeObjectArray`:
a sub-object that `CollectObjectToSerailize` refuses is skipped, the GUID and name of
every other one are appended. -/
def SerializeDefaultSubObjects (W : World) (DefaultSubObjects : List UObject)
    (s : ActorSerializer) : ActorSerializer × List FGuid × List FName :=
  DefaultSubObjects.foldl
    (fun acc DefaultSubObject =>
      let r := CollectObjectToSerailize W acc.1 DefaultSubObject
      if r.1 then
        (r.2, acc.2.1 ++ [TMap.FindChecked r.2.MapObjectToGuid DefaultSubObject],
          acc.2.2 ++ [W.GetFName DefaultSubObject])
      else (r.2, acc.2.1, acc.2.2))
    (s, [], [])

/-- The loop "serialize override parameter data" of generations 6 and 7: an entry is
written for every overridden object that the identity map holds. -/
def SerializeOverrideParameters (W : World)
    (ObjectOverrideParameterArray : List FLPrefabOverrideParameterData) (s : ActorSerializer) :
    ActorSerializer × TMap FGuid FLPrefabOverrideParameterSaveData :=
  ObjectOverrideParameterArray.foldl
    (fun acc DataItem =>
      match DataItem.Object with
      | none => acc
      | some SubPrefabObject =>
        if TMap.Contains acc.1.MapObjectToGuid SubPrefabObject then
          let r := WriterOrReaderFunctionForSubPrefabOverride W acc.1 SubPrefabObject
            DataItem.MemberPropertyNames
          (r.2, TMap.Add acc.2 (TMap.FindChecked r.2.MapObjectToGuid SubPrefabObject)
            { OverrideParameterData := r.1,
              OverrideParameterNames := DataItem.MemberPropertyNames })
        else acc)
    (s, [])

/-- The tail of `ActorSerializer::SerializeActor`, the same in the three generations but
for the time stamp: the archive `ToBinary` and the reference tables are stored in the
prefab asset, in the editor fields or in the build fields. -/
def WritePrefabAsset (W : World) (s : ActorSerializer) (ToBinary : Bytes) (CreateTime : Nat)
    (InPrefab : ULPrefab) : ULPrefab :=
  let P1 : ULPrefab :=
    if s.bIsEditorOrRuntime then
      { InPrefab with
        BinaryData := ToBinary
        ThumbnailDirty := true
        CreateTime := CreateTime
        ReferenceAssetList := s.ReferenceAssetList
        ReferenceClassList := s.ReferenceClassList
        ReferenceNameList := s.ReferenceNameList
        ReferenceTextList := []
        ReferenceStringList := []
        ArchiveVersion := W.FileVersionUE4
        ArchiveVersionUE5 := W.FileVersionUE5
        ArchiveLicenseeVer := W.LicenseeUEVersion
        ArEngineNetVer := W.EngineNetworkProtocolVersion
        ArGameNetVer := W.GameNetworkProtocolVersion
        PackageDirty := true }
    else
      { InPrefab with
        BinaryDataForBuild := ToBinary
        ReferenceAssetListForBuild := s.ReferenceAssetList
        ReferenceClassListForBuild := s.ReferenceClassList
        ReferenceNameListForBuild := s.ReferenceNameList
        ArchiveVersion_ForBuild := W.FileVersionUE4
        ArchiveVersionUE5_ForBuild := W.FileVersionUE5
        ArchiveLicenseeVer_ForBuild := W.LicenseeUEVersion
        ArEngineNetVer_ForBuild := W.EngineNetworkProtocolVersion
        ArGameNetVer_ForBuild := W.GameNetworkProtocolVersion }
  { P1 with
    EngineMajorVersion := W.ENGINE_MAJOR_VERSION
    EngineMinorVersion := W.ENGINE_MINOR_VERSION
    PrefabVersion := W.LPREFAB_CURRENT_VERSION }

namespace LPrefabSystem7

/-- The state that `SerializeActorToData` threads through its three passes: the
serializer and the save data under construction. -/
abbrev SaveState := ActorSerializer × FLPrefabSaveData

/-- The block "collect actor" of `CollectActorRecursive` (generation 7): an actor outside
the sub-prefabs goes to both worklists, the root actor of a sub-prefab to
`TrySerializeActorArray` only, any other actor of a sub-prefab to neither. -/
def CollectActor (s : ActorSerializer) (Actor : UObject) : ActorSerializer :=
  if Actor ∉ s.SubPrefabActorArray then
    { s with WillSerializeActorArray := s.WillSerializeActorArray ++ [Actor],
             TrySerializeActorArray := s.TrySerializeActorArray ++ [Actor] }
  else if TMap.Contains s.SubPrefabMap Actor then
    { s with TrySerializeActorArray := s.TrySerializeActorArray ++ [Actor] }
  else s

/-- The recursive collection `ActorSerializer::CollectActorRecursive` (generation 7). The
fuel bounds the depth of the recursion; the blueprint hint only logs and is left out. -/
def CollectActorRecursive (W : World) : Nat → UObject → ActorSerializer → ActorSerializer
  | 0, _, s => s
  | fuel + 1, Actor, s =>
    if !W.IsValid Actor then s
    else if W.IsTransient Actor then s
    else if !s.bIsEditorOrRuntime && W.bIsEditorOnlyActor Actor then s
    else
      (SortChildrenActors W (W.GetAttachedActors Actor)).foldl
        (fun st ChildActor => CollectActorRecursive W fuel ChildActor st)
        (AddNewGuidIfAbsent W (CollectActor s Actor) Actor)

/-- The body of the loop of `SerializeActorArray` for one actor of `TrySerializeActorArray`. -/
def SerializeActorArray_body (W : World) (st : SaveState) (Actor : UObject) : SaveState :=
  let s := st.1
  let d := st.2
  match TMap.Find s.SubPrefabMap Actor with
  | some SubPrefabData =>
    let r1 := FindOrAddAssetIdFromList s SubPrefabData.PrefabAsset
    let ActorGuid := TMap.FindChecked r1.2.MapObjectToGuid Actor
    let r2 := SerializeOverrideParameters W SubPrefabData.ObjectOverrideParameterArray r1.2
    let MapSceneComponentToParent :=
      match W.GetRootComponent Actor with
      | none => d.MapSceneComponentToParent
      | some RootComp =>
        match W.GetAttachParent RootComp with
        | none => d.MapSceneComponentToParent
        | some ParentComp =>
          if TMap.Contains r2.1.MapObjectToGuid ParentComp then
            TMap.Add d.MapSceneComponentToParent (TMap.FindChecked r2.1.MapObjectToGuid RootComp)
              (TMap.FindChecked r2.1.MapObjectToGuid ParentComp)
          else d.MapSceneComponentToParent
    let ActorSaveData : FLGUIActorSaveData :=
      { (default : FLGUIActorSaveData) with
        bIsPrefab := true
        PrefabAssetIndex := r1.1
        ActorGuid := ActorGuid
        MapObjectGuidFromParentPrefabToSubPrefab :=
          SubPrefabData.MapObjectGuidFromParentPrefabToSubPrefab
        MapObjectGuidToSubPrefabOverrideParameter := r2.2 }
    (r2.1, { d with SavedActors := d.SavedActors ++ [ActorSaveData],
                    MapSceneComponentToParent := MapSceneComponentToParent })
  | none =>
    let ActorGuid := TMap.FindChecked s.MapObjectToGuid Actor
    let r1 := FindOrAddClassFromList s (W.GetClass Actor)
    let r2 := WriterOrReaderFunction W r1.2 Actor false
    let SavedObjectData := TMap.Add d.SavedObjectData ActorGuid r2.1
    let RootComponentGuid :=
      match W.GetRootComponent Actor with
      | none => (default : FLGUIActorSaveData).RootComponentGuid
      | some RootComp => TMap.FindChecked r2.2.MapObjectToGuid RootComp
    let r3 := SerializeDefaultSubObjects W (W.CollectDefaultSubobjects Actor) r2.2
    let ActorSaveData : FLGUIActorSaveData :=
      { (default : FLGUIActorSaveData) with
        ObjectClass := r1.1
        ActorGuid := ActorGuid
        ObjectFlags := W.GetFlags Actor
        RootComponentGuid := RootComponentGuid
        DefaultSubObjectGuidArray := r3.2.1
        DefaultSubObjectNameArray := r3.2.2 }
    (r3.1, { d with SavedActors := d.SavedActors ++ [ActorSaveData],
                    SavedObjectData := SavedObjectData })

/-- The actor pass `ActorSerializer::SerializeActorArray`: the worklist is walked "from tail to head". -/
def SerializeActorArray (W : World) (st : SaveState) : SaveState :=
  st.1.TrySerializeActorArray.reverse.foldl (SerializeActorArray_body W) st

/-- The body of the loop of `SerializeObjectArray` for one object of `WillSerializeObjectArray`. -/
def SerializeObjectArray_body (W : World) (st : SaveState) (Object : UObject) : SaveState :=
  let s := st.1
  let d := st.2
  let r1 := FindOrAddClassFromList s (W.GetClass Object)
  let s1 := r1.2
  let OuterObjectGuid := TMap.FindChecked s1.MapObjectToGuid (W.GetOuter Object)
  let SceneComp := W.IsSceneComponent Object
  let MapSceneComponentToParent :=
    if SceneComp then
      match W.GetAttachParent Object with
      | none => d.MapSceneComponentToParent
      | some ParentComp =>
        if TMap.Contains s1.MapObjectToGuid ParentComp then
          TMap.Add d.MapSceneComponentToParent (TMap.FindChecked s1.MapObjectToGuid Object)
            (TMap.FindChecked s1.MapObjectToGuid ParentComp)
        else d.MapSceneComponentToParent
    else d.MapSceneComponentToParent
  let r2 := WriterOrReaderFunction W s1 Object SceneComp
  let SavedObjectData := TMap.Add d.SavedObjectData (TMap.FindChecked s1.MapObjectToGuid Object) r2.1
  let r3 := SerializeDefaultSubObjects W (W.CollectDefaultSubobjects Object) r2.2
  let ObjectSaveDataItem : FLGUIObjectSaveData :=
    { ObjectClass := r1.1
      ObjectName := W.GetFName Object
      ObjectFlags := W.GetFlags Object
      OuterObjectGuid := OuterObjectGuid
      DefaultSubObjectGuidArray := r3.2.1
      DefaultSubObjectNameArray := r3.2.2 }
  (r3.1, { d with SavedObjects :=
                    TMap.Add d.SavedObjects (TMap.FindChecked r3.1.MapObjectToGuid Object)
                      ObjectSaveDataItem,
                  SavedObjectData := SavedObjectData,
                  MapSceneComponentToParent := MapSceneComponentToParent })

/-- The object pass `ActorSerializer::SerializeObjectArray`: the loop
`for (int i = 0; i < WillSerializeObjectArray.Num(); i++)` from index `i` on; the
worklist may grow while it is walked, the fuel bounds the number of iterations. -/
def SerializeObjectArray (W : World) : Nat → Nat → SaveState → SaveState
  | 0, _, st => st
  | fuel + 1, i, st =>
    match st.1.WillSerializeObjectArray[i]? with
    | none => st
    | some Object => SerializeObjectArray W fuel (i + 1) (SerializeObjectArray_body W st Object)

/-- The three passes of `ActorSerializer::SerializeActorToData`. -/
def SerializeActorToData (W : World) (fuel : Nat) (s : ActorSerializer) (OriginRootActor : UObject) :
    SaveState :=
  let s1 := CollectActorRecursive W fuel OriginRootActor s
  let st2 := SerializeActorArray W (s1, default)
  SerializeObjectArray W fuel 0 st2

/-- The method `ActorSerializer::SerializeActor`: the records are archived and, unless the
archive is empty, stored in the prefab asset. -/
def SerializeActor (W : World) (fuel : Nat) (s : ActorSerializer) (OriginRootActor : UObject)
    (InPrefab : ULPrefab) : ActorSerializer × ULPrefab :=
  let st := SerializeActorToData W fuel s OriginRootActor
  let ToBinary := W.ToBinary7 st.1.bIsEditorOrRuntime st.2
  if ToBinary.length ≤ 0 then (st.1, InPrefab)
  else (st.1, WritePrefabAsset W st.1 ToBinary W.UtcNow InPrefab)

/-- The actors among the objects of the registered sub-prefabs, as `SavePrefab` gathers
them into `SubPrefabActorArray` (`Cast<AActor>` fails on a null pointer). -/
def CollectSubPrefabActors (W : World) (InSubPrefabMap : TMap UObject FLSubPrefabData) :
    List UObject :=
  InSubPrefabMap.foldl
    (fun acc SubPrefabKeyValue =>
      SubPrefabKeyValue.2.MapGuidToObject.foldl
        (fun acc2 GuidToObjectKeyValue =>
          match GuidToObjectKeyValue.2 with
          | some Object => if W.IsActor Object then acc2 ++ [Object] else acc2
          | none => acc2)
        acc)
    []

/-- The serializer as `SavePrefab` sets it up before it calls `SerializeActor`. -/
def SavePrefab_serializer (W : World) (InOutMapObjectToGuid : TMap UObject FGuid)
    (InSubPrefabMap : TMap UObject FLSubPrefabData) (InForEditorOrRuntimeUse : Bool) :
    ActorSerializer :=
  { ActorSerializer.New with
    MapObjectToGuid := PreprocessMap W InOutMapObjectToGuid
    SubPrefabMap := InSubPrefabMap
    SubPrefabActorArray := CollectSubPrefabActors W InSubPrefabMap
    bIsEditorOrRuntime := InForEditorOrRuntimeUse }

/-- The entry point `ActorSerializer::SavePrefab` (generation 7). The result is the prefab asset and
the caller's identity map after the call; `none` is a null pointer. -/
def SavePrefab (W : World) (fuel : Nat) (OriginRootActor : Option UObject)
    (InPrefab : Option ULPrefab) (InOutMapObjectToGuid : TMap UObject FGuid)
    (InSubPrefabMap : TMap UObject FLSubPrefabData) (InForEditorOrRuntimeUse : Bool) :
    Option ULPrefab × TMap UObject FGuid :=
  match OriginRootActor, InPrefab with
  | none, _ => (InPrefab, InOutMapObjectToGuid)
  | _, none => (InPrefab, InOutMapObjectToGuid)
  | some Root, some Prefab =>
    if !W.IsValid Root then (InPrefab, InOutMapObjectToGuid)
    else if !W.HasWorld Root then (InPrefab, InOutMapObjectToGuid)
    else if W.IsTransient Root then (InPrefab, InOutMapObjectToGuid)
    else if !InForEditorOrRuntimeUse && W.IsEditorOnly Root then (InPrefab, InOutMapObjectToGuid)
    else
      let serializer :=
        SavePrefab_serializer W InOutMapObjectToGuid InSubPrefabMap InForEditorOrRuntimeUse
      let r := SerializeActor W fuel serializer Root Prefab
      (some r.2, r.1.MapObjectToGuid)

end LPrefabSystem7

namespace LPrefabSystem6

/-- The state that `SerializeActorRecursive` threads: the serializer and `SavedObjectData`. -/
abbrev RecState := ActorSerializer × TMap FGuid Bytes

/-- The state of the object pass: the serializer and the save data under construction. -/
abbrev SaveState := ActorSerializer × FLPrefabSaveData

/-- The recursive collection `ActorSerializer::CollectActorRecursive` (generation 6): the
children are visited in attachment order. -/
def CollectActorRecursive (W : World) : Nat → UObject → ActorSerializer → ActorSerializer
  | 0, _, s => s
  | fuel + 1, Actor, s =>
    if !W.IsValid Actor then s
    else if W.IsTransient Actor then s
    else if !s.bIsEditorOrRuntime && W.bIsEditorOnlyActor Actor then s
    else
      let s1 :=
        if !TMap.Contains s.SubPrefabMap Actor then
          { s with WillSerializeActorArray := s.WillSerializeActorArray ++ [Actor] }
        else s
      let s2 := AddNewGuidIfAbsent W s1 Actor
      (W.GetAttachedActors Actor).foldl
        (fun st ChildActor => CollectActorRecursive W fuel ChildActor st) s2

/-- The recursive pass `ActorSerializer::SerializeActorRecursive` (generation 6): the record of the
actor, which stays default-constructed when the function returns early, and the new
state. The fuel bounds the depth of the recursion. -/
def SerializeActorRecursive (W : World) :
    Nat → UObject → RecState → FLGUIActorSaveData × RecState
  | 0, _, st => (FLGUIActorSaveData.New, st)
  | fuel + 1, Actor, st =>
    if !W.IsValid Actor then (FLGUIActorSaveData.New, st)
    else
      match TMap.Find st.1.SubPrefabMap Actor with
      | some SubPrefabData =>
        let r1 := FindOrAddAssetIdFromList st.1 SubPrefabData.PrefabAsset
        let ActorGuid := TMap.FindChecked r1.2.MapObjectToGuid Actor
        let r2 := SerializeOverrideParameters W SubPrefabData.ObjectOverrideParameterArray r1.2
        (.mk true r1.1 ActorGuid SubPrefabData.MapObjectGuidFromParentPrefabToSubPrefab r2.2
            0 0 0 [] [] [], (r2.1, st.2))
      | none =>
        if Actor ∉ st.1.WillSerializeActorArray then (FLGUIActorSaveData.New, st)
        else
          let ActorGuid := TMap.FindChecked st.1.MapObjectToGuid Actor
          let r1 := FindOrAddClassFromList st.1 (W.GetClass Actor)
          let r2 := WriterOrReaderFunction W r1.2 Actor false
          let SavedObjectData := TMap.Add st.2 ActorGuid r2.1
          let RootComponentGuid :=
            match W.GetRootComponent Actor with
            | none => 0
            | some RootComp => TMap.FindChecked r2.2.MapObjectToGuid RootComp
          let r3 := SerializeDefaultSubObjects W (W.CollectDefaultSubobjects Actor) r2.2
          let r4 := (SortChildrenActors W (W.GetAttachedActors Actor)).foldl
            (fun acc ChildActor =>
              let rc := SerializeActorRecursive W fuel ChildActor acc.2
              (acc.1 ++ [rc.1], rc.2))
            (([] : List FLGUIActorSaveData), ((r3.1, SavedObjectData) : RecState))
          (.mk false 0 ActorGuid [] [] r1.1 (W.GetFlags Actor) RootComponentGuid r3.2.1 r3.2.2
              r4.1, r4.2)

/-- The body of the loop of `SerializeObjectArray` (generation 6): the scene parent is
recorded when the owner of the parent component is in `WillSerializeActorArray`
(a null owner is not). -/
def SerializeObjectArray_body (W : World) (st : SaveState) (Object : UObject) : SaveState :=
  let s := st.1
  let d := st.2
  let r1 := FindOrAddClassFromList s (W.GetClass Object)
  let s1 := r1.2
  let OuterObjectGuid := TMap.FindChecked s1.MapObjectToGuid (W.GetOuter Object)
  let SceneComp := W.IsSceneComponent Object
  let MapSceneComponentToParent :=
    if SceneComp then
      match W.GetAttachParent Object with
      | none => d.MapSceneComponentToParent
      | some ParentComp =>
        match W.GetOwner ParentComp with
        | none => d.MapSceneComponentToParent
        | some Owner =>
          if Owner ∈ s1.WillSerializeActorArray then
            TMap.Add d.MapSceneComponentToParent (TMap.FindChecked s1.MapObjectToGuid Object)
              (TMap.FindChecked s1.MapObjectToGuid ParentComp)
          else d.MapSceneComponentToParent
    else d.MapSceneComponentToParent
  let r2 := WriterOrReaderFunction W s1 Object SceneComp
  let SavedObjectData := TMap.Add d.SavedObjectData (TMap.FindChecked s1.MapObjectToGuid Object) r2.1
  let r3 := SerializeDefaultSubObjects W (W.CollectDefaultSubobjects Object) r2.2
  let ObjectSaveDataItem : FLGUIObjectSaveData :=
    { ObjectClass := r1.1
      ObjectName := W.GetFName Object
      ObjectFlags := W.GetFlags Object
      OuterObjectGuid := OuterObjectGuid
      DefaultSubObjectGuidArray := r3.2.1
      DefaultSubObjectNameArray := r3.2.2 }
  (r3.1, { d with SavedObjects :=
                    TMap.Add d.SavedObjects (TMap.FindChecked r3.1.MapObjectToGuid Object)
                      ObjectSaveDataItem,
                  SavedObjectData := SavedObjectData,
                  MapSceneComponentToParent := MapSceneComponentToParent })

/-- The object pass `ActorSerializer::SerializeObjectArray` (generation 6), from index `i` on. -/
def SerializeObjectArray (W : World) : Nat → Nat → SaveState → SaveState
  | 0, _, st => st
  | fuel + 1, i, st =>
    match st.1.WillSerializeObjectArray[i]? with
    | none => st
    | some Object => SerializeObjectArray W fuel (i + 1) (SerializeObjectArray_body W st Object)

/-- The three passes of `ActorSerializer::SerializeActorToData` (generation 6). -/
def SerializeActorToData (W : World) (fuel : Nat) (s : ActorSerializer) (OriginRootActor : UObject) :
    SaveState :=
  let s1 := CollectActorRecursive W fuel OriginRootActor s
  let r := SerializeActorRecursive W fuel OriginRootActor (s1, [])
  SerializeObjectArray W fuel 0
    (r.2.1, { SavedActor := r.1, SavedObjects := [], SavedObjectData := r.2.2,
              MapSceneComponentToParent := [] })

/-- The method `ActorSerializer::SerializeActor` (generation 6). -/
def SerializeActor (W : World) (fuel : Nat) (s : ActorSerializer) (OriginRootActor : UObject)
    (InPrefab : ULPrefab) : ActorSerializer × ULPrefab :=
  let st := SerializeActorToData W fuel s OriginRootActor
  let ToBinary := W.ToBinary6 st.1.bIsEditorOrRuntime st.2
  if ToBinary.length ≤ 0 then (st.1, InPrefab)
  else (st.1, WritePrefabAsset W st.1 ToBinary W.UtcNow InPrefab)

/-- The serializer as `SavePrefab` (generation 6) sets it up. -/
def SavePrefab_serializer (W : World) (InOutMapObjectToGuid : TMap UObject FGuid)
    (InSubPrefabMap : TMap UObject FLSubPrefabData) (InForEditorOrRuntimeUse : Bool) :
    ActorSerializer :=
  { ActorSerializer.New with
    MapObjectToGuid := PreprocessMap W InOutMapObjectToGuid
    SubPrefabMap := InSubPrefabMap
    bIsEditorOrRuntime := InForEditorOrRuntimeUse }

/-- The entry point `ActorSerializer::SavePrefab` (generation 6). -/
def SavePrefab (W : World) (fuel : Nat) (OriginRootActor : Option UObject)
    (InPrefab : Option ULPrefab) (InOutMapObjectToGuid : TMap UObject FGuid)
    (InSubPrefabMap : TMap UObject FLSubPrefabData) (InForEditorOrRuntimeUse : Bool) :
    Option ULPrefab × TMap UObject FGuid :=
  match OriginRootActor, InPrefab with
  | none, _ => (InPrefab, InOutMapObjectToGuid)
  | _, none => (InPrefab, InOutMapObjectToGuid)
  | some Root, some Prefab =>
    if !W.IsValid Root then (InPrefab, InOutMapObjectToGuid)
    else if !W.HasWorld Root then (InPrefab, InOutMapObjectToGuid)
    else if W.IsTransient Root then (InPrefab, InOutMapObjectToGuid)
    else if !InForEditorOrRuntimeUse && W.IsEditorOnly Root then (InPrefab, InOutMapObjectToGuid)
    else
      let serializer :=
        SavePrefab_serializer W InOutMapObjectToGuid InSubPrefabMap InForEditorOrRuntimeUse
      let r := SerializeActor W fuel serializer Root Prefab
      (some r.2, r.1.MapObjectToGuid)

end LPrefabSystem6

namespace LPrefabSystem3

/-- The state of the object pass: the serializer and the two record arrays. -/
abbrev ObjState := ActorSerializer × List FLGUIObjectSaveData × List FLGUIComponentSaveData

/-- The recursive collection `ActorSerializer::CollectActorRecursive` (generation 3): no actor is
skipped; the children are visited in attachment order. -/
def CollectActorRecursive (W : World) : Nat → UObject → ActorSerializer → ActorSerializer
  | 0, _, s => s
  | fuel + 1, Actor, s =>
    let s1 :=
      if !TMap.Contains s.SubPrefabMap Actor then
        { s with WillSerializeActorArray := s.WillSerializeActorArray ++ [Actor] }
      else s
    let s2 := AddNewGuidIfAbsent W s1 Actor
    (W.GetAttachedActors Actor).foldl
      (fun st ChildActor => CollectActorRecursive W fuel ChildActor st) s2

/-- The loop "serialize override parameter data" of generation 3: a record for every
item. For a null object pointer the engine fails in the writer; the zero GUID and an
empty buffer stand for that failure. -/
def SerializeOverrideParameters (W : World)
    (ObjectOverrideParameterArray : List FLPrefabOverrideParameterData) (s : ActorSerializer) :
    ActorSerializer × List FLPrefabOverrideParameterRecordData :=
  ObjectOverrideParameterArray.foldl
    (fun acc DataItem =>
      match DataItem.Object with
      | none =>
        (acc.1, acc.2 ++ [{ ObjectGuid := 0, OverrideParameterData := [],
                            OverrideParameterNames := DataItem.MemberPropertyNames }])
      | some SubPrefabObject =>
        let r := WriterOrReaderFunctionForSubPrefabOverride W acc.1 SubPrefabObject
          DataItem.MemberPropertyNames
        (r.2, acc.2 ++ [{ ObjectGuid := TMap.FindChecked r.2.MapObjectToGuid SubPrefabObject,
                          OverrideParameterData := r.1,
                          OverrideParameterNames := DataItem.MemberPropertyNames }]))
    (s, [])

/-- The recursive pass `ActorSerializer::SerializeActorRecursive` (generation 3). The fuel bounds the
depth of the recursion. -/
def SerializeActorRecursive (W : World) :
    Nat → UObject → ActorSerializer → FLGUIActorSaveData × ActorSerializer
  | 0, _, s => (FLGUIActorSaveData.New, s)
  | fuel + 1, Actor, s =>
    match TMap.Find s.SubPrefabMap Actor with
    | some SubPrefabData =>
      let r1 := FindOrAddAssetIdFromList s SubPrefabData.PrefabAsset
      let ActorGuid := TMap.FindChecked r1.2.MapObjectToGuid Actor
      let r2 := SerializeOverrideParameters W SubPrefabData.ObjectOverrideParameterArray r1.2
      (.mk true r1.1 ActorGuid SubPrefabData.MapObjectGuidFromParentPrefabToSubPrefab r2.2
          0 0 [] 0 [] [] [], r2.1)
    | none =>
      let ActorGuid := TMap.FindChecked s.MapObjectToGuid Actor
      let r1 := FindOrAddClassFromList s (W.GetClass Actor)
      let r2 := WriterOrReaderFunction W r1.2 Actor false
      let RootComponentGuid :=
        match W.GetRootComponent Actor with
        | none => 0
        | some RootComp => TMap.FindChecked r2.2.MapObjectToGuid RootComp
      let DefaultSubObjects := W.CollectDefaultSubobjectsNested Actor
      let r4 := (SortChildrenActors W (W.GetAttachedActors Actor)).foldl
        (fun acc ChildActor =>
          let rc := SerializeActorRecursive W fuel ChildActor acc.2
          (acc.1 ++ [rc.1], rc.2))
        (([] : List FLGUIActorSaveData), r2.2)
      (.mk false 0 ActorGuid [] [] r1.1 (W.GetFlags Actor) r2.1 RootComponentGuid
          (DefaultSubObjects.map (TMap.FindChecked r2.2.MapObjectToGuid))
          (DefaultSubObjects.map W.GetFName) r4.1, r4.2)

/-- The body of the loop of `SerializeObjectArray` (generation 3). -/
def SerializeObjectArray_body (W : World) (st : ObjState) (Object : UObject) : ObjState :=
  let s := st.1
  let Class := W.GetClass Object
  if W.IsChildOf Class W.UActorComponent_StaticClass then
    let r1 := FindOrAddClassFromList s Class
    let s1 := r1.2
    let ComponentGuid := TMap.FindChecked s1.MapObjectToGuid Object
    let OuterObjectGuid := TMap.FindChecked s1.MapObjectToGuid (W.GetOuter Object)
    let SceneComponentParentGuid :=
      if W.IsSceneComponent Object then
        match W.GetAttachParent Object with
        | none => 0
        | some ParentComp =>
          match W.GetOwner ParentComp with
          | none => 0
          | some Owner =>
            if Owner ∈ s1.WillSerializeActorArray then
              TMap.FindChecked s1.MapObjectToGuid ParentComp
            else 0
      else 0
    let r2 := WriterOrReaderFunction W s1 Object (W.IsSceneComponent Object)
    (r2.2, st.2.1,
      st.2.2 ++ [{ ComponentClass := r1.1, ComponentName := W.GetFName Object,
                   ComponentGuid := ComponentGuid, ObjectFlags := W.GetFlags Object,
                   OuterObjectGuid := OuterObjectGuid,
                   SceneComponentParentGuid := SceneComponentParentGuid,
                   PropertyData := r2.1 }])
  else
    let r1 := FindOrAddClassFromList s Class
    let s1 := r1.2
    let ObjectGuid := TMap.FindChecked s1.MapObjectToGuid Object
    let OuterObjectGuid := TMap.FindChecked s1.MapObjectToGuid (W.GetOuter Object)
    let r2 := WriterOrReaderFunction W s1 Object false
    (r2.2,
      st.2.1 ++ [{ ObjectClass := r1.1, ObjectGuid := ObjectGuid, ObjectFlags := W.GetFlags Object,
                   OuterObjectGuid := OuterObjectGuid, PropertyData := r2.1 }],
      st.2.2)

/-- The object pass `ActorSerializer::SerializeObjectArray` (generation 3), from index `i` on. -/
def SerializeObjectArray (W : World) : Nat → Nat → ObjState → ObjState
  | 0, _, st => st
  | fuel + 1, i, st =>
    match st.1.WillSerializeObjectArray[i]? with
    | none => st
    | some Object => SerializeObjectArray W fuel (i + 1) (SerializeObjectArray_body W st Object)

/-- The three passes of `ActorSerializer::SerializeActorToData` (generation 3). -/
def SerializeActorToData (W : World) (fuel : Nat) (s : ActorSerializer) (OriginRootActor : UObject) :
    ActorSerializer × FLPrefabSaveData :=
  let s1 := CollectActorRecursive W fuel OriginRootActor s
  let r := SerializeActorRecursive W fuel OriginRootActor s1
  let o := SerializeObjectArray W fuel 0 (r.2, [], [])
  (o.1, { SavedActor := r.1, SavedObjects := o.2.1, SavedComponents := o.2.2 })

/-- The method `ActorSerializer::SerializeActor` (generation 3). -/
def SerializeActor (W : World) (fuel : Nat) (s : ActorSerializer) (OriginRootActor : UObject)
    (InPrefab : ULPrefab) : ActorSerializer × ULPrefab :=
  let st := SerializeActorToData W fuel s OriginRootActor
  let ToBinary := W.ToBinary3 st.2
  if ToBinary.length ≤ 0 then (st.1, InPrefab)
  else (st.1, WritePrefabAsset W st.1 ToBinary W.Now InPrefab)

/-- The serializer as `SavePrefab` (generation 3) sets it up. -/
def SavePrefab_serializer (W : World) (InOutMapObjectToGuid : TMap UObject FGuid)
    (InSubPrefabMap : TMap UObject FLSubPrefabData) (InForEditorOrRuntimeUse : Bool) :
    ActorSerializer :=
  { ActorSerializer.New with
    MapObjectToGuid := PreprocessMap W InOutMapObjectToGuid
    SubPrefabMap := InSubPrefabMap
    bIsEditorOrRuntime := InForEditorOrRuntimeUse }

/-- The entry point `ActorSerializer::SavePrefab` (generation 3): the root is only tested for null
and for its world. -/
def SavePrefab (W : World) (fuel : Nat) (OriginRootActor : Option UObject)
    (InPrefab : Option ULPrefab) (InOutMapObjectToGuid : TMap UObject FGuid)
    (InSubPrefabMap : TMap UObject FLSubPrefabData) (InForEditorOrRuntimeUse : Bool) :
    Option ULPrefab × TMap UObject FGuid :=
  match OriginRootActor, InPrefab with
  | none, _ => (InPrefab, InOutMapObjectToGuid)
  | _, none => (InPrefab, InOutMapObjectToGuid)
  | some Root, some Prefab =>
    if !W.HasWorld Root then (InPrefab, InOutMapObjectToGuid)
    else
      let serializer :=
        SavePrefab_serializer W InOutMapObjectToGuid InSubPrefabMap InForEditorOrRuntimeUse
      let r := SerializeActor W fuel serializer Root Prefab
      (some r.2, r.1.MapObjectToGuid)

end LPrefabSystem3

/-! ## Specification predicates -/

/-- The identity map `m'` extends `m`: every entry of `m` is kept with its GUID, and
every further entry holds a GUID drawn from `FGuid::NewGuid()`. -/
def MapGrows (W : World) (m m' : TMap UObject FGuid) : Prop :=
  (∀ k g, TMap.Find m k = some g → TMap.Find m' k = some g) ∧
  (∀ k g, TMap.Find m' k = some g →
    TMap.Find m k = some g ∨ (TMap.Find m k = none ∧ ∃ n, g = W.NewGuid n))

/-- The serializer `s'` differs from `s` only by what the passes after the collection
may change: the mode, the sub-prefab tables and the actor worklists are the same, the
identity map has grown, and the asset table, the class table and the object worklist
have only been appended to. -/
def Grows (W : World) (s s' : ActorSerializer) : Prop :=
  s'.bIsEditorOrRuntime = s.bIsEditorOrRuntime ∧ s'.SubPrefabMap = s.SubPrefabMap ∧
  s'.SubPrefabActorArray = s.SubPrefabActorArray ∧
  s'.WillSerializeActorArray = s.WillSerializeActorArray ∧
  s'.TrySerializeActorArray = s.TrySerializeActorArray ∧
  MapGrows W s.MapObjectToGuid s'.MapObjectToGuid ∧
  s.ReferenceAssetList <+: s'.ReferenceAssetList ∧
  s.ReferenceClassList <+: s'.ReferenceClassList ∧
  s.WillSerializeObjectArray <+: s'.WillSerializeObjectArray

/-- The calls that `SavePrefab` is said to reject: the root or the prefab is null, or the
root is not valid, has no world, is transient, or is editor-only in build mode. -/
def RootRejected (W : World) (OriginRootActor : Option UObject) (InPrefab : Option ULPrefab)
    (InForEditorOrRuntimeUse : Bool) : Prop :=
  OriginRootActor = none ∨ InPrefab = none ∨
    ∃ Root, OriginRootActor = some Root ∧
      (W.IsValid Root = false ∨ W.HasWorld Root = false ∨ W.IsTransient Root = true ∨
        (InForEditorOrRuntimeUse = false ∧ W.IsEditorOnly Root = true))

/-- The actors that `CollectActorRecursive` (generations 6 and 7) does not skip: valid,
not transient and, in build mode, not editor-only. -/
def Collectable (W : World) (bIsEditorOrRuntime : Bool) (Actor : UObject) : Prop :=
  W.IsValid Actor = true ∧ W.IsTransient Actor = false ∧
    (bIsEditorOrRuntime = true ∨ W.bIsEditorOnlyActor Actor = false)

/-- The actor is reached from the root by going down the attachment hierarchy through
actors none of which is skipped, the root and the actor themselves included. -/
inductive CollectChain (W : World) (bIsEditorOrRuntime : Bool) (Root : UObject) : UObject → Prop
  | root : Collectable W bIsEditorOrRuntime Root → CollectChain W bIsEditorOrRuntime Root Root
  | step {Parent Child : UObject} :
      CollectChain W bIsEditorOrRuntime Root Parent →
      Child ∈ W.GetAttachedActors Parent →
      Collectable W bIsEditorOrRuntime Child →
      CollectChain W bIsEditorOrRuntime Root Child

/-- A bound sort hook only reorders: it returns no actor that it was not given. -/
def HookOnlyReorders (W : World) : Prop :=
  ∀ hook, W.Serialize_SortChildrenActors = some hook → ∀ l c, c ∈ hook l → c ∈ l

/-- The actor is the given one or is attached beneath it, directly or through other
actors. -/
inductive AttachedBeneath (W : World) (Top : UObject) : UObject → Prop
  | self : AttachedBeneath W Top Top
  | step {Parent Child : UObject} :
      AttachedBeneath W Top Parent → Child ∈ W.GetAttachedActors Parent →
      AttachedBeneath W Top Child

/-- The attachment hierarchy is tree-shaped: an attached actor has the actor it is
attached to as its one attach parent, no actor is listed twice among the attached
actors, and the hierarchy has no cycle (`rank` decreases from parent to child). -/
structure TreeShaped (W : World) (rank : UObject → Nat) : Prop where
  parent : ∀ p c, c ∈ W.GetAttachedActors p → W.GetAttachParentActor c = some p
  acyclic : ∀ p c, c ∈ W.GetAttachedActors p → rank c < rank p
  nodup : ∀ p, (W.GetAttachedActors p).Nodup

/-- Two actors attached to the same parent stand in ascending order of their labels. -/
def SiblingsAscending (W : World) (x y : UObject) : Prop :=
  ∀ p, x ∈ W.GetAttachedActors p → y ∈ W.GetAttachedActors p →
    W.GetActorLabel x ≤ W.GetActorLabel y

/-- Two actors attached to the same parent stand in descending order of their labels. -/
def SiblingsDescending (W : World) (x y : UObject) : Prop :=
  ∀ p, x ∈ W.GetAttachedActors p → y ∈ W.GetAttachedActors p →
    W.GetActorLabel y ≤ W.GetActorLabel x

/-- The GUID that `SerializeActorRecursive` of generation 6 leaves in the record of an
actor: the GUID of the actor in the identity map, or the zero GUID of a
default-constructed record when the function returns early (the actor is not valid, or
is neither the root actor of a sub-prefab nor in `WillSerializeActorArray`). -/
def RecordGuid6 (W : World) (s : ActorSerializer) (Actor : UObject) : FGuid :=
  if W.IsValid Actor ∧
      (TMap.Contains s.SubPrefabMap Actor = true ∨ Actor ∈ s.WillSerializeActorArray) then
    TMap.FindChecked s.MapObjectToGuid Actor
  else 0

/-- The same level with the actors attached to `Parent` listed in another order. -/
def WithAttachedActors (W : World) (Parent : UObject) (Attached : List UObject) : World :=
  { W with GetAttachedActors := fun o => if o = Parent then Attached else W.GetAttachedActors o }

/-! ## Example levels -/

/-- A level without any object. `FGuid::NewGuid()` hands out 1000, 1001, ...; every
archive is the one byte 1. -/
def EmptyLevel : World :=
  { IsValid := fun _ => false
    HasWorld := fun _ => false
    IsTransient := fun _ => false
    IsEditorOnly := fun _ => false
    bIsEditorOnlyActor := fun _ => false
    IsActor := fun _ => false
    IsActorComponent := fun _ => false
    IsSceneComponent := fun _ => false
    GetClass := fun _ => 0
    GetFlags := fun _ => 0
    GetFName := fun _ => []
    GetOuter := fun _ => 0
    GetActorLabel := fun _ => []
    GetAttachedActors := fun _ => []
    GetAttachParentActor := fun _ => none
    IsAttachedTo := fun _ _ => false
    GetLevel := fun _ => 0
    OwningWorld := fun _ => 0
    IsValidClass := fun _ => true
    GetRootComponent := fun _ => none
    GetAttachParent := fun _ => none
    GetOwner := fun _ => none
    GetComponents := fun _ => []
    IsChildOf := fun a b => decide (a = b)
    CollectDefaultSubobjects := fun _ => []
    CollectDefaultSubobjectsNested := fun _ => []
    AActor_StaticClass := 1
    UActorComponent_StaticClass := 2
    Serialize_SortChildrenActors := none
    NewGuid := fun n => 1000 + n
    PropertyObjects := fun _ _ => []
    PropertyBytes := fun _ _ _ => []
    OverridePropertyObjects := fun _ _ => []
    OverridePropertyBytes := fun _ _ _ => []
    ToBinary7 := fun _ _ => [1]
    ToBinary6 := fun _ _ => [1]
    ToBinary3 := fun _ => [1]
    Now := 0
    UtcNow := 0
    FileVersionUE4 := 0
    FileVersionUE5 := 0
    LicenseeUEVersion := 0
    EngineNetworkProtocolVersion := 0
    GameNetworkProtocolVersion := 0
    ENGINE_MAJOR_VERSION := 5
    ENGINE_MINOR_VERSION := 0
    LPREFAB_CURRENT_VERSION := 7 }

/-- The example scenario of the spec: the actor 1, labelled "Root", with the actors 2,
labelled "B", and 3, labelled "A", attached to it in that order. The object 9 has been
destroyed. -/
def RootWithBA : World :=
  { EmptyLevel with
    IsValid := fun o => decide (o = 1 ∨ o = 2 ∨ o = 3)
    HasWorld := fun o => decide (o = 1 ∨ o = 2 ∨ o = 3)
    IsActor := fun o => decide (o = 1 ∨ o = 2 ∨ o = 3 ∨ o = 9)
    GetActorLabel := fun o =>
      if o = 1 then "Root".data else if o = 2 then "B".data else if o = 3 then "A".data else []
    GetAttachedActors := fun o => if o = 1 then [2, 3] else []
    GetAttachParentActor := fun o => if o = 2 ∨ o = 3 then some 1 else none }

/-- A level for the collector: the actor 1 with the actors 2 and 3 attached; 2 is
transient and has the actor 4 attached; 3 is editor-only and has the actor 5 attached. -/
def LevelWithSkipped : World :=
  { EmptyLevel with
    IsValid := fun o => decide (1 ≤ o ∧ o ≤ 5)
    HasWorld := fun o => decide (1 ≤ o ∧ o ≤ 5)
    IsActor := fun o => decide (1 ≤ o ∧ o ≤ 5)
    IsTransient := fun o => decide (o = 2)
    bIsEditorOnlyActor := fun o => decide (o = 3)
    IsEditorOnly := fun o => decide (o = 3)
    GetActorLabel := fun o =>
      if o = 1 then "Root".data else if o = 2 then "T".data else if o = 3 then "E".data
      else if o = 4 then "UnderT".data else if o = 5 then "UnderE".data else []
    GetAttachedActors := fun o => if o = 1 then [2, 3] else if o = 2 then [4] else if o = 3 then [5] else []
    GetAttachParentActor := fun o =>
      if o = 2 ∨ o = 3 then some 1 else if o = 4 then some 2 else if o = 5 then some 3 else none }

/-- A level with a nested prefab: the actors 1, 2, 3, 4 are attached in a chain; the
actor 2 is the root actor of a sub-prefab, the actors 3 and 4 belong to that sub-prefab. -/
def LevelWithSubPrefab : World :=
  { EmptyLevel with
    IsValid := fun o => decide (1 ≤ o ∧ o ≤ 4)
    HasWorld := fun o => decide (1 ≤ o ∧ o ≤ 4)
    IsActor := fun o => decide (1 ≤ o ∧ o ≤ 4)
    GetClass := fun o => if o = 1 then 11 else 12
    GetActorLabel := fun o =>
      if o = 1 then "Root".data else if o = 2 then "Sub".data else if o = 3 then "Inner".data
      else if o = 4 then "Innermost".data else []
    GetAttachedActors := fun o => if o = 1 then [2] else if o = 2 then [3] else if o = 3 then [4] else []
    GetAttachParentActor := fun o =>
      if o = 2 then some 1 else if o = 3 then some 2 else if o = 4 then some 3 else none }

/-- The sub-prefab of `LevelWithSubPrefab`: an instance of the prefab asset 50, whose
objects are the actors 2, 3 and 4. -/
def SubPrefabDataOfLevel : FLSubPrefabData :=
  { PrefabAsset := 50
    MapObjectGuidFromParentPrefabToSubPrefab := [(200, 300), (201, 301), (202, 302)]
    MapGuidToObject := [(300, some 2), (301, some 3), (302, some 4)]
    ObjectOverrideParameterArray := [] }

/-- The sub-prefab table of `LevelWithSubPrefab`: the actor 2 is the root actor of the
sub-prefab. -/
def SubPrefabMapOfLevel : TMap UObject FLSubPrefabData := [(2, SubPrefabDataOfLevel)]

/-- A level with two children of the same label: the actor 1, labelled "Root", with the
actors 2 and 3, both labelled "X", attached in the given order. -/
def RootWithTwins (Attached : List UObject) : World :=
  { EmptyLevel with
    IsValid := fun o => decide (o = 1 ∨ o = 2 ∨ o = 3)
    HasWorld := fun o => decide (o = 1 ∨ o = 2 ∨ o = 3)
    IsActor := fun o => decide (o = 1 ∨ o = 2 ∨ o = 3)
    GetActorLabel := fun o => if o = 1 then "Root".data else if o = 2 ∨ o = 3 then "X".data else []
    GetAttachedActors := fun o => if o = 1 then Attached else []
    GetAttachParentActor := fun o => if o = 2 ∨ o = 3 then some 1 else none }

end LPrefab

namespace LPrefab

/-! ## The sequence object reference (editor build) -/

/-- The comparison `FName::operator==`: names compare ignoring case. -/
def FName_Equals (a b : FName) : Bool := FString_Equals a b

/-- The call `S.Split(TEXT("/"), &Left, &Right, ESearchCase::CaseSensitive)`, for a
separator of one character: the parts before and after the first occurrence of the
separator, `none` when the separator does not occur. -/
def FString_Split : FString → Char → Option (FString × FString)
  | [], _ => none
  | c :: s, sep =>
    if c = sep then some ([], s)
    else
      match FString_Split s sep with
      | some (Left, Right) => some (c :: Left, Right)
      | none => none

/-- The test `S.Contains(TEXT("/"))`, for a pattern of one character without case. -/
def FString_Contains (s : FString) (c : Char) : Bool := s.contains c

/-- The fields of `FLPrefabSequenceObjectReference`; a null pointer is `none`. -/
structure FLPrefabSequenceObjectReference where
  Object : Option UObject
  HelperActor : Option UObject
  HelperClass : Option UClass
  HelperComponentName : FName
  HelperActorLabel : FString
  HelperActorPath : FString
  deriving DecidableEq, Repr, Inhabited

namespace FLPrefabSequenceObjectReference

/-- The loop of `GetActorPathRelativeToContextActor` that climbs from `Parent` towards
the context actor, putting the label of every actor passed in front of `Result`. The
fuel bounds the number of passes; `none` when it runs out. -/
def GetActorPathRelativeToContextActor_while (W : World) (InContextActor : UObject) :
    Nat → FString → Option UObject → Option FString
  | _, Result, none => some Result
  | 0, Result, some Parent => if Parent = InContextActor then some Result else none
  | fuel + 1, Result, some Parent =>
    if Parent = InContextActor then some Result
    else
      GetActorPathRelativeToContextActor_while W InContextActor fuel
        (W.GetActorLabel Parent ++ "/".data ++ Result) (W.GetAttachParentActor Parent)

/-- The function `GetActorPathRelativeToContextActor`: "/" for the context actor itself,
the labels from below the context actor down to the actor, joined by "/", for an actor
attached to it, and the empty string otherwise. -/
def GetActorPathRelativeToContextActor (W : World) (fuel : Nat)
    (InContextActor InActor : UObject) : Option FString :=
  if InActor = InContextActor then some "/".data
  else if W.IsAttachedTo InActor InContextActor then
    GetActorPathRelativeToContextActor_while W InContextActor fuel (W.GetActorLabel InActor)
      (W.GetAttachParentActor InActor)
  else some []

/-- The loop `while (SourceString.Split(...))` of `GetActorFromContextActorByRelativePath`
with the statement after it: every left part is added to the array, and at the end the
right part of the last split. Each pass shortens the source string, so a fuel above its
length is never used up. -/
def GetActorFromContextActorByRelativePath_while :
    Nat → FString → FString → List FString → List FString
  | 0, _, Right, SplitedArray => SplitedArray ++ [Right]
  | fuel + 1, SourceString, Right, SplitedArray =>
    match FString_Split SourceString '/' with
    | some (Left, Right1) =>
      GetActorFromContextActorByRelativePath_while fuel Right1 Right1 (SplitedArray ++ [Left])
    | none => SplitedArray ++ [Right]

/-- The loop over the path items of `GetActorFromContextActorByRelativePath`: among the
actors attached to the current parent, the first whose label equals the item is taken;
the actor found for the last item is returned. -/
def GetActorFromContextActorByRelativePath_for (W : World) :
    List FString → UObject → Option UObject
  | [], _ => none
  | PathItem :: rest, ParentActor =>
    match (W.GetAttachedActors ParentActor).find?
        (fun ChildActor => FString_Equals PathItem (W.GetActorLabel ChildActor)) with
    | some FoundChildActor =>
      if rest.isEmpty then some FoundChildActor
      else GetActorFromContextActorByRelativePath_for W rest FoundChildActor
    | none => none

/-- The function `GetActorFromContextActorByRelativePath`; `none` is the null result. -/
def GetActorFromContextActorByRelativePath (W : World) (InContextActor : UObject)
    (InPath : FString) : Option UObject :=
  if FString_Equals InPath "/".data then some InContextActor
  else
    let SplitedArray :=
      if FString_Contains InPath '/' then
        GetActorFromContextActorByRelativePath_while (InPath.length + 1) InPath [] []
      else [InPath]
    GetActorFromContextActorByRelativePath_for W SplitedArray InContextActor

/-- The call `HelperActor->GetComponents(HelperClass, Components)`: the components of the
actor whose class is the given class or derives from it. -/
def GetComponentsOfClass (W : World) (Actor : UObject) (Class : UClass) : List UObject :=
  (W.GetComponents Actor).filter (fun c => W.IsChildOf (W.GetClass c) Class)

/-- The method `FixObjectReferenceFromEditorHelpers`: the returned flag and the reference
after the call. The result is `none` when the call dereferences the null `HelperClass`. -/
def FixObjectReferenceFromEditorHelpers (W : World) (InContextActor : UObject)
    (r : FLPrefabSequenceObjectReference) : Option (Bool × FLPrefabSequenceObjectReference) :=
  match GetActorFromContextActorByRelativePath W InContextActor r.HelperActorPath with
  | some FoundHelperActor =>
    let r1 := { r with HelperActor := some FoundHelperActor
                       HelperActorLabel := W.GetActorLabel FoundHelperActor }
    match r1.HelperClass with
    | none => none
    | some HelperClass =>
      if HelperClass = W.AActor_StaticClass then
        some (true, { r1 with Object := some FoundHelperActor })
      else if W.IsChildOf HelperClass W.UActorComponent_StaticClass then
        match GetComponentsOfClass W FoundHelperActor HelperClass with
        | [] => some (false, r1)
        | [Component] => some (true, { r1 with Object := some Component })
        | First :: Second :: rest =>
          let Components := First :: Second :: rest
          let r2 :=
            match Components.find?
                (fun CompItem => FName_Equals (W.GetFName CompItem) r1.HelperComponentName) with
            | some CompItem => { r1 with Object := some CompItem }
            | none => r1
          match r2.Object with
          | none => some (true, { r2 with Object := some First })
          | some _ => some (true, r2)
      else some (false, r1)
  | none => some (false, r)

/-- The method `InitHelpers` as compiled for the editor: the returned flag and the
reference after the call. The result is `none` when the call does not return: the
component has no owner, whose label is read, or the climb towards the context actor has
not ended within the fuel. -/
def InitHelpers (W : World) (fuel : Nat) (InContextActor : UObject)
    (r : FLPrefabSequenceObjectReference) : Option (Bool × FLPrefabSequenceObjectReference) :=
  match r.Object with
  | none => some (false, r)
  | some Object =>
    if W.IsActor Object then
      match GetActorPathRelativeToContextActor W fuel InContextActor Object with
      | some Path =>
        some (true, { r with HelperActor := some Object
                             HelperClass := some W.AActor_StaticClass
                             HelperComponentName := "Actor".data
                             HelperActorLabel := W.GetActorLabel Object
                             HelperActorPath := Path })
      | none => none
    else if W.IsActorComponent Object then
      match W.GetOwner Object with
      | none => none
      | some Actor =>
        match GetActorPathRelativeToContextActor W fuel InContextActor Actor with
        | some Path =>
          some (true, { r with HelperActor := some Actor
                               HelperClass := some (W.GetClass Object)
                               HelperComponentName := W.GetFName Object
                               HelperActorLabel := W.GetActorLabel Actor
                               HelperActorPath := Path })
        | none => none
    else some (false, r)

/-- The test `IsValid(Pointer)` for an object pointer that may be null. -/
def IsValidObject (W : World) : Option UObject → Bool
  | none => false
  | some o => W.IsValid o

/-- The test `IsValid(HelperClass)` for a class pointer that may be null. -/
def IsValidHelperClass (W : World) : Option UClass → Bool
  | none => false
  | some c => W.IsValidClass c

/-- The method `CheckTargetObject`: the returned flag and the reference after the call
(the field `Object` is mutable). -/
def CheckTargetObject (W : World) (r : FLPrefabSequenceObjectReference) :
    Bool × FLPrefabSequenceObjectReference :=
  if IsValidObject W r.Object then (true, r)
  else if IsValidObject W r.HelperActor && IsValidHelperClass W r.HelperClass then
    match r.HelperActor, r.HelperClass with
    | some HelperActor, some HelperClass =>
      if HelperClass = W.AActor_StaticClass then (true, { r with Object := some HelperActor })
      else
        match GetComponentsOfClass W HelperActor HelperClass with
        | [] => (false, r)
        | [Component] => (true, { r with Object := some Component })
        | First :: Second :: rest =>
          match (First :: Second :: rest).find?
              (fun Comp => FName_Equals (W.GetFName Comp) r.HelperComponentName) with
          | some Comp => (true, { r with Object := some Comp })
          | none => (false, r)
    | _, _ => (false, r)
  else (false, r)

/-- The method `Resolve`: the field `Object` after `CheckTargetObject`. -/
def Resolve (W : World) (r : FLPrefabSequenceObjectReference) : Option UObject :=
  (CheckTargetObject W r).2.Object

end FLPrefabSequenceObjectReference

/-! ## Predicates of the theorems about the reference -/

/-- The labels of a path joined by "/" in front of the last label. -/
def JoinLabels (Labels : List FString) (Last : FString) : FString :=
  Labels.foldr (fun l acc => l ++ '/' :: acc) Last

/-- The actors of the list lead from `Parent` downwards, and the path of their labels is
unambiguous: each actor is not the context actor, is attached to the actor before it, is
the first actor attached to that parent whose label equals its own label (ignoring
case), and has a label without the separator "/". -/
def UnambiguousPath (W : World) (InContextActor : UObject) : UObject → List UObject → Prop
  | _, [] => True
  | Parent, Actor :: rest =>
    Actor ≠ InContextActor ∧ W.GetAttachParentActor Actor = some Parent ∧
    (W.GetAttachedActors Parent).find?
        (fun c => FString_Equals (W.GetActorLabel Actor) (W.GetActorLabel c)) = some Actor ∧
    '/' ∉ W.GetActorLabel Actor ∧ UnambiguousPath W InContextActor Actor rest

/-- A level for the reference: the actor 1, labelled "Root", has the actors 2 and 3
attached, both labelled "X"; the actor 4, labelled "Leaf", is attached to 2 and owns the
components 40, named "Mesh", and 41, named "Light", both of the class 5, a component
class. -/
def LevelWithTwinLabels : World :=
  { EmptyLevel with
    IsValid := fun o => decide (o = 1 ∨ o = 2 ∨ o = 3 ∨ o = 4 ∨ o = 40 ∨ o = 41)
    HasWorld := fun o => decide (o = 1 ∨ o = 2 ∨ o = 3 ∨ o = 4 ∨ o = 40 ∨ o = 41)
    IsActor := fun o => decide (o = 1 ∨ o = 2 ∨ o = 3 ∨ o = 4)
    IsActorComponent := fun o => decide (o = 40 ∨ o = 41)
    GetClass := fun o => if o = 40 ∨ o = 41 then 5 else 1
    IsChildOf := fun a b => decide (a = b ∨ (a = 5 ∧ b = 2))
    GetFName := fun o => if o = 40 then "Mesh".data else if o = 41 then "Light".data else []
    GetOwner := fun o => if o = 40 ∨ o = 41 then some 4 else none
    GetComponents := fun o => if o = 4 then [40, 41] else []
    GetActorLabel := fun o =>
      if o = 1 then "Root".data else if o = 2 ∨ o = 3 then "X".data
      else if o = 4 then "Leaf".data else []
    GetAttachedActors := fun o => if o = 1 then [2, 3] else if o = 2 then [4] else []
    GetAttachParentActor := fun o =>
      if o = 2 ∨ o = 3 then some 1 else if o = 4 then some 2 else none
    IsAttachedTo := fun a b =>
      decide ((b = 1 ∧ (a = 2 ∨ a = 3 ∨ a = 4)) ∨ (b = 2 ∧ a = 4)) }

/-- A reference that points at the object and has no helper cached yet. -/
def ReferenceTo (Object : UObject) : FLPrefabSequenceObjectReference :=
  { Object := some Object, HelperActor := none, HelperClass := none,
    HelperComponentName := [], HelperActorLabel := [], HelperActorPath := [] }

end LPrefab

namespace LPrefab

/-! ## The checks of a reference and the reference map -/

/-- The test `Name.IsNone()`: the name is `NAME_None`, which is the name of the empty text
and of the text "None" (names ignore case). -/
def FName_IsNone (n : FName) : Bool := n.isEmpty || FName_Equals n "None".data

namespace FLPrefabSequenceObjectReference

/-- The method `CanFixObjectReferenceFromEditorHelpers`. -/
def CanFixObjectReferenceFromEditorHelpers (W : World)
    (r : FLPrefabSequenceObjectReference) : Bool :=
  IsValidHelperClass W r.HelperClass && !FName_IsNone r.HelperComponentName
    && !r.HelperActorPath.isEmpty

/-- The actor that `IsObjectReferenceGood` looks at: the object if it is an actor, the
owner of the object if it is a component, and null otherwise. -/
def ActorOfObject (W : World) : Option UObject → Option UObject
  | none => none
  | some Object =>
    if W.IsActor Object then some Object
    else if W.IsActorComponent Object then W.GetOwner Object
    else none

/-- The method `IsObjectReferenceGood`: the returned flag and the reference after the
call (`CheckTargetObject` may write the field `Object`). -/
def IsObjectReferenceGood (W : World) (InContextActor : UObject)
    (r : FLPrefabSequenceObjectReference) : Bool × FLPrefabSequenceObjectReference :=
  let r1 := (CheckTargetObject W r).2
  match ActorOfObject W r1.Object with
  | some Actor =>
    (decide (W.GetLevel Actor = W.GetLevel InContextActor)
      && (decide (Actor = InContextActor) || W.IsAttachedTo Actor InContextActor), r1)
  | none => (false, r1)

/-- The method `IsEditorHelpersGood`; the relative path is computed only when the three
tests before it pass, and the result is `none` when the climb of that computation has not
ended within the fuel. -/
def IsEditorHelpersGood (W : World) (fuel : Nat) (InContextActor : UObject)
    (r : FLPrefabSequenceObjectReference) : Option Bool :=
  if IsValidObject W r.HelperActor && IsValidHelperClass W r.HelperClass
      && !FName_IsNone r.HelperComponentName then
    match r.HelperActor with
    | some HelperActor =>
      match GetActorPathRelativeToContextActor W fuel InContextActor HelperActor with
      | some Path => some (FString_Equals r.HelperActorPath Path)
      | none => none
    | none => some false
  else some false

end FLPrefabSequenceObjectReference

/-- The object that `CheckTargetObject` computes from the helpers when the field `Object`
is not valid: the helper actor for the class of actors, else the one component of the
helper class, or the first component of that class with the cached name when there are
several; `none` when the helpers are not valid or no such component is found. -/
def ObjectFromHelpers (W : World) (r : FLPrefabSequenceObjectReference) : Option UObject :=
  if FLPrefabSequenceObjectReference.IsValidObject W r.HelperActor
      && FLPrefabSequenceObjectReference.IsValidHelperClass W r.HelperClass then
    match r.HelperActor, r.HelperClass with
    | some HelperActor, some HelperClass =>
      if HelperClass = W.AActor_StaticClass then some HelperActor
      else
        match FLPrefabSequenceObjectReference.GetComponentsOfClass W HelperActor HelperClass with
        | [] => none
        | [Component] => some Component
        | First :: Second :: rest =>
          (First :: Second :: rest).find?
            (fun Comp => FName_Equals (W.GetFName Comp) r.HelperComponentName)
    | _, _ => none
  else none

/-- The struct `FLPrefabSequenceObjectReferences`. -/
structure FLPrefabSequenceObjectReferences where
  Array : List FLPrefabSequenceObjectReference
  deriving DecidableEq, Repr, Inhabited

/-- The struct `FLPrefabSequenceObjectReferenceMap`: two arrays side by side. -/
structure FLPrefabSequenceObjectReferenceMap where
  BindingIds : List FGuid
  References : List FLPrefabSequenceObjectReferences
  deriving DecidableEq, Repr, Inhabited

/-- The search `TArray::IndexOfByKey`: the index of the first element equal to the key,
`none` for `INDEX_NONE`. -/
def TArray_IndexOfByKey : List FGuid → FGuid → Option Nat
  | [], _ => none
  | x :: l, k =>
    if x = k then some 0
    else
      match TArray_IndexOfByKey l k with
      | some i => some (i + 1)
      | none => none

/-- The call `TArray::RemoveAtSwap(Index, 1, false)`: the element at the index is removed
and, unless it was the last one, the last element takes its place. The result is `none`
when the index is out of range (the engine asserts). -/
def TArray_RemoveAtSwap {α : Type} (l : List α) (Index : Nat) : Option (List α) :=
  if Index < l.length then
    match (l.drop (Index + 1)).getLast? with
    | some Last => some (l.take Index ++ Last :: (l.drop (Index + 1)).dropLast)
    | none => some (l.take Index)
  else none

/-- The search of `TArray::AddUnique` for an element equal to the item. Two references
are equal when `Resolve` returns the same object for both, and `Resolve` writes the
field `Object` of the references it is called on: the result is whether an equal element
was found, the array after the comparisons and the item after them. -/
def TArray_Find (W : World) :
    List FLPrefabSequenceObjectReference → FLPrefabSequenceObjectReference →
    Bool × List FLPrefabSequenceObjectReference × FLPrefabSequenceObjectReference
  | [], Item => (false, [], Item)
  | Element :: rest, Item =>
    let Element1 := (FLPrefabSequenceObjectReference.CheckTargetObject W Element).2
    let Item1 := (FLPrefabSequenceObjectReference.CheckTargetObject W Item).2
    if Element1.Object = Item1.Object then (true, Element1 :: rest, Item1)
    else
      let found := TArray_Find W rest Item1
      (found.1, Element1 :: found.2.1, found.2.2)

/-- The call `TArray::AddUnique`: the item is added at the end unless an equal element is
found. -/
def TArray_AddUnique (W : World) (Array : List FLPrefabSequenceObjectReference)
    (Item : FLPrefabSequenceObjectReference) : List FLPrefabSequenceObjectReference :=
  let found := TArray_Find W Array Item
  if found.1 then found.2.1 else found.2.1 ++ [found.2.2]

namespace FLPrefabSequenceObjectReferenceMap

/-- The method `HasBinding`. -/
def HasBinding (m : FLPrefabSequenceObjectReferenceMap) (ObjectId : FGuid) : Bool :=
  m.BindingIds.contains ObjectId

/-- The method `RemoveBinding`; `none` when an index is out of range. -/
def RemoveBinding (m : FLPrefabSequenceObjectReferenceMap) (ObjectId : FGuid) :
    Option FLPrefabSequenceObjectReferenceMap :=
  match TArray_IndexOfByKey m.BindingIds ObjectId with
  | some Index =>
    match TArray_RemoveAtSwap m.BindingIds Index, TArray_RemoveAtSwap m.References Index with
    | some Ids, some Refs => some { BindingIds := Ids, References := Refs }
    | _, _ => none
  | none => some m

/-- The method `CreateBinding`; `none` when `References[ExistingIndex]` is out of
range. -/
def CreateBinding (W : World) (m : FLPrefabSequenceObjectReferenceMap) (ObjectId : FGuid)
    (ObjectReference : FLPrefabSequenceObjectReference) :
    Option FLPrefabSequenceObjectReferenceMap :=
  let m1 : FLPrefabSequenceObjectReferenceMap :=
    match TArray_IndexOfByKey m.BindingIds ObjectId with
    | some _ => m
    | none => { BindingIds := m.BindingIds ++ [ObjectId], References := m.References ++ [⟨[]⟩] }
  let ExistingIndex :=
    match TArray_IndexOfByKey m.BindingIds ObjectId with
    | some Index => Index
    | none => m.BindingIds.length
  match m1.References[ExistingIndex]? with
  | some Refs =>
    some { m1 with
      References := m1.References.set ExistingIndex
        ⟨TArray_AddUnique W Refs.Array ObjectReference⟩ }
  | none => none

/-- The method `ResolveBinding`: the array `OutObjects` after the call, and the map after
it (`Resolve` writes the field `Object` of the references of the binding); `none` when
`References[Index]` is out of range. -/
def ResolveBinding (W : World) (m : FLPrefabSequenceObjectReferenceMap) (ObjectId : FGuid)
    (OutObjects : List UObject) : Option (List UObject × FLPrefabSequenceObjectReferenceMap) :=
  match TArray_IndexOfByKey m.BindingIds ObjectId with
  | none => some (OutObjects, m)
  | some Index =>
    match m.References[Index]? with
    | some Refs =>
      some (OutObjects ++ Refs.Array.filterMap (FLPrefabSequenceObjectReference.Resolve W),
        { m with
          References := m.References.set Index
            ⟨Refs.Array.map
              (fun r => (FLPrefabSequenceObjectReference.CheckTargetObject W r).2)⟩ })
    | none => none

/-- The body of the inner loop of `FixObjectReferences` for one reference: whether
`anythingChanged` is set, and the reference after the pass. -/
def FixObjectReferences_body (W : World) (InContextActor : UObject)
    (RefItem : FLPrefabSequenceObjectReference) :
    Option (Bool × FLPrefabSequenceObjectReference) :=
  let good := FLPrefabSequenceObjectReference.IsObjectReferenceGood W InContextActor RefItem
  if !good.1 && FLPrefabSequenceObjectReference.CanFixObjectReferenceFromEditorHelpers W good.2
  then FLPrefabSequenceObjectReference.FixObjectReferenceFromEditorHelpers W InContextActor good.2
  else some (false, good.2)

/-- The inner loop of `FixObjectReferences` over the references of one binding. -/
def FixObjectReferences_inner (W : World) (InContextActor : UObject) :
    List FLPrefabSequenceObjectReference →
    Option (Bool × List FLPrefabSequenceObjectReference)
  | [] => some (false, [])
  | RefItem :: rest =>
    match FixObjectReferences_body W InContextActor RefItem with
    | some (changed, RefItem1) =>
      match FixObjectReferences_inner W InContextActor rest with
      | some (changedRest, rest1) => some (changed || changedRest, RefItem1 :: rest1)
      | none => none
    | none => none

/-- The outer loop of `FixObjectReferences` over the bindings. -/
def FixObjectReferences_outer (W : World) (InContextActor : UObject) :
    List FLPrefabSequenceObjectReferences →
    Option (Bool × List FLPrefabSequenceObjectReferences)
  | [] => some (false, [])
  | Reference :: rest =>
    match FixObjectReferences_inner W InContextActor Reference.Array with
    | some (changed, Array1) =>
      match FixObjectReferences_outer W InContextActor rest with
      | some (changedRest, rest1) => some (changed || changedRest, ⟨Array1⟩ :: rest1)
      | none => none
    | none => none

/-- The method `FixObjectReferences`: the flag `anythingChanged` and the map after the
call; `none` when a call of `FixObjectReferenceFromEditorHelpers` does not return. -/
def FixObjectReferences (W : World) (InContextActor : UObject)
    (m : FLPrefabSequenceObjectReferenceMap) :
    Option (Bool × FLPrefabSequenceObjectReferenceMap) :=
  match FixObjectReferences_outer W InContextActor m.References with
  | some (anythingChanged, References1) =>
    some (anythingChanged, { m with References := References1 })
  | none => none

/-- The array of references bound to an id: `References[BindingIds.IndexOfByKey(ObjectId)]`,
`none` when the id is not bound or the index is out of range. -/
def ArrayOf (m : FLPrefabSequenceObjectReferenceMap) (ObjectId : FGuid) :
    Option (List FLPrefabSequenceObjectReference) :=
  match TArray_IndexOfByKey m.BindingIds ObjectId with
  | some Index => (m.References[Index]?).map (fun Refs => Refs.Array)
  | none => none

/-- The two arrays of the map have the same length and no id stands twice. -/
def WellFormed (m : FLPrefabSequenceObjectReferenceMap) : Prop :=
  m.BindingIds.length = m.References.length ∧ m.BindingIds.Nodup

end FLPrefabSequenceObjectReferenceMap

/-- A call of `CreateBinding`, in the level as it is at the time of the call, or of
`RemoveBinding`. -/
inductive BindingCall where
  | CreateBinding (W : World) (ObjectId : FGuid)
      (ObjectReference : FLPrefabSequenceObjectReference)
  | RemoveBinding (ObjectId : FGuid)

/-- The id that a call names. -/
def BindingCall.ObjectId : BindingCall → FGuid
  | .CreateBinding _ ObjectId _ => ObjectId
  | .RemoveBinding ObjectId => ObjectId

/-- Whether the call is a `CreateBinding`. -/
def BindingCall.IsCreateBinding : BindingCall → Bool
  | .CreateBinding _ _ _ => true
  | .RemoveBinding _ => false

/-- The map after one call; `none` when the call does not return. -/
def BindingCall.Apply (m : FLPrefabSequenceObjectReferenceMap) :
    BindingCall → Option FLPrefabSequenceObjectReferenceMap
  | .CreateBinding W ObjectId ObjectReference =>
    FLPrefabSequenceObjectReferenceMap.CreateBinding W m ObjectId ObjectReference
  | .RemoveBinding ObjectId => FLPrefabSequenceObjectReferenceMap.RemoveBinding m ObjectId

/-- The map after a sequence of calls, made one after the other. -/
def ApplyBindingCalls (Calls : List BindingCall) (m : FLPrefabSequenceObjectReferenceMap) :
    Option FLPrefabSequenceObjectReferenceMap :=
  Calls.foldl (fun acc Call => acc.bind (fun m1 => Call.Apply m1)) (some m)

/-- The default-constructed map: no binding. -/
def EmptyReferenceMap : FLPrefabSequenceObjectReferenceMap :=
  { BindingIds := [], References := [] }

/-- The level with the twin labels where the actor 2 lives in the level 1, another level
of the same world as the level 0 of the other actors. -/
def LevelWithSublevel : World :=
  { LevelWithTwinLabels with GetLevel := fun o => if o = 2 then 1 else 0 }

/-- A level for the path "/": the actor 2, labelled "/", is attached to the actor 1. -/
def LevelWithSlashLabel : World :=
  { EmptyLevel with
    IsValid := fun o => decide (o = 1 ∨ o = 2)
    HasWorld := fun o => decide (o = 1 ∨ o = 2)
    IsActor := fun o => decide (o = 1 ∨ o = 2)
    GetActorLabel := fun o => if o = 1 then "Root".data else if o = 2 then "/".data else []
    GetAttachedActors := fun o => if o = 1 then [2] else []
    GetAttachParentActor := fun o => if o = 2 then some 1 else none
    IsAttachedTo := fun a b => decide (a = 2 ∧ b = 1) }

/-- A map of the level with the twin labels: the ids 7, 8 and 9 are bound to one
reference each, to the actors 2, 3 and 4. -/
def MapOfThreeBindings : FLPrefabSequenceObjectReferenceMap :=
  { BindingIds := [7, 8, 9],
    References := [⟨[ReferenceTo 2]⟩, ⟨[ReferenceTo 3]⟩, ⟨[ReferenceTo 4]⟩] }

/-- A reference with the helpers of an actor labelled "X": the class of actors of the
example levels and the component name "Actor". -/
def ReferenceToActorX (Object : Option UObject) (HelperActor : UObject)
    (HelperActorPath : FString) : FLPrefabSequenceObjectReference :=
  { Object := Object, HelperActor := some HelperActor, HelperClass := some 1,
    HelperComponentName := "Actor".data, HelperActorLabel := "X".data,
    HelperActorPath := HelperActorPath }

end LPrefab

namespace LPrefab

/-! ## The editor tools -/

namespace LPrefabEditorTools

/-- The loop of the lambda `ExtractNumetric`, which reads the string from its last
character backwards: the characters still to read (last one first), the counter
`NumetricStringCharCount` and the digits read so far. It stops at the first character
that is not a digit and after the fourth digit; the result is the substring from
`NumetricStringIndex` on. -/
def ExtractNumetric_for : List Char → Nat → List Char → List Char
  | [], _, NumetricSubString => NumetricSubString
  | SubChar :: rest, NumetricStringCharCount, NumetricSubString =>
    if '0' ≤ SubChar ∧ SubChar ≤ '9' then
      if NumetricStringCharCount + 1 ≥ 4 then SubChar :: NumetricSubString
      else ExtractNumetric_for rest (NumetricStringCharCount + 1) (SubChar :: NumetricSubString)
    else NumetricSubString

/-- The call `FCString::Atoi` on a string of decimal digits, which is all that
`ExtractNumetric` passes to it. -/
def FCString_Atoi (Digits : List Char) : Nat :=
  Digits.foldl (fun n c => 10 * n + (c.toNat - '0'.toNat)) 0

/-- The lambda `ExtractNumetric`: the number that the trailing digits of the string
spell, four digits at most; `none` when the string does not end in a digit (the lambda
returns false). -/
def ExtractNumetric (InString : FString) : Option Nat :=
  match ExtractNumetric_for InString.reverse 0 [] with
  | [] => none
  | c :: NumetricSubString => some (FCString_Atoi (c :: NumetricSubString))

/-- The loop of `GetUniqueNumetricName` over the existing names: the largest number
found, starting from 0; empty names are passed over. -/
def MaxNumSuffix (InExistNames : List FString) : Nat :=
  InExistNames.foldl
    (fun Max Item =>
      if Item.length = 0 then Max
      else
        match ExtractNumetric Item with
        | some Num => if Num > Max then Num else Max
        | none => Max)
    0

/-- The function `GetUniqueNumetricName`: `FString::Printf(TEXT("%s_%d"), *InPrefix,
MaxNumSuffix + 1)`. -/
def GetUniqueNumetricName (InPrefix : FString) (InExistNames : List FString) : FString :=
  InPrefix ++ "_".data ++ Nat.toDigits 10 (MaxNumSuffix InExistNames + 1)

/-- The loop `while (true)` of `GetRootActorListFromSelection`, which climbs from
`parent`: the flag `isRootActor` it ends with. The fuel bounds the number of passes;
`none` when it runs out. -/
def GetRootActorListFromSelection_while (W : World) (selectedActors : List UObject) :
    Nat → Option UObject → Option Bool
  | _, none => some true
  | 0, some parent => if selectedActors.contains parent then some false else none
  | fuel + 1, some parent =>
    if selectedActors.contains parent then some false
    else GetRootActorListFromSelection_while W selectedActors fuel (W.GetAttachParentActor parent)

/-- The loop of `GetRootActorListFromSelection` over the selection: the actors still to
look at and `RootActorList` so far. -/
def GetRootActorListFromSelection_for (W : World) (fuel : Nat) (selectedActors : List UObject) :
    List UObject → List UObject → Option (List UObject)
  | [], RootActorList => some RootActorList
  | obj :: rest, RootActorList =>
    match GetRootActorListFromSelection_while W selectedActors fuel
        (W.GetAttachParentActor obj) with
    | some isRootActor =>
      GetRootActorListFromSelection_for W fuel selectedActors rest
        (if isRootActor then RootActorList ++ [obj] else RootActorList)
    | none => none

/-- The function `GetRootActorListFromSelection`; `none` when a climb has not ended within
the fuel. -/
def GetRootActorListFromSelection (W : World) (fuel : Nat) (selectedActors : List UObject) :
    Option (List UObject) :=
  GetRootActorListFromSelection_for W fuel selectedActors selectedActors []

end LPrefabEditorTools

/-! ## Further predicates and example levels -/

/-- The first actor is an attachment ancestor of the second: its attach parent, or the
attach parent of an ancestor. -/
inductive AttachAncestor (W : World) : UObject → UObject → Prop
  | parent {a p : UObject} : W.GetAttachParentActor a = some p → AttachAncestor W p a
  | step {a p b : UObject} :
      W.GetAttachParentActor a = some p → AttachAncestor W b p → AttachAncestor W b a

/-- A bound sort hook returns the children it was given, in some order. -/
def HookPermutes (W : World) : Prop :=
  ∀ hook, W.Serialize_SortChildrenActors = some hook → ∀ l, List.Perm (hook l) l

/-- The items of a path joined by "/". -/
def JoinPath : List FString → FString
  | [] => []
  | [Item] => Item
  | Item :: Next :: rest => Item ++ '/' :: JoinPath (Next :: rest)

/-- A level whose root is transient: the actor 1, valid and in a world, carries the flag
`RF_Transient`. -/
def LevelWithTransientRoot : World :=
  { EmptyLevel with
    IsValid := fun o => decide (o = 1)
    HasWorld := fun o => decide (o = 1)
    IsActor := fun o => decide (o = 1)
    IsTransient := fun o => decide (o = 1)
    GetActorLabel := fun o => if o = 1 then "Root".data else [] }

/-- A reference whose handle is null and whose helpers name the actor 3 of the level with
the twin labels: a component of the class 5 named "Mesh", on the actor of the path "X". -/
def ReferenceWithHelperActor3 : FLPrefabSequenceObjectReference :=
  { Object := none, HelperActor := some 3, HelperClass := some 5,
    HelperComponentName := "Mesh".data, HelperActorLabel := "X".data,
    HelperActorPath := "X".data }

/-- A reference to an actor whose cached path is written in lower case: "x". -/
def ReferenceWithLowerCasePath : FLPrefabSequenceObjectReference :=
  { Object := none, HelperActor := none, HelperClass := some 1,
    HelperComponentName := "Actor".data, HelperActorLabel := "X".data,
    HelperActorPath := "x".data }

end LPrefab

namespace LPrefab

/-! # Lemmas -/

/-! ## TMap -/

namespace TMap

variable {K V : Type} [DecidableEq K]

theorem Find_Add_self (m : TMap K V) (k : K) (v : V) : Find (Add m k v) k = some v := by
  induction m with
  | nil => simp [Add, Find]
  | cons p m ih =>
    obtain ⟨k', v'⟩ := p
    by_cases h : k' = k
    · simp [Add, Find, h]
    · simp [Add, Find, h, ih]

theorem Find_Add_ne (m : TMap K V) (k k' : K) (v : V) (h : k ≠ k') :
    Find (Add m k v) k' = Find m k' := by
  induction m with
  | nil => simp [Add, Find, h]
  | cons p m ih =>
    obtain ⟨k0, v0⟩ := p
    by_cases h0 : k0 = k
    · subst h0; simp [Add, Find, h]
    · by_cases h1 : k0 = k'
      · subst h1; simp [Add, Find, h0]
      · simp [Add, Find, h0, h1, ih]

theorem Contains_eq_false_iff (m : TMap K V) (k : K) : Contains m k = false ↔ Find m k = none := by
  unfold Contains; cases Find m k <;> simp

theorem Contains_eq_true_iff (m : TMap K V) (k : K) :
    Contains m k = true ↔ ∃ v, Find m k = some v := by
  unfold Contains; cases Find m k <;> simp

theorem Find_eq_none_iff (m : TMap K V) (k : K) : Find m k = none ↔ k ∉ Keys m := by
  induction m with
  | nil => simp [Find, Keys]
  | cons p m ih =>
    obtain ⟨k0, v0⟩ := p
    by_cases h0 : k0 = k
    · simp [Find, Keys, h0]
    · have h0' : ¬ k = k0 := fun h => h0 h.symm
      simp only [Find, h0, if_false, ih, Keys, List.map_cons, List.mem_cons, h0', false_or]

theorem mem_of_Find (m : TMap K V) (k : K) (v : V) (h : Find m k = some v) : (k, v) ∈ m := by
  induction m with
  | nil => simp [Find] at h
  | cons p m ih =>
    obtain ⟨k0, v0⟩ := p
    by_cases h0 : k0 = k
    · simp [Find, h0] at h; subst h0; subst h; simp
    · simp [Find, h0] at h; exact List.mem_cons_of_mem _ (ih h)

theorem Find_of_mem_nodup (m : TMap K V) (k : K) (v : V) (hnd : (Keys m).Nodup) (h : (k, v) ∈ m) :
    Find m k = some v := by
  induction m with
  | nil => simp at h
  | cons p m ih =>
    obtain ⟨k0, v0⟩ := p
    simp only [Keys, List.map_cons, List.nodup_cons] at hnd
    simp only [List.mem_cons, Prod.mk.injEq] at h
    rcases h with ⟨rfl, rfl⟩ | h
    · simp [Find]
    · have hk : k ∈ List.map Prod.fst m := List.mem_map_of_mem Prod.fst h
      have h0 : ¬ k0 = k := fun e => hnd.1 (e ▸ hk)
      simp only [Find, h0, if_false]
      exact ih hnd.2 h

theorem FindChecked_of_Find [Inhabited V] (m : TMap K V) (k : K) (v : V) (h : Find m k = some v) :
    FindChecked m k = v := by
  simp [FindChecked, h]

end TMap

/-! ## MapGrows and Grows -/

theorem MapGrows.mrefl (W : World) (m : TMap UObject FGuid) : MapGrows W m m :=
  ⟨fun _ _ h => h, fun _ _ h => Or.inl h⟩

theorem MapGrows.mtrans {W : World} {m1 m2 m3 : TMap UObject FGuid}
    (h12 : MapGrows W m1 m2) (h23 : MapGrows W m2 m3) : MapGrows W m1 m3 := by
  refine ⟨fun k g h => h23.1 k g (h12.1 k g h), fun k g h => ?_⟩
  rcases h23.2 k g h with h2 | ⟨h2, n, hn⟩
  · exact h12.2 k g h2
  · right
    refine ⟨?_, n, hn⟩
    cases h1 : TMap.Find m1 k with
    | none => rfl
    | some g1 => rw [h12.1 k g1 h1] at h2; cases h2

theorem MapGrows.add_new (W : World) (m : TMap UObject FGuid) (k : UObject) (n : Nat)
    (h : TMap.Contains m k = false) : MapGrows W m (TMap.Add m k (W.NewGuid n)) := by
  rw [TMap.Contains_eq_false_iff] at h
  constructor
  · intro k' g hk
    have hne : k ≠ k' := by rintro rfl; rw [h] at hk; cases hk
    rw [TMap.Find_Add_ne _ _ _ _ hne]; exact hk
  · intro k' g hk
    by_cases hne : k = k'
    · subst hne
      rw [TMap.Find_Add_self] at hk
      right; exact ⟨h, n, by injection hk with e; exact e.symm⟩
    · rw [TMap.Find_Add_ne _ _ _ _ hne] at hk; exact Or.inl hk

theorem MapGrows.contains {W : World} {m m' : TMap UObject FGuid} (h : MapGrows W m m')
    (k : UObject) (hk : TMap.Contains m k = true) : TMap.Contains m' k = true := by
  rw [TMap.Contains_eq_true_iff] at hk ⊢
  obtain ⟨v, hv⟩ := hk
  exact ⟨v, h.1 k v hv⟩

theorem MapGrows.findChecked {W : World} {m m' : TMap UObject FGuid} (h : MapGrows W m m')
    (k : UObject) (hk : TMap.Contains m k = true) :
    TMap.FindChecked m' k = TMap.FindChecked m k := by
  rw [TMap.Contains_eq_true_iff] at hk
  obtain ⟨v, hv⟩ := hk
  rw [TMap.FindChecked_of_Find _ _ _ hv, TMap.FindChecked_of_Find _ _ _ (h.1 k v hv)]

theorem Grows.grefl (W : World) (s : ActorSerializer) : Grows W s s :=
  ⟨rfl, rfl, rfl, rfl, rfl, MapGrows.mrefl W _, List.prefix_refl _, List.prefix_refl _,
    List.prefix_refl _⟩

theorem Grows.gtrans {W : World} {s1 s2 s3 : ActorSerializer}
    (h12 : Grows W s1 s2) (h23 : Grows W s2 s3) : Grows W s1 s3 := by
  obtain ⟨a1, a2, a3, a4, a5, a6, a7, a8, a9⟩ := h12
  obtain ⟨b1, b2, b3, b4, b5, b6, b7, b8, b9⟩ := h23
  exact ⟨b1.trans a1, b2.trans a2, b3.trans a3, b4.trans a4, b5.trans a5, a6.mtrans b6,
    a7.trans b7, a8.trans b8, a9.trans b9⟩

/-- A fold of growing steps grows. -/
theorem Grows.foldl {W : World} {β : Type} (f : ActorSerializer → β → ActorSerializer)
    (hf : ∀ s b, Grows W s (f s b)) (l : List β) (s : ActorSerializer) :
    Grows W s (l.foldl f s) := by
  induction l generalizing s with
  | nil => exact Grows.grefl W s
  | cons b l ih => exact (hf s b).gtrans (ih (f s b))

/-! ## The shared helpers grow the serializer -/

theorem FindOrAdd_prefix (l : List Nat) (x : Nat) : l <+: (FindOrAdd l x).2 := by
  unfold FindOrAdd
  split
  · exact List.prefix_refl _
  · exact List.prefix_append l [x]

theorem FindOrAdd_index (l : List Nat) (x : Nat) :
    (FindOrAdd l x).2[(FindOrAdd l x).1]? = some x := by
  unfold FindOrAdd
  split
  · rename_i h; exact List.getElem?_indexOf h
  · simp

theorem getElem?_of_prefix {l l' : List Nat} (h : l <+: l') (i x : Nat)
    (hx : l[i]? = some x) : l'[i]? = some x := by
  obtain ⟨t, rfl⟩ := h
  have hi : i < l.length := by
    by_contra hlt
    rw [List.getElem?_eq_none (by omega)] at hx
    cases hx
  rw [List.getElem?_append_left hi]
  exact hx

theorem FindOrAddClassFromList_grows (W : World) (s : ActorSerializer) (c : UClass) :
    Grows W s (FindOrAddClassFromList s c).2 :=
  ⟨rfl, rfl, rfl, rfl, rfl, MapGrows.mrefl W _, List.prefix_refl _, FindOrAdd_prefix _ _,
    List.prefix_refl _⟩

theorem FindOrAddAssetIdFromList_grows (W : World) (s : ActorSerializer) (a : Nat) :
    Grows W s (FindOrAddAssetIdFromList s a).2 :=
  ⟨rfl, rfl, rfl, rfl, rfl, MapGrows.mrefl W _, FindOrAdd_prefix _ _, List.prefix_refl _,
    List.prefix_refl _⟩

theorem AddNewGuidIfAbsent_mapGrows (W : World) (s : ActorSerializer) (o : UObject) :
    MapGrows W s.MapObjectToGuid (AddNewGuidIfAbsent W s o).MapObjectToGuid := by
  unfold AddNewGuidIfAbsent
  by_cases h3 : TMap.Contains s.MapObjectToGuid o = true
  · simp only [h3, Bool.not_true, Bool.false_eq_true, if_false]; exact MapGrows.mrefl W _
  · simp only [Bool.not_eq_true] at h3
    simp only [h3, Bool.not_false, if_true]
    exact MapGrows.add_new W s.MapObjectToGuid o s.NewGuidCalls h3

theorem AddNewGuidIfAbsent_grows (W : World) (s : ActorSerializer) (o : UObject) :
    Grows W s (AddNewGuidIfAbsent W s o) := by
  refine ⟨?_, ?_, ?_, ?_, ?_, AddNewGuidIfAbsent_mapGrows W s o, ?_, ?_, ?_⟩ <;>
    (unfold AddNewGuidIfAbsent; split <;> rfl)

theorem AddNewGuidIfAbsent_contains (W : World) (s : ActorSerializer) (o : UObject) :
    TMap.Contains (AddNewGuidIfAbsent W s o).MapObjectToGuid o = true := by
  unfold AddNewGuidIfAbsent
  by_cases h3 : TMap.Contains s.MapObjectToGuid o = true
  · simp only [h3, Bool.not_true, Bool.false_eq_true, if_false]
  · simp only [Bool.not_eq_true] at h3
    simp only [h3, Bool.not_false, if_true]
    rw [TMap.Contains_eq_true_iff]
    exact ⟨_, TMap.Find_Add_self _ _ _⟩

theorem EnqueueObjectIfNotVisited_grows (W : World) (s : ActorSerializer) (o : UObject) :
    Grows W s (EnqueueObjectIfNotVisited s o) := by
  unfold EnqueueObjectIfNotVisited
  split
  · exact Grows.grefl W s
  · exact ⟨rfl, rfl, rfl, rfl, rfl, MapGrows.mrefl W _, List.prefix_refl _, List.prefix_refl _,
      List.prefix_append _ _⟩

theorem CollectObjectToSerailize_grows (W : World) (s : ActorSerializer) (o : UObject) :
    Grows W s (CollectObjectToSerailize W s o).2 := by
  unfold CollectObjectToSerailize
  split
  · exact Grows.grefl W s
  · split
    · exact Grows.grefl W s
    · exact (AddNewGuidIfAbsent_grows W s o).gtrans (EnqueueObjectIfNotVisited_grows W _ o)

theorem WriterOrReaderFunction_grows (W : World) (s : ActorSerializer) (o : UObject) (b : Bool) :
    Grows W s (WriterOrReaderFunction W s o b).2 := by
  unfold WriterOrReaderFunction
  exact Grows.foldl _ (fun s b => CollectObjectToSerailize_grows W s b) _ s

theorem WriterOrReaderFunctionForSubPrefabOverride_grows (W : World) (s : ActorSerializer)
    (o : UObject) (names : List FName) :
    Grows W s (WriterOrReaderFunctionForSubPrefabOverride W s o names).2 := by
  unfold WriterOrReaderFunctionForSubPrefabOverride
  exact Grows.foldl _ (fun s b => CollectObjectToSerailize_grows W s b) _ s

/-- An invariant of the steps of a fold holds of its result. -/
theorem foldl_inv {α β : Type} (P : β → Prop) (f : β → α → β)
    (h : ∀ b a, P b → P (f b a)) (l : List α) (b : β) (hb : P b) : P (l.foldl f b) := by
  induction l generalizing b with
  | nil => exact hb
  | cons a l ih => exact ih (f b a) (h b a hb)

/-- An invariant of the steps of a fold, taken on the elements of the list, holds of
its result. -/
theorem foldl_inv_mem {α β : Type} (P : β → Prop) (f : β → α → β) (l : List α)
    (h : ∀ b a, a ∈ l → P b → P (f b a)) (b : β) (hb : P b) : P (l.foldl f b) := by
  induction l generalizing b with
  | nil => exact hb
  | cons a l ih =>
    exact ih (fun b' a' ha' => h b' a' (List.mem_cons_of_mem _ ha')) (f b a)
      (h b a (List.mem_cons_self _ _) hb)

theorem SerializeDefaultSubObjects_grows (W : World) (l : List UObject) (s : ActorSerializer) :
    Grows W s (SerializeDefaultSubObjects W l s).1 := by
  unfold SerializeDefaultSubObjects
  refine foldl_inv (fun acc : ActorSerializer × List FGuid × List FName => Grows W s acc.1) _ ?_ _ _ ?_
  · intro acc o hacc
    have h := CollectObjectToSerailize_grows W acc.1 o
    dsimp only
    split <;> exact hacc.gtrans h
  · exact Grows.grefl W s

theorem SerializeOverrideParameters_grows (W : World) (l : List FLPrefabOverrideParameterData)
    (s : ActorSerializer) : Grows W s (SerializeOverrideParameters W l s).1 := by
  unfold SerializeOverrideParameters
  refine foldl_inv
    (fun acc : ActorSerializer × TMap FGuid FLPrefabOverrideParameterSaveData => Grows W s acc.1)
    _ ?_ _ _ ?_
  · intro acc item hacc
    dsimp only
    split
    · exact hacc
    · split
      · exact hacc.gtrans (WriterOrReaderFunctionForSubPrefabOverride_grows W _ _ _)
      · exact hacc
  · exact Grows.grefl W s

namespace LPrefabSystem7

theorem SerializeActorArray7_body_grows (W : World) (st : SaveState) (a : UObject) :
    Grows W st.1 (SerializeActorArray_body W st a).1 := by
  unfold SerializeActorArray_body
  dsimp only
  split
  · exact (FindOrAddAssetIdFromList_grows W _ _).gtrans (SerializeOverrideParameters_grows W _ _)
  · exact ((FindOrAddClassFromList_grows W _ _).gtrans (WriterOrReaderFunction_grows W _ _ _)).gtrans
      (SerializeDefaultSubObjects_grows W _ _)

theorem SerializeActorArray7_grows (W : World) (st : SaveState) :
    Grows W st.1 (SerializeActorArray W st).1 := by
  unfold SerializeActorArray
  refine foldl_inv (fun acc : SaveState => Grows W st.1 acc.1) _ ?_ _ _ ?_
  · intro acc a hacc; exact hacc.gtrans (SerializeActorArray7_body_grows W acc a)
  · exact Grows.grefl W _

theorem SerializeObjectArray7_body_grows (W : World) (st : SaveState) (o : UObject) :
    Grows W st.1 (SerializeObjectArray_body W st o).1 := by
  unfold SerializeObjectArray_body
  exact ((FindOrAddClassFromList_grows W _ _).gtrans (WriterOrReaderFunction_grows W _ _ _)).gtrans
    (SerializeDefaultSubObjects_grows W _ _)

theorem SerializeObjectArray7_grows (W : World) (fuel : Nat) :
    ∀ (i : Nat) (st : SaveState), Grows W st.1 (SerializeObjectArray W fuel i st).1 := by
  induction fuel with
  | zero => intro i st; exact Grows.grefl W _
  | succ n ih =>
    intro i st
    unfold SerializeObjectArray
    split
    · exact Grows.grefl W _
    · exact (SerializeObjectArray7_body_grows W st _).gtrans (ih _ _)

theorem CollectActor_keeps (s : ActorSerializer) (a : UObject) :
    (CollectActor s a).bIsEditorOrRuntime = s.bIsEditorOrRuntime ∧
    (CollectActor s a).SubPrefabMap = s.SubPrefabMap ∧
    (CollectActor s a).SubPrefabActorArray = s.SubPrefabActorArray ∧
    (CollectActor s a).MapObjectToGuid = s.MapObjectToGuid := by
  unfold CollectActor
  split
  · exact ⟨rfl, rfl, rfl, rfl⟩
  · split <;> exact ⟨rfl, rfl, rfl, rfl⟩

/-- What the collection of generation 7 keeps: the mode and the sub-prefab tables; the identity
map grows. -/
theorem CollectActorRecursive7_keeps (W : World) (fuel : Nat) :
    ∀ (a : UObject) (s : ActorSerializer),
      (CollectActorRecursive W fuel a s).bIsEditorOrRuntime = s.bIsEditorOrRuntime ∧
      (CollectActorRecursive W fuel a s).SubPrefabMap = s.SubPrefabMap ∧
      (CollectActorRecursive W fuel a s).SubPrefabActorArray = s.SubPrefabActorArray ∧
      MapGrows W s.MapObjectToGuid (CollectActorRecursive W fuel a s).MapObjectToGuid := by
  induction fuel with
  | zero => intro a s; exact ⟨rfl, rfl, rfl, MapGrows.mrefl W _⟩
  | succ n ih =>
    intro a s
    unfold CollectActorRecursive
    split
    · exact ⟨rfl, rfl, rfl, MapGrows.mrefl W _⟩
    split
    · exact ⟨rfl, rfl, rfl, MapGrows.mrefl W _⟩
    split
    · exact ⟨rfl, rfl, rfl, MapGrows.mrefl W _⟩
    refine foldl_inv (fun acc : ActorSerializer =>
      acc.bIsEditorOrRuntime = s.bIsEditorOrRuntime ∧ acc.SubPrefabMap = s.SubPrefabMap ∧
      acc.SubPrefabActorArray = s.SubPrefabActorArray ∧
      MapGrows W s.MapObjectToGuid acc.MapObjectToGuid) _ ?_ _ _ ?_
    · intro acc c ⟨h1, h2, h3, h4⟩
      obtain ⟨i1, i2, i3, i4⟩ := ih c acc
      exact ⟨i1.trans h1, i2.trans h2, i3.trans h3, h4.mtrans i4⟩
    · obtain ⟨g1, g2, g3, _, _, g6, _, _⟩ := AddNewGuidIfAbsent_grows W (CollectActor s a) a
      obtain ⟨c1, c2, c3, c4⟩ := CollectActor_keeps s a
      rw [c4] at g6
      exact ⟨g1.trans c1, g2.trans c2, g3.trans c3, g6⟩

end LPrefabSystem7

namespace LPrefabSystem6

theorem CollectActorRecursive6_mapGrows (W : World) (fuel : Nat) :
    ∀ (a : UObject) (s : ActorSerializer),
      MapGrows W s.MapObjectToGuid (CollectActorRecursive W fuel a s).MapObjectToGuid := by
  induction fuel with
  | zero => intro a s; exact MapGrows.mrefl W _
  | succ n ih =>
    intro a s
    unfold CollectActorRecursive
    split
    · exact MapGrows.mrefl W _
    split
    · exact MapGrows.mrefl W _
    split
    · exact MapGrows.mrefl W _
    dsimp only
    refine foldl_inv (fun acc : ActorSerializer =>
      MapGrows W s.MapObjectToGuid acc.MapObjectToGuid) _ ?_ _ _ ?_
    · intro acc c h; exact h.mtrans (ih c acc)
    · refine MapGrows.mtrans ?_ (AddNewGuidIfAbsent_mapGrows W _ a)
      split <;> exact MapGrows.mrefl W _

theorem SerializeActorRecursive6_grows (W : World) (fuel : Nat) :
    ∀ (a : UObject) (st : RecState), Grows W st.1 (SerializeActorRecursive W fuel a st).2.1 := by
  induction fuel with
  | zero => intro a st; exact Grows.grefl W _
  | succ n ih =>
    intro a st
    unfold SerializeActorRecursive
    split
    · exact Grows.grefl W _
    split
    · exact (FindOrAddAssetIdFromList_grows W _ _).gtrans (SerializeOverrideParameters_grows W _ _)
    split
    · exact Grows.grefl W _
    dsimp only
    refine foldl_inv (fun acc : List FLGUIActorSaveData × RecState => Grows W st.1 acc.2.1) _ ?_ _ _ ?_
    · intro acc c h; exact h.gtrans (ih c acc.2)
    · exact ((FindOrAddClassFromList_grows W _ _).gtrans (WriterOrReaderFunction_grows W _ _ _)).gtrans
        (SerializeDefaultSubObjects_grows W _ _)

theorem SerializeObjectArray6_body_grows (W : World) (st : SaveState) (o : UObject) :
    Grows W st.1 (SerializeObjectArray_body W st o).1 := by
  unfold SerializeObjectArray_body
  exact ((FindOrAddClassFromList_grows W _ _).gtrans (WriterOrReaderFunction_grows W _ _ _)).gtrans
    (SerializeDefaultSubObjects_grows W _ _)

theorem SerializeObjectArray6_grows (W : World) (fuel : Nat) :
    ∀ (i : Nat) (st : SaveState), Grows W st.1 (SerializeObjectArray W fuel i st).1 := by
  induction fuel with
  | zero => intro i st; exact Grows.grefl W _
  | succ n ih =>
    intro i st
    unfold SerializeObjectArray
    split
    · exact Grows.grefl W _
    · exact (SerializeObjectArray6_body_grows W st _).gtrans (ih _ _)

theorem SerializeActor6_mapGrows (W : World) (fuel : Nat) (s : ActorSerializer) (Root : UObject)
    (P : ULPrefab) :
    MapGrows W s.MapObjectToGuid (SerializeActor W fuel s Root P).1.MapObjectToGuid := by
  have h1 := CollectActorRecursive6_mapGrows W fuel Root s
  have h2 := (SerializeActorRecursive6_grows W fuel Root (CollectActorRecursive W fuel Root s, [])).2.2.2.2.2.1
  have h3 := (SerializeObjectArray6_grows W fuel 0
    ((SerializeActorRecursive W fuel Root (CollectActorRecursive W fuel Root s, [])).2.1,
      { SavedActor := (SerializeActorRecursive W fuel Root (CollectActorRecursive W fuel Root s, [])).1,
        SavedObjects := [],
        SavedObjectData := (SerializeActorRecursive W fuel Root (CollectActorRecursive W fuel Root s, [])).2.2,
        MapSceneComponentToParent := [] })).2.2.2.2.2.1
  have h : MapGrows W s.MapObjectToGuid (SerializeActorToData W fuel s Root).1.MapObjectToGuid :=
    (h1.mtrans h2).mtrans h3
  unfold SerializeActor
  dsimp only
  split <;> exact h

end LPrefabSystem6

namespace LPrefabSystem3

theorem CollectActorRecursive3_mapGrows (W : World) (fuel : Nat) :
    ∀ (a : UObject) (s : ActorSerializer),
      MapGrows W s.MapObjectToGuid (CollectActorRecursive W fuel a s).MapObjectToGuid := by
  induction fuel with
  | zero => intro a s; exact MapGrows.mrefl W _
  | succ n ih =>
    intro a s
    unfold CollectActorRecursive
    dsimp only
    refine foldl_inv (fun acc : ActorSerializer =>
      MapGrows W s.MapObjectToGuid acc.MapObjectToGuid) _ ?_ _ _ ?_
    · intro acc c h; exact h.mtrans (ih c acc)
    · refine MapGrows.mtrans ?_ (AddNewGuidIfAbsent_mapGrows W _ a)
      split <;> exact MapGrows.mrefl W _

theorem SerializeOverrideParameters3_grows (W : World) (l : List FLPrefabOverrideParameterData)
    (s : ActorSerializer) : Grows W s (SerializeOverrideParameters W l s).1 := by
  unfold SerializeOverrideParameters
  refine foldl_inv
    (fun acc : ActorSerializer × List FLPrefabOverrideParameterRecordData => Grows W s acc.1)
    _ ?_ _ _ ?_
  · intro acc item hacc
    dsimp only
    split
    · exact hacc
    · exact hacc.gtrans (WriterOrReaderFunctionForSubPrefabOverride_grows W _ _ _)
  · exact Grows.grefl W s

theorem SerializeActorRecursive3_grows (W : World) (fuel : Nat) :
    ∀ (a : UObject) (s : ActorSerializer), Grows W s (SerializeActorRecursive W fuel a s).2 := by
  induction fuel with
  | zero => intro a s; exact Grows.grefl W _
  | succ n ih =>
    intro a s
    unfold SerializeActorRecursive
    split
    · exact (FindOrAddAssetIdFromList_grows W _ _).gtrans (SerializeOverrideParameters3_grows W _ _)
    dsimp only
    refine foldl_inv (fun acc : List FLGUIActorSaveData × ActorSerializer => Grows W s acc.2) _ ?_ _ _ ?_
    · intro acc c h; exact h.gtrans (ih c acc.2)
    · exact (FindOrAddClassFromList_grows W _ _).gtrans (WriterOrReaderFunction_grows W _ _ _)

theorem SerializeObjectArray3_body_grows (W : World) (st : ObjState) (o : UObject) :
    Grows W st.1 (SerializeObjectArray_body W st o).1 := by
  unfold SerializeObjectArray_body
  dsimp only
  split <;>
    exact (FindOrAddClassFromList_grows W _ _).gtrans (WriterOrReaderFunction_grows W _ _ _)

theorem SerializeObjectArray3_grows (W : World) (fuel : Nat) :
    ∀ (i : Nat) (st : ObjState), Grows W st.1 (SerializeObjectArray W fuel i st).1 := by
  induction fuel with
  | zero => intro i st; exact Grows.grefl W _
  | succ n ih =>
    intro i st
    unfold SerializeObjectArray
    split
    · exact Grows.grefl W _
    · exact (SerializeObjectArray3_body_grows W st _).gtrans (ih _ _)

theorem SerializeActor3_mapGrows (W : World) (fuel : Nat) (s : ActorSerializer) (Root : UObject)
    (P : ULPrefab) :
    MapGrows W s.MapObjectToGuid (SerializeActor W fuel s Root P).1.MapObjectToGuid := by
  have h1 := CollectActorRecursive3_mapGrows W fuel Root s
  have h2 := (SerializeActorRecursive3_grows W fuel Root (CollectActorRecursive W fuel Root s)).2.2.2.2.2.1
  have h3 := (SerializeObjectArray3_grows W fuel 0
    ((SerializeActorRecursive W fuel Root (CollectActorRecursive W fuel Root s)).2, [], [])).2.2.2.2.2.1
  have h : MapGrows W s.MapObjectToGuid (SerializeActorToData W fuel s Root).1.MapObjectToGuid :=
    (h1.mtrans h2).mtrans h3
  unfold SerializeActor
  dsimp only
  split <;> exact h

end LPrefabSystem3

namespace LPrefabSystem7

theorem SerializeActor7_mapGrows (W : World) (fuel : Nat) (s : ActorSerializer) (Root : UObject)
    (P : ULPrefab) :
    MapGrows W s.MapObjectToGuid (SerializeActor W fuel s Root P).1.MapObjectToGuid := by
  have h1 := (CollectActorRecursive7_keeps W fuel Root s).2.2.2
  have h2 := (SerializeActorArray7_grows W (CollectActorRecursive W fuel Root s, default)).2.2.2.2.2.1
  have h3 := (SerializeObjectArray7_grows W fuel 0
    (SerializeActorArray W (CollectActorRecursive W fuel Root s, default))).2.2.2.2.2.1
  have h : MapGrows W s.MapObjectToGuid (SerializeActorToData W fuel s Root).1.MapObjectToGuid :=
    (h1.mtrans h2).mtrans h3
  unfold SerializeActor
  dsimp only
  split <;> exact h

end LPrefabSystem7

/-! ## The preprocessing of the caller's map -/

theorem PreprocessMap_fold_Find (W : World) (M : TMap UObject FGuid) :
    ∀ (acc : TMap UObject FGuid) (k : UObject), (TMap.Keys M).Nodup →
      TMap.Find (M.foldl
        (fun m KeyValue => if W.IsValid KeyValue.1 then TMap.Add m KeyValue.1 KeyValue.2 else m) acc) k
      = if k ∈ TMap.Keys M ∧ W.IsValid k = true then TMap.Find M k else TMap.Find acc k := by
  induction M with
  | nil => intro acc k _; simp [TMap.Keys]
  | cons p M ih =>
    intro acc k hnd
    obtain ⟨k0, v0⟩ := p
    simp only [TMap.Keys, List.map_cons, List.nodup_cons] at hnd
    simp only [List.foldl_cons]
    rw [ih _ k hnd.2]
    by_cases hk : k0 = k
    · subst hk
      have hnot : ¬ (k0 ∈ TMap.Keys M ∧ W.IsValid k0 = true) := fun h => hnd.1 h.1
      rw [if_neg hnot]
      by_cases hv : W.IsValid k0 = true
      · simp [hv, TMap.Find_Add_self, TMap.Keys, TMap.Find]
      · simp [hv, TMap.Keys, TMap.Find]
    · have hk' : ¬ k = k0 := fun h => hk h.symm
      have hacc : TMap.Find (if W.IsValid k0 = true then TMap.Add acc k0 v0 else acc) k
          = TMap.Find acc k := by
        split
        · exact TMap.Find_Add_ne _ _ _ _ hk
        · rfl
      rw [hacc]
      simp only [TMap.Keys, List.map_cons, List.mem_cons, hk', false_or, TMap.Find, hk, if_false]

theorem PreprocessMap_Find (W : World) (M : TMap UObject FGuid) (k : UObject)
    (hnd : (TMap.Keys M).Nodup) :
    TMap.Find (PreprocessMap W M) k = if W.IsValid k = true then TMap.Find M k else none := by
  unfold PreprocessMap
  rw [PreprocessMap_fold_Find W M [] k hnd]
  by_cases hv : W.IsValid k = true
  · by_cases hm : k ∈ TMap.Keys M
    · simp [hv, hm]
    · simp [hv, hm, TMap.Find, (TMap.Find_eq_none_iff M k).mpr hm]
  · simp [hv, TMap.Find]

end LPrefab

namespace LPrefab

/-! ## Algo::Sort sorts -/

theorem Algo_Sort_scan_eq {α : Type} (P : α → α → Bool) (items : List α) :
    ∀ (pre : List α) (mv : α) (mid : List α),
      (Algo_Sort_scan P pre mv mid items).1 ++
        (Algo_Sort_scan P pre mv mid items).2.1 :: (Algo_Sort_scan P pre mv mid items).2.2
        = pre ++ mv :: (mid ++ items) := by
  induction items with
  | nil => intro pre mv mid; simp [Algo_Sort_scan]
  | cons x xs ih =>
    intro pre mv mid
    unfold Algo_Sort_scan
    split
    · rw [ih]; simp
    · rw [ih]; simp

theorem Algo_Sort_scan_max {α : Type} (P : α → α → Bool)
    (htrans : ∀ a b c, P a b = true → P b c = true → P a c = true)
    (hasymm : ∀ a b, P a b = true → P b a = false) (items : List α) :
    ∀ (pre : List α) (mv : α) (mid : List α),
      (∀ y ∈ pre ++ mid, P mv y = false) →
      ∀ y ∈ (Algo_Sort_scan P pre mv mid items).1 ++ (Algo_Sort_scan P pre mv mid items).2.2,
        P (Algo_Sort_scan P pre mv mid items).2.1 y = false := by
  induction items with
  | nil => intro pre mv mid h; simpa [Algo_Sort_scan] using h
  | cons x xs ih =>
    intro pre mv mid h
    unfold Algo_Sort_scan
    split
    · rename_i hx
      apply ih
      intro y hy
      simp only [List.append_nil, List.mem_append, List.mem_cons] at hy
      have hcase : y = mv ∨ y ∈ pre ++ mid := by
        rcases hy with hy | hy | hy
        · right; simp [hy]
        · left; exact hy
        · right; simp [hy]
      rcases hcase with rfl | hy
      · exact hasymm _ _ hx
      · cases hxy : P x y with
        | false => rfl
        | true => have := htrans _ _ _ hx hxy; rw [h y hy] at this; cases this
    · rename_i hx
      apply ih
      intro y hy
      simp only [List.mem_append, List.mem_cons, List.mem_singleton, List.not_mem_nil, or_false] at hy
      rcases hy with hy | hy | hy
      · exact h y (by simp [hy])
      · exact h y (by simp [hy])
      · subst hy; simpa using hx

theorem Algo_Sort_rest_perm {α : Type} (pre mid : List α) (mv : α) :
    List.Perm (Algo_Sort_rest pre mid ++ [mv]) (pre ++ mv :: mid) := by
  unfold Algo_Sort_rest
  rcases List.eq_nil_or_concat mid with h | ⟨init, last, h⟩
  · subst h; simp
  · subst h
    simp only [List.concat_eq_append, List.getLast?_append, List.getLast?_singleton, Option.or_some, List.dropLast_concat, List.append_assoc, List.cons_append]
    apply List.Perm.append_left
    have : List.Perm (last :: (init ++ [mv])) (mv :: (init ++ [last])) := by
      have h1 : List.Perm (init ++ [mv]) (mv :: init) := List.perm_append_singleton mv init
      have h2 : List.Perm (init ++ [last]) (last :: init) := List.perm_append_singleton last init
      exact ((List.Perm.cons last h1).trans (List.Perm.swap mv last init)).trans (List.Perm.cons mv h2.symm)
    exact this

theorem Algo_Sort_passes_spec {α : Type} (P : α → α → Bool)
    (htrans : ∀ a b c, P a b = true → P b c = true → P a c = true)
    (hasymm : ∀ a b, P a b = true → P b a = false) :
    ∀ (n : Nat) (l : List α), l.length ≤ n →
      List.Perm (Algo_Sort_passes P n l) l ∧
        List.Pairwise (fun a b => P b a = false) (Algo_Sort_passes P n l) := by
  intro n
  induction n with
  | zero =>
    intro l hl
    have : l = [] := List.length_eq_zero.mp (Nat.le_zero.mp hl)
    subst this; simp [Algo_Sort_passes]
  | succ n ih =>
    intro l hl
    cases l with
    | nil => simp [Algo_Sort_passes]
    | cons a rest =>
      have heq := Algo_Sort_scan_eq P rest [] a []
      have hmax := Algo_Sort_scan_max P htrans hasymm rest [] a [] (by simp)
      simp only [Algo_Sort_passes]
      generalize Algo_Sort_scan P [] a [] rest = r at heq hmax
      obtain ⟨pre, mv, mid⟩ := r
      simp only [List.nil_append] at heq hmax ⊢
      have hperm := Algo_Sort_rest_perm pre mid mv
      have hlen : (Algo_Sort_rest pre mid).length ≤ n := by
        have h1 := hperm.length_eq
        rw [heq] at h1
        simp only [List.length_append, List.length_cons, List.length_nil] at h1 hl
        omega
      obtain ⟨ihp, ihs⟩ := ih _ hlen
      constructor
      · rw [← heq]
        exact (List.Perm.append_right [mv] ihp).trans hperm
      · rw [List.pairwise_append]
        refine ⟨ihs, by simp, ?_⟩
        intro x hx y hy
        simp only [List.mem_singleton] at hy
        subst hy
        have hx' : x ∈ Algo_Sort_rest pre mid := ihp.subset hx
        have hx'' : x ∈ pre ++ y :: mid := hperm.subset (by simp [hx'])
        simp only [List.mem_append, List.mem_cons] at hx''
        rcases hx'' with h | h | h
        · exact hmax x (by simp [h])
        · subst h
          cases hxx : P x x with
          | false => rfl
          | true => have := hasymm _ _ hxx; rw [hxx] at this; cases this
        · exact hmax x (by simp [h])

theorem Algo_Sort_perm {α : Type} (P : α → α → Bool)
    (htrans : ∀ a b c, P a b = true → P b c = true → P a c = true)
    (hasymm : ∀ a b, P a b = true → P b a = false) (l : List α) :
    List.Perm (Algo_Sort P l) l :=
  (Algo_Sort_passes_spec P htrans hasymm l.length l (Nat.le_refl _)).1

theorem Algo_Sort_sorted {α : Type} (P : α → α → Bool)
    (htrans : ∀ a b c, P a b = true → P b c = true → P a c = true)
    (hasymm : ∀ a b, P a b = true → P b a = false) (l : List α) :
    List.Pairwise (fun a b => P b a = false) (Algo_Sort P l) :=
  (Algo_Sort_passes_spec P htrans hasymm l.length l (Nat.le_refl _)).2

theorem FString_CompareLess_trans (a b c : FString) (h1 : FString_CompareLess a b = true)
    (h2 : FString_CompareLess b c = true) : FString_CompareLess a c = true := by
  unfold FString_CompareLess at *
  simp only [decide_eq_true_eq] at *
  exact lt_trans h1 h2

theorem FString_CompareLess_asymm (a b : FString) (h1 : FString_CompareLess a b = true) :
    FString_CompareLess b a = false := by
  unfold FString_CompareLess at *
  simp only [decide_eq_true_eq, decide_eq_false_iff_not] at *
  exact lt_asymm h1

/-- Without a hook the children are visited in a permutation of the attachment order. -/
theorem SortChildrenActors_perm (W : World) (h : W.Serialize_SortChildrenActors = none)
    (l : List UObject) : List.Perm (SortChildrenActors W l) l := by
  unfold SortChildrenActors
  rw [h]
  exact Algo_Sort_perm
    (fun A B => FString_CompareLess (W.GetActorLabel A) (W.GetActorLabel B))
    (fun a b c => FString_CompareLess_trans _ _ _)
    (fun a b => FString_CompareLess_asymm _ _) l

/-- Without a hook the children are visited in ascending order of their labels. -/
theorem SortChildrenActors_sorted (W : World) (h : W.Serialize_SortChildrenActors = none)
    (l : List UObject) :
    List.Pairwise (fun a b => W.GetActorLabel a ≤ W.GetActorLabel b) (SortChildrenActors W l) := by
  unfold SortChildrenActors
  rw [h]
  have hs := Algo_Sort_sorted
    (fun A B => FString_CompareLess (W.GetActorLabel A) (W.GetActorLabel B))
    (fun a b c => FString_CompareLess_trans _ _ _)
    (fun a b => FString_CompareLess_asymm _ _) l
  refine hs.imp ?_
  intro a b hab
  unfold FString_CompareLess at hab
  simp only [decide_eq_false_iff_not] at hab
  exact not_lt.mp hab

/-- The visited children are attached children when the hook, if bound, only reorders. -/
theorem SortChildrenActors_mem (W : World) (hh : HookOnlyReorders W) (l : List UObject)
    (c : UObject) (hc : c ∈ SortChildrenActors W l) : c ∈ l := by
  cases h : W.Serialize_SortChildrenActors with
  | some hook =>
    unfold SortChildrenActors at hc
    rw [h] at hc
    exact hh hook h l c hc
  | none => exact (SortChildrenActors_perm W h l).subset hc

end LPrefab

namespace LPrefab

/-! ## The collection of generation 7 -/

namespace LPrefabSystem7

theorem Collectable_of_guards (W : World) (e : Bool) (a : UObject)
    (h1 : ¬ (!W.IsValid a) = true) (h2 : ¬ W.IsTransient a = true)
    (h3 : ¬ (!e && W.bIsEditorOnlyActor a) = true) : Collectable W e a := by
  refine ⟨by simpa using h1, by simpa using h2, ?_⟩
  cases e with
  | true => exact Or.inl rfl
  | false => right; simpa using h3

theorem CollectActorRecursive7_succ_collectable (W : World) (n : Nat) (a : UObject)
    (s : ActorSerializer) (h : Collectable W s.bIsEditorOrRuntime a) :
    CollectActorRecursive W (n + 1) a s =
      (SortChildrenActors W (W.GetAttachedActors a)).foldl
        (fun st ChildActor => CollectActorRecursive W n ChildActor st)
        (AddNewGuidIfAbsent W (CollectActor s a) a) := by
  obtain ⟨h1, h2, h3⟩ := h
  have h3' : (!s.bIsEditorOrRuntime && W.bIsEditorOnlyActor a) = false := by
    rcases h3 with h3 | h3 <;> simp [h3]
  rw [CollectActorRecursive]
  simp [h1, h2, h3']

theorem CollectActorRecursive7_succ_skipped (W : World) (n : Nat) (a : UObject)
    (s : ActorSerializer) (h : ¬ Collectable W s.bIsEditorOrRuntime a) :
    CollectActorRecursive W (n + 1) a s = s := by
  rw [CollectActorRecursive]
  split
  · rfl
  split
  · rfl
  split
  · rfl
  · rename_i h1 h2 h3
    exact absurd (Collectable_of_guards W _ a h1 h2 h3) h

theorem CollectActor_try (s : ActorSerializer) (a x : UObject) :
    x ∈ (CollectActor s a).TrySerializeActorArray ↔
      x ∈ s.TrySerializeActorArray ∨
        (x = a ∧ (a ∉ s.SubPrefabActorArray ∨ TMap.Contains s.SubPrefabMap a = true)) := by
  unfold CollectActor
  by_cases h1 : a ∈ s.SubPrefabActorArray
  · by_cases h2 : TMap.Contains s.SubPrefabMap a = true
    · simp [h1, h2]
    · simp [h1, h2]
  · simp [h1]

theorem CollectActor_will (s : ActorSerializer) (a x : UObject) :
    x ∈ (CollectActor s a).WillSerializeActorArray ↔
      x ∈ s.WillSerializeActorArray ∨ (x = a ∧ a ∉ s.SubPrefabActorArray) := by
  unfold CollectActor
  by_cases h1 : a ∈ s.SubPrefabActorArray
  · by_cases h2 : TMap.Contains s.SubPrefabMap a = true
    · simp [h1, h2]
    · simp [h1, h2]
  · simp [h1]

theorem AddNewGuidIfAbsent_lists (W : World) (s : ActorSerializer) (a : UObject) :
    (AddNewGuidIfAbsent W s a).TrySerializeActorArray = s.TrySerializeActorArray ∧
    (AddNewGuidIfAbsent W s a).WillSerializeActorArray = s.WillSerializeActorArray :=
  ⟨(AddNewGuidIfAbsent_grows W s a).2.2.2.2.1, (AddNewGuidIfAbsent_grows W s a).2.2.2.1⟩

theorem AddNewGuidIfAbsent_contains_iff (W : World) (s : ActorSerializer) (a x : UObject) :
    TMap.Contains (AddNewGuidIfAbsent W s a).MapObjectToGuid x = true ↔
      TMap.Contains s.MapObjectToGuid x = true ∨ x = a := by
  constructor
  · intro h
    by_cases hx : x = a
    · exact Or.inr hx
    · left
      unfold AddNewGuidIfAbsent at h
      split at h
      · rw [TMap.Contains_eq_true_iff] at h ⊢
        obtain ⟨v, hv⟩ := h
        rw [TMap.Find_Add_ne _ _ _ _ (fun e => hx e.symm)] at hv
        exact ⟨v, hv⟩
      · exact h
  · intro h
    rcases h with h | h
    · exact (AddNewGuidIfAbsent_mapGrows W s a).contains x h
    · subst h; exact AddNewGuidIfAbsent_contains W s x

/-- The worklists and the identity map only grow during the collection. -/
theorem CollectActorRecursive7_mono (W : World) (fuel : Nat) :
    ∀ (a : UObject) (s : ActorSerializer) (x : UObject),
      (x ∈ s.TrySerializeActorArray → x ∈ (CollectActorRecursive W fuel a s).TrySerializeActorArray) ∧
      (x ∈ s.WillSerializeActorArray → x ∈ (CollectActorRecursive W fuel a s).WillSerializeActorArray) := by
  induction fuel with
  | zero => intro a s x; exact ⟨id, id⟩
  | succ n ih =>
    intro a s x
    by_cases hc : Collectable W s.bIsEditorOrRuntime a
    · rw [CollectActorRecursive7_succ_collectable W n a s hc]
      refine foldl_inv (fun acc : ActorSerializer =>
        (x ∈ s.TrySerializeActorArray → x ∈ acc.TrySerializeActorArray) ∧
        (x ∈ s.WillSerializeActorArray → x ∈ acc.WillSerializeActorArray)) _ ?_ _ _ ?_
      · intro acc c ⟨h1, h2⟩
        exact ⟨fun h => (ih c acc x).1 (h1 h), fun h => (ih c acc x).2 (h2 h)⟩
      · obtain ⟨e1, e2⟩ := AddNewGuidIfAbsent_lists W (CollectActor s a) a
        rw [e1, e2]
        exact ⟨fun h => (CollectActor_try s a x).mpr (Or.inl h),
          fun h => (CollectActor_will s a x).mpr (Or.inl h)⟩
    · rw [CollectActorRecursive7_succ_skipped W n a s hc]
      exact ⟨id, id⟩

/-- What the collection adds: an actor newly in a worklist, or newly in the identity map,
is reached from the root through actors that are not skipped; it is in
`TrySerializeActorArray` only if it is outside the sub-prefabs or the root actor of one, and in
`WillSerializeActorArray` only if it is outside the sub-prefabs. -/
theorem CollectActorRecursive7_new (W : World) (hh : HookOnlyReorders W) (Root : UObject)
    (fuel : Nat) :
    ∀ (a : UObject) (s : ActorSerializer),
      (Collectable W s.bIsEditorOrRuntime a → CollectChain W s.bIsEditorOrRuntime Root a) →
      ∀ x,
        (x ∈ (CollectActorRecursive W fuel a s).TrySerializeActorArray →
          x ∈ s.TrySerializeActorArray ∨
            (CollectChain W s.bIsEditorOrRuntime Root x ∧
              (x ∉ s.SubPrefabActorArray ∨ TMap.Contains s.SubPrefabMap x = true))) ∧
        (x ∈ (CollectActorRecursive W fuel a s).WillSerializeActorArray →
          x ∈ s.WillSerializeActorArray ∨
            (CollectChain W s.bIsEditorOrRuntime Root x ∧ x ∉ s.SubPrefabActorArray)) ∧
        (TMap.Contains (CollectActorRecursive W fuel a s).MapObjectToGuid x = true →
          TMap.Contains s.MapObjectToGuid x = true ∨ CollectChain W s.bIsEditorOrRuntime Root x) := by
  induction fuel with
  | zero => intro a s _ x; exact ⟨Or.inl, Or.inl, Or.inl⟩
  | succ n ih =>
    intro a s hroot x
    by_cases hc : Collectable W s.bIsEditorOrRuntime a
    · rw [CollectActorRecursive7_succ_collectable W n a s hc]
      have hchain := hroot hc
      refine (foldl_inv_mem (fun acc : ActorSerializer =>
        (acc.bIsEditorOrRuntime = s.bIsEditorOrRuntime ∧ acc.SubPrefabMap = s.SubPrefabMap ∧
          acc.SubPrefabActorArray = s.SubPrefabActorArray) ∧
        (x ∈ acc.TrySerializeActorArray →
          x ∈ s.TrySerializeActorArray ∨
            (CollectChain W s.bIsEditorOrRuntime Root x ∧
              (x ∉ s.SubPrefabActorArray ∨ TMap.Contains s.SubPrefabMap x = true))) ∧
        (x ∈ acc.WillSerializeActorArray →
          x ∈ s.WillSerializeActorArray ∨
            (CollectChain W s.bIsEditorOrRuntime Root x ∧ x ∉ s.SubPrefabActorArray)) ∧
        (TMap.Contains acc.MapObjectToGuid x = true →
          TMap.Contains s.MapObjectToGuid x = true ∨ CollectChain W s.bIsEditorOrRuntime Root x))
        (fun st ChildActor => CollectActorRecursive W n ChildActor st)
        (SortChildrenActors W (W.GetAttachedActors a)) ?_ _ ?_).2
      · intro acc c hcmem ⟨⟨k1, k2, k3⟩, h1, h2, h3⟩
        obtain ⟨i1, i2, i3, _⟩ := CollectActorRecursive7_keeps W n c acc
        refine ⟨⟨i1.trans k1, i2.trans k2, i3.trans k3⟩, ?_⟩
        have hatt := SortChildrenActors_mem W hh _ c hcmem
        have hcroot : Collectable W acc.bIsEditorOrRuntime c →
            CollectChain W acc.bIsEditorOrRuntime Root c := by
          rw [k1]
          intro hcc
          exact CollectChain.step hchain hatt hcc
        obtain ⟨j1, j2, j3⟩ := ih c acc hcroot x
        rw [k1, k2, k3] at j1
        rw [k1, k3] at j2
        rw [k1] at j3
        refine ⟨?_, ?_, ?_⟩
        · intro hx
          rcases j1 hx with h | h
          · exact h1 h
          · exact Or.inr h
        · intro hx
          rcases j2 hx with h | h
          · exact h2 h
          · exact Or.inr h
        · intro hx
          rcases j3 hx with h | h
          · exact h3 h
          · exact Or.inr h
      · obtain ⟨e1, e2⟩ := AddNewGuidIfAbsent_lists W (CollectActor s a) a
        obtain ⟨g1, g2, g3, _⟩ := AddNewGuidIfAbsent_grows W (CollectActor s a) a
        obtain ⟨c1, c2, c3, c4⟩ := CollectActor_keeps s a
        refine ⟨⟨g1.trans c1, g2.trans c2, g3.trans c3⟩, ?_, ?_, ?_⟩
        · rw [e1, CollectActor_try]
          rintro (h | ⟨rfl, h⟩)
          · exact Or.inl h
          · exact Or.inr ⟨hchain, h⟩
        · rw [e2, CollectActor_will]
          rintro (h | ⟨rfl, h⟩)
          · exact Or.inl h
          · exact Or.inr ⟨hchain, h⟩
        · rw [AddNewGuidIfAbsent_contains_iff, c4]
          rintro (h | rfl)
          · exact Or.inl h
          · exact Or.inr hchain
    · rw [CollectActorRecursive7_succ_skipped W n a s hc]
      exact ⟨Or.inl, Or.inl, Or.inl⟩

/-- What the collection adds to the worklists, whatever the sort hook does: only actors
outside the sub-prefabs and root actors of sub-prefabs. -/
theorem CollectActorRecursive7_new_lists (W : World) (fuel : Nat) :
    ∀ (a : UObject) (s : ActorSerializer) (x : UObject),
      (x ∈ (CollectActorRecursive W fuel a s).TrySerializeActorArray →
        x ∈ s.TrySerializeActorArray ∨
          (x ∉ s.SubPrefabActorArray ∨ TMap.Contains s.SubPrefabMap x = true)) ∧
      (x ∈ (CollectActorRecursive W fuel a s).WillSerializeActorArray →
        x ∈ s.WillSerializeActorArray ∨ x ∉ s.SubPrefabActorArray) := by
  induction fuel with
  | zero => intro a s x; exact ⟨Or.inl, Or.inl⟩
  | succ n ih =>
    intro a s x
    by_cases hc : Collectable W s.bIsEditorOrRuntime a
    · rw [CollectActorRecursive7_succ_collectable W n a s hc]
      refine (foldl_inv (fun acc : ActorSerializer =>
        (acc.SubPrefabMap = s.SubPrefabMap ∧ acc.SubPrefabActorArray = s.SubPrefabActorArray) ∧
        (x ∈ acc.TrySerializeActorArray →
          x ∈ s.TrySerializeActorArray ∨
            (x ∉ s.SubPrefabActorArray ∨ TMap.Contains s.SubPrefabMap x = true)) ∧
        (x ∈ acc.WillSerializeActorArray →
          x ∈ s.WillSerializeActorArray ∨ x ∉ s.SubPrefabActorArray))
        (fun st ChildActor => CollectActorRecursive W n ChildActor st) ?_
        (SortChildrenActors W (W.GetAttachedActors a)) _ ?_).2
      · intro acc c ⟨⟨k2, k3⟩, h1, h2⟩
        obtain ⟨_, i2, i3, _⟩ := CollectActorRecursive7_keeps W n c acc
        refine ⟨⟨i2.trans k2, i3.trans k3⟩, ?_, ?_⟩
        · intro hx
          rcases (ih c acc x).1 hx with h | h
          · exact h1 h
          · rw [k2, k3] at h; exact Or.inr h
        · intro hx
          rcases (ih c acc x).2 hx with h | h
          · exact h2 h
          · rw [k3] at h; exact Or.inr h
      · obtain ⟨e1, e2⟩ := AddNewGuidIfAbsent_lists W (CollectActor s a) a
        obtain ⟨_, g2, g3, _⟩ := AddNewGuidIfAbsent_grows W (CollectActor s a) a
        obtain ⟨_, c2, c3, _⟩ := CollectActor_keeps s a
        refine ⟨⟨g2.trans c2, g3.trans c3⟩, ?_, ?_⟩
        · rw [e1, CollectActor_try]
          rintro (h | ⟨rfl, h⟩)
          · exact Or.inl h
          · exact Or.inr h
        · rw [e2, CollectActor_will]
          rintro (h | ⟨rfl, h⟩)
          · exact Or.inl h
          · exact Or.inr h
    · rw [CollectActorRecursive7_succ_skipped W n a s hc]
      exact ⟨Or.inl, Or.inl⟩

/-- Every actor of the worklist has a GUID once the collection is over. -/
theorem CollectActorRecursive7_try_mapped (W : World) (fuel : Nat) :
    ∀ (a : UObject) (s : ActorSerializer),
      (∀ x ∈ s.TrySerializeActorArray, TMap.Contains s.MapObjectToGuid x = true) →
      ∀ x ∈ (CollectActorRecursive W fuel a s).TrySerializeActorArray,
        TMap.Contains (CollectActorRecursive W fuel a s).MapObjectToGuid x = true := by
  induction fuel with
  | zero => intro a s h; exact h
  | succ n ih =>
    intro a s h
    by_cases hc : Collectable W s.bIsEditorOrRuntime a
    · rw [CollectActorRecursive7_succ_collectable W n a s hc]
      refine foldl_inv (fun acc : ActorSerializer =>
        ∀ x ∈ acc.TrySerializeActorArray, TMap.Contains acc.MapObjectToGuid x = true)
        (fun st ChildActor => CollectActorRecursive W n ChildActor st) ?_
        (SortChildrenActors W (W.GetAttachedActors a)) _ ?_
      · intro acc c hacc; exact ih c acc hacc
      · intro x hx
        rw [(AddNewGuidIfAbsent_lists W (CollectActor s a) a).1, CollectActor_try] at hx
        rw [AddNewGuidIfAbsent_contains_iff, (CollectActor_keeps s a).2.2.2]
        rcases hx with hx | ⟨rfl, _⟩
        · exact Or.inl (h x hx)
        · exact Or.inr rfl
    · rw [CollectActorRecursive7_succ_skipped W n a s hc]
      exact h

/-- An actor among the objects of a registered sub-prefab is in `SubPrefabActorArray`. -/
theorem mem_CollectSubPrefabActors (W : World) (Sub : TMap UObject FLSubPrefabData)
    (a : UObject) (hactor : W.IsActor a = true)
    (hmem : ∃ kd ∈ Sub, ∃ g, (g, some a) ∈ kd.2.MapGuidToObject) :
    a ∈ CollectSubPrefabActors W Sub := by
  have inner_mono : ∀ (l : TMap FGuid (Option UObject)) (acc : List UObject), a ∈ acc →
      a ∈ l.foldl (fun acc2 GuidToObjectKeyValue =>
        match GuidToObjectKeyValue.2 with
        | some Object => if W.IsActor Object then acc2 ++ [Object] else acc2
        | none => acc2) acc := by
    intro l acc h
    refine foldl_inv (fun acc : List UObject => a ∈ acc) _ ?_ _ _ h
    intro b kv hb
    dsimp only
    split
    · split
      · exact List.mem_append_left _ hb
      · exact hb
    · exact hb
  have inner_mem : ∀ (l : TMap FGuid (Option UObject)) (acc : List UObject) (g : FGuid),
      (g, some a) ∈ l →
      a ∈ l.foldl (fun acc2 GuidToObjectKeyValue =>
        match GuidToObjectKeyValue.2 with
        | some Object => if W.IsActor Object then acc2 ++ [Object] else acc2
        | none => acc2) acc := by
    intro l
    induction l with
    | nil => intro acc g h; cases h
    | cons kv l ih =>
      intro acc g h
      rw [List.foldl_cons]
      rcases List.mem_cons.mp h with h | h
      · subst h
        apply inner_mono
        simp [hactor]
      · exact ih _ g h
  obtain ⟨kd, hkd, g, hg⟩ := hmem
  have outer : ∀ (S : TMap UObject FLSubPrefabData) (acc0 : List UObject), kd ∈ S →
      a ∈ S.foldl (fun acc SubPrefabKeyValue =>
        SubPrefabKeyValue.2.MapGuidToObject.foldl
          (fun acc2 GuidToObjectKeyValue =>
            match GuidToObjectKeyValue.2 with
            | some Object => if W.IsActor Object then acc2 ++ [Object] else acc2
            | none => acc2)
          acc) acc0 := by
    intro S
    induction S with
    | nil => intro acc0 h; cases h
    | cons p S ih =>
      intro acc0 h
      rw [List.foldl_cons]
      rcases List.mem_cons.mp h with h | h
      · subst h
        refine foldl_inv (fun acc : List UObject => a ∈ acc) _ ?_ _ _ (inner_mem _ _ g hg)
        intro b q hb
        exact inner_mono _ _ hb
      · exact ih _ h
  exact outer Sub [] hkd

end LPrefabSystem7

end LPrefab

namespace LPrefab

/-! ## The records of generation 7 -/

namespace TMap

variable {K V : Type} [DecidableEq K]

theorem mem_Keys_Add (m : TMap K V) (k k' : K) (v : V) (h : k' ∈ Keys (Add m k v)) :
    k' ∈ Keys m ∨ k' = k := by
  induction m with
  | nil => simp [Add, Keys] at h; exact Or.inr h
  | cons p m ih =>
    obtain ⟨k0, v0⟩ := p
    by_cases h0 : k0 = k
    · simp only [Add, h0, if_true, Keys, List.map_cons, List.mem_cons] at h ⊢
      rcases h with h | h
      · exact Or.inr h
      · exact Or.inl (Or.inr h)
    · simp only [Add, h0, if_false, Keys, List.map_cons, List.mem_cons] at h ⊢
      rcases h with h | h
      · exact Or.inl (Or.inl h)
      · rcases ih h with h | h
        · exact Or.inl (Or.inr h)
        · exact Or.inr h

end TMap

namespace LPrefabSystem7

/-- What one step of `SerializeActorArray` emits. For every actor: one record, appended
to `SavedActors`, whose `ActorGuid` is the GUID of the actor in the identity map. For
the root actor of a sub-prefab: a reference record and no property blob. For any other
actor: a full record and a property blob under the GUID of the actor. -/
theorem SerializeActorArray7_body_record (W : World) (st : SaveState) (a : UObject) :
    ∃ rec : FLGUIActorSaveData,
      (SerializeActorArray_body W st a).2.SavedActors = st.2.SavedActors ++ [rec] ∧
      rec.ActorGuid = TMap.FindChecked st.1.MapObjectToGuid a ∧
      (∀ d, TMap.Find st.1.SubPrefabMap a = some d →
        rec.bIsPrefab = true ∧
        (SerializeActorArray_body W st a).1.ReferenceAssetList[rec.PrefabAssetIndex]?
          = some d.PrefabAsset ∧
        rec.MapObjectGuidFromParentPrefabToSubPrefab = d.MapObjectGuidFromParentPrefabToSubPrefab ∧
        rec.ObjectClass = (default : FLGUIActorSaveData).ObjectClass ∧
        rec.ObjectFlags = (default : FLGUIActorSaveData).ObjectFlags ∧
        rec.RootComponentGuid = (default : FLGUIActorSaveData).RootComponentGuid ∧
        rec.DefaultSubObjectGuidArray = [] ∧ rec.DefaultSubObjectNameArray = [] ∧
        (SerializeActorArray_body W st a).2.SavedObjectData = st.2.SavedObjectData) ∧
      (TMap.Find st.1.SubPrefabMap a = none →
        rec.bIsPrefab = false ∧
        ∃ bytes, (SerializeActorArray_body W st a).2.SavedObjectData
          = TMap.Add st.2.SavedObjectData (TMap.FindChecked st.1.MapObjectToGuid a) bytes) := by
  unfold SerializeActorArray_body
  dsimp only
  cases hfind : TMap.Find st.1.SubPrefabMap a with
  | some d =>
    dsimp only
    refine ⟨_, rfl, rfl, ?_, ?_⟩
    · intro d' hd'
      injection hd' with hd'
      subst hd'
      refine ⟨rfl, ?_, rfl, rfl, rfl, rfl, rfl, rfl, rfl⟩
      have hg := SerializeOverrideParameters_grows W d.ObjectOverrideParameterArray
        (FindOrAddAssetIdFromList st.1 d.PrefabAsset).2
      exact getElem?_of_prefix hg.2.2.2.2.2.2.1 _ _ (FindOrAdd_index _ _)
    · intro h; cases h
  | none =>
    dsimp only
    refine ⟨_, rfl, rfl, ?_, ?_⟩
    · intro d' hd'; cases hd'
    · intro _
      exact ⟨rfl, _, rfl⟩

/-- The records that `SerializeActorArray` emits for the actors of a list, in the order
of the list: their GUIDs are the GUIDs of these actors in the identity map, and the
property blobs are filed under the GUIDs of the actors that are not root actors of
sub-prefabs. -/
theorem SerializeActorArray7_fold_records (W : World) (l : List UObject) :
    ∀ (st : SaveState), (∀ x ∈ l, TMap.Contains st.1.MapObjectToGuid x = true) →
      Grows W st.1 (l.foldl (SerializeActorArray_body W) st).1 ∧
      (l.foldl (SerializeActorArray_body W) st).2.SavedActors.map (·.ActorGuid) =
        st.2.SavedActors.map (·.ActorGuid) ++ l.map (TMap.FindChecked st.1.MapObjectToGuid) ∧
      (∀ g ∈ TMap.Keys (l.foldl (SerializeActorArray_body W) st).2.SavedObjectData,
        g ∈ TMap.Keys st.2.SavedObjectData ∨
          ∃ x ∈ l, TMap.Find st.1.SubPrefabMap x = none ∧
            g = TMap.FindChecked st.1.MapObjectToGuid x) := by
  induction l with
  | nil => intro st _; exact ⟨Grows.grefl W _, by simp, fun g hg => Or.inl hg⟩
  | cons a l ih =>
    intro st hmapped
    rw [List.foldl_cons]
    have hgrow := SerializeActorArray7_body_grows W st a
    have hmapped' : ∀ x ∈ l,
        TMap.Contains (SerializeActorArray_body W st a).1.MapObjectToGuid x = true :=
      fun x hx => hgrow.2.2.2.2.2.1.contains x (hmapped x (List.mem_cons_of_mem _ hx))
    obtain ⟨ih1, ih2, ih3⟩ := ih (SerializeActorArray_body W st a) hmapped'
    obtain ⟨rec, hrec, hguid, hsub, hnot⟩ := SerializeActorArray7_body_record W st a
    refine ⟨hgrow.gtrans ih1, ?_, ?_⟩
    · rw [ih2, hrec]
      simp only [List.map_append, List.map_cons, List.map_nil, List.append_assoc,
        List.singleton_append, hguid]
      congr 2
      apply List.map_congr_left
      intro x hx
      exact hgrow.2.2.2.2.2.1.findChecked x (hmapped x (List.mem_cons_of_mem _ hx))
    · intro g hg
      rcases ih3 g hg with h | ⟨x, hx, hxs, hxg⟩
      · cases hfind : TMap.Find st.1.SubPrefabMap a with
        | some d =>
          rw [(hsub d hfind).2.2.2.2.2.2.2.2] at h
          exact Or.inl h
        | none =>
          obtain ⟨_, bytes, hb⟩ := hnot hfind
          rw [hb] at h
          rcases TMap.mem_Keys_Add _ _ _ _ h with h | h
          · exact Or.inl h
          · exact Or.inr ⟨a, List.mem_cons_self _ _, hfind, h⟩
      · right
        refine ⟨x, List.mem_cons_of_mem _ hx, ?_, ?_⟩
        · rw [← hgrow.2.1]; exact hxs
        · rw [hxg]
          exact hgrow.2.2.2.2.2.1.findChecked x (hmapped x (List.mem_cons_of_mem _ hx))

theorem SerializeObjectArray7_body_SavedActors (W : World) (st : SaveState) (o : UObject) :
    (SerializeObjectArray_body W st o).2.SavedActors = st.2.SavedActors := rfl

/-- The object pass leaves `SavedActors` as the actor pass made it. -/
theorem SerializeObjectArray7_SavedActors (W : World) (fuel : Nat) :
    ∀ (i : Nat) (st : SaveState),
      (SerializeObjectArray W fuel i st).2.SavedActors = st.2.SavedActors := by
  induction fuel with
  | zero => intro i st; rfl
  | succ n ih =>
    intro i st
    unfold SerializeObjectArray
    split
    · rfl
    · rw [ih]; rfl

/-- The actor pass only appends to `SavedActors`, one record for each actor. -/
theorem SerializeActorArray7_fold_appends (W : World) (l : List UObject) :
    ∀ (st : SaveState), ∃ t : List FLGUIActorSaveData,
      (l.foldl (SerializeActorArray_body W) st).2.SavedActors = st.2.SavedActors ++ t ∧
      t.length = l.length := by
  induction l with
  | nil => intro st; exact ⟨[], by simp, rfl⟩
  | cons a l ih =>
    intro st
    rw [List.foldl_cons]
    obtain ⟨t, ht, hlen⟩ := ih (SerializeActorArray_body W st a)
    obtain ⟨rec, hrec, _⟩ := SerializeActorArray7_body_record W st a
    refine ⟨rec :: t, ?_, by simp [hlen]⟩
    rw [ht, hrec]
    simp

/-- The record at place `i` of what the actor pass appends is the record that the loop
body emits for the `i`-th actor of the list, in a state that the earlier steps have
only grown. -/
theorem SerializeActorArray7_fold_nth (W : World) (l : List UObject) :
    ∀ (st : SaveState) (i : Nat) (x : UObject), l[i]? = some x →
      ∃ (sti : SaveState) (rec : FLGUIActorSaveData),
        Grows W st.1 sti.1 ∧
        (SerializeActorArray_body W sti x).2.SavedActors = sti.2.SavedActors ++ [rec] ∧
        (l.foldl (SerializeActorArray_body W) st).2.SavedActors[st.2.SavedActors.length + i]?
          = some rec ∧
        Grows W (SerializeActorArray_body W sti x).1 (l.foldl (SerializeActorArray_body W) st).1 := by
  induction l with
  | nil => intro st i x h; simp at h
  | cons a l ih =>
    intro st i x h
    rw [List.foldl_cons]
    cases i with
    | zero =>
      simp only [List.getElem?_cons_zero, Option.some.injEq] at h
      subst h
      obtain ⟨rec, hrec, _⟩ := SerializeActorArray7_body_record W st a
      obtain ⟨t, ht, _⟩ := SerializeActorArray7_fold_appends W l (SerializeActorArray_body W st a)
      refine ⟨st, rec, Grows.grefl W _, hrec, ?_, ?_⟩
      · rw [ht, hrec]
        simp only [Nat.add_zero, List.append_assoc, List.singleton_append]
        rw [List.getElem?_append_right (Nat.le_refl _)]
        simp
      · exact foldl_inv (fun acc : SaveState => Grows W (SerializeActorArray_body W st a).1 acc.1)
          _ (fun acc b hacc => hacc.gtrans (SerializeActorArray7_body_grows W acc b)) _ _
          (Grows.grefl W _)
    | succ j =>
      simp only [List.getElem?_cons_succ] at h
      obtain ⟨sti, rec, h1, h2, h3, h4⟩ := ih (SerializeActorArray_body W st a) j x h
      obtain ⟨rec0, hrec0, _⟩ := SerializeActorArray7_body_record W st a
      refine ⟨sti, rec, (SerializeActorArray7_body_grows W st a).gtrans h1, h2, ?_, h4⟩
      rw [hrec0] at h3
      simp only [List.length_append, List.length_cons, List.length_nil] at h3
      rw [← h3]
      congr 1
      omega

end LPrefabSystem7

end LPrefab

namespace LPrefab

/-! ## The order of the worklist of generation 7 -/

theorem AttachedBeneath_trans {W : World} {a b c : UObject} (h1 : AttachedBeneath W a b)
    (h2 : AttachedBeneath W b c) : AttachedBeneath W a c := by
  induction h2 with
  | self => exact h1
  | step _ hmem ih => exact AttachedBeneath.step ih hmem

theorem AttachedBeneath_rank {W : World} {rank : UObject → Nat} (ht : TreeShaped W rank)
    {a x : UObject} (h : AttachedBeneath W a x) : rank x ≤ rank a := by
  induction h with
  | self => exact Nat.le_refl _
  | step _ hmem ih => exact Nat.le_of_lt (Nat.lt_of_lt_of_le (ht.acyclic _ _ hmem) ih)

theorem TreeShaped_parent_unique {W : World} {rank : UObject → Nat} (ht : TreeShaped W rank)
    {p q c : UObject} (hp : c ∈ W.GetAttachedActors p) (hq : c ∈ W.GetAttachedActors q) :
    p = q := by
  have e1 := ht.parent _ _ hp
  have e2 := ht.parent _ _ hq
  rw [e1] at e2
  injection e2

/-- Nothing is beneath two different actors attached to the same parent. -/
theorem sibling_subtrees_disjoint {W : World} {rank : UObject → Nat} (ht : TreeShaped W rank)
    {a c1 c2 z : UObject} (h1 : c1 ∈ W.GetAttachedActors a) (h2 : c2 ∈ W.GetAttachedActors a)
    (hne : c1 ≠ c2) (hz1 : AttachedBeneath W c1 z) : ¬ AttachedBeneath W c2 z := by
  induction hz1 with
  | self =>
    intro hz2
    cases hz2 with
    | self => exact hne rfl
    | step hq hmem =>
      have e := TreeShaped_parent_unique ht hmem h1
      subst e
      have r1 := AttachedBeneath_rank ht hq
      have r2 := ht.acyclic _ _ h2
      omega
  | step hq hmem ih =>
    intro hz2
    cases hz2 with
    | self =>
      have e := TreeShaped_parent_unique ht hmem h2
      subst e
      have r1 := AttachedBeneath_rank ht hq
      have r2 := ht.acyclic _ _ h1
      omega
    | step hq' hmem' =>
      have e := TreeShaped_parent_unique ht hmem hmem'
      subst e
      exact ih hq'

/-- An actor and what is beneath an actor attached to it are never siblings. -/
theorem siblings_head {W : World} {rank : UObject → Nat} (ht : TreeShaped W rank)
    {a c y : UObject} (hc : c ∈ W.GetAttachedActors a) (hy : AttachedBeneath W c y) :
    SiblingsAscending W a y := by
  intro p hap hyp
  have r0 := ht.acyclic _ _ hap
  have rc := ht.acyclic _ _ hc
  cases hy with
  | self =>
    have e := TreeShaped_parent_unique ht hc hyp
    subst e
    omega
  | step hq hmem =>
    have e := TreeShaped_parent_unique ht hmem hyp
    subst e
    have r1 := AttachedBeneath_rank ht hq
    omega

/-- What is beneath two siblings: two such actors are siblings only if they are the two
siblings themselves. -/
theorem siblings_cross {W : World} {rank : UObject → Nat} (ht : TreeShaped W rank)
    {a c1 c2 x y : UObject} (h1 : c1 ∈ W.GetAttachedActors a) (h2 : c2 ∈ W.GetAttachedActors a)
    (hne : c1 ≠ c2) (hlab : W.GetActorLabel c1 ≤ W.GetActorLabel c2)
    (hx : AttachedBeneath W c1 x) (hy : AttachedBeneath W c2 y) : SiblingsAscending W x y := by
  intro p hxp hyp
  cases hx with
  | self =>
    have e := TreeShaped_parent_unique ht h1 hxp
    subst e
    cases hy with
    | self => exact hlab
    | step hq hmem =>
      have e := TreeShaped_parent_unique ht hmem hyp
      subst e
      have r1 := AttachedBeneath_rank ht hq
      have r2 := ht.acyclic _ _ h2
      omega
  | step hq hmem =>
    have e := TreeShaped_parent_unique ht hmem hxp
    subst e
    cases hy with
    | self =>
      have e := TreeShaped_parent_unique ht h2 hyp
      subst e
      have r1 := AttachedBeneath_rank ht hq
      have r2 := ht.acyclic _ _ h1
      omega
    | step hq' hmem' =>
      have e := TreeShaped_parent_unique ht hmem' hyp
      subst e
      exact absurd hq' (sibling_subtrees_disjoint ht h1 h2 hne hq)

namespace LPrefabSystem7

theorem CollectActor_try_append (W : World) (s : ActorSerializer) (a : UObject) :
    ∃ t0, (AddNewGuidIfAbsent W (CollectActor s a) a).TrySerializeActorArray
        = s.TrySerializeActorArray ++ t0 ∧ ∀ x ∈ t0, x = a := by
  rw [(AddNewGuidIfAbsent_lists W (CollectActor s a) a).1]
  unfold CollectActor
  split
  · exact ⟨[a], rfl, by simp⟩
  · split
    · exact ⟨[a], rfl, by simp⟩
    · exact ⟨[], by simp, by simp⟩

/-- The visit of the children of an actor, given what the visit of one child appends. -/
theorem CollectActorRecursive7_fold_order (W : World) (rank : UObject → Nat)
    (ht : TreeShaped W rank) (n : Nat) (a : UObject)
    (IH : ∀ (c : UObject) (s : ActorSerializer), ∃ t,
      (CollectActorRecursive W n c s).TrySerializeActorArray = s.TrySerializeActorArray ++ t ∧
      (∀ x ∈ t, AttachedBeneath W c x) ∧ List.Pairwise (SiblingsAscending W) t)
    (base : List UObject) :
    ∀ (cs : List UObject), (∀ c ∈ cs, c ∈ W.GetAttachedActors a) →
      List.Pairwise (fun c c' => c ≠ c' ∧ W.GetActorLabel c ≤ W.GetActorLabel c') cs →
      ∀ (acc : ActorSerializer) (tacc : List UObject),
        acc.TrySerializeActorArray = base ++ tacc →
        (∀ x ∈ tacc, x = a ∨ ∃ c', c' ∈ W.GetAttachedActors a ∧
          (∀ c ∈ cs, c' ≠ c ∧ W.GetActorLabel c' ≤ W.GetActorLabel c) ∧ AttachedBeneath W c' x) →
        List.Pairwise (SiblingsAscending W) tacc →
        ∃ t, (cs.foldl (fun st c => CollectActorRecursive W n c st) acc).TrySerializeActorArray
            = base ++ t ∧
          (∀ x ∈ t, AttachedBeneath W a x) ∧ List.Pairwise (SiblingsAscending W) t := by
  intro cs
  induction cs with
  | nil =>
    intro _ _ acc tacc hacc htacc hpw
    refine ⟨tacc, hacc, ?_, hpw⟩
    intro x hx
    rcases htacc x hx with rfl | ⟨c', hc', _, hb⟩
    · exact AttachedBeneath.self
    · exact AttachedBeneath_trans (AttachedBeneath.step AttachedBeneath.self hc') hb
  | cons c cs ih =>
    intro hmem hsorted acc tacc hacc htacc hpw
    rw [List.foldl_cons]
    obtain ⟨tc, htc, hbeneath, hpwc⟩ := IH c acc
    have hcatt : c ∈ W.GetAttachedActors a := hmem c (List.mem_cons_self _ _)
    rw [List.pairwise_cons] at hsorted
    apply ih (fun c' hc' => hmem c' (List.mem_cons_of_mem _ hc')) hsorted.2
      (CollectActorRecursive W n c acc) (tacc ++ tc)
    · rw [htc, hacc, List.append_assoc]
    · intro x hx
      rcases List.mem_append.mp hx with hx | hx
      · rcases htacc x hx with h | ⟨c', hc', hall, hb⟩
        · exact Or.inl h
        · exact Or.inr ⟨c', hc', fun c'' hc'' => hall c'' (List.mem_cons_of_mem _ hc''), hb⟩
      · exact Or.inr ⟨c, hcatt, hsorted.1, hbeneath x hx⟩
    · rw [List.pairwise_append]
      refine ⟨hpw, hpwc, ?_⟩
      intro x hx y hy
      rcases htacc x hx with rfl | ⟨c', hc', hall, hb⟩
      · exact siblings_head ht hcatt (hbeneath y hy)
      · obtain ⟨hne, hlab⟩ := hall c (List.mem_cons_self _ _)
        exact siblings_cross ht hc' hcatt hne hlab hb (hbeneath y hy)

/-- The collection appends to the worklist actors beneath the one it is called on, and
siblings among them stand in ascending order of their labels (no sort hook bound,
tree-shaped hierarchy). -/
theorem CollectActorRecursive7_order (W : World) (h0 : W.Serialize_SortChildrenActors = none)
    (rank : UObject → Nat) (ht : TreeShaped W rank) (fuel : Nat) :
    ∀ (a : UObject) (s : ActorSerializer), ∃ t,
      (CollectActorRecursive W fuel a s).TrySerializeActorArray = s.TrySerializeActorArray ++ t ∧
      (∀ x ∈ t, AttachedBeneath W a x) ∧ List.Pairwise (SiblingsAscending W) t := by
  induction fuel with
  | zero => intro a s; exact ⟨[], by simp [CollectActorRecursive], by simp, List.Pairwise.nil⟩
  | succ n ih =>
    intro a s
    by_cases hc : Collectable W s.bIsEditorOrRuntime a
    · rw [CollectActorRecursive7_succ_collectable W n a s hc]
      obtain ⟨t0, ht0, hall0⟩ := CollectActor_try_append W s a
      have hperm := SortChildrenActors_perm W h0 (W.GetAttachedActors a)
      have hsorted := SortChildrenActors_sorted W h0 (W.GetAttachedActors a)
      have hnodup : (SortChildrenActors W (W.GetAttachedActors a)).Nodup :=
        hperm.nodup_iff.mpr (ht.nodup a)
      have hboth : List.Pairwise
          (fun c c' => c ≠ c' ∧ W.GetActorLabel c ≤ W.GetActorLabel c')
          (SortChildrenActors W (W.GetAttachedActors a)) :=
        List.Pairwise.and hnodup hsorted
      apply CollectActorRecursive7_fold_order W rank ht n a ih s.TrySerializeActorArray
        (SortChildrenActors W (W.GetAttachedActors a)) (fun c hc => hperm.subset hc) hboth
        _ t0 ht0
      · intro x hx; exact Or.inl (hall0 x hx)
      · have : ∀ x ∈ t0, ∀ y ∈ t0, x = y := fun x hx y hy => (hall0 x hx).trans (hall0 y hy).symm
        rcases t0 with _ | ⟨u, _ | ⟨v, t0⟩⟩
        · exact List.Pairwise.nil
        · exact List.pairwise_singleton _ _
        · exfalso
          have hu := hall0 u (by simp)
          have hv := hall0 v (by simp)
          revert ht0
          rw [(AddNewGuidIfAbsent_lists W (CollectActor s a) a).1]
          unfold CollectActor
          split
          · intro h
            have := congrArg List.length h
            simp at this
          · split
            · intro h
              have := congrArg List.length h
              simp at this
            · intro h
              have := congrArg List.length h
              simp at this
    · rw [CollectActorRecursive7_succ_skipped W n a s hc]
      exact ⟨[], by simp, by simp, List.Pairwise.nil⟩

end LPrefabSystem7

end LPrefab

namespace LPrefab

/-! ## The order of the child records of generations 3 and 6 -/

/-- Two lists with the same members, both in ascending order of a key that tells their
members apart, are the same list. -/
theorem sorted_perm_unique (label : UObject → FString) :
    ∀ (l1 l2 : List UObject), List.Perm l1 l2 →
      List.Pairwise (fun a b => label a ≤ label b) l1 →
      List.Pairwise (fun a b => label a ≤ label b) l2 →
      (∀ x ∈ l1, ∀ y ∈ l1, label x = label y → x = y) → l1 = l2 := by
  intro l1 l2 hperm h1 h2 hinj
  have hmap : l1.map label = l2.map label := by
    haveI : IsAntisymm FString (fun a b => a ≤ b) := ⟨fun a b hab hba => le_antisymm hab hba⟩
    exact List.eq_of_perm_of_sorted (r := fun a b : FString => a ≤ b) (hperm.map label)
      (List.pairwise_map.mpr h1) (List.pairwise_map.mpr h2)
  have hinj2 : ∀ x ∈ l1, ∀ y ∈ l2, label x = label y → x = y :=
    fun x hx y hy h => hinj x hx y (hperm.symm.subset hy) h
  clear hperm h1 h2 hinj
  induction l1 generalizing l2 with
  | nil =>
    cases l2 with
    | nil => rfl
    | cons b l2 => simp at hmap
  | cons a l1 ih =>
    cases l2 with
    | nil => simp at hmap
    | cons b l2 =>
      simp only [List.map_cons, List.cons.injEq] at hmap
      have hab := hinj2 a (List.mem_cons_self _ _) b (List.mem_cons_self _ _) hmap.1
      subst hab
      congr 1
      exact ih l2 hmap.2 (fun x hx y hy h =>
        hinj2 x (List.mem_cons_of_mem _ hx) y (List.mem_cons_of_mem _ hy) h)

/-- With no sort hook bound and children of pairwise different labels, the order in
which the children are visited does not depend on the order in which they were attached. -/
theorem SortChildrenActors_withAttached (W : World) (h0 : W.Serialize_SortChildrenActors = none)
    (A : UObject) (l' : List UObject) (hperm : List.Perm l' (W.GetAttachedActors A))
    (hinj : ∀ x ∈ W.GetAttachedActors A, ∀ y ∈ W.GetAttachedActors A,
      W.GetActorLabel x = W.GetActorLabel y → x = y) (x : UObject) :
    SortChildrenActors (WithAttachedActors W A l') ((WithAttachedActors W A l').GetAttachedActors x)
      = SortChildrenActors W (W.GetAttachedActors x) := by
  by_cases hx : x = A
  · subst hx
    have e1 : (WithAttachedActors W x l').GetAttachedActors x = l' := by
      simp [WithAttachedActors]
    rw [e1]
    have e2 : SortChildrenActors (WithAttachedActors W x l') l' = SortChildrenActors W l' := rfl
    rw [e2]
    have p1 := SortChildrenActors_perm W h0 l'
    have p2 := SortChildrenActors_perm W h0 (W.GetAttachedActors x)
    apply sorted_perm_unique W.GetActorLabel _ _ ((p1.trans hperm).trans p2.symm)
      (SortChildrenActors_sorted W h0 l') (SortChildrenActors_sorted W h0 _)
    intro u hu v hv
    exact hinj u (hperm.subset (p1.subset hu)) v (hperm.subset (p1.subset hv))
  · have e1 : (WithAttachedActors W A l').GetAttachedActors x = W.GetAttachedActors x := by
      simp [WithAttachedActors, hx]
    rw [e1]
    rfl

namespace LPrefabSystem6

/-- The pass of generation 6 reads the attached actors only through the order of the visit. -/
theorem SerializeActorRecursive6_withAttached (W : World) (A : UObject) (l' : List UObject)
    (hsort : ∀ x, SortChildrenActors (WithAttachedActors W A l')
        ((WithAttachedActors W A l').GetAttachedActors x)
      = SortChildrenActors W (W.GetAttachedActors x)) (fuel : Nat) :
    ∀ (B : UObject) (st : RecState),
      SerializeActorRecursive (WithAttachedActors W A l') fuel B st
        = SerializeActorRecursive W fuel B st := by
  induction fuel with
  | zero => intro B st; rfl
  | succ n ih =>
    intro B st
    unfold SerializeActorRecursive
    simp only [hsort, ih]
    rfl

end LPrefabSystem6

namespace LPrefabSystem3

/-- The pass of generation 3 reads the attached actors only through the order of the visit. -/
theorem SerializeActorRecursive3_withAttached (W : World) (A : UObject) (l' : List UObject)
    (hsort : ∀ x, SortChildrenActors (WithAttachedActors W A l')
        ((WithAttachedActors W A l').GetAttachedActors x)
      = SortChildrenActors W (W.GetAttachedActors x)) (fuel : Nat) :
    ∀ (B : UObject) (s : ActorSerializer),
      SerializeActorRecursive (WithAttachedActors W A l') fuel B s
        = SerializeActorRecursive W fuel B s := by
  induction fuel with
  | zero => intro B s; rfl
  | succ n ih =>
    intro B s
    unfold SerializeActorRecursive
    simp only [hsort, ih]
    rfl

end LPrefabSystem3

namespace LPrefabSystem6

theorem SerializeActorRecursive6_guid (W : World) (n : Nat) (c : UObject) (st : RecState) :
    (SerializeActorRecursive W (n + 1) c st).1.ActorGuid = RecordGuid6 W st.1 c := by
  unfold SerializeActorRecursive RecordGuid6
  by_cases hv : W.IsValid c = true
  · simp only [hv, Bool.not_true, Bool.false_eq_true, if_false, true_and]
    cases hfind : TMap.Find st.1.SubPrefabMap c with
    | some d =>
      have hc : TMap.Contains st.1.SubPrefabMap c = true := by
        rw [TMap.Contains_eq_true_iff]; exact ⟨d, hfind⟩
      simp only [hc, true_or, if_true]
      rfl
    | none =>
      have hc : TMap.Contains st.1.SubPrefabMap c = false := by
        rw [TMap.Contains_eq_false_iff]; exact hfind
      by_cases hw : c ∈ st.1.WillSerializeActorArray
      · simp only [hc, hw, Bool.false_eq_true, false_or, if_true, not_true_eq_false, if_false]
        rfl
      · simp only [hc, hw, Bool.false_eq_true, false_or, if_false, not_false_eq_true, if_true]
        rfl
  · have hv' : W.IsValid c = false := by simpa using hv
    simp only [hv', Bool.not_false, if_true, Bool.false_eq_true, false_and, if_false]
    rfl

theorem RecordGuid6_stable (W : World) (s s' : ActorSerializer) (c : UObject)
    (hg : Grows W s s')
    (hmapped : W.IsValid c = true →
      (TMap.Contains s.SubPrefabMap c = true ∨ c ∈ s.WillSerializeActorArray) →
      TMap.Contains s.MapObjectToGuid c = true) :
    RecordGuid6 W s' c = RecordGuid6 W s c := by
  unfold RecordGuid6
  rw [hg.2.1, hg.2.2.2.1]
  split
  · rename_i h
    exact hg.2.2.2.2.2.1.findChecked c (hmapped h.1 h.2)
  · rfl

/-- The records of the children, in the order of the visit: their GUIDs. -/
theorem SerializeActorRecursive6_fold_guids (W : World) (n : Nat) (s : ActorSerializer)
    (hmapped : ∀ c, W.IsValid c = true →
      (TMap.Contains s.SubPrefabMap c = true ∨ c ∈ s.WillSerializeActorArray) →
      TMap.Contains s.MapObjectToGuid c = true) :
    ∀ (cs : List UObject) (acc : List FLGUIActorSaveData × RecState), Grows W s acc.2.1 →
      (cs.foldl (fun acc ChildActor =>
          (acc.1 ++ [(SerializeActorRecursive W (n + 1) ChildActor acc.2).1],
            (SerializeActorRecursive W (n + 1) ChildActor acc.2).2)) acc).1.map (·.ActorGuid)
        = acc.1.map (·.ActorGuid) ++ cs.map (RecordGuid6 W s) := by
  intro cs
  induction cs with
  | nil => intro acc _; simp
  | cons c cs ih =>
    intro acc hg
    rw [List.foldl_cons, ih _ (hg.gtrans (SerializeActorRecursive6_grows W (n + 1) c acc.2))]
    simp only [List.map_append, List.map_cons, List.map_nil, List.append_assoc,
      List.singleton_append]
    rw [SerializeActorRecursive6_guid, RecordGuid6_stable W s acc.2.1 c hg (hmapped c)]

/-- The GUIDs of the child records of an actor that the pass of generation 6 serializes in full. -/
theorem SerializeActorRecursive6_children (W : World) (n : Nat) (A : UObject) (st : RecState)
    (hv : W.IsValid A = true) (hsub : TMap.Find st.1.SubPrefabMap A = none)
    (hw : A ∈ st.1.WillSerializeActorArray)
    (hmapped : ∀ c, W.IsValid c = true →
      (TMap.Contains st.1.SubPrefabMap c = true ∨ c ∈ st.1.WillSerializeActorArray) →
      TMap.Contains st.1.MapObjectToGuid c = true) :
    (SerializeActorRecursive W (n + 2) A st).1.ChildrenActorDataArray.map (·.ActorGuid)
      = (SortChildrenActors W (W.GetAttachedActors A)).map (RecordGuid6 W st.1) := by
  rw [SerializeActorRecursive]
  simp only [hv, Bool.not_true, Bool.false_eq_true, if_false, hsub, hw, not_true_eq_false]
  have hg : Grows W st.1 (SerializeDefaultSubObjects W (W.CollectDefaultSubobjects A)
      (WriterOrReaderFunction W (FindOrAddClassFromList st.1 (W.GetClass A)).2 A false).2).1 :=
    ((FindOrAddClassFromList_grows W _ _).gtrans (WriterOrReaderFunction_grows W _ _ _)).gtrans
      (SerializeDefaultSubObjects_grows W _ _)
  have h := SerializeActorRecursive6_fold_guids W n st.1 hmapped
    (SortChildrenActors W (W.GetAttachedActors A))
    (([] : List FLGUIActorSaveData),
      ((SerializeDefaultSubObjects W (W.CollectDefaultSubobjects A)
        (WriterOrReaderFunction W (FindOrAddClassFromList st.1 (W.GetClass A)).2 A false).2).1,
       TMap.Add st.2 (TMap.FindChecked st.1.MapObjectToGuid A)
        (WriterOrReaderFunction W (FindOrAddClassFromList st.1 (W.GetClass A)).2 A false).1)) hg
  simpa [FLGUIActorSaveData.ChildrenActorDataArray] using h

end LPrefabSystem6

namespace LPrefabSystem3

theorem SerializeActorRecursive3_guid (W : World) (n : Nat) (c : UObject) (s : ActorSerializer) :
    (SerializeActorRecursive W (n + 1) c s).1.ActorGuid = TMap.FindChecked s.MapObjectToGuid c := by
  unfold SerializeActorRecursive
  cases hfind : TMap.Find s.SubPrefabMap c with
  | some d => rfl
  | none => rfl

/-- The records of the children, in the order of the visit: their GUIDs. -/
theorem SerializeActorRecursive3_fold_guids (W : World) (n : Nat) (s : ActorSerializer) :
    ∀ (cs : List UObject) (acc : List FLGUIActorSaveData × ActorSerializer), Grows W s acc.2 →
      (∀ c ∈ cs, TMap.Contains s.MapObjectToGuid c = true) →
      (cs.foldl (fun acc ChildActor =>
          (acc.1 ++ [(SerializeActorRecursive W (n + 1) ChildActor acc.2).1],
            (SerializeActorRecursive W (n + 1) ChildActor acc.2).2)) acc).1.map (·.ActorGuid)
        = acc.1.map (·.ActorGuid) ++ cs.map (TMap.FindChecked s.MapObjectToGuid) := by
  intro cs
  induction cs with
  | nil => intro acc _ _; simp
  | cons c cs ih =>
    intro acc hg hmapped
    rw [List.foldl_cons, ih _ (hg.gtrans (SerializeActorRecursive3_grows W (n + 1) c acc.2))
      (fun c' hc' => hmapped c' (List.mem_cons_of_mem _ hc'))]
    simp only [List.map_append, List.map_cons, List.map_nil, List.append_assoc,
      List.singleton_append]
    rw [SerializeActorRecursive3_guid,
      hg.2.2.2.2.2.1.findChecked c (hmapped c (List.mem_cons_self _ _))]

/-- The GUIDs of the child records of an actor that the pass of generation 3 serializes in full. -/
theorem SerializeActorRecursive3_children (W : World) (n : Nat) (A : UObject) (s : ActorSerializer)
    (hsub : TMap.Find s.SubPrefabMap A = none)
    (hmapped : ∀ c ∈ SortChildrenActors W (W.GetAttachedActors A),
      TMap.Contains s.MapObjectToGuid c = true) :
    (SerializeActorRecursive W (n + 2) A s).1.ChildActorData.map (·.ActorGuid)
      = (SortChildrenActors W (W.GetAttachedActors A)).map (TMap.FindChecked s.MapObjectToGuid) := by
  rw [SerializeActorRecursive]
  simp only [hsub]
  have hg : Grows W s (WriterOrReaderFunction W (FindOrAddClassFromList s (W.GetClass A)).2 A false).2 :=
    (FindOrAddClassFromList_grows W _ _).gtrans (WriterOrReaderFunction_grows W _ _ _)
  have h := SerializeActorRecursive3_fold_guids W n s
    (SortChildrenActors W (W.GetAttachedActors A))
    (([] : List FLGUIActorSaveData),
      (WriterOrReaderFunction W (FindOrAddClassFromList s (W.GetClass A)).2 A false).2) hg hmapped
  simpa [FLGUIActorSaveData.ChildActorData] using h

end LPrefabSystem3

end LPrefab

namespace LPrefab

/-! # Lemmas about the sequence object reference -/

theorem Char_toLower_eq_slash (c : Char) (h : c.toLower = '/') : c = '/' := by
  simp only [Char.toLower] at h
  split at h
  · exfalso
    rename_i hc
    have h1 : (Char.ofNat (c.toNat + 32)).toNat = 47 := by rw [h]; rfl
    have h2 : ∀ n, 65 ≤ n → n ≤ 90 → (Char.ofNat (n + 32)).toNat ≠ 47 := by
      intro n h65 h90
      interval_cases n <;> decide
    exact h2 c.toNat hc.1 hc.2 h1
  · exact h

theorem FString_Equals_slash (p : FString) :
    FString_Equals p "/".data = true ↔ p = "/".data := by
  unfold FString_Equals
  constructor
  · intro h
    have h1 : p.map Char.toLower = ['/'] := by simpa using h
    cases p with
    | nil => simp at h1
    | cons c p =>
      cases p with
      | nil =>
        simp only [List.map_cons, List.map_nil, List.cons.injEq, and_true] at h1
        rw [Char_toLower_eq_slash c h1]
      | cons d p => simp at h1
  · intro h
    subst h
    decide

theorem FString_Split_append (x s : FString) (hx : '/' ∉ x) :
    FString_Split (x ++ '/' :: s) '/' = some (x, s) := by
  induction x with
  | nil => simp [FString_Split]
  | cons c x ih =>
    have hc : c ≠ '/' := fun h => hx (by simp [h])
    have hx1 : '/' ∉ x := fun h => hx (List.mem_cons_of_mem _ h)
    simp [FString_Split, hc, ih hx1]

theorem FString_Split_none (x : FString) (hx : '/' ∉ x) : FString_Split x '/' = none := by
  induction x with
  | nil => rfl
  | cons c x ih =>
    have hc : c ≠ '/' := fun h => hx (by simp [h])
    have hx1 : '/' ∉ x := fun h => hx (List.mem_cons_of_mem _ h)
    simp [FString_Split, hc, ih hx1]

theorem JoinLabels_nil (l : FString) : JoinLabels [] l = l := rfl

theorem JoinLabels_cons (x : FString) (ls : List FString) (l : FString) :
    JoinLabels (x :: ls) l = x ++ '/' :: JoinLabels ls l := rfl

theorem JoinLabels_length (ls : List FString) (l : FString) :
    l.length ≤ (JoinLabels ls l).length := by
  induction ls with
  | nil => exact Nat.le_refl _
  | cons x ls ih =>
    rw [JoinLabels_cons]
    simp only [List.length_append, List.length_cons]
    omega

theorem getLastD_cons {α : Type} (a P : α) (rest : List α) :
    (a :: rest).getLast?.getD P = rest.getLast?.getD a := by
  cases rest with
  | nil => rfl
  | cons b rest =>
    rw [List.getLast?_cons_cons, List.getLast?_eq_getLast _ (List.cons_ne_nil _ _)]
    rfl

namespace FLPrefabSequenceObjectReference

theorem path_while_step (W : World) (C P : UObject) (fuel : Nat) (R : FString) (h : P ≠ C) :
    GetActorPathRelativeToContextActor_while W C (fuel + 1) R (some P)
      = GetActorPathRelativeToContextActor_while W C fuel (W.GetActorLabel P ++ "/".data ++ R)
          (W.GetAttachParentActor P) := by
  simp [GetActorPathRelativeToContextActor_while, h]

/-- The splitting loop returns the labels of a joined path whose labels are free of the
separator. -/
theorem split_while_JoinLabels (ls : List FString) (l : FString) :
    (∀ x ∈ ls, '/' ∉ x) → '/' ∉ l →
    ∀ (fuel : Nat) (acc : List FString), (JoinLabels ls l).length < fuel →
      GetActorFromContextActorByRelativePath_while fuel (JoinLabels ls l) (JoinLabels ls l) acc
        = acc ++ ls ++ [l] := by
  induction ls with
  | nil =>
    intro _ hl fuel acc hfuel
    cases fuel with
    | zero => simp [GetActorFromContextActorByRelativePath_while, JoinLabels_nil]
    | succ n =>
      simp [GetActorFromContextActorByRelativePath_while, JoinLabels_nil,
        FString_Split_none l hl]
  | cons x ls ih =>
    intro hls hl fuel acc hfuel
    have hx : '/' ∉ x := hls x (List.mem_cons_self _ _)
    have hls1 : ∀ y ∈ ls, '/' ∉ y := fun y hy => hls y (List.mem_cons_of_mem _ hy)
    cases fuel with
    | zero => exact absurd hfuel (Nat.not_lt_zero _)
    | succ n =>
      rw [JoinLabels_cons] at hfuel ⊢
      have hn : (JoinLabels ls l).length < n := by
        simp only [List.length_append, List.length_cons] at hfuel
        omega
      unfold GetActorFromContextActorByRelativePath_while
      rw [FString_Split_append x _ hx]
      dsimp only
      rw [ih hls1 hl n (acc ++ [x]) hn]
      simp

/-- The array of path items that `GetActorFromContextActorByRelativePath` builds from a
joined path. -/
theorem SplitedArray_JoinLabels (ls : List FString) (l : FString)
    (hls : ∀ x ∈ ls, '/' ∉ x) (hl : '/' ∉ l) :
    (if FString_Contains (JoinLabels ls l) '/' then
        GetActorFromContextActorByRelativePath_while ((JoinLabels ls l).length + 1)
          (JoinLabels ls l) [] []
      else [JoinLabels ls l]) = ls ++ [l] := by
  cases ls with
  | nil =>
    have : FString_Contains (JoinLabels [] l) '/' = false := by
      simp [FString_Contains, JoinLabels_nil, hl]
    rw [this]
    simp [JoinLabels_nil]
  | cons x ls =>
    have hx : '/' ∉ x := hls x (List.mem_cons_self _ _)
    have hls1 : ∀ y ∈ ls, '/' ∉ y := fun y hy => hls y (List.mem_cons_of_mem _ hy)
    have : FString_Contains (JoinLabels (x :: ls) l) '/' = true := by
      simp [FString_Contains, JoinLabels_cons]
    rw [this]
    simp only [if_true]
    unfold GetActorFromContextActorByRelativePath_while
    rw [JoinLabels_cons, FString_Split_append x _ hx]
    dsimp only
    have hn : (JoinLabels ls l).length < (x ++ '/' :: JoinLabels ls l).length := by
      simp only [List.length_append, List.length_cons]
      omega
    rw [split_while_JoinLabels ls l hls1 hl _ _ hn]
    simp

/-- The climb towards the context actor along an unambiguous path puts the labels of the
path in front of the result. -/
theorem path_while_chain (W : World) (C : UObject) (R : FString) :
    ∀ (chain : List UObject) (P : UObject) (fuel : Nat), UnambiguousPath W C P chain →
      chain.length ≤ fuel →
      GetActorPathRelativeToContextActor_while W C fuel R (some (chain.getLast?.getD P))
        = GetActorPathRelativeToContextActor_while W C (fuel - chain.length)
            (JoinLabels (chain.map W.GetActorLabel) R) (some P) := by
  intro chain
  induction chain with
  | nil => intro P fuel _ _; simp [JoinLabels]
  | cons a rest ih =>
    intro P fuel h hfuel
    obtain ⟨haC, hparent, _, _, hrest⟩ := h
    simp only [List.length_cons] at hfuel
    rw [getLastD_cons, ih a fuel hrest (by omega)]
    obtain ⟨k, hk⟩ : ∃ k, fuel - rest.length = k + 1 := ⟨fuel - rest.length - 1, by omega⟩
    have hk2 : fuel - (a :: rest).length = k := by simp only [List.length_cons]; omega
    rw [hk, hk2, path_while_step W C a k _ haC, hparent]
    simp [JoinLabels]

theorem path_while_context (W : World) (C : UObject) (fuel : Nat) (R : FString) :
    GetActorPathRelativeToContextActor_while W C fuel R (some C) = some R := by
  cases fuel <;> simp [GetActorPathRelativeToContextActor_while]

theorem UnambiguousPath_append (W : World) (C : UObject) :
    ∀ (init : List UObject) (P t : UObject), UnambiguousPath W C P (init ++ [t]) →
      UnambiguousPath W C P init ∧ t ≠ C ∧
      W.GetAttachParentActor t = some (init.getLast?.getD P) ∧ '/' ∉ W.GetActorLabel t ∧
      ∀ a ∈ init, '/' ∉ W.GetActorLabel a := by
  intro init
  induction init with
  | nil =>
    intro P t h
    obtain ⟨h1, h2, _, h4, _⟩ := h
    exact ⟨trivial, h1, h2, h4, fun a ha => absurd ha (List.not_mem_nil _)⟩
  | cons a rest ih =>
    intro P t h
    obtain ⟨h1, h2, h3, h4, h5⟩ := h
    obtain ⟨i1, i2, i3, i4, i5⟩ := ih a t h5
    refine ⟨⟨h1, h2, h3, h4, i1⟩, i2, ?_, i4, ?_⟩
    · rw [i3, getLastD_cons]
    · intro x hx
      rcases List.mem_cons.1 hx with rfl | hx
      · exact h4
      · exact i5 x hx

/-- The relative path of the last actor of an unambiguous path: its labels joined. -/
theorem GetActorPath_chain (W : World) (C t : UObject) (init : List UObject) (fuel : Nat)
    (h : UnambiguousPath W C C (init ++ [t])) (hatt : W.IsAttachedTo t C = true)
    (hfuel : init.length ≤ fuel) :
    GetActorPathRelativeToContextActor W fuel C t
      = some (JoinLabels (init.map W.GetActorLabel) (W.GetActorLabel t)) := by
  obtain ⟨i1, i2, i3, _, _⟩ := UnambiguousPath_append W C init C t h
  unfold GetActorPathRelativeToContextActor
  rw [if_neg i2, hatt, i3]
  simp only [if_true]
  rw [path_while_chain W C _ init C fuel i1 hfuel, path_while_context]

/-- The walk down the labels of an unambiguous path ends at its last actor. -/
theorem for_chain (W : World) (C : UObject) :
    ∀ (chain : List UObject) (P : UObject), UnambiguousPath W C P chain → chain ≠ [] →
      GetActorFromContextActorByRelativePath_for W (chain.map W.GetActorLabel) P
        = chain.getLast? := by
  intro chain
  induction chain with
  | nil => intro P _ h; exact absurd rfl h
  | cons a rest ih =>
    intro P h _
    obtain ⟨_, _, h3, _, h5⟩ := h
    simp only [List.map_cons]
    unfold GetActorFromContextActorByRelativePath_for
    rw [h3]
    cases rest with
    | nil => simp
    | cons b rest =>
      simp only [List.map_cons, List.isEmpty_cons, Bool.false_eq_true, if_false]
      rw [← List.map_cons, ih a h5 (List.cons_ne_nil _ _)]
      simp [List.getLast?_cons_cons]

/-- The lookup by relative path finds the last actor of an unambiguous path again. -/
theorem GetActorFrom_chain (W : World) (C t : UObject) (init : List UObject)
    (h : UnambiguousPath W C C (init ++ [t]))
    (hslash : JoinLabels (init.map W.GetActorLabel) (W.GetActorLabel t) ≠ "/".data) :
    GetActorFromContextActorByRelativePath W C
      (JoinLabels (init.map W.GetActorLabel) (W.GetActorLabel t)) = some t := by
  obtain ⟨_, _, _, i4, i5⟩ := UnambiguousPath_append W C init C t h
  unfold GetActorFromContextActorByRelativePath
  have hne : FString_Equals (JoinLabels (init.map W.GetActorLabel) (W.GetActorLabel t))
      "/".data = false := by
    cases hq : FString_Equals (JoinLabels (init.map W.GetActorLabel) (W.GetActorLabel t))
      "/".data with
    | false => rfl
    | true => exact absurd ((FString_Equals_slash _).1 hq) hslash
  rw [hne]
  simp only [Bool.false_eq_true, if_false]
  have hls : ∀ x ∈ init.map W.GetActorLabel, '/' ∉ x := by
    intro x hx
    obtain ⟨a, ha, rfl⟩ := List.mem_map.1 hx
    exact i5 a ha
  rw [SplitedArray_JoinLabels _ _ hls i4]
  have hmap : init.map W.GetActorLabel ++ [W.GetActorLabel t]
      = (init ++ [t]).map W.GetActorLabel := by simp
  rw [hmap, for_chain W C (init ++ [t]) C h (by simp)]
  simp

end FLPrefabSequenceObjectReference

end LPrefab

namespace LPrefab

/-! # Lemmas about the checks of a reference -/

namespace FLPrefabSequenceObjectReference

/-- The climb only puts text in front of the result it starts with. -/
theorem path_while_suffix (W : World) (C : UObject) :
    ∀ (fuel : Nat) (R : FString) (P : Option UObject) (p : FString),
      GetActorPathRelativeToContextActor_while W C fuel R P = some p → ∃ pre, p = pre ++ R := by
  intro fuel
  induction fuel with
  | zero =>
    intro R P p h
    cases P with
    | none =>
      simp only [GetActorPathRelativeToContextActor_while, Option.some.injEq] at h
      exact ⟨[], by simp [h]⟩
    | some q =>
      simp only [GetActorPathRelativeToContextActor_while] at h
      split at h
      · simp only [Option.some.injEq] at h
        exact ⟨[], by simp [h]⟩
      · cases h
  | succ n ih =>
    intro R P p h
    cases P with
    | none =>
      simp only [GetActorPathRelativeToContextActor_while, Option.some.injEq] at h
      exact ⟨[], by simp [h]⟩
    | some q =>
      simp only [GetActorPathRelativeToContextActor_while] at h
      split at h
      · simp only [Option.some.injEq] at h
        exact ⟨[], by simp [h]⟩
      · obtain ⟨pre, hpre⟩ := ih _ _ p h
        exact ⟨pre ++ (W.GetActorLabel q ++ "/".data), by simp [hpre]⟩

/-- The climb ends within the fuel when the hierarchy has no cycle. -/
theorem path_while_returns (W : World) (C : UObject) (rank : UObject → Nat)
    (hrank : ∀ a p, W.GetAttachParentActor a = some p → rank p < rank a) :
    ∀ (fuel : Nat) (R : FString) (P : Option UObject), (∀ p, P = some p → rank p < fuel) →
      ∃ path, GetActorPathRelativeToContextActor_while W C fuel R P = some path := by
  intro fuel
  induction fuel with
  | zero =>
    intro R P h
    cases P with
    | none => exact ⟨R, rfl⟩
    | some q => exact absurd (h q rfl) (Nat.not_lt_zero _)
  | succ n ih =>
    intro R P h
    cases P with
    | none => exact ⟨R, rfl⟩
    | some q =>
      simp only [GetActorPathRelativeToContextActor_while]
      split
      · exact ⟨R, rfl⟩
      · apply ih
        intro p hp
        have := hrank q p hp
        have := h q rfl
        omega

theorem GetActorPath_returns (W : World) (C A : UObject) (rank : UObject → Nat)
    (hrank : ∀ a p, W.GetAttachParentActor a = some p → rank p < rank a)
    (fuel : Nat) (hfuel : rank A ≤ fuel) :
    ∃ path, GetActorPathRelativeToContextActor W fuel C A = some path := by
  unfold GetActorPathRelativeToContextActor
  split
  · exact ⟨_, rfl⟩
  · split
    · apply path_while_returns W C rank hrank
      intro p hp
      have := hrank A p hp
      omega
    · exact ⟨_, rfl⟩

/-- What `CheckTargetObject` leaves in the field `Object` is what a second call leaves
there too, and the other fields are never written. -/
theorem CheckTargetObject_fields (W : World) (r : FLPrefabSequenceObjectReference) :
    (CheckTargetObject W r).2.HelperActor = r.HelperActor ∧
    (CheckTargetObject W r).2.HelperClass = r.HelperClass ∧
    (CheckTargetObject W r).2.HelperComponentName = r.HelperComponentName ∧
    (CheckTargetObject W r).2.HelperActorLabel = r.HelperActorLabel ∧
    (CheckTargetObject W r).2.HelperActorPath = r.HelperActorPath := by
  unfold CheckTargetObject
  split
  · exact ⟨rfl, rfl, rfl, rfl, rfl⟩
  · split
    · split
      · split
        · exact ⟨rfl, rfl, rfl, rfl, rfl⟩
        · split
          · exact ⟨rfl, rfl, rfl, rfl, rfl⟩
          · exact ⟨rfl, rfl, rfl, rfl, rfl⟩
          · split <;> exact ⟨rfl, rfl, rfl, rfl, rfl⟩
      · exact ⟨rfl, rfl, rfl, rfl, rfl⟩
    · exact ⟨rfl, rfl, rfl, rfl, rfl⟩

/-- The method `CheckTargetObject` in terms of the object computed from the helpers. -/
theorem CheckTargetObject_eq (W : World) (r : FLPrefabSequenceObjectReference) :
    CheckTargetObject W r =
      if IsValidObject W r.Object then (true, r)
      else (match ObjectFromHelpers W r with
        | some x => (true, { r with Object := some x })
        | none => (false, r)) := by
  by_cases hv : IsValidObject W r.Object = true
  · simp [CheckTargetObject, hv]
  · by_cases hh : (IsValidObject W r.HelperActor && IsValidHelperClass W r.HelperClass) = true
    · unfold CheckTargetObject ObjectFromHelpers
      rw [if_neg hv, if_neg hv, if_pos hh, if_pos hh]
      cases r.HelperActor with
      | none => rfl
      | some a =>
        cases r.HelperClass with
        | none => rfl
        | some c =>
          dsimp only
          by_cases hc : c = W.AActor_StaticClass
          · rw [if_pos hc, if_pos hc]
          · rw [if_neg hc, if_neg hc]
            cases GetComponentsOfClass W a c with
            | nil => rfl
            | cons x l =>
              cases l with
              | nil => rfl
              | cons y l =>
                cases hfd : List.find?
                  (fun Comp => FName_Equals (W.GetFName Comp) r.HelperComponentName)
                  (x :: y :: l) with
                | none => simp only [hfd]
                | some z => simp only [hfd]
    · unfold CheckTargetObject ObjectFromHelpers
      rw [if_neg hv, if_neg hv, if_neg hh, if_neg hh]

theorem ObjectFromHelpers_set (W : World) (r : FLPrefabSequenceObjectReference)
    (o : Option UObject) : ObjectFromHelpers W { r with Object := o } = ObjectFromHelpers W r :=
  rfl

/-- A second call of `CheckTargetObject` changes nothing more. -/
theorem CheckTargetObject_idem (W : World) (r : FLPrefabSequenceObjectReference) :
    (CheckTargetObject W (CheckTargetObject W r).2).2 = (CheckTargetObject W r).2 := by
  by_cases hv : IsValidObject W r.Object = true
  · have h1 : CheckTargetObject W r = (true, r) := by rw [CheckTargetObject_eq, if_pos hv]
    rw [h1]
    simp only [h1]
  · cases hx : ObjectFromHelpers W r with
    | none =>
      have h1 : CheckTargetObject W r = (false, r) := by
        rw [CheckTargetObject_eq, if_neg hv, hx]
      rw [h1]
      simp only [h1]
    | some x =>
      have h1 : CheckTargetObject W r = (true, { r with Object := some x }) := by
        rw [CheckTargetObject_eq, if_neg hv, hx]
      rw [h1]
      simp only
      rw [CheckTargetObject_eq]
      split
      · rfl
      · rw [ObjectFromHelpers_set, hx]

theorem Resolve_CheckTargetObject (W : World) (r : FLPrefabSequenceObjectReference) :
    Resolve W (CheckTargetObject W r).2 = Resolve W r := by
  unfold Resolve
  rw [CheckTargetObject_idem]

/-- The repair never writes the helper class, the component name or the path. -/
theorem Fix_fields (W : World) (C : UObject) (r r1 : FLPrefabSequenceObjectReference)
    (flag : Bool) (h : FixObjectReferenceFromEditorHelpers W C r = some (flag, r1)) :
    r1.HelperClass = r.HelperClass ∧ r1.HelperComponentName = r.HelperComponentName ∧
    r1.HelperActorPath = r.HelperActorPath := by
  unfold FixObjectReferenceFromEditorHelpers at h
  split at h
  · dsimp only at h
    split at h
    · cases h
    · split at h
      · cases h; exact ⟨rfl, rfl, rfl⟩
      · split at h
        · split at h
          · cases h; exact ⟨rfl, rfl, rfl⟩
          · cases h; exact ⟨rfl, rfl, rfl⟩
          · split at h
            · split at h
              · cases h; exact ⟨rfl, rfl, rfl⟩
              · cases h; exact ⟨rfl, rfl, rfl⟩
            · split at h
              · cases h; exact ⟨rfl, rfl, rfl⟩
              · cases h; exact ⟨rfl, rfl, rfl⟩
        · cases h; exact ⟨rfl, rfl, rfl⟩
  · cases h; exact ⟨rfl, rfl, rfl⟩

/-- The repair returns when the helper class is not null. -/
theorem Fix_returns (W : World) (C : UObject) (r : FLPrefabSequenceObjectReference)
    (c : UClass) (h : r.HelperClass = some c) :
    ∃ flag r1, FixObjectReferenceFromEditorHelpers W C r = some (flag, r1) := by
  unfold FixObjectReferenceFromEditorHelpers
  split
  · dsimp only
    rw [h]
    dsimp only
    split
    · exact ⟨_, _, rfl⟩
    · split
      · split
        · exact ⟨_, _, rfl⟩
        · exact ⟨_, _, rfl⟩
        · split <;> split <;> exact ⟨_, _, rfl⟩
      · exact ⟨_, _, rfl⟩
  · exact ⟨_, _, rfl⟩

theorem IsObjectReferenceGood_snd (W : World) (C : UObject)
    (r : FLPrefabSequenceObjectReference) :
    (IsObjectReferenceGood W C r).2 = (CheckTargetObject W r).2 := by
  unfold IsObjectReferenceGood
  dsimp only
  split <;> rfl

theorem CanFix_HelperClass (W : World) (r : FLPrefabSequenceObjectReference)
    (h : CanFixObjectReferenceFromEditorHelpers W r = true) : ∃ c, r.HelperClass = some c := by
  unfold CanFixObjectReferenceFromEditorHelpers at h
  cases hc : r.HelperClass with
  | none => rw [hc] at h; simp [IsValidHelperClass] at h
  | some c => exact ⟨c, rfl⟩

end FLPrefabSequenceObjectReference

namespace FLPrefabSequenceObjectReferenceMap

open FLPrefabSequenceObjectReference

/-- One pass of the inner loop of `FixObjectReferences`: it returns, keeps the helper
class, the component name and the path, and sets the flag exactly when the repair was
called and returned true. -/
theorem FixObjectReferences_body_spec (W : World) (C : UObject)
    (r : FLPrefabSequenceObjectReference) :
    ∃ flag r1, FixObjectReferences_body W C r = some (flag, r1) ∧
      (r1.HelperClass, r1.HelperComponentName, r1.HelperActorPath)
        = (r.HelperClass, r.HelperComponentName, r.HelperActorPath) ∧
      (flag = true ↔ ((IsObjectReferenceGood W C r).1 = false ∧
        CanFixObjectReferenceFromEditorHelpers W (IsObjectReferenceGood W C r).2 = true ∧
        ∃ r2, FixObjectReferenceFromEditorHelpers W C (IsObjectReferenceGood W C r).2
          = some (true, r2))) := by
  have hf := CheckTargetObject_fields W r
  have hs := IsObjectReferenceGood_snd W C r
  unfold FixObjectReferences_body
  dsimp only
  by_cases hcond : (!(IsObjectReferenceGood W C r).1 &&
      CanFixObjectReferenceFromEditorHelpers W (IsObjectReferenceGood W C r).2) = true
  · rw [if_pos hcond]
    simp only [Bool.and_eq_true, Bool.not_eq_true'] at hcond
    obtain ⟨c, hc⟩ := CanFix_HelperClass W _ hcond.2
    obtain ⟨flag, r1, hfix⟩ := Fix_returns W C _ c hc
    have hff := Fix_fields W C _ r1 flag hfix
    refine ⟨flag, r1, hfix, ?_, ?_⟩
    · rw [hff.1, hff.2.1, hff.2.2, hs, hf.2.1, hf.2.2.1, hf.2.2.2.2]
    · constructor
      · intro h
        subst h
        exact ⟨hcond.1, hcond.2, r1, hfix⟩
      · rintro ⟨_, _, r2, h2⟩
        rw [hfix] at h2
        simp only [Option.some.injEq, Prod.mk.injEq] at h2
        exact h2.1
  · rw [if_neg hcond]
    refine ⟨false, _, rfl, ?_, ?_⟩
    · rw [hs, hf.2.1, hf.2.2.1, hf.2.2.2.2]
    · constructor
      · intro h
        cases h
      · rintro ⟨h1, h2, _⟩
        exact absurd (by simp [h1, h2]) hcond

theorem FixObjectReferences_inner_spec (W : World) (C : UObject) :
    ∀ (arr : List FLPrefabSequenceObjectReference),
      ∃ flag arr1, FixObjectReferences_inner W C arr = some (flag, arr1) ∧
        arr1.map (fun r => (r.HelperClass, r.HelperComponentName, r.HelperActorPath))
          = arr.map (fun r => (r.HelperClass, r.HelperComponentName, r.HelperActorPath)) ∧
        (flag = true ↔ ∃ r ∈ arr, ((IsObjectReferenceGood W C r).1 = false ∧
          CanFixObjectReferenceFromEditorHelpers W (IsObjectReferenceGood W C r).2 = true ∧
          ∃ r2, FixObjectReferenceFromEditorHelpers W C (IsObjectReferenceGood W C r).2
            = some (true, r2))) := by
  intro arr
  induction arr with
  | nil => exact ⟨false, [], rfl, rfl, by simp⟩
  | cons r rest ih =>
    obtain ⟨f1, r1, h1, hp1, hi1⟩ := FixObjectReferences_body_spec W C r
    obtain ⟨f2, rest1, h2, hp2, hi2⟩ := ih
    refine ⟨f1 || f2, r1 :: rest1, ?_, ?_, ?_⟩
    · simp only [FixObjectReferences_inner, h1, h2]
    · simp only [List.map_cons, hp1, hp2]
    · simp only [Bool.or_eq_true, hi1, hi2, List.mem_cons, exists_eq_or_imp]

theorem FixObjectReferences_outer_spec (W : World) (C : UObject) :
    ∀ (refs : List FLPrefabSequenceObjectReferences),
      ∃ flag refs1, FixObjectReferences_outer W C refs = some (flag, refs1) ∧
        refs1.map (fun Refs => Refs.Array.map
            (fun r => (r.HelperClass, r.HelperComponentName, r.HelperActorPath)))
          = refs.map (fun Refs => Refs.Array.map
            (fun r => (r.HelperClass, r.HelperComponentName, r.HelperActorPath))) ∧
        (flag = true ↔ ∃ Refs ∈ refs, ∃ r ∈ Refs.Array,
          ((IsObjectReferenceGood W C r).1 = false ∧
          CanFixObjectReferenceFromEditorHelpers W (IsObjectReferenceGood W C r).2 = true ∧
          ∃ r2, FixObjectReferenceFromEditorHelpers W C (IsObjectReferenceGood W C r).2
            = some (true, r2))) := by
  intro refs
  induction refs with
  | nil => exact ⟨false, [], rfl, rfl, by simp⟩
  | cons Refs rest ih =>
    obtain ⟨f1, a1, h1, hp1, hi1⟩ := FixObjectReferences_inner_spec W C Refs.Array
    obtain ⟨f2, rest1, h2, hp2, hi2⟩ := ih
    refine ⟨f1 || f2, ⟨a1⟩ :: rest1, ?_, ?_, ?_⟩
    · simp only [FixObjectReferences_outer, h1, h2]
    · simp only [List.map_cons, hp1, hp2]
    · simp only [Bool.or_eq_true, hi1, hi2, List.mem_cons, exists_eq_or_imp]

end FLPrefabSequenceObjectReferenceMap

end LPrefab

namespace LPrefab

/-! # Lemmas about the two arrays of the reference map -/

theorem TArray_IndexOfByKey_eq_none (l : List FGuid) (k : FGuid) :
    TArray_IndexOfByKey l k = none ↔ k ∉ l := by
  induction l with
  | nil => simp [TArray_IndexOfByKey]
  | cons x l ih =>
    unfold TArray_IndexOfByKey
    by_cases hx : x = k
    · simp [hx]
    · rw [if_neg hx]
      cases h : TArray_IndexOfByKey l k with
      | none =>
        have := ih.1 h
        simp [this, Ne.symm hx]
      | some i =>
        have : ¬ k ∉ l := fun hn => by rw [ih.2 hn] at h; cases h
        simp only [List.mem_cons, not_or, false_iff, not_and, reduceCtorEq]
        intro _
        exact this

theorem TArray_IndexOfByKey_decomp (l : List FGuid) (k : FGuid) :
    ∀ i, TArray_IndexOfByKey l k = some i →
      ∃ pre post, l = pre ++ k :: post ∧ pre.length = i ∧ k ∉ pre := by
  induction l with
  | nil => intro i h; cases h
  | cons x l ih =>
    intro i h
    unfold TArray_IndexOfByKey at h
    by_cases hx : x = k
    · rw [if_pos hx] at h
      cases h
      exact ⟨[], l, by simp [hx], rfl, by simp⟩
    · rw [if_neg hx] at h
      cases hl : TArray_IndexOfByKey l k with
      | none => rw [hl] at h; cases h
      | some j =>
        rw [hl] at h
        cases h
        obtain ⟨pre, post, h1, h2, h3⟩ := ih j hl
        refine ⟨x :: pre, post, by simp [h1], by simp [h2], ?_⟩
        simp only [List.mem_cons, not_or]
        exact ⟨Ne.symm hx, h3⟩

theorem TArray_RemoveAtSwap_last {α : Type} (pre : List α) (a : α) :
    TArray_RemoveAtSwap (pre ++ [a]) pre.length = some pre := by
  simp [TArray_RemoveAtSwap]

theorem TArray_RemoveAtSwap_swap {α : Type} (pre : List α) (a : α) (mid : List α) (last : α) :
    TArray_RemoveAtSwap (pre ++ a :: (mid ++ [last])) pre.length
      = some (pre ++ last :: mid) := by
  have hd : List.drop (pre.length + 1) (pre ++ a :: (mid ++ [last])) = mid ++ [last] := by
    rw [show pre ++ a :: (mid ++ [last]) = (pre ++ [a]) ++ (mid ++ [last]) by simp]
    exact List.drop_left' (by simp)
  have ht : List.take pre.length (pre ++ a :: (mid ++ [last])) = pre := List.take_left' rfl
  unfold TArray_RemoveAtSwap
  rw [if_pos (by simp), hd, ht]
  simp

open FLPrefabSequenceObjectReference in
/-- The search of `AddUnique`: the elements and the item resolve as before, and an equal
element is found exactly when some element resolves to the object of the item. -/
theorem TArray_Find_spec (W : World) :
    ∀ (arr : List FLPrefabSequenceObjectReference) (item : FLPrefabSequenceObjectReference),
      (TArray_Find W arr item).2.1.map (Resolve W) = arr.map (Resolve W) ∧
      Resolve W (TArray_Find W arr item).2.2 = Resolve W item ∧
      ((TArray_Find W arr item).1 = true ↔ ∃ e ∈ arr, Resolve W e = Resolve W item) := by
  intro arr
  induction arr with
  | nil => intro item; simp [TArray_Find]
  | cons e rest ih =>
    intro item
    unfold TArray_Find
    dsimp only
    by_cases hc : (CheckTargetObject W e).2.Object = (CheckTargetObject W item).2.Object
    · rw [if_pos hc]
      refine ⟨?_, Resolve_CheckTargetObject W item, ?_⟩
      · simp only [List.map_cons, Resolve_CheckTargetObject]
      · simp only [true_iff]
        exact ⟨e, List.mem_cons_self _ _, hc⟩
    · rw [if_neg hc]
      obtain ⟨i1, i2, i3⟩ := ih (CheckTargetObject W item).2
      rw [Resolve_CheckTargetObject] at i2 i3
      refine ⟨?_, i2, ?_⟩
      · simp only [List.map_cons, Resolve_CheckTargetObject, i1]
      · simp only [i3, List.mem_cons, exists_eq_or_imp]
        constructor
        · exact fun h => Or.inr h
        · rintro (h | h)
          · exact absurd h hc
          · exact h

open FLPrefabSequenceObjectReference in
/-- The call `AddUnique`: when an element resolves to the object of the item, the
array resolves as before; otherwise what the item resolves to is added at the end. In
both cases the array then holds an element that resolves to the object of the item. -/
theorem TArray_AddUnique_spec (W : World) (arr : List FLPrefabSequenceObjectReference)
    (item : FLPrefabSequenceObjectReference) :
    ((∃ e ∈ arr, Resolve W e = Resolve W item) →
      (TArray_AddUnique W arr item).map (Resolve W) = arr.map (Resolve W)) ∧
    ((¬ ∃ e ∈ arr, Resolve W e = Resolve W item) →
      (TArray_AddUnique W arr item).map (Resolve W)
        = arr.map (Resolve W) ++ [Resolve W item]) ∧
    (∃ e ∈ TArray_AddUnique W arr item, Resolve W e = Resolve W item) := by
  obtain ⟨h1, h2, h3⟩ := TArray_Find_spec W arr item
  have key : ∀ e, e ∈ List.map (Resolve W) (TArray_AddUnique W arr item) →
      ∃ x ∈ TArray_AddUnique W arr item, Resolve W x = e := by
    intro e he
    obtain ⟨x, hx, hxe⟩ := List.mem_map.1 he
    exact ⟨x, hx, hxe⟩
  by_cases hf : (TArray_Find W arr item).1 = true
  · have hex := h3.1 hf
    have hres : TArray_AddUnique W arr item = (TArray_Find W arr item).2.1 := by
      simp only [TArray_AddUnique, hf, if_true]
    refine ⟨fun _ => by rw [hres, h1], fun hn => absurd hex hn, ?_⟩
    obtain ⟨e, he, hee⟩ := hex
    apply key
    rw [hres, h1, ← hee]
    exact List.mem_map_of_mem _ he
  · have hres : TArray_AddUnique W arr item
        = (TArray_Find W arr item).2.1 ++ [(TArray_Find W arr item).2.2] := by
      simp only [TArray_AddUnique, hf, if_false, Bool.false_eq_true]
    have hmap : (TArray_AddUnique W arr item).map (Resolve W)
        = arr.map (Resolve W) ++ [Resolve W item] := by
      rw [hres, List.map_append, h1, List.map_cons, List.map_nil, h2]
    refine ⟨fun hex => absurd (h3.2 hex) hf, fun _ => hmap, ?_⟩
    apply key
    rw [hmap]
    simp

namespace TMap

theorem Find_append {K V : Type} [DecidableEq K] (A B : TMap K V) (k : K) :
    Find (A ++ B) k = (Find A k).or (Find B k) := by
  induction A with
  | nil => rfl
  | cons p A ih =>
    obtain ⟨k1, v1⟩ := p
    simp only [List.cons_append, Find]
    split
    · rfl
    · exact ih

end TMap

namespace FLPrefabSequenceObjectReferenceMap

/-- The array bound to an id is the first entry of the id in the two arrays read side by
side. -/
theorem ArrayOf_eq_Find (ids : List FGuid) :
    ∀ (refs : List FLPrefabSequenceObjectReferences) (id : FGuid), ids.length = refs.length →
      ArrayOf { BindingIds := ids, References := refs } id
        = (TMap.Find (ids.zip refs) id).map (fun Refs => Refs.Array) := by
  induction ids with
  | nil => intro refs id _; rfl
  | cons x l ih =>
    intro refs id hlen
    cases refs with
    | nil => simp at hlen
    | cons R rl =>
      have hlen1 : l.length = rl.length := by simpa using hlen
      have ih1 := ih rl id hlen1
      unfold ArrayOf at ih1 ⊢
      simp only [TArray_IndexOfByKey, List.zip_cons_cons, TMap.Find]
      by_cases hx : x = id
      · simp [hx]
      · rw [if_neg hx, if_neg hx]
        simp only at ih1
        have e : TMap.Find (List.zipWith Prod.mk l rl) id = TMap.Find (l.zip rl) id := rfl
        rw [e, ← ih1]
        cases TArray_IndexOfByKey l id with
        | none => rfl
        | some i => simp

/-- The two arrays of a well-formed map split at the index of a bound id. -/
theorem WellFormed_decomp (m : FLPrefabSequenceObjectReferenceMap) (hwf : WellFormed m)
    (id : FGuid) (i : Nat) (hi : TArray_IndexOfByKey m.BindingIds id = some i) :
    ∃ pre post rpre R rpost, m.BindingIds = pre ++ id :: post ∧
      m.References = rpre ++ R :: rpost ∧ pre.length = i ∧ rpre.length = i ∧
      post.length = rpost.length ∧ id ∉ pre ∧ id ∉ post ∧ (pre ++ post).Nodup := by
  obtain ⟨pre, post, h1, h2, h3⟩ := TArray_IndexOfByKey_decomp _ _ i hi
  obtain ⟨hlen, hnd⟩ := hwf
  rw [h1] at hlen hnd
  have hlt : i < m.References.length := by
    rw [← hlen, ← h2]
    simp
  have hsplit : m.References = m.References.take i ++ m.References.drop i :=
    (List.take_append_drop i m.References).symm
  cases hd : m.References.drop i with
  | nil =>
    have := congrArg List.length hd
    simp only [List.length_drop, List.length_nil] at this
    omega
  | cons R rpost =>
    rw [hd] at hsplit
    have htl : (m.References.take i).length = i := by
      rw [List.length_take]; omega
    have hndp : (pre ++ post).Nodup ∧ id ∉ pre ++ post := by
      have := List.nodup_middle.1 hnd
      simp only [List.nodup_cons] at this
      exact ⟨this.2, this.1⟩
    refine ⟨pre, post, m.References.take i, R, rpost, h1, hsplit, h2, htl, ?_, h3, ?_, hndp.1⟩
    · have h5 := congrArg List.length hsplit
      simp only [List.length_append, List.length_cons, htl] at h5
      simp only [List.length_append, List.length_cons] at hlen
      omega
    · exact fun h => hndp.2 (List.mem_append_right _ h)

/-- What `RemoveBinding` does to a well-formed map: it returns, the map stays well
formed, the id is gone, the other ids stay, and every other id keeps its entry. -/
theorem RemoveBinding_spec (m : FLPrefabSequenceObjectReferenceMap) (hwf : WellFormed m)
    (id : FGuid) :
    ∃ m1, RemoveBinding m id = some m1 ∧ WellFormed m1 ∧
      (∀ x, x ∈ m1.BindingIds ↔ x ∈ m.BindingIds ∧ x ≠ id) ∧
      (∀ x, x ≠ id → TMap.Find (m1.BindingIds.zip m1.References) x
        = TMap.Find (m.BindingIds.zip m.References) x) := by
  cases hi : TArray_IndexOfByKey m.BindingIds id with
  | none =>
    have hnot := (TArray_IndexOfByKey_eq_none _ _).1 hi
    refine ⟨m, by simp only [RemoveBinding, hi], hwf, ?_, fun _ _ => rfl⟩
    intro x
    constructor
    · intro hx
      exact ⟨hx, fun e => hnot (e ▸ hx)⟩
    · exact fun h => h.1
  | some i =>
    obtain ⟨pre, post, rpre, R, rpost, h1, h2, h3, h4, h5, h6, h7, h8⟩ :=
      WellFormed_decomp m hwf id i hi
    have hpl : pre.length = rpre.length := by rw [h3, h4]
    rcases List.eq_nil_or_concat post with hp | ⟨mid, last, hp⟩
    · subst hp
      have hrp : rpost = [] := by
        cases rpost with
        | nil => rfl
        | cons a b => simp at h5
      subst hrp
      refine ⟨{ BindingIds := pre, References := rpre }, ?_, ?_, ?_, ?_⟩
      · rw [h1] at hi
        simp only [RemoveBinding, h1, h2, hi]
        rw [← h3, TArray_RemoveAtSwap_last, h3, ← h4, TArray_RemoveAtSwap_last]
      · exact ⟨hpl, by simpa using h8⟩
      · intro x
        rw [h1]
        simp only [List.mem_append, List.mem_singleton]
        constructor
        · intro hx
          exact ⟨Or.inl hx, fun e => h6 (e ▸ hx)⟩
        · rintro ⟨hx | hx, hne⟩
          · exact hx
          · exact absurd hx hne
      · intro x hx
        show TMap.Find (pre.zip rpre) x = _
        rw [h1, h2, List.zip_append hpl, TMap.Find_append, List.zip_cons_cons,
          List.zip_nil_right]
        simp only [TMap.Find, if_neg (Ne.symm hx), Option.or_none]
    · rw [List.concat_eq_append] at hp
      subst hp
      obtain ⟨rmid, rlast, hrp⟩ : ∃ rmid rlast, rpost = rmid ++ [rlast] := by
        rcases List.eq_nil_or_concat rpost with h | ⟨a, b, h⟩
        · subst h; simp at h5
        · exact ⟨a, b, by rw [h, List.concat_eq_append]⟩
      subst hrp
      have hml : mid.length = rmid.length := by simpa using h5
      have hnd : (pre ++ last :: mid).Nodup := by
        have hperm : List.Perm (pre ++ last :: mid) (pre ++ (mid ++ [last])) :=
          List.Perm.append_left pre (List.perm_append_singleton last mid).symm
        exact hperm.nodup_iff.2 h8
      refine ⟨{ BindingIds := pre ++ last :: mid, References := rpre ++ rlast :: rmid },
        ?_, ?_, ?_, ?_⟩
      · rw [h1] at hi
        simp only [RemoveBinding, h1, h2, hi]
        rw [← h3, TArray_RemoveAtSwap_swap, h3, ← h4, TArray_RemoveAtSwap_swap]
      · exact ⟨by simp [hpl, hml], hnd⟩
      · intro x
        rw [h1]
        simp only [List.mem_append, List.mem_cons, List.mem_singleton, List.not_mem_nil,
          or_false]
        constructor
        · intro hx
          refine ⟨by tauto, fun e => ?_⟩
          subst e
          rcases hx with hx | hx | hx
          · exact h6 hx
          · exact h7 (by simp [hx])
          · exact h7 (by simp [hx])
        · rintro ⟨hx, hne⟩
          tauto
      · intro x hx
        have hlast : last = x → TMap.Find (mid.zip rmid) x = none := by
          intro e
          subst e
          rw [TMap.Find_eq_none_iff]
          intro hk
          have hk1 : last ∈ mid := by
            obtain ⟨p, hp, hpe⟩ := List.mem_map.1 hk
            obtain ⟨a, b⟩ := p
            have := (List.of_mem_zip hp).1
            simp only at hpe
            exact hpe ▸ this
          have := List.nodup_middle.1 hnd
          simp only [List.nodup_cons, List.mem_append] at this
          exact this.1 (Or.inr hk1)
        have hL : TMap.Find ((pre ++ last :: mid).zip (rpre ++ rlast :: rmid)) x
            = (TMap.Find (pre.zip rpre) x).or
                (TMap.Find ((last, rlast) :: mid.zip rmid) x) := by
          rw [List.zip_append hpl, TMap.Find_append, List.zip_cons_cons]
        have hR : TMap.Find ((pre ++ id :: (mid ++ [last])).zip
              (rpre ++ R :: (rmid ++ [rlast]))) x
            = (TMap.Find (pre.zip rpre) x).or
                ((TMap.Find (mid.zip rmid) x).or (TMap.Find [(last, rlast)] x)) := by
          rw [List.zip_append hpl, TMap.Find_append, List.zip_cons_cons]
          simp only [TMap.Find, if_neg (Ne.symm hx)]
          rw [List.zip_append hml, TMap.Find_append, List.zip_cons_cons, List.zip_nil_right]
          simp only [TMap.Find]
        show TMap.Find ((pre ++ last :: mid).zip (rpre ++ rlast :: rmid)) x = _
        rw [h1, h2, hL, hR]
        cases TMap.Find (pre.zip rpre) x with
        | some v => rfl
        | none =>
          by_cases hl : last = x
          · simp only [TMap.Find, if_pos hl, hlast hl, Option.none_or]
          · simp only [TMap.Find, if_neg hl, Option.none_or, Option.or_none]

/-- The two arrays after `CreateBinding`, read side by side, are the entries before
with the new array stored under the id. -/
theorem zip_set_Add (X D : FLPrefabSequenceObjectReferences) (id : FGuid)
    (ids : List FGuid) :
    ∀ (refs : List FLPrefabSequenceObjectReferences), ids.length = refs.length →
      (∀ i, TArray_IndexOfByKey ids id = some i →
        refs[i]? = TMap.Find (ids.zip refs) id ∧ (∃ R, refs[i]? = some R) ∧
        ids.zip (refs.set i X) = TMap.Add (ids.zip refs) id X) ∧
      (TArray_IndexOfByKey ids id = none →
        (refs ++ [D])[ids.length]? = some D ∧ TMap.Find (ids.zip refs) id = none ∧
        (ids ++ [id]).zip ((refs ++ [D]).set ids.length X) = TMap.Add (ids.zip refs) id X) := by
  induction ids with
  | nil =>
    intro refs hlen
    cases refs with
    | nil =>
      refine ⟨fun i h => (by cases h), fun _ => ⟨rfl, rfl, rfl⟩⟩
    | cons R rl => simp at hlen
  | cons x l ih =>
    intro refs hlen
    cases refs with
    | nil => simp at hlen
    | cons R rl =>
      have hlen1 : l.length = rl.length := by simpa using hlen
      obtain ⟨ih1, ih2⟩ := ih rl hlen1
      by_cases hx : x = id
      · subst hx
        constructor
        · intro i hi
          simp only [TArray_IndexOfByKey, if_true, Option.some.injEq] at hi
          subst hi
          refine ⟨?_, ⟨R, by simp⟩, ?_⟩
          · rw [List.zip_cons_cons]
            simp [TMap.Find]
          · rw [List.set_cons_zero, List.zip_cons_cons, List.zip_cons_cons]
            simp [TMap.Add]
        · intro hn
          simp [TArray_IndexOfByKey] at hn
      · constructor
        · intro i hi
          simp only [TArray_IndexOfByKey, if_neg hx] at hi
          cases hl : TArray_IndexOfByKey l id with
          | none => rw [hl] at hi; cases hi
          | some j =>
            rw [hl] at hi
            simp only [Option.some.injEq] at hi
            subst hi
            obtain ⟨j1, j2, j3⟩ := ih1 j hl
            refine ⟨?_, ?_, ?_⟩
            · rw [List.getElem?_cons_succ, List.zip_cons_cons]
              simp only [TMap.Find, if_neg hx]
              exact j1
            · simpa using j2
            · rw [List.set_cons_succ, List.zip_cons_cons, List.zip_cons_cons, j3]
              simp only [TMap.Add, if_neg hx]
        · intro hn
          simp only [TArray_IndexOfByKey, if_neg hx] at hn
          cases hl : TArray_IndexOfByKey l id with
          | some j => rw [hl] at hn; cases hn
          | none =>
            obtain ⟨k1, k2, k3⟩ := ih2 hl
            refine ⟨?_, ?_, ?_⟩
            · simpa using k1
            · rw [List.zip_cons_cons]
              simp only [TMap.Find, if_neg hx]
              exact k2
            · rw [List.cons_append, List.cons_append, List.length_cons, List.set_cons_succ,
                List.zip_cons_cons, List.zip_cons_cons, k3]
              simp only [TMap.Add, if_neg hx]

/-- What `CreateBinding` does to a well-formed map: it returns, the map stays well
formed, the id is bound, the other ids are bound as before, and the entry of the id is
the array before (the empty array for a new id) after `AddUnique`. -/
theorem CreateBinding_spec (W : World) (m : FLPrefabSequenceObjectReferenceMap)
    (hwf : WellFormed m) (id : FGuid) (r : FLPrefabSequenceObjectReference) :
    ∃ m1, CreateBinding W m id r = some m1 ∧ WellFormed m1 ∧
      (∀ x, x ∈ m1.BindingIds ↔ x ∈ m.BindingIds ∨ x = id) ∧
      m1.BindingIds.zip m1.References
        = TMap.Add (m.BindingIds.zip m.References) id
            ⟨TArray_AddUnique W ((ArrayOf m id).getD []) r⟩ := by
  obtain ⟨hlen, hnd⟩ := hwf
  have harr := ArrayOf_eq_Find m.BindingIds m.References id hlen
  have harr' : ArrayOf m id
      = (TMap.Find (m.BindingIds.zip m.References) id).map (fun Refs => Refs.Array) := harr
  cases hi : TArray_IndexOfByKey m.BindingIds id with
  | some i =>
    obtain ⟨pre, post, hd1, hd2, _⟩ := TArray_IndexOfByKey_decomp _ _ i hi
    have hmem : id ∈ m.BindingIds := by rw [hd1]; simp
    obtain ⟨R, hR⟩ := ((zip_set_Add ⟨[]⟩ ⟨[]⟩ id m.BindingIds m.References hlen).1 i hi).2.1
    have hz := (zip_set_Add ⟨TArray_AddUnique W R.Array r⟩ ⟨[]⟩ id m.BindingIds
      m.References hlen).1 i hi
    have hold : (ArrayOf m id).getD [] = R.Array := by
      rw [harr', ← hz.1, hR]
      rfl
    refine ⟨{ m with References := m.References.set i ⟨TArray_AddUnique W R.Array r⟩ },
      ?_, ?_, ?_, ?_⟩
    · simp only [CreateBinding, hi, hR]
    · exact ⟨by simp [hlen], hnd⟩
    · intro x
      constructor
      · exact fun h => Or.inl h
      · rintro (h | h)
        · exact h
        · exact h ▸ hmem
    · rw [hold]
      exact hz.2.2
  | none =>
    have hnot := (TArray_IndexOfByKey_eq_none _ _).1 hi
    have hz := (zip_set_Add ⟨TArray_AddUnique W [] r⟩ ⟨[]⟩ id m.BindingIds
      m.References hlen).2 hi
    have hold : (ArrayOf m id).getD [] = [] := by
      rw [harr', hz.2.1]
      rfl
    refine ⟨{ BindingIds := m.BindingIds ++ [id],
              References := (m.References ++ [FLPrefabSequenceObjectReferences.mk []]).set
                m.BindingIds.length (FLPrefabSequenceObjectReferences.mk
                  (TArray_AddUnique W [] r)) }, ?_, ?_, ?_, ?_⟩
    · simp only [CreateBinding, hi, hz.1]
    · refine ⟨by simp [hlen], ?_⟩
      rw [List.nodup_append]
      refine ⟨hnd, List.nodup_singleton _, ?_⟩
      intro a ha hb
      rw [List.mem_singleton] at hb
      exact hnot (hb ▸ ha)
    · intro x
      simp [List.mem_append]
    · rw [hold]
      exact hz.2.2

theorem ArrayOf_of_WellFormed (m : FLPrefabSequenceObjectReferenceMap) (hwf : WellFormed m)
    (id : FGuid) :
    ArrayOf m id
      = (TMap.Find (m.BindingIds.zip m.References) id).map (fun Refs => Refs.Array) :=
  ArrayOf_eq_Find m.BindingIds m.References id hwf.1

theorem HasBinding_iff (m : FLPrefabSequenceObjectReferenceMap) (id : FGuid) :
    HasBinding m id = true ↔ id ∈ m.BindingIds := by
  simp [HasBinding]

/-- The objects that `ResolveBinding` adds are those that the references bound to the id
resolve to. -/
theorem ResolveBinding_objects (W : World) (m : FLPrefabSequenceObjectReferenceMap)
    (hwf : WellFormed m) (id : FGuid) (Out : List UObject) :
    (ResolveBinding W m id Out).map Prod.fst
      = some (Out ++ ((ArrayOf m id).getD []).filterMap
          (FLPrefabSequenceObjectReference.Resolve W)) := by
  unfold ResolveBinding ArrayOf
  cases hi : TArray_IndexOfByKey m.BindingIds id with
  | none => simp
  | some i =>
    obtain ⟨pre, post, h1, h2, _⟩ := TArray_IndexOfByKey_decomp _ _ i hi
    have hlt : i < m.References.length := by
      rw [← hwf.1, h1, ← h2]
      simp
    have hsome : m.References[i]? = some (m.References[i]) := List.getElem?_eq_getElem hlt
    simp only [hsome, Option.map_some', Option.getD_some]

/-- One call keeps the map well formed, and afterwards an id is bound exactly when the
call created it, or the call named another id and it was bound before. -/
theorem BindingCall_Apply_spec (c : BindingCall) (m : FLPrefabSequenceObjectReferenceMap)
    (hwf : WellFormed m) :
    ∃ m1, c.Apply m = some m1 ∧ WellFormed m1 ∧
      ∀ x, x ∈ m1.BindingIds ↔
        ((c.ObjectId = x ∧ c.IsCreateBinding = true) ∨ (c.ObjectId ≠ x ∧ x ∈ m.BindingIds)) := by
  cases c with
  | CreateBinding W id r =>
    obtain ⟨m1, h1, h2, h3, _⟩ := CreateBinding_spec W m hwf id r
    refine ⟨m1, h1, h2, ?_⟩
    intro x
    rw [h3]
    simp only [BindingCall.ObjectId, BindingCall.IsCreateBinding, and_true]
    constructor
    · rintro (h | h)
      · by_cases hx : id = x
        · exact Or.inl hx
        · exact Or.inr ⟨hx, h⟩
      · exact Or.inl h.symm
    · rintro (h | h)
      · exact Or.inr h.symm
      · exact Or.inl h.2
  | RemoveBinding id =>
    obtain ⟨m1, h1, h2, h3, _⟩ := RemoveBinding_spec m hwf id
    refine ⟨m1, h1, h2, ?_⟩
    intro x
    rw [h3]
    simp only [BindingCall.ObjectId, BindingCall.IsCreateBinding, Bool.false_eq_true,
      and_false, false_or]
    constructor
    · rintro ⟨h, hne⟩
      exact ⟨fun e => hne e.symm, h⟩
    · rintro ⟨hne, h⟩
      exact ⟨h, fun e => hne e.symm⟩

end FLPrefabSequenceObjectReferenceMap

/-- Every sequence of calls from the empty map returns a well-formed map, in which an id
is bound exactly when the last call that names it is a `CreateBinding`. -/
theorem ApplyBindingCalls_spec (Calls : List BindingCall) :
    ∃ m, ApplyBindingCalls Calls EmptyReferenceMap = some m ∧
      FLPrefabSequenceObjectReferenceMap.WellFormed m ∧
      ∀ id, id ∈ m.BindingIds ↔
        ∃ c, (Calls.filter (fun c => decide (c.ObjectId = id))).getLast? = some c ∧
          c.IsCreateBinding = true := by
  induction Calls using List.reverseRecOn with
  | nil =>
    refine ⟨EmptyReferenceMap, rfl, ⟨rfl, List.nodup_nil⟩, ?_⟩
    intro id
    simp [EmptyReferenceMap]
  | append_singleton Calls c ih =>
    obtain ⟨m, hm, hwf, hmem⟩ := ih
    obtain ⟨m1, h1, hwf1, hmem1⟩ := FLPrefabSequenceObjectReferenceMap.BindingCall_Apply_spec c m hwf
    refine ⟨m1, ?_, hwf1, ?_⟩
    · simp only [ApplyBindingCalls, List.foldl_append, List.foldl_cons, List.foldl_nil]
      have hm' : List.foldl (fun acc Call => acc.bind (fun m1 => Call.Apply m1))
          (some EmptyReferenceMap) Calls = some m := hm
      rw [hm']
      exact h1
    · intro id
      rw [hmem1 id, List.filter_append]
      by_cases hc : c.ObjectId = id
      · have hf : List.filter (fun c => decide (c.ObjectId = id)) [c] = [c] := by
          simp [List.filter, hc]
        rw [hf, List.getLast?_append_of_ne_nil _ (List.cons_ne_nil _ _)]
        simp only [List.getLast?_singleton, Option.some.injEq, exists_eq_left']
        constructor
        · rintro (h | h)
          · exact h.2
          · exact absurd hc h.1
        · exact fun h => Or.inl ⟨hc, h⟩
      · have hf : List.filter (fun c => decide (c.ObjectId = id)) [c] = [] := by
          simp [List.filter, hc]
        rw [hf, List.append_nil, ← hmem id]
        constructor
        · rintro (h | h)
          · exact absurd h.1 hc
          · exact h.2
        · exact fun h => Or.inr ⟨hc, h⟩

namespace TMap

theorem Keys_Add_of_mem {K V : Type} [DecidableEq K] (m : TMap K V) (k : K) (v : V)
    (h : k ∈ Keys m) : Keys (Add m k v) = Keys m := by
  induction m with
  | nil => simp [Keys] at h
  | cons p m ih =>
    obtain ⟨k0, v0⟩ := p
    by_cases h0 : k0 = k
    · simp [Add, Keys, h0]
    · have hk : k ∈ Keys m := by
        simp only [Keys, List.map_cons, List.mem_cons] at h
        rcases h with h | h
        · exact absurd h.symm h0
        · exact h
      have := ih hk
      simp only [Keys] at this ⊢
      simp only [Add, if_neg h0, List.map_cons, this]

end TMap

end LPrefab

namespace LPrefab

/-! # The worklist of generation 7 as a pre-order walk -/

/-- The children are visited in a permutation of the attachment order, also with a hook
that permutes. -/
theorem SortChildrenActors_perm_of_hook (W : World) (hp : HookPermutes W) (l : List UObject) :
    List.Perm (SortChildrenActors W l) l := by
  cases h : W.Serialize_SortChildrenActors with
  | none => exact SortChildrenActors_perm W h l
  | some hook =>
    unfold SortChildrenActors
    rw [h]
    exact hp hook h l

namespace LPrefabSystem7

theorem CollectActor_try_cases (W : World) (s : ActorSerializer) (a : UObject) :
    ∃ t0, (AddNewGuidIfAbsent W (CollectActor s a) a).TrySerializeActorArray
        = s.TrySerializeActorArray ++ t0 ∧ (t0 = [] ∨ t0 = [a]) := by
  rw [(AddNewGuidIfAbsent_lists W (CollectActor s a) a).1]
  unfold CollectActor
  split
  · exact ⟨[a], rfl, Or.inr rfl⟩
  · split
    · exact ⟨[a], rfl, Or.inr rfl⟩
    · exact ⟨[], by simp, Or.inl rfl⟩

/-- The visit of the children of an actor appends a pre-order walk, given that the visit
of one child does. -/
theorem CollectActorRecursive7_fold_preorder (W : World) (rank : UObject → Nat)
    (ht : TreeShaped W rank) (n : Nat) (a : UObject)
    (IH : ∀ (c : UObject) (s : ActorSerializer), ∃ t,
      (CollectActorRecursive W n c s).TrySerializeActorArray = s.TrySerializeActorArray ++ t ∧
      (∀ x ∈ t, AttachedBeneath W c x) ∧
      List.Pairwise (fun x y => ¬ AttachedBeneath W y x) t)
    (base : List UObject) :
    ∀ (cs : List UObject), (∀ c ∈ cs, c ∈ W.GetAttachedActors a) → cs.Nodup →
      ∀ (acc : ActorSerializer) (tacc : List UObject),
        acc.TrySerializeActorArray = base ++ tacc →
        (∀ x ∈ tacc, x = a ∨ ∃ c', c' ∈ W.GetAttachedActors a ∧ c' ∉ cs ∧
          AttachedBeneath W c' x) →
        List.Pairwise (fun x y => ¬ AttachedBeneath W y x) tacc →
        ∃ t, (cs.foldl (fun st c => CollectActorRecursive W n c st) acc).TrySerializeActorArray
            = base ++ t ∧
          (∀ x ∈ t, AttachedBeneath W a x) ∧
          List.Pairwise (fun x y => ¬ AttachedBeneath W y x) t := by
  intro cs
  induction cs with
  | nil =>
    intro _ _ acc tacc hacc htacc hpw
    refine ⟨tacc, hacc, ?_, hpw⟩
    intro x hx
    rcases htacc x hx with rfl | ⟨c', hc', _, hb⟩
    · exact AttachedBeneath.self
    · exact AttachedBeneath_trans (AttachedBeneath.step AttachedBeneath.self hc') hb
  | cons c cs ih =>
    intro hmem hnd acc tacc hacc htacc hpw
    rw [List.foldl_cons]
    obtain ⟨tc, htc, hbeneath, hpwc⟩ := IH c acc
    have hcatt : c ∈ W.GetAttachedActors a := hmem c (List.mem_cons_self _ _)
    rw [List.nodup_cons] at hnd
    apply ih (fun c' hc' => hmem c' (List.mem_cons_of_mem _ hc')) hnd.2
      (CollectActorRecursive W n c acc) (tacc ++ tc)
    · rw [htc, hacc, List.append_assoc]
    · intro x hx
      rcases List.mem_append.mp hx with hx | hx
      · rcases htacc x hx with h | ⟨c', hc', hnot, hb⟩
        · exact Or.inl h
        · exact Or.inr ⟨c', hc', fun hin => hnot (List.mem_cons_of_mem _ hin), hb⟩
      · exact Or.inr ⟨c, hcatt, hnd.1, hbeneath x hx⟩
    · rw [List.pairwise_append]
      refine ⟨hpw, hpwc, ?_⟩
      intro x hx y hy hyx
      have hcy := hbeneath y hy
      rcases htacc x hx with rfl | ⟨c', hc', hnot, hb⟩
      · have r1 := AttachedBeneath_rank ht hyx
        have r2 := AttachedBeneath_rank ht hcy
        have r3 := ht.acyclic _ _ hcatt
        omega
      · have hne : c' ≠ c := fun e => hnot (e ▸ List.mem_cons_self _ _)
        exact sibling_subtrees_disjoint ht hc' hcatt hne hb (AttachedBeneath_trans hcy hyx)

/-- The collection appends to the worklist a pre-order walk of what is beneath the actor
it is called on: no actor of the walk is, or is beneath, an actor that comes after it. -/
theorem CollectActorRecursive7_preorder (W : World) (hp : HookPermutes W)
    (rank : UObject → Nat) (ht : TreeShaped W rank) (fuel : Nat) :
    ∀ (a : UObject) (s : ActorSerializer), ∃ t,
      (CollectActorRecursive W fuel a s).TrySerializeActorArray = s.TrySerializeActorArray ++ t ∧
      (∀ x ∈ t, AttachedBeneath W a x) ∧
      List.Pairwise (fun x y => ¬ AttachedBeneath W y x) t := by
  induction fuel with
  | zero => intro a s; exact ⟨[], by simp [CollectActorRecursive], by simp, List.Pairwise.nil⟩
  | succ n ih =>
    intro a s
    by_cases hc : Collectable W s.bIsEditorOrRuntime a
    · rw [CollectActorRecursive7_succ_collectable W n a s hc]
      obtain ⟨t0, ht0, hcases⟩ := CollectActor_try_cases W s a
      have hperm := SortChildrenActors_perm_of_hook W hp (W.GetAttachedActors a)
      have hnodup : (SortChildrenActors W (W.GetAttachedActors a)).Nodup :=
        hperm.nodup_iff.mpr (ht.nodup a)
      apply CollectActorRecursive7_fold_preorder W rank ht n a ih s.TrySerializeActorArray
        (SortChildrenActors W (W.GetAttachedActors a)) (fun c hc => hperm.subset hc) hnodup
        _ t0 ht0
      · intro x hx
        rcases hcases with h | h
        · rw [h] at hx; cases hx
        · rw [h] at hx; exact Or.inl (List.mem_singleton.mp hx)
      · rcases hcases with h | h
        · rw [h]; exact List.Pairwise.nil
        · rw [h]; exact List.pairwise_singleton _ _
    · rw [CollectActorRecursive7_succ_skipped W n a s hc]
      exact ⟨[], by simp, by simp, List.Pairwise.nil⟩

/-- The visit of the children keeps the entries of the identity map and the actors of the
worklist. -/
theorem CollectActorRecursive7_fold_keeps (W : World) (n : Nat) (x : UObject) :
    ∀ (cs : List UObject) (acc : ActorSerializer),
      (TMap.Contains acc.MapObjectToGuid x = true →
        TMap.Contains (cs.foldl (fun st c => CollectActorRecursive W n c st) acc).MapObjectToGuid x
          = true) ∧
      (x ∈ acc.TrySerializeActorArray →
        x ∈ (cs.foldl (fun st c => CollectActorRecursive W n c st) acc).TrySerializeActorArray) := by
  intro cs
  induction cs with
  | nil => intro acc; exact ⟨id, id⟩
  | cons c cs ih =>
    intro acc
    rw [List.foldl_cons]
    obtain ⟨h1, h2⟩ := ih (CollectActorRecursive W n c acc)
    exact ⟨fun h => h1 ((CollectActorRecursive7_keeps W n c acc).2.2.2.contains x h),
      fun h => h2 ((CollectActorRecursive7_mono W n c acc x).1 h)⟩

/-- An actor that the collection does not skip gets an entry in the identity map, and a
place in the worklist unless it is an actor of a sub-prefab other than its root. -/
theorem CollectActorRecursive7_root (W : World) (n : Nat) (a : UObject) (s : ActorSerializer)
    (hc : Collectable W s.bIsEditorOrRuntime a) :
    TMap.Contains (CollectActorRecursive W (n + 1) a s).MapObjectToGuid a = true ∧
    ((a ∉ s.SubPrefabActorArray ∨ TMap.Contains s.SubPrefabMap a = true) →
      a ∈ (CollectActorRecursive W (n + 1) a s).TrySerializeActorArray) := by
  rw [CollectActorRecursive7_succ_collectable W n a s hc]
  obtain ⟨h1, h2⟩ := CollectActorRecursive7_fold_keeps W n a
    (SortChildrenActors W (W.GetAttachedActors a)) (AddNewGuidIfAbsent W (CollectActor s a) a)
  refine ⟨h1 (AddNewGuidIfAbsent_contains W _ a), ?_⟩
  intro h
  apply h2
  rw [(AddNewGuidIfAbsent_lists W (CollectActor s a) a).1]
  exact (CollectActor_try s a a).mpr (Or.inr ⟨rfl, h⟩)

/-- The GUIDs of the records of `SavedActors` are those of the worklist, reversed, as the
identity map holds them after the collection. -/
theorem SerializeActorToData7_guids (W : World) (fuel : Nat) (s : ActorSerializer)
    (Root : UObject)
    (hs : ∀ x ∈ s.TrySerializeActorArray, TMap.Contains s.MapObjectToGuid x = true) :
    (SerializeActorToData W fuel s Root).2.SavedActors.map (·.ActorGuid)
      = (CollectActorRecursive W fuel Root s).TrySerializeActorArray.reverse.map
          (TMap.FindChecked (CollectActorRecursive W fuel Root s).MapObjectToGuid) ∧
    Grows W (CollectActorRecursive W fuel Root s) (SerializeActorToData W fuel s Root).1 := by
  have hmapped := CollectActorRecursive7_try_mapped W fuel Root s hs
  obtain ⟨_, hrecs, _⟩ := SerializeActorArray7_fold_records W
    (CollectActorRecursive W fuel Root s).TrySerializeActorArray.reverse
    (CollectActorRecursive W fuel Root s, default)
    (fun x hx => hmapped x (List.mem_reverse.mp hx))
  have hsa : (SerializeActorToData W fuel s Root).2.SavedActors
      = (SerializeActorArray W (CollectActorRecursive W fuel Root s, default)).2.SavedActors :=
    SerializeObjectArray7_SavedActors W fuel 0 _
  constructor
  · rw [hsa]
    unfold SerializeActorArray
    rw [hrecs]
    rfl
  · exact (SerializeActorArray7_grows W (CollectActorRecursive W fuel Root s, default)).gtrans
      (SerializeObjectArray7_grows W fuel 0
        (SerializeActorArray W (CollectActorRecursive W fuel Root s, default)))

end LPrefabSystem7

end LPrefab

namespace LPrefab

/-! # The path of an actor found by its path -/

theorem FString_Split_some :
    ∀ (s L R : FString), FString_Split s '/' = some (L, R) → s = L ++ '/' :: R := by
  intro s
  induction s with
  | nil => intro L R h; cases h
  | cons c s ih =>
    intro L R h
    unfold FString_Split at h
    by_cases hc : c = '/'
    · rw [if_pos hc] at h
      cases h
      simp [hc]
    · rw [if_neg hc] at h
      cases hs : FString_Split s '/' with
      | none => rw [hs] at h; cases h
      | some q =>
        obtain ⟨L1, R1⟩ := q
        rw [hs] at h
        simp only [Option.some.injEq, Prod.mk.injEq] at h
        obtain ⟨h1, h2⟩ := h
        subst h1
        subst h2
        rw [ih L1 R1 hs]
        simp

theorem FString_Split_of_mem :
    ∀ (s : FString), '/' ∈ s → ∃ L R, FString_Split s '/' = some (L, R) := by
  intro s
  induction s with
  | nil => intro h; cases h
  | cons c s ih =>
    intro h
    unfold FString_Split
    by_cases hc : c = '/'
    · rw [if_pos hc]
      exact ⟨_, _, rfl⟩
    · rw [if_neg hc]
      have hs : '/' ∈ s := by
        rcases List.mem_cons.mp h with h1 | h1
        · exact absurd h1.symm hc
        · exact h1
      obtain ⟨L, R, hLR⟩ := ih hs
      rw [hLR]
      exact ⟨_, _, rfl⟩

theorem JoinPath_cons (x : FString) (items : List FString) (h : items ≠ []) :
    JoinPath (x :: items) = x ++ '/' :: JoinPath items := by
  cases items with
  | nil => exact absurd rfl h
  | cons y items => rfl

theorem JoinPath_append_singleton (l : List FString) (x : FString) :
    JoinPath (l ++ [x]) = JoinLabels l x := by
  induction l with
  | nil => rfl
  | cons y l ih =>
    rw [List.cons_append, JoinPath_cons y _ (by simp), ih]
    rfl

theorem JoinPath_toLower (items : List FString) :
    (JoinPath items).map Char.toLower = JoinPath (items.map (List.map Char.toLower)) := by
  induction items with
  | nil => rfl
  | cons x items ih =>
    cases items with
    | nil => rfl
    | cons y items =>
      have e1 : JoinPath (x :: y :: items) = x ++ '/' :: JoinPath (y :: items) := rfl
      have e2 : JoinPath ((x :: y :: items).map (List.map Char.toLower))
          = x.map Char.toLower ++ '/' :: JoinPath ((y :: items).map (List.map Char.toLower)) :=
        rfl
      rw [e1, e2, List.map_append, List.map_cons, ih]
      rfl

namespace FLPrefabSequenceObjectReference

/-- The splitting loop returns path items that, joined by "/", give the string again. -/
theorem split_while_JoinPath :
    ∀ (fuel : Nat) (s : FString) (acc : List FString), s.length < fuel →
      ∃ items, items ≠ [] ∧
        GetActorFromContextActorByRelativePath_while fuel s s acc = acc ++ items ∧
        JoinPath items = s := by
  intro fuel
  induction fuel with
  | zero => intro s acc h; exact absurd h (Nat.not_lt_zero _)
  | succ n ih =>
    intro s acc h
    unfold GetActorFromContextActorByRelativePath_while
    cases hs : FString_Split s '/' with
    | none => exact ⟨[s], by simp, rfl, rfl⟩
    | some q =>
      obtain ⟨L, R⟩ := q
      have hsplit := FString_Split_some s L R hs
      have hlen : R.length < n := by
        rw [hsplit] at h
        simp only [List.length_append, List.length_cons] at h
        omega
      obtain ⟨items, hne, hitems, hjoin⟩ := ih R (acc ++ [L]) hlen
      refine ⟨L :: items, by simp, ?_, ?_⟩
      · simp only
        rw [hitems]
        simp
      · rw [JoinPath_cons L items hne, hjoin, hsplit]

/-- The array of path items that `GetActorFromContextActorByRelativePath` builds, joined
by "/", gives the path again. -/
theorem SplitedArray_JoinPath (p : FString) :
    ∃ items, items ≠ [] ∧
      (if FString_Contains p '/' then
          GetActorFromContextActorByRelativePath_while (p.length + 1) p [] []
        else [p]) = items ∧
      JoinPath items = p := by
  by_cases hc : FString_Contains p '/' = true
  · rw [if_pos hc]
    have hmem : '/' ∈ p := by simpa [FString_Contains] using hc
    obtain ⟨L, R, hLR⟩ := FString_Split_of_mem p hmem
    have hsplit := FString_Split_some p L R hLR
    unfold GetActorFromContextActorByRelativePath_while
    rw [hLR]
    simp only
    have hlen : R.length < p.length := by
      rw [hsplit]
      simp only [List.length_append, List.length_cons]
      omega
    obtain ⟨items, hne, hitems, hjoin⟩ := split_while_JoinPath p.length R ([] ++ [L]) hlen
    refine ⟨L :: items, by simp, ?_, ?_⟩
    · rw [hitems]
      simp
    · rw [JoinPath_cons L items hne, hjoin, hsplit]
  · rw [if_neg hc]
    exact ⟨[p], by simp, rfl, rfl⟩

/-- The actor that the walk down the path items returns is the last of a chain of actors,
each attached to the one before it and with a label equal to its item, ignoring case. -/
theorem for_found (W : World) :
    ∀ (items : List FString) (P A : UObject),
      GetActorFromContextActorByRelativePath_for W items P = some A →
      ∃ chain : List UObject, chain.getLast? = some A ∧
        List.Chain (fun p c => c ∈ W.GetAttachedActors p) P chain ∧
        List.Forall₂ (fun item a => FString_Equals item (W.GetActorLabel a) = true)
          items chain := by
  intro items
  induction items with
  | nil => intro P A h; cases h
  | cons item rest ih =>
    intro P A h
    unfold GetActorFromContextActorByRelativePath_for at h
    cases hf : (W.GetAttachedActors P).find?
        (fun ChildActor => FString_Equals item (W.GetActorLabel ChildActor)) with
    | none => rw [hf] at h; cases h
    | some F =>
      rw [hf] at h
      have hmem : F ∈ W.GetAttachedActors P := List.mem_of_find?_eq_some hf
      have heq : FString_Equals item (W.GetActorLabel F) = true := by
        have := List.find?_some hf
        simpa using this
      simp only at h
      cases rest with
      | nil =>
        simp only [List.isEmpty_nil, if_true, Option.some.injEq] at h
        subst h
        exact ⟨[F], rfl, List.Chain.cons hmem List.Chain.nil,
          List.Forall₂.cons heq List.Forall₂.nil⟩
      | cons item2 rest =>
        simp only [List.isEmpty_cons, Bool.false_eq_true, if_false] at h
        obtain ⟨chain, hlast, hchain, hall⟩ := ih F A h
        cases chain with
        | nil => cases hlast
        | cons b chain =>
          refine ⟨F :: b :: chain, ?_, List.Chain.cons hmem hchain, List.Forall₂.cons heq hall⟩
          rw [List.getLast?_cons_cons]
          exact hlast

theorem chain_rank {W : World} {rank : UObject → Nat} (ht : TreeShaped W rank) :
    ∀ (chain : List UObject) (P : UObject),
      List.Chain (fun p c => c ∈ W.GetAttachedActors p) P chain →
      chain.length ≤ rank P ∧ ∀ a ∈ chain, rank a < rank P ∧ AttachedBeneath W P a := by
  intro chain
  induction chain with
  | nil => intro P _; exact ⟨Nat.zero_le _, fun a ha => by cases ha⟩
  | cons b chain ih =>
    intro P h
    rw [List.chain_cons] at h
    obtain ⟨hlen, hall⟩ := ih b h.2
    have hr := ht.acyclic _ _ h.1
    refine ⟨by simp only [List.length_cons]; omega, ?_⟩
    intro a ha
    rcases List.mem_cons.mp ha with rfl | ha
    · exact ⟨hr, AttachedBeneath.step AttachedBeneath.self h.1⟩
    · obtain ⟨h1, h2⟩ := hall a ha
      exact ⟨by omega,
        AttachedBeneath_trans (AttachedBeneath.step AttachedBeneath.self h.1) h2⟩

theorem chain_append_last {W : World} :
    ∀ (init : List UObject) (P A : UObject),
      List.Chain (fun p c => c ∈ W.GetAttachedActors p) P (init ++ [A]) →
      List.Chain (fun p c => c ∈ W.GetAttachedActors p) P init ∧
        A ∈ W.GetAttachedActors (init.getLast?.getD P) := by
  intro init
  induction init with
  | nil =>
    intro P A h
    rw [List.nil_append, List.chain_cons] at h
    exact ⟨List.Chain.nil, h.1⟩
  | cons b init ih =>
    intro P A h
    rw [List.cons_append, List.chain_cons] at h
    obtain ⟨h1, h2⟩ := ih b A h.2
    refine ⟨List.Chain.cons h.1 h1, ?_⟩
    rw [getLastD_cons]
    exact h2

/-- The climb towards the context actor along a chain of attached actors puts the labels
of the chain in front of the result. -/
theorem path_while_climb (W : World) (rank : UObject → Nat) (ht : TreeShaped W rank)
    (C : UObject) (R : FString) :
    ∀ (chain : List UObject) (P : UObject) (fuel : Nat),
      List.Chain (fun p c => c ∈ W.GetAttachedActors p) P chain →
      (∀ a ∈ chain, a ≠ C) → chain.length ≤ fuel →
      GetActorPathRelativeToContextActor_while W C fuel R (some (chain.getLast?.getD P))
        = GetActorPathRelativeToContextActor_while W C (fuel - chain.length)
            (JoinLabels (chain.map W.GetActorLabel) R) (some P) := by
  intro chain
  induction chain with
  | nil => intro P fuel _ _ _; simp [JoinLabels]
  | cons a rest ih =>
    intro P fuel h hne hfuel
    rw [List.chain_cons] at h
    simp only [List.length_cons] at hfuel
    rw [getLastD_cons, ih a fuel h.2 (fun x hx => hne x (List.mem_cons_of_mem _ hx)) (by omega)]
    obtain ⟨k, hk⟩ : ∃ k, fuel - rest.length = k + 1 := ⟨fuel - rest.length - 1, by omega⟩
    have hk2 : fuel - (a :: rest).length = k := by simp only [List.length_cons]; omega
    rw [hk, hk2, path_while_step W C a k _ (hne a (List.mem_cons_self _ _)),
      ht.parent P a h.1]
    simp [JoinLabels]

theorem Forall₂_toLower (W : World) :
    ∀ (items : List FString) (chain : List UObject),
      List.Forall₂ (fun item a => FString_Equals item (W.GetActorLabel a) = true) items chain →
      (chain.map W.GetActorLabel).map (List.map Char.toLower)
        = items.map (List.map Char.toLower) := by
  intro items chain h
  induction h with
  | nil => rfl
  | cons hab _ ih =>
    simp only [List.map_cons]
    rw [ih]
    have := hab
    unfold FString_Equals at this
    rw [of_decide_eq_true this]

/-- In a tree-shaped hierarchy the relative path of an actor found by a path is that
path, ignoring case. -/
theorem GetActorPath_of_found (W : World) (rank : UObject → Nat) (ht : TreeShaped W rank)
    (C : UObject)
    (hatt : ∀ A, A ≠ C → AttachedBeneath W C A → W.IsAttachedTo A C = true)
    (fuel : Nat) (hfuel : rank C ≤ fuel) (p : FString) (A : UObject)
    (h : GetActorFromContextActorByRelativePath W C p = some A) :
    ∃ path, GetActorPathRelativeToContextActor W fuel C A = some path ∧
      FString_Equals path p = true := by
  unfold GetActorFromContextActorByRelativePath at h
  by_cases hs : FString_Equals p "/".data = true
  · rw [if_pos hs] at h
    cases h
    have hp := (FString_Equals_slash p).1 hs
    subst hp
    exact ⟨"/".data, by simp [GetActorPathRelativeToContextActor], by decide⟩
  · rw [if_neg hs] at h
    simp only at h
    obtain ⟨items, _, hitems, hjoin⟩ := SplitedArray_JoinPath p
    rw [hitems] at h
    obtain ⟨chain, hlast, hchain, hall⟩ := for_found W items C A h
    have hsplit : chain.dropLast ++ [A] = chain :=
      List.dropLast_append_getLast? A (by simp [hlast])
    obtain ⟨hlen, hranks⟩ := chain_rank ht chain C hchain
    have hAmem : A ∈ chain := by rw [← hsplit]; simp
    obtain ⟨hrA, hbeneath⟩ := hranks A hAmem
    have hAC : A ≠ C := fun e => by rw [e] at hrA; exact Nat.lt_irrefl _ hrA
    have hchain2 := hchain
    rw [← hsplit] at hchain2
    obtain ⟨hinit, hAparent⟩ := chain_append_last chain.dropLast C A hchain2
    have hinitlen : chain.dropLast.length ≤ fuel := by
      have : chain.length = chain.dropLast.length + 1 := by
        conv_lhs => rw [← hsplit]
        simp
      omega
    have hne : ∀ a ∈ chain.dropLast, a ≠ C := by
      intro a ha e
      have hr := (hranks a (by rw [← hsplit]; exact List.mem_append_left _ ha)).1
      rw [e] at hr
      exact Nat.lt_irrefl _ hr
    refine ⟨JoinLabels (chain.dropLast.map W.GetActorLabel) (W.GetActorLabel A), ?_, ?_⟩
    · unfold GetActorPathRelativeToContextActor
      rw [if_neg hAC, hatt A hAC hbeneath, ht.parent _ _ hAparent]
      simp only [if_true]
      rw [path_while_climb W rank ht C _ chain.dropLast C fuel hinit hne hinitlen,
        path_while_context]
    · have hpath : JoinLabels (chain.dropLast.map W.GetActorLabel) (W.GetActorLabel A)
          = JoinPath (chain.map W.GetActorLabel) := by
        rw [← JoinPath_append_singleton]
        conv_rhs => rw [← hsplit]
        simp
      rw [hpath]
      unfold FString_Equals
      rw [decide_eq_true_eq, ← hjoin, JoinPath_toLower, JoinPath_toLower,
        Forall₂_toLower W items chain hall]

/-- A successful repair caches the actor that the cached path leads to. -/
theorem Fix_true_HelperActor (W : World) (C : UObject)
    (r r1 : FLPrefabSequenceObjectReference)
    (h : FixObjectReferenceFromEditorHelpers W C r = some (true, r1)) :
    ∃ A, GetActorFromContextActorByRelativePath W C r.HelperActorPath = some A ∧
      r1.HelperActor = some A ∧ r1.HelperActorPath = r.HelperActorPath := by
  unfold FixObjectReferenceFromEditorHelpers at h
  cases hA : GetActorFromContextActorByRelativePath W C r.HelperActorPath with
  | none =>
    rw [hA] at h
    cases h
  | some A =>
    refine ⟨A, rfl, ?_⟩
    rw [hA] at h
    dsimp only at h
    split at h
    · cases h
    · split at h
      · cases h; exact ⟨rfl, rfl⟩
      · split at h
        · split at h
          · cases h
          · cases h; exact ⟨rfl, rfl⟩
          · split at h
            · split at h
              · cases h; exact ⟨rfl, rfl⟩
              · cases h; exact ⟨rfl, rfl⟩
            · split at h
              · cases h; exact ⟨rfl, rfl⟩
              · cases h; exact ⟨rfl, rfl⟩
        · cases h

end FLPrefabSequenceObjectReference

end LPrefab

namespace LPrefab

/-! # Theorems about `SavePrefab` -/

/-- C3 (counterexample): the caller's map holds the destroyed object 9 under the GUID 77;
the root 1 passes the validation of generation 7, and the map handed back has no entry
for 9, so it is not a superset of the map passed in. -/
theorem C3_returned_map_not_superset :
    ¬ RootRejected RootWithBA (some 1) (some default) true ∧
    ¬ (∀ o g, TMap.Find [(9, 77)] o = some g →
        TMap.Find (LPrefabSystem7.SavePrefab RootWithBA 5 (some 1) (some default)
          [(9, 77)] [] true).2 o = some g) := by
  constructor
  · intro h
    rcases h with h | h | ⟨r, hr, h⟩
    · cases h
    · cases h
    · injection hr with hr
      subst hr
      revert h
      decide
  · intro h
    have h9 := h 9 77 (by decide)
    revert h9
    decide

/-- C3 (amended): for `SavePrefab` of generation 7 on a root that passes validation, the identity
map handed back keeps every entry of the map passed in whose object is still valid,
with the same GUID; every other entry of the map handed back is an object that the map
passed in did not hold as a valid object, with a GUID drawn from `FGuid::NewGuid()`. -/
theorem C3_returned_map_extends_valid_entries (W : World) (fuel : Nat) (Root : UObject)
    (Prefab : ULPrefab) (M : TMap UObject FGuid) (Sub : TMap UObject FLSubPrefabData)
    (editor : Bool) (hnd : (TMap.Keys M).Nodup)
    (hpass : ¬ RootRejected W (some Root) (some Prefab) editor) :
    (∀ o g, TMap.Find M o = some g → W.IsValid o = true →
      TMap.Find (LPrefabSystem7.SavePrefab W fuel (some Root) (some Prefab) M Sub editor).2 o
        = some g) ∧
    (∀ o g,
      TMap.Find (LPrefabSystem7.SavePrefab W fuel (some Root) (some Prefab) M Sub editor).2 o
        = some g →
      (TMap.Find M o = some g ∧ W.IsValid o = true) ∨
      ((TMap.Find M o = none ∨ W.IsValid o = false) ∧ ∃ n, g = W.NewGuid n)) := by
  have hv : W.IsValid Root = true := by
    cases h : W.IsValid Root with
    | true => rfl
    | false => exact absurd (Or.inr (Or.inr ⟨Root, rfl, Or.inl h⟩)) hpass
  have hw : W.HasWorld Root = true := by
    cases h : W.HasWorld Root with
    | true => rfl
    | false => exact absurd (Or.inr (Or.inr ⟨Root, rfl, Or.inr (Or.inl h)⟩)) hpass
  have ht : W.IsTransient Root = false := by
    cases h : W.IsTransient Root with
    | false => rfl
    | true => exact absurd (Or.inr (Or.inr ⟨Root, rfl, Or.inr (Or.inr (Or.inl h))⟩)) hpass
  have he : (!editor && W.IsEditorOnly Root) = false := by
    cases h1 : editor with
    | true => rfl
    | false =>
      cases h2 : W.IsEditorOnly Root with
      | false => rfl
      | true =>
        exact absurd (Or.inr (Or.inr ⟨Root, rfl, Or.inr (Or.inr (Or.inr ⟨h1, h2⟩))⟩)) hpass
  have hout : (LPrefabSystem7.SavePrefab W fuel (some Root) (some Prefab) M Sub editor).2
      = (LPrefabSystem7.SerializeActor W fuel
          (LPrefabSystem7.SavePrefab_serializer W M Sub editor) Root Prefab).1.MapObjectToGuid := by
    simp [LPrefabSystem7.SavePrefab, hv, hw, ht, he]
  rw [hout]
  have hg := LPrefabSystem7.SerializeActor7_mapGrows W fuel
    (LPrefabSystem7.SavePrefab_serializer W M Sub editor) Root Prefab
  have hpre : (LPrefabSystem7.SavePrefab_serializer W M Sub editor).MapObjectToGuid
      = PreprocessMap W M := rfl
  rw [hpre] at hg
  constructor
  · intro o g hM hvalid
    apply hg.1
    rw [PreprocessMap_Find W M o hnd, if_pos hvalid]
    exact hM
  · intro o g hout
    rcases hg.2 o g hout with h | ⟨h, n, hn⟩
    · rw [PreprocessMap_Find W M o hnd] at h
      by_cases hvalid : W.IsValid o = true
      · rw [if_pos hvalid] at h; exact Or.inl ⟨h, hvalid⟩
      · rw [if_neg hvalid] at h; cases h
    · right
      refine ⟨?_, n, hn⟩
      rw [PreprocessMap_Find W M o hnd] at h
      by_cases hvalid : W.IsValid o = true
      · rw [if_pos hvalid] at h; exact Or.inl h
      · right; simpa using hvalid

/-- C3 (witness): the scenario "Root" with "B" and "A", saved with a map that already
holds "B" under the GUID 77. -/
theorem C3_returned_map_extends_valid_entries_witness :
    (∀ o g, TMap.Find [(2, 77)] o = some g → RootWithBA.IsValid o = true →
      TMap.Find (LPrefabSystem7.SavePrefab RootWithBA 5 (some 1) (some default)
        [(2, 77)] [] true).2 o = some g) ∧
    (∀ o g,
      TMap.Find (LPrefabSystem7.SavePrefab RootWithBA 5 (some 1) (some default)
        [(2, 77)] [] true).2 o = some g →
      (TMap.Find [(2, 77)] o = some g ∧ RootWithBA.IsValid o = true) ∨
      ((TMap.Find [(2, 77)] o = none ∨ RootWithBA.IsValid o = false) ∧
        ∃ n, g = RootWithBA.NewGuid n)) :=
  C3_returned_map_extends_valid_entries RootWithBA 5 1 default [(2, 77)] [] true (by decide)
    (by
      intro h
      rcases h with h | h | ⟨r, hr, h⟩
      · cases h
      · cases h
      · injection hr with hr
        subst hr
        revert h
        decide)

/-- The entries of the caller's map after the preprocessing and any growth of the map:
an entry with a destroyed object is not in the result, an entry with a valid object is. -/
theorem dropped_and_kept_of_mapGrows (W : World) (M out : TMap UObject FGuid)
    (hnd : (TMap.Keys M).Nodup)
    (hfresh : ∀ n o g, TMap.Find M o = some g → W.NewGuid n ≠ g)
    (hg : MapGrows W (PreprocessMap W M) out) :
    (∀ o g, TMap.Find M o = some g → W.IsValid o = false → TMap.Find out o ≠ some g) ∧
    (∀ o g, TMap.Find M o = some g → W.IsValid o = true → TMap.Find out o = some g) := by
  constructor
  · intro o g hM hinv hout
    rcases hg.2 o g hout with h | ⟨_, n, hn⟩
    · rw [PreprocessMap_Find W M o hnd] at h
      simp [hinv] at h
    · exact hfresh n o g hM hn.symm
  · intro o g hM hvalid
    apply hg.1
    rw [PreprocessMap_Find W M o hnd, if_pos hvalid]
    exact hM

/-- C9: in the three generations, after a call of `SavePrefab` that passes the validation
of its generation, no entry of the caller's identity map whose object is no longer valid
is in the map handed back, and every entry whose object is valid is in it with its
GUID (the GUIDs that `FGuid::NewGuid()` returns are taken to be new: none of them is a GUID of the
caller's map). -/
theorem C9_SavePrefab_drops_invalid_entries (W : World) (fuel : Nat) (Root : UObject)
    (Prefab : ULPrefab) (M : TMap UObject FGuid) (Sub : TMap UObject FLSubPrefabData)
    (editor : Bool) (hnd : (TMap.Keys M).Nodup)
    (hfresh : ∀ n o g, TMap.Find M o = some g → W.NewGuid n ≠ g) :
    (¬ RootRejected W (some Root) (some Prefab) editor →
      (∀ o g, TMap.Find M o = some g → W.IsValid o = false →
        TMap.Find (LPrefabSystem7.SavePrefab W fuel (some Root) (some Prefab) M Sub editor).2 o
          ≠ some g) ∧
      (∀ o g, TMap.Find M o = some g → W.IsValid o = true →
        TMap.Find (LPrefabSystem7.SavePrefab W fuel (some Root) (some Prefab) M Sub editor).2 o
          = some g)) ∧
    (¬ RootRejected W (some Root) (some Prefab) editor →
      (∀ o g, TMap.Find M o = some g → W.IsValid o = false →
        TMap.Find (LPrefabSystem6.SavePrefab W fuel (some Root) (some Prefab) M Sub editor).2 o
          ≠ some g) ∧
      (∀ o g, TMap.Find M o = some g → W.IsValid o = true →
        TMap.Find (LPrefabSystem6.SavePrefab W fuel (some Root) (some Prefab) M Sub editor).2 o
          = some g)) ∧
    (W.HasWorld Root = true →
      (∀ o g, TMap.Find M o = some g → W.IsValid o = false →
        TMap.Find (LPrefabSystem3.SavePrefab W fuel (some Root) (some Prefab) M Sub editor).2 o
          ≠ some g) ∧
      (∀ o g, TMap.Find M o = some g → W.IsValid o = true →
        TMap.Find (LPrefabSystem3.SavePrefab W fuel (some Root) (some Prefab) M Sub editor).2 o
          = some g)) := by
  have hpass : ¬ RootRejected W (some Root) (some Prefab) editor →
      W.IsValid Root = true ∧ W.HasWorld Root = true ∧ W.IsTransient Root = false ∧
        (!editor && W.IsEditorOnly Root) = false := by
    intro hp
    refine ⟨?_, ?_, ?_, ?_⟩
    · cases h : W.IsValid Root with
      | true => rfl
      | false => exact absurd (Or.inr (Or.inr ⟨Root, rfl, Or.inl h⟩)) hp
    · cases h : W.HasWorld Root with
      | true => rfl
      | false => exact absurd (Or.inr (Or.inr ⟨Root, rfl, Or.inr (Or.inl h)⟩)) hp
    · cases h : W.IsTransient Root with
      | false => rfl
      | true => exact absurd (Or.inr (Or.inr ⟨Root, rfl, Or.inr (Or.inr (Or.inl h))⟩)) hp
    · cases h1 : editor with
      | true => rfl
      | false =>
        cases h2 : W.IsEditorOnly Root with
        | false => rfl
        | true =>
          exact absurd (Or.inr (Or.inr ⟨Root, rfl, Or.inr (Or.inr (Or.inr ⟨h1, h2⟩))⟩)) hp
  refine ⟨?_, ?_, ?_⟩
  · intro hp
    obtain ⟨hv, hw, ht, he⟩ := hpass hp
    have hout : (LPrefabSystem7.SavePrefab W fuel (some Root) (some Prefab) M Sub editor).2
        = (LPrefabSystem7.SerializeActor W fuel
            (LPrefabSystem7.SavePrefab_serializer W M Sub editor) Root Prefab).1.MapObjectToGuid := by
      simp [LPrefabSystem7.SavePrefab, hv, hw, ht, he]
    rw [hout]
    exact dropped_and_kept_of_mapGrows W M _ hnd hfresh
      (LPrefabSystem7.SerializeActor7_mapGrows W fuel
        (LPrefabSystem7.SavePrefab_serializer W M Sub editor) Root Prefab)
  · intro hp
    obtain ⟨hv, hw, ht, he⟩ := hpass hp
    have hout : (LPrefabSystem6.SavePrefab W fuel (some Root) (some Prefab) M Sub editor).2
        = (LPrefabSystem6.SerializeActor W fuel
            (LPrefabSystem6.SavePrefab_serializer W M Sub editor) Root Prefab).1.MapObjectToGuid := by
      simp [LPrefabSystem6.SavePrefab, hv, hw, ht, he]
    rw [hout]
    exact dropped_and_kept_of_mapGrows W M _ hnd hfresh
      (LPrefabSystem6.SerializeActor6_mapGrows W fuel
        (LPrefabSystem6.SavePrefab_serializer W M Sub editor) Root Prefab)
  · intro hw
    have hout : (LPrefabSystem3.SavePrefab W fuel (some Root) (some Prefab) M Sub editor).2
        = (LPrefabSystem3.SerializeActor W fuel
            (LPrefabSystem3.SavePrefab_serializer W M Sub editor) Root Prefab).1.MapObjectToGuid := by
      simp [LPrefabSystem3.SavePrefab, hw]
    rw [hout]
    exact dropped_and_kept_of_mapGrows W M _ hnd hfresh
      (LPrefabSystem3.SerializeActor3_mapGrows W fuel
        (LPrefabSystem3.SavePrefab_serializer W M Sub editor) Root Prefab)

/-- C9 (witness): "Root" with "B" and "A", saved with a map that holds "B" under the GUID
77 and the destroyed object 9 under the GUID 78. -/
theorem C9_SavePrefab_drops_invalid_entries_witness :
    TMap.Find (LPrefabSystem7.SavePrefab RootWithBA 5 (some 1) (some default)
      [(2, 77), (9, 78)] [] true).2 9 ≠ some 78 ∧
    TMap.Find (LPrefabSystem6.SavePrefab RootWithBA 5 (some 1) (some default)
      [(2, 77), (9, 78)] [] true).2 2 = some 77 ∧
    TMap.Find (LPrefabSystem3.SavePrefab RootWithBA 5 (some 1) (some default)
      [(2, 77), (9, 78)] [] true).2 9 ≠ some 78 := by
  have hnd : (TMap.Keys [((2 : UObject), (77 : FGuid)), (9, 78)]).Nodup := by decide
  have hfresh : ∀ n o g, TMap.Find [((2 : UObject), (77 : FGuid)), (9, 78)] o = some g →
      RootWithBA.NewGuid n ≠ g := by
    intro n o g h
    have hg : g = 77 ∨ g = 78 := by
      simp only [TMap.Find] at h
      split at h
      · left; injection h with h; exact h.symm
      · split at h
        · right; injection h with h; exact h.symm
        · cases h
    show 1000 + n ≠ g
    rcases hg with rfl | rfl <;> omega
  have hpass : ¬ RootRejected RootWithBA (some 1) (some default) true := by
    intro h
    rcases h with h | h | ⟨r, hr, h⟩
    · cases h
    · cases h
    · injection hr with hr
      subst hr
      revert h
      decide
  have h := C9_SavePrefab_drops_invalid_entries RootWithBA 5 1 default [(2, 77), (9, 78)] []
    true hnd hfresh
  exact ⟨(h.1 hpass).1 9 78 (by decide) (by decide), (h.2.1 hpass).2 2 77 (by decide) (by decide),
    (h.2.2 (by decide)).1 9 78 (by decide) (by decide)⟩

end LPrefab

namespace LPrefab

/-! # Theorems about the collection of generation 7 -/

theorem CollectChain_collectable (W : World) (e : Bool) (Root x : UObject)
    (h : CollectChain W e Root x) : Collectable W e x := by
  cases h with
  | root h => exact h
  | step _ _ h => exact h

/-- C6: `CollectActorRecursive` of generation 7 puts an actor in `TrySerializeActorArray` or
`WillSerializeActorArray`, or gives it a new GUID, only if the actor is reached from the
root through attached actors none of which, the actor included, is invalid, transient
or (in build mode) editor-only; called on such an actor it returns at once, without
visiting what is attached to it. In editor mode a valid actor that is not transient is
collected whether it is editor-only or not. -/
theorem C6_collect_skips_invalid_transient_editor_only (W : World) (hh : HookOnlyReorders W)
    (fuel : Nat) (Root : UObject) (s : ActorSerializer) :
    (∀ x, x ∈ (LPrefabSystem7.CollectActorRecursive W fuel Root s).TrySerializeActorArray →
      x ∉ s.TrySerializeActorArray → CollectChain W s.bIsEditorOrRuntime Root x) ∧
    (∀ x, x ∈ (LPrefabSystem7.CollectActorRecursive W fuel Root s).WillSerializeActorArray →
      x ∉ s.WillSerializeActorArray → CollectChain W s.bIsEditorOrRuntime Root x) ∧
    (∀ x, TMap.Contains (LPrefabSystem7.CollectActorRecursive W fuel Root s).MapObjectToGuid x = true →
      TMap.Contains s.MapObjectToGuid x = false → CollectChain W s.bIsEditorOrRuntime Root x) ∧
    (∀ x, CollectChain W s.bIsEditorOrRuntime Root x →
      W.IsValid x = true ∧ W.IsTransient x = false ∧
        (s.bIsEditorOrRuntime = true ∨ W.bIsEditorOnlyActor x = false)) ∧
    (∀ a, (W.IsValid a = false ∨ W.IsTransient a = true ∨
        (s.bIsEditorOrRuntime = false ∧ W.bIsEditorOnlyActor a = true)) →
      LPrefabSystem7.CollectActorRecursive W fuel a s = s) ∧
    (∀ a, s.bIsEditorOrRuntime = true → W.IsValid a = true → W.IsTransient a = false →
      TMap.Contains (LPrefabSystem7.CollectActorRecursive W (fuel + 1) a s).MapObjectToGuid a = true ∧
      (a ∉ s.SubPrefabActorArray →
        a ∈ (LPrefabSystem7.CollectActorRecursive W (fuel + 1) a s).TrySerializeActorArray ∧
        a ∈ (LPrefabSystem7.CollectActorRecursive W (fuel + 1) a s).WillSerializeActorArray)) := by
  have hnew := LPrefabSystem7.CollectActorRecursive7_new W hh Root fuel Root s
    (fun h => CollectChain.root h)
  refine ⟨?_, ?_, ?_, ?_, ?_, ?_⟩
  · intro x hx hnot
    rcases (hnew x).1 hx with h | h
    · exact absurd h hnot
    · exact h.1
  · intro x hx hnot
    rcases (hnew x).2.1 hx with h | h
    · exact absurd h hnot
    · exact h.1
  · intro x hx hnot
    rcases (hnew x).2.2 hx with h | h
    · rw [h] at hnot; cases hnot
    · exact h
  · intro x hx
    exact CollectChain_collectable W _ Root x hx
  · intro a ha
    cases fuel with
    | zero => rfl
    | succ n =>
      apply LPrefabSystem7.CollectActorRecursive7_succ_skipped
      rintro ⟨h1, h2, h3⟩
      rcases ha with h | h | ⟨h, h'⟩
      · rw [h1] at h; cases h
      · rw [h2] at h; cases h
      · rcases h3 with h3 | h3
        · rw [h3] at h; cases h
        · rw [h3] at h'; cases h'
  · intro a he hv ht
    have hc : Collectable W s.bIsEditorOrRuntime a := ⟨hv, ht, Or.inl he⟩
    rw [LPrefabSystem7.CollectActorRecursive7_succ_collectable W fuel a s hc]
    have hinv := foldl_inv (fun acc : ActorSerializer =>
      TMap.Contains acc.MapObjectToGuid a = true ∧
      (a ∉ s.SubPrefabActorArray →
        a ∈ acc.TrySerializeActorArray ∧ a ∈ acc.WillSerializeActorArray))
      (fun st ChildActor => LPrefabSystem7.CollectActorRecursive W fuel ChildActor st)
      (fun acc c ⟨h1, h2⟩ =>
        ⟨(LPrefabSystem7.CollectActorRecursive7_keeps W fuel c acc).2.2.2.contains a h1,
          fun hn => ⟨(LPrefabSystem7.CollectActorRecursive7_mono W fuel c acc a).1 (h2 hn).1,
            (LPrefabSystem7.CollectActorRecursive7_mono W fuel c acc a).2 (h2 hn).2⟩⟩)
      (SortChildrenActors W (W.GetAttachedActors a))
      (AddNewGuidIfAbsent W (LPrefabSystem7.CollectActor s a) a)
      ⟨AddNewGuidIfAbsent_contains W _ a, fun hn => by
        obtain ⟨e1, e2⟩ := LPrefabSystem7.AddNewGuidIfAbsent_lists W (LPrefabSystem7.CollectActor s a) a
        rw [e1, e2, LPrefabSystem7.CollectActor_try, LPrefabSystem7.CollectActor_will]
        exact ⟨Or.inr ⟨rfl, Or.inl hn⟩, Or.inr ⟨rfl, hn⟩⟩⟩
    exact hinv

/-- C6 (witness): in the level where the transient actor 2 and the editor-only actor 3
are attached to the actor 1, the collection in editor mode reaches the actor 5 beneath 3
through actors that are not skipped, and the actor 4 beneath 2 is not collected. -/
theorem C6_collect_skips_invalid_transient_editor_only_witness :
    CollectChain LevelWithSkipped true 1 5 ∧
    4 ∉ (LPrefabSystem7.CollectActorRecursive LevelWithSkipped 5 1
      { ActorSerializer.New with bIsEditorOrRuntime := true }).TrySerializeActorArray :=
  ⟨(C6_collect_skips_invalid_transient_editor_only LevelWithSkipped
      (fun hook h => by cases h) 5 1
      { ActorSerializer.New with bIsEditorOrRuntime := true }).1 5 (by decide) (by decide),
    by decide⟩

end LPrefab

namespace LPrefab

/-! # Theorems about the records of generation 7 -/

/-- The worklist of a save of generation 7: every actor in it has a GUID. -/
theorem SavePrefab7_worklist_mapped (W : World) (fuel : Nat) (Root : UObject)
    (M : TMap UObject FGuid) (Sub : TMap UObject FLSubPrefabData) (editor : Bool) :
    ∀ x ∈ (LPrefabSystem7.CollectActorRecursive W fuel Root
        (LPrefabSystem7.SavePrefab_serializer W M Sub editor)).TrySerializeActorArray,
      TMap.Contains (LPrefabSystem7.CollectActorRecursive W fuel Root
        (LPrefabSystem7.SavePrefab_serializer W M Sub editor)).MapObjectToGuid x = true :=
  LPrefabSystem7.CollectActorRecursive7_try_mapped W fuel Root _ (fun x hx => by cases hx)

/-- C5: in generation 7, an actor that is among the objects of a registered sub-prefab
without being the root actor of a sub-prefab is in neither worklist after the
collection, at any depth of the hierarchy; every record of `SavedActors` and every
property blob that `SerializeActorArray` files is that of another actor, one of the
worklist `TrySerializeActorArray`. -/
theorem C5_sub_prefab_members_not_emitted (W : World) (fuel : Nat) (Root : UObject)
    (M : TMap UObject FGuid) (Sub : TMap UObject FLSubPrefabData) (editor : Bool) (a : UObject)
    (hactor : W.IsActor a = true)
    (hmember : ∃ kd ∈ Sub, ∃ g, (g, some a) ∈ kd.2.MapGuidToObject)
    (hnotroot : TMap.Find Sub a = none) :
    a ∉ (LPrefabSystem7.CollectActorRecursive W fuel Root
      (LPrefabSystem7.SavePrefab_serializer W M Sub editor)).TrySerializeActorArray ∧
    a ∉ (LPrefabSystem7.CollectActorRecursive W fuel Root
      (LPrefabSystem7.SavePrefab_serializer W M Sub editor)).WillSerializeActorArray ∧
    (∀ rec ∈ (LPrefabSystem7.SerializeActorToData W fuel
        (LPrefabSystem7.SavePrefab_serializer W M Sub editor) Root).2.SavedActors,
      ∃ x ∈ (LPrefabSystem7.CollectActorRecursive W fuel Root
          (LPrefabSystem7.SavePrefab_serializer W M Sub editor)).TrySerializeActorArray,
        x ≠ a ∧ rec.ActorGuid = TMap.FindChecked (LPrefabSystem7.CollectActorRecursive W fuel Root
          (LPrefabSystem7.SavePrefab_serializer W M Sub editor)).MapObjectToGuid x) ∧
    (∀ g ∈ TMap.Keys (LPrefabSystem7.SerializeActorArray W
        (LPrefabSystem7.CollectActorRecursive W fuel Root
          (LPrefabSystem7.SavePrefab_serializer W M Sub editor), default)).2.SavedObjectData,
      ∃ x ∈ (LPrefabSystem7.CollectActorRecursive W fuel Root
          (LPrefabSystem7.SavePrefab_serializer W M Sub editor)).TrySerializeActorArray,
        x ≠ a ∧ g = TMap.FindChecked (LPrefabSystem7.CollectActorRecursive W fuel Root
          (LPrefabSystem7.SavePrefab_serializer W M Sub editor)).MapObjectToGuid x) := by
  have hin : a ∈ (LPrefabSystem7.SavePrefab_serializer W M Sub editor).SubPrefabActorArray :=
    LPrefabSystem7.mem_CollectSubPrefabActors W Sub a hactor hmember
  have hnc : ¬ TMap.Contains (LPrefabSystem7.SavePrefab_serializer W M Sub editor).SubPrefabMap a
      = true := by
    show ¬ TMap.Contains Sub a = true
    rw [TMap.Contains_eq_true_iff]
    rintro ⟨v, hv⟩
    rw [hnotroot] at hv
    cases hv
  have hlists := LPrefabSystem7.CollectActorRecursive7_new_lists W fuel Root
    (LPrefabSystem7.SavePrefab_serializer W M Sub editor) a
  have htry : a ∉ (LPrefabSystem7.CollectActorRecursive W fuel Root
      (LPrefabSystem7.SavePrefab_serializer W M Sub editor)).TrySerializeActorArray := by
    intro h
    rcases hlists.1 h with h | h | h
    · cases h
    · exact h hin
    · exact hnc h
  have hwill : a ∉ (LPrefabSystem7.CollectActorRecursive W fuel Root
      (LPrefabSystem7.SavePrefab_serializer W M Sub editor)).WillSerializeActorArray := by
    intro h
    rcases hlists.2 h with h | h
    · cases h
    · exact h hin
  have hmapped := SavePrefab7_worklist_mapped W fuel Root M Sub editor
  obtain ⟨_, hrecs, hblobs⟩ := LPrefabSystem7.SerializeActorArray7_fold_records W
    (LPrefabSystem7.CollectActorRecursive W fuel Root
      (LPrefabSystem7.SavePrefab_serializer W M Sub editor)).TrySerializeActorArray.reverse
    (LPrefabSystem7.CollectActorRecursive W fuel Root
      (LPrefabSystem7.SavePrefab_serializer W M Sub editor), default)
    (fun x hx => hmapped x (List.mem_reverse.mp hx))
  refine ⟨htry, hwill, ?_, ?_⟩
  · intro rec hrec
    have hsa : (LPrefabSystem7.SerializeActorToData W fuel
        (LPrefabSystem7.SavePrefab_serializer W M Sub editor) Root).2.SavedActors
        = (LPrefabSystem7.SerializeActorArray W
            (LPrefabSystem7.CollectActorRecursive W fuel Root
              (LPrefabSystem7.SavePrefab_serializer W M Sub editor), default)).2.SavedActors :=
      LPrefabSystem7.SerializeObjectArray7_SavedActors W fuel 0 _
    rw [hsa] at hrec
    have hg : rec.ActorGuid ∈ (LPrefabSystem7.SerializeActorArray W
        (LPrefabSystem7.CollectActorRecursive W fuel Root
          (LPrefabSystem7.SavePrefab_serializer W M Sub editor), default)).2.SavedActors.map
        (·.ActorGuid) := List.mem_map_of_mem _ hrec
    unfold LPrefabSystem7.SerializeActorArray at hg
    rw [hrecs] at hg
    simp only [List.mem_append, List.mem_map, List.mem_reverse] at hg
    rcases hg with ⟨r, hr, _⟩ | ⟨x, hx, hxg⟩
    · cases hr
    · exact ⟨x, hx, fun e => htry (e ▸ hx), hxg.symm⟩
  · intro g hg
    unfold LPrefabSystem7.SerializeActorArray at hg
    rcases hblobs g hg with h | ⟨x, hx, _, hxg⟩
    · cases h
    · exact ⟨x, List.mem_reverse.mp hx, fun e => htry (e ▸ List.mem_reverse.mp hx), hxg⟩

/-- C5 (witness): in the level with a nested prefab, the actor 3 inside the sub-prefab
is not in the worklist, and the two records emitted are those of the actors 2 and 1. -/
theorem C5_sub_prefab_members_not_emitted_witness :
    3 ∉ (LPrefabSystem7.CollectActorRecursive LevelWithSubPrefab 5 1
      (LPrefabSystem7.SavePrefab_serializer LevelWithSubPrefab [] SubPrefabMapOfLevel
        true)).TrySerializeActorArray ∧
    (LPrefabSystem7.SerializeActorToData LevelWithSubPrefab 5
      (LPrefabSystem7.SavePrefab_serializer LevelWithSubPrefab [] SubPrefabMapOfLevel true)
      1).2.SavedActors.map (·.ActorGuid) = [1001, 1000] :=
  ⟨(C5_sub_prefab_members_not_emitted LevelWithSubPrefab 5 1 [] SubPrefabMapOfLevel true 3
      (by decide) ⟨(2, _), List.mem_cons_self _ _, 301, by decide⟩ (by decide)).1,
    by decide⟩

/-- C7: in generation 7, the record that `SerializeActorArray` emits for an actor of the
worklist that is a key of `SubPrefabMap` (the record stands at the place of the actor in
the reversed worklist) has `bIsPrefab` set, the GUID of the actor in the identity map,
an asset index at which the asset table holds the prefab asset of the sub-prefab, and
the GUID table of the sub-prefab; its class index, object flags, root-component GUID
and default-sub-object arrays are those of a default-constructed record; and every
property blob filed by the pass belongs to a worklist actor that is not a key of
`SubPrefabMap`. -/
theorem C7_sub_prefab_root_record (W : World) (fuel : Nat) (Root : UObject)
    (M : TMap UObject FGuid) (Sub : TMap UObject FLSubPrefabData) (editor : Bool)
    (i : Nat) (x : UObject) (d : FLSubPrefabData)
    (hx : (LPrefabSystem7.CollectActorRecursive W fuel Root
      (LPrefabSystem7.SavePrefab_serializer W M Sub editor)).TrySerializeActorArray.reverse[i]?
        = some x)
    (hd : TMap.Find Sub x = some d) :
    (∃ rec, (LPrefabSystem7.SerializeActorToData W fuel
        (LPrefabSystem7.SavePrefab_serializer W M Sub editor) Root).2.SavedActors[i]? = some rec ∧
      rec.bIsPrefab = true ∧
      rec.ActorGuid = TMap.FindChecked (LPrefabSystem7.SerializeActorToData W fuel
        (LPrefabSystem7.SavePrefab_serializer W M Sub editor) Root).1.MapObjectToGuid x ∧
      (LPrefabSystem7.SerializeActorToData W fuel
        (LPrefabSystem7.SavePrefab_serializer W M Sub editor) Root).1.ReferenceAssetList[
          rec.PrefabAssetIndex]? = some d.PrefabAsset ∧
      rec.MapObjectGuidFromParentPrefabToSubPrefab = d.MapObjectGuidFromParentPrefabToSubPrefab ∧
      rec.ObjectClass = (default : LPrefabSystem7.FLGUIActorSaveData).ObjectClass ∧
      rec.ObjectFlags = (default : LPrefabSystem7.FLGUIActorSaveData).ObjectFlags ∧
      rec.RootComponentGuid = (default : LPrefabSystem7.FLGUIActorSaveData).RootComponentGuid ∧
      rec.DefaultSubObjectGuidArray = [] ∧ rec.DefaultSubObjectNameArray = []) ∧
    (∀ g ∈ TMap.Keys (LPrefabSystem7.SerializeActorArray W
        (LPrefabSystem7.CollectActorRecursive W fuel Root
          (LPrefabSystem7.SavePrefab_serializer W M Sub editor), default)).2.SavedObjectData,
      ∃ y ∈ (LPrefabSystem7.CollectActorRecursive W fuel Root
          (LPrefabSystem7.SavePrefab_serializer W M Sub editor)).TrySerializeActorArray,
        TMap.Find Sub y = none ∧
        g = TMap.FindChecked (LPrefabSystem7.CollectActorRecursive W fuel Root
          (LPrefabSystem7.SavePrefab_serializer W M Sub editor)).MapObjectToGuid y) := by
  have hmapped := SavePrefab7_worklist_mapped W fuel Root M Sub editor
  have hkeep := LPrefabSystem7.CollectActorRecursive7_keeps W fuel Root
    (LPrefabSystem7.SavePrefab_serializer W M Sub editor)
  have hsub : (LPrefabSystem7.CollectActorRecursive W fuel Root
      (LPrefabSystem7.SavePrefab_serializer W M Sub editor)).SubPrefabMap = Sub := hkeep.2.1
  have hxmem : x ∈ (LPrefabSystem7.CollectActorRecursive W fuel Root
      (LPrefabSystem7.SavePrefab_serializer W M Sub editor)).TrySerializeActorArray :=
    List.mem_reverse.mp (List.getElem?_mem hx)
  obtain ⟨sti, rec, hg1, happ, hnth, hg2⟩ := LPrefabSystem7.SerializeActorArray7_fold_nth W _
    (LPrefabSystem7.CollectActorRecursive W fuel Root
      (LPrefabSystem7.SavePrefab_serializer W M Sub editor), default) i x hx
  obtain ⟨rec', happ', hguid, hprops, _⟩ := LPrefabSystem7.SerializeActorArray7_body_record W sti x
  have hrec : rec' = rec := by
    rw [happ] at happ'
    have := List.append_cancel_left happ'
    injection this with h _
    exact h.symm
  subst hrec
  have hdi : TMap.Find sti.1.SubPrefabMap x = some d := by
    rw [hg1.2.1, hsub]; exact hd
  obtain ⟨p1, p2, p3, p4, p5, p6, p7, p8, _⟩ := hprops d hdi
  have hg3 := LPrefabSystem7.SerializeObjectArray7_grows W fuel 0
    (LPrefabSystem7.SerializeActorArray W
      (LPrefabSystem7.CollectActorRecursive W fuel Root
        (LPrefabSystem7.SavePrefab_serializer W M Sub editor), default))
  have hgbody := LPrefabSystem7.SerializeActorArray7_body_grows W sti x
  have hfinal : Grows W sti.1 (LPrefabSystem7.SerializeActorToData W fuel
      (LPrefabSystem7.SavePrefab_serializer W M Sub editor) Root).1 :=
    (hgbody.gtrans hg2).gtrans hg3
  constructor
  · refine ⟨rec', ?_, p1, ?_, ?_, p3, p4, p5, p6, p7, p8⟩
    · have hsa : (LPrefabSystem7.SerializeActorToData W fuel
          (LPrefabSystem7.SavePrefab_serializer W M Sub editor) Root).2.SavedActors
          = (LPrefabSystem7.SerializeActorArray W
              (LPrefabSystem7.CollectActorRecursive W fuel Root
                (LPrefabSystem7.SavePrefab_serializer W M Sub editor), default)).2.SavedActors :=
        LPrefabSystem7.SerializeObjectArray7_SavedActors W fuel 0 _
      rw [hsa]
      have h0 : (default : LPrefabSystem7.FLPrefabSaveData).SavedActors.length + i = i := by
        show 0 + i = i
        omega
      rw [h0] at hnth
      exact hnth
    · rw [hguid]
      exact (hfinal.2.2.2.2.2.1.findChecked x (hg1.2.2.2.2.2.1.contains x (hmapped x hxmem))).symm
    · exact getElem?_of_prefix ((hg2.gtrans hg3).2.2.2.2.2.2.1) _ _ p2
  · obtain ⟨_, _, hblobs⟩ := LPrefabSystem7.SerializeActorArray7_fold_records W
      (LPrefabSystem7.CollectActorRecursive W fuel Root
        (LPrefabSystem7.SavePrefab_serializer W M Sub editor)).TrySerializeActorArray.reverse
      (LPrefabSystem7.CollectActorRecursive W fuel Root
        (LPrefabSystem7.SavePrefab_serializer W M Sub editor), default)
      (fun y hy => hmapped y (List.mem_reverse.mp hy))
    intro g hg
    unfold LPrefabSystem7.SerializeActorArray at hg
    rcases hblobs g hg with h | ⟨y, hy, hys, hyg⟩
    · cases h
    · rw [hsub] at hys
      exact ⟨y, List.mem_reverse.mp hy, hys, hyg⟩

/-- C7 (witness): in the level with a nested prefab the actor 2, the root actor of the
sub-prefab, stands first in the reversed worklist; its record is a reference to the
asset 50 and no property blob is filed under its GUID 1001. -/
theorem C7_sub_prefab_root_record_witness :
    (∃ rec, (LPrefabSystem7.SerializeActorToData LevelWithSubPrefab 5
        (LPrefabSystem7.SavePrefab_serializer LevelWithSubPrefab [] SubPrefabMapOfLevel true)
        1).2.SavedActors[0]? = some rec ∧
      rec.bIsPrefab = true ∧ rec.ActorGuid = 1001 ∧
      rec.MapObjectGuidFromParentPrefabToSubPrefab = [(200, 300), (201, 301), (202, 302)] ∧
      rec.DefaultSubObjectGuidArray = []) ∧
    TMap.Keys (LPrefabSystem7.SerializeActorArray LevelWithSubPrefab
        (LPrefabSystem7.CollectActorRecursive LevelWithSubPrefab 5 1
          (LPrefabSystem7.SavePrefab_serializer LevelWithSubPrefab [] SubPrefabMapOfLevel true),
          default)).2.SavedObjectData = [1000] := by
  obtain ⟨⟨rec, h1, h2, h3, _, h5, _, _, _, h9, _⟩, _⟩ :=
    C7_sub_prefab_root_record LevelWithSubPrefab 5 1 [] SubPrefabMapOfLevel true 0 2
      SubPrefabDataOfLevel (by decide) (by decide)
  refine ⟨⟨rec, h1, h2, ?_, ?_, h9⟩, by decide⟩
  · rw [h3]; decide
  · rw [h5]; decide

end LPrefab

namespace LPrefab

/-! # Theorems about the order of the records -/

/-- C2 (counterexample): "Root" with the children "B" and "A" attached in that order, no
sort hook bound. The three records of `SavedActors` are those of "B", of "A" and of
"Root", in that order: the record of "A" does not come before the record of "B". -/
theorem C2_record_of_B_before_record_of_A :
    RootWithBA.Serialize_SortChildrenActors = none ∧
    RootWithBA.GetAttachedActors 1 = [2, 3] ∧
    RootWithBA.GetActorLabel 2 = "B".data ∧ RootWithBA.GetActorLabel 3 = "A".data ∧
    (LPrefabSystem7.SerializeActorToData RootWithBA 5
      (LPrefabSystem7.SavePrefab_serializer RootWithBA [] [] true) 1).2.SavedActors.map
        (·.ActorGuid)
      = [TMap.FindChecked (LPrefabSystem7.SerializeActorToData RootWithBA 5
            (LPrefabSystem7.SavePrefab_serializer RootWithBA [] [] true) 1).1.MapObjectToGuid 2,
         TMap.FindChecked (LPrefabSystem7.SerializeActorToData RootWithBA 5
            (LPrefabSystem7.SavePrefab_serializer RootWithBA [] [] true) 1).1.MapObjectToGuid 3,
         TMap.FindChecked (LPrefabSystem7.SerializeActorToData RootWithBA 5
            (LPrefabSystem7.SavePrefab_serializer RootWithBA [] [] true) 1).1.MapObjectToGuid 1] ∧
    ¬ (List.indexOf
        (TMap.FindChecked (LPrefabSystem7.SerializeActorToData RootWithBA 5
          (LPrefabSystem7.SavePrefab_serializer RootWithBA [] [] true) 1).1.MapObjectToGuid 3)
        ((LPrefabSystem7.SerializeActorToData RootWithBA 5
          (LPrefabSystem7.SavePrefab_serializer RootWithBA [] [] true) 1).2.SavedActors.map
            (·.ActorGuid))
      < List.indexOf
        (TMap.FindChecked (LPrefabSystem7.SerializeActorToData RootWithBA 5
          (LPrefabSystem7.SavePrefab_serializer RootWithBA [] [] true) 1).1.MapObjectToGuid 2)
        ((LPrefabSystem7.SerializeActorToData RootWithBA 5
          (LPrefabSystem7.SavePrefab_serializer RootWithBA [] [] true) 1).2.SavedActors.map
            (·.ActorGuid))) :=
  ⟨rfl, by decide, by decide, by decide, by decide, by decide⟩

/-- C2 (amended): in generation 7 with no sort hook bound and a tree-shaped hierarchy,
`SavedActors` holds the records of the worklist `TrySerializeActorArray` in reverse
order, each with the GUID of its actor, and in that reversed worklist the actors
attached to one parent stand in descending order of their labels. -/
theorem C2_children_records_in_descending_label_order (W : World)
    (h0 : W.Serialize_SortChildrenActors = none) (rank : UObject → Nat)
    (ht : TreeShaped W rank) (fuel : Nat) (Root : UObject) (M : TMap UObject FGuid)
    (Sub : TMap UObject FLSubPrefabData) (editor : Bool) :
    (LPrefabSystem7.SerializeActorToData W fuel
      (LPrefabSystem7.SavePrefab_serializer W M Sub editor) Root).2.SavedActors.map (·.ActorGuid)
      = (LPrefabSystem7.CollectActorRecursive W fuel Root
          (LPrefabSystem7.SavePrefab_serializer W M Sub editor)).TrySerializeActorArray.reverse.map
        (TMap.FindChecked (LPrefabSystem7.CollectActorRecursive W fuel Root
          (LPrefabSystem7.SavePrefab_serializer W M Sub editor)).MapObjectToGuid) ∧
    List.Pairwise (SiblingsDescending W)
      (LPrefabSystem7.CollectActorRecursive W fuel Root
        (LPrefabSystem7.SavePrefab_serializer W M Sub editor)).TrySerializeActorArray.reverse := by
  constructor
  · have hmapped := LPrefabSystem7.CollectActorRecursive7_try_mapped W fuel Root
      (LPrefabSystem7.SavePrefab_serializer W M Sub editor) (fun x hx => by cases hx)
    obtain ⟨_, hrecs, _⟩ := LPrefabSystem7.SerializeActorArray7_fold_records W
      (LPrefabSystem7.CollectActorRecursive W fuel Root
        (LPrefabSystem7.SavePrefab_serializer W M Sub editor)).TrySerializeActorArray.reverse
      (LPrefabSystem7.CollectActorRecursive W fuel Root
        (LPrefabSystem7.SavePrefab_serializer W M Sub editor), default)
      (fun x hx => hmapped x (List.mem_reverse.mp hx))
    have hsa : (LPrefabSystem7.SerializeActorToData W fuel
        (LPrefabSystem7.SavePrefab_serializer W M Sub editor) Root).2.SavedActors
        = (LPrefabSystem7.SerializeActorArray W
            (LPrefabSystem7.CollectActorRecursive W fuel Root
              (LPrefabSystem7.SavePrefab_serializer W M Sub editor), default)).2.SavedActors :=
      LPrefabSystem7.SerializeObjectArray7_SavedActors W fuel 0 _
    rw [hsa]
    unfold LPrefabSystem7.SerializeActorArray
    rw [hrecs]
    rfl
  · obtain ⟨t, ht1, _, ht3⟩ := LPrefabSystem7.CollectActorRecursive7_order W h0 rank ht fuel Root
      (LPrefabSystem7.SavePrefab_serializer W M Sub editor)
    rw [ht1, List.pairwise_reverse]
    have : (LPrefabSystem7.SavePrefab_serializer W M Sub editor).TrySerializeActorArray = [] := rfl
    rw [this, List.nil_append]
    exact ht3.imp (fun h p hy hx => h p hx hy)

/-- The level "Root" with "B" and "A" is tree-shaped. -/
theorem RootWithBA_treeShaped : TreeShaped RootWithBA (fun o => if o = 1 then 1 else 0) := by
  refine ⟨?_, ?_, ?_⟩
  · intro p c h
    by_cases hp : p = 1
    · subst hp
      have hc : c = 2 ∨ c = 3 := by simpa [RootWithBA, EmptyLevel] using h
      rcases hc with rfl | rfl <;> rfl
    · have : RootWithBA.GetAttachedActors p = [] := by simp [RootWithBA, EmptyLevel, hp]
      rw [this] at h; cases h
  · intro p c h
    by_cases hp : p = 1
    · subst hp
      have hc : c = 2 ∨ c = 3 := by simpa [RootWithBA, EmptyLevel] using h
      rcases hc with rfl | rfl <;> decide
    · have : RootWithBA.GetAttachedActors p = [] := by simp [RootWithBA, EmptyLevel, hp]
      rw [this] at h; cases h
  · intro p
    by_cases hp : p = 1
    · subst hp; decide
    · have : RootWithBA.GetAttachedActors p = [] := by simp [RootWithBA, EmptyLevel, hp]
      rw [this]; exact List.nodup_nil

/-- C2 (witness): for "Root" with "B" and "A" the reversed worklist is "B", "A",
"Root", with the GUIDs 1002, 1001 and 1000. -/
theorem C2_children_records_in_descending_label_order_witness :
    (LPrefabSystem7.SerializeActorToData RootWithBA 5
      (LPrefabSystem7.SavePrefab_serializer RootWithBA [] [] true) 1).2.SavedActors.map
        (·.ActorGuid) = [1002, 1001, 1000] ∧
    List.Pairwise (SiblingsDescending RootWithBA) [2, 3, 1] := by
  have h := C2_children_records_in_descending_label_order RootWithBA rfl _
    RootWithBA_treeShaped 5 1 [] [] true
  exact ⟨by decide, h.2⟩

end LPrefab

namespace LPrefab

/-! # Theorems about the child records of generations 3 and 6 -/

/-- C1 (counterexample): "Root" with two children that carry the same label "X", no sort
hook bound, the same identity map. With the children attached in the order 2, 3 the
child records of the root are those of 3 and 2; attached in the order 3, 2 they are
those of 2 and 3, in generation 6 as in generation 3: the sequence depends on the
order of attachment. -/
theorem C1_child_records_depend_on_attach_order :
    (RootWithTwins [2, 3]).Serialize_SortChildrenActors = none ∧
    (RootWithTwins [3, 2]).Serialize_SortChildrenActors = none ∧
    (LPrefabSystem6.SerializeActorToData (RootWithTwins [2, 3]) 5
        (LPrefabSystem6.SavePrefab_serializer (RootWithTwins [2, 3])
          [(1, 100), (2, 200), (3, 300)] [] true) 1).2.SavedActor.ChildrenActorDataArray.map
          (·.ActorGuid)
      ≠ (LPrefabSystem6.SerializeActorToData (RootWithTwins [3, 2]) 5
        (LPrefabSystem6.SavePrefab_serializer (RootWithTwins [3, 2])
          [(1, 100), (2, 200), (3, 300)] [] true) 1).2.SavedActor.ChildrenActorDataArray.map
          (·.ActorGuid) ∧
    (LPrefabSystem3.SerializeActorToData (RootWithTwins [2, 3]) 5
        (LPrefabSystem3.SavePrefab_serializer (RootWithTwins [2, 3])
          [(1, 100), (2, 200), (3, 300)] [] true) 1).2.SavedActor.ChildActorData.map
          (·.ActorGuid)
      ≠ (LPrefabSystem3.SerializeActorToData (RootWithTwins [3, 2]) 5
        (LPrefabSystem3.SavePrefab_serializer (RootWithTwins [3, 2])
          [(1, 100), (2, 200), (3, 300)] [] true) 1).2.SavedActor.ChildActorData.map
          (·.ActorGuid) :=
  ⟨rfl, rfl, by decide, by decide⟩

/-- C1 (amended): in generations 3 and 6 with no sort hook bound, the child records of an
actor that `SerializeActorRecursive` serializes in full are the records of its children
taken in ascending order of their labels: the visit order is sorted by label and is a
permutation of the attached actors, and the GUIDs of the child records are the GUIDs of
the children in that order (in generation 6 the zero GUID for a child on which the
function returns early). When the labels of the children are pairwise different, the
whole result is the same for every order in which the same children are attached. -/
theorem C1_child_records_in_ascending_label_order (W : World)
    (h0 : W.Serialize_SortChildrenActors = none) :
    (∀ A, List.Pairwise (fun a b => W.GetActorLabel a ≤ W.GetActorLabel b)
        (SortChildrenActors W (W.GetAttachedActors A)) ∧
      List.Perm (SortChildrenActors W (W.GetAttachedActors A)) (W.GetAttachedActors A)) ∧
    (∀ (n : Nat) (A : UObject) (st : LPrefabSystem6.RecState), W.IsValid A = true →
      TMap.Find st.1.SubPrefabMap A = none → A ∈ st.1.WillSerializeActorArray →
      (∀ c, W.IsValid c = true →
        (TMap.Contains st.1.SubPrefabMap c = true ∨ c ∈ st.1.WillSerializeActorArray) →
        TMap.Contains st.1.MapObjectToGuid c = true) →
      (LPrefabSystem6.SerializeActorRecursive W (n + 2) A st).1.ChildrenActorDataArray.map
          (·.ActorGuid)
        = (SortChildrenActors W (W.GetAttachedActors A)).map (RecordGuid6 W st.1)) ∧
    (∀ (n : Nat) (A : UObject) (s : ActorSerializer), TMap.Find s.SubPrefabMap A = none →
      (∀ c ∈ W.GetAttachedActors A, TMap.Contains s.MapObjectToGuid c = true) →
      (LPrefabSystem3.SerializeActorRecursive W (n + 2) A s).1.ChildActorData.map (·.ActorGuid)
        = (SortChildrenActors W (W.GetAttachedActors A)).map
            (TMap.FindChecked s.MapObjectToGuid)) ∧
    (∀ (A : UObject) (l' : List UObject), List.Perm l' (W.GetAttachedActors A) →
      (∀ x ∈ W.GetAttachedActors A, ∀ y ∈ W.GetAttachedActors A,
        W.GetActorLabel x = W.GetActorLabel y → x = y) →
      (∀ fuel B st, LPrefabSystem6.SerializeActorRecursive (WithAttachedActors W A l') fuel B st
        = LPrefabSystem6.SerializeActorRecursive W fuel B st) ∧
      (∀ fuel B s, LPrefabSystem3.SerializeActorRecursive (WithAttachedActors W A l') fuel B s
        = LPrefabSystem3.SerializeActorRecursive W fuel B s)) := by
  refine ⟨?_, ?_, ?_, ?_⟩
  · intro A
    exact ⟨SortChildrenActors_sorted W h0 _, SortChildrenActors_perm W h0 _⟩
  · intro n A st hv hsub hw hmapped
    exact LPrefabSystem6.SerializeActorRecursive6_children W n A st hv hsub hw hmapped
  · intro n A s hsub hmapped
    exact LPrefabSystem3.SerializeActorRecursive3_children W n A s hsub
      (fun c hc => hmapped c ((SortChildrenActors_perm W h0 _).subset hc))
  · intro A l' hperm hinj
    have hsort := SortChildrenActors_withAttached W h0 A l' hperm hinj
    exact ⟨fun fuel B st => LPrefabSystem6.SerializeActorRecursive6_withAttached W A l' hsort fuel B st,
      fun fuel B s => LPrefabSystem3.SerializeActorRecursive3_withAttached W A l' hsort fuel B s⟩

/-- C1 (witness): "Root" with "B" and "A" attached in that order. The children are visited
in the order "A", "B"; the child records of the root carry the GUIDs of "A" and "B" in
generation 3, and the result of generation 6 is the same with the children attached in
the order "A", "B". -/
theorem C1_child_records_in_ascending_label_order_witness :
    SortChildrenActors RootWithBA (RootWithBA.GetAttachedActors 1) = [3, 2] ∧
    (LPrefabSystem3.SerializeActorRecursive RootWithBA 2 1
      (LPrefabSystem3.CollectActorRecursive RootWithBA 2 1 ActorSerializer.New)).1.ChildActorData.map
        (·.ActorGuid) = [1002, 1001] ∧
    LPrefabSystem6.SerializeActorRecursive (WithAttachedActors RootWithBA 1 [3, 2]) 2 1
        (LPrefabSystem6.CollectActorRecursive RootWithBA 2 1 ActorSerializer.New, [])
      = LPrefabSystem6.SerializeActorRecursive RootWithBA 2 1
        (LPrefabSystem6.CollectActorRecursive RootWithBA 2 1 ActorSerializer.New, []) := by
  have h := C1_child_records_in_ascending_label_order RootWithBA rfl
  refine ⟨by decide, ?_, ?_⟩
  · rw [h.2.2.1 0 1 _ (by decide) (by decide)]
    decide
  · exact (h.2.2.2 1 [3, 2] (by decide) (by decide)).1 2 1 _

end LPrefab

namespace LPrefab

/-! # Theorems about the scene-parent map of generation 7 -/

/-- What the loop body of `SerializeObjectArray` does to the scene-parent map. -/
theorem SerializeObjectArray7_body_scene_parent (W : World) (st : LPrefabSystem7.SaveState)
    (o : UObject) :
    (∀ p, W.IsSceneComponent o = true → W.GetAttachParent o = some p →
      TMap.Contains st.1.MapObjectToGuid p = true →
      (LPrefabSystem7.SerializeObjectArray_body W st o).2.MapSceneComponentToParent
        = TMap.Add st.2.MapSceneComponentToParent (TMap.FindChecked st.1.MapObjectToGuid o)
            (TMap.FindChecked st.1.MapObjectToGuid p)) ∧
    ((W.IsSceneComponent o = false ∨ W.GetAttachParent o = none ∨
        ∃ p, W.GetAttachParent o = some p ∧ TMap.Contains st.1.MapObjectToGuid p = false) →
      (LPrefabSystem7.SerializeObjectArray_body W st o).2.MapSceneComponentToParent
        = st.2.MapSceneComponentToParent) := by
  constructor
  · intro p h1 h2 h3
    unfold LPrefabSystem7.SerializeObjectArray_body
    dsimp only
    rw [h1, h2]
    have h3' : TMap.Contains (FindOrAddClassFromList st.1 (W.GetClass o)).2.MapObjectToGuid p
        = true := h3
    simp only [if_true, h3']
    rfl
  · intro h
    unfold LPrefabSystem7.SerializeObjectArray_body
    dsimp only
    rcases h with h | h | ⟨p, h, hp⟩
    · rw [h]; simp
    · rw [h]; split <;> rfl
    · rw [h]
      have hp' : TMap.Contains (FindOrAddClassFromList st.1 (W.GetClass o)).2.MapObjectToGuid p
          = false := hp
      simp only [hp']
      split <;> simp

end LPrefab

namespace LPrefab

open FLPrefabSequenceObjectReference

/-! # Theorems about the repair of a reference from its helpers -/

/-- C10 (counterexample): the actors 2 and 3 are attached to the context actor 1 and both
carry the label "X". A reference to the live actor 3 caches the path "X"; after its
handle is cleared, with the hierarchy and the labels as they were,
`FixObjectReferenceFromEditorHelpers` returns true, but the reference now resolves to
the actor 2, the first actor labelled "X", not to the original target 3. -/
theorem C10_fix_resolves_to_first_actor_of_same_label :
    LevelWithTwinLabels.IsAttachedTo 3 1 = true ∧ LevelWithTwinLabels.IsValid 3 = true ∧
    InitHelpers LevelWithTwinLabels 5 1 (ReferenceTo 3)
      = some (true, { Object := some 3, HelperActor := some 3, HelperClass := some 1,
                      HelperComponentName := "Actor".data, HelperActorLabel := "X".data,
                      HelperActorPath := "X".data }) ∧
    FixObjectReferenceFromEditorHelpers LevelWithTwinLabels 1
        { Object := none, HelperActor := some 3, HelperClass := some 1,
          HelperComponentName := "Actor".data, HelperActorLabel := "X".data,
          HelperActorPath := "X".data }
      = some (true, { Object := some 2, HelperActor := some 2, HelperClass := some 1,
                      HelperComponentName := "Actor".data, HelperActorLabel := "X".data,
                      HelperActorPath := "X".data }) ∧
    Resolve LevelWithTwinLabels
        { Object := some 2, HelperActor := some 2, HelperClass := some 1,
          HelperComponentName := "Actor".data, HelperActorLabel := "X".data,
          HelperActorPath := "X".data } = some 2 := by
  decide

/-- C10 (amended): let T be the context actor C itself, or the last actor of a chain of
actors that leads from C downwards, T being attached to C, where every actor of the chain
is the first actor attached to its parent that carries its label (compared ignoring
case), no label of the chain contains "/", and the cached path of T does not read "/".
Let the reference point at a live object X that is T itself, or a component owned by T
that is the first component of its class on T carrying its name. If the helpers are
cached by `InitHelpers(C)` and the handle is then replaced by any stale handle, while
the hierarchy and the labels stay as they are, then `InitHelpers` returned true,
`FixObjectReferenceFromEditorHelpers(C)` returns true, and the reference resolves to X
again. -/
theorem C10_fix_recovers_target_on_unambiguous_path (W : World) (fuel : Nat)
    (C T X : UObject) (chain : List UObject) (r : FLPrefabSequenceObjectReference)
    (Stale : Option UObject)
    (hchain : (T = C ∧ chain = []) ∨
      (W.IsAttachedTo T C = true ∧ chain.getLast? = some T))
    (hpath : UnambiguousPath W C C chain)
    (hfuel : chain.length ≤ fuel + 1)
    (hslash : T ≠ C → GetActorPathRelativeToContextActor W fuel C T ≠ some "/".data)
    (hObject : r.Object = some X) (hlive : W.IsValid X = true)
    (hX : (X = T ∧ W.IsActor T = true) ∨
      (W.IsActor X = false ∧ W.IsActorComponent X = true ∧ W.GetOwner X = some T ∧
        W.GetClass X ≠ W.AActor_StaticClass ∧
        W.IsChildOf (W.GetClass X) W.UActorComponent_StaticClass = true ∧
        (GetComponentsOfClass W T (W.GetClass X)).find?
          (fun c => FName_Equals (W.GetFName c) (W.GetFName X)) = some X)) :
    ∃ r1 r2, InitHelpers W fuel C r = some (true, r1) ∧
      FixObjectReferenceFromEditorHelpers W C { r1 with Object := Stale } = some (true, r2) ∧
      r2.Object = some X ∧ Resolve W r2 = some X := by
  have hA : ∃ path, GetActorPathRelativeToContextActor W fuel C T = some path ∧
      GetActorFromContextActorByRelativePath W C path = some T := by
    rcases hchain with ⟨hTC, _⟩ | ⟨hatt, hlast⟩
    · subst hTC
      refine ⟨"/".data, ?_, ?_⟩
      · simp [GetActorPathRelativeToContextActor]
      · unfold GetActorFromContextActorByRelativePath
        rw [(FString_Equals_slash _).2 rfl]
        rfl
    · have hsplit : chain.dropLast ++ [T] = chain :=
        List.dropLast_append_getLast? T (by simp [hlast])
      rw [← hsplit] at hpath
      have hlen : chain.dropLast.length ≤ fuel := by
        rw [List.length_dropLast]; omega
      have hTC : T ≠ C := (UnambiguousPath_append W C _ C T hpath).2.1
      have hP := GetActorPath_chain W C T chain.dropLast fuel hpath hatt hlen
      refine ⟨_, hP, ?_⟩
      apply GetActorFrom_chain W C T chain.dropLast hpath
      intro hq
      exact hslash hTC (by rw [hP, hq])
  obtain ⟨path, hP, hF⟩ := hA
  have hres : ∀ r2 : FLPrefabSequenceObjectReference, r2.Object = some X →
      Resolve W r2 = some X := by
    intro r2 h2
    simp [Resolve, CheckTargetObject, h2, IsValidObject, hlive]
  rcases hX with ⟨hXT, hact⟩ | ⟨hnact, hcomp, hown, hcls, hchild, hfind⟩
  · subst hXT
    refine ⟨?_, ?_, ?_⟩
    · exact { r with HelperActor := some X, HelperClass := some W.AActor_StaticClass,
                     HelperComponentName := "Actor".data,
                     HelperActorLabel := W.GetActorLabel X, HelperActorPath := path }
    · exact { Object := some X, HelperActor := some X,
              HelperClass := some W.AActor_StaticClass,
              HelperComponentName := "Actor".data,
              HelperActorLabel := W.GetActorLabel X, HelperActorPath := path }
    · refine ⟨?_, ?_, rfl, hres _ rfl⟩
      · simp only [InitHelpers, hObject, hact, if_true, hP]
      · simp only [FixObjectReferenceFromEditorHelpers, hF, if_true]
  · have hmem := List.mem_of_find?_eq_some hfind
    refine ⟨?_, ?_, ?_⟩
    · exact { r with HelperActor := some T, HelperClass := some (W.GetClass X),
                     HelperComponentName := W.GetFName X,
                     HelperActorLabel := W.GetActorLabel T, HelperActorPath := path }
    · exact { Object := some X, HelperActor := some T, HelperClass := some (W.GetClass X),
              HelperComponentName := W.GetFName X,
              HelperActorLabel := W.GetActorLabel T, HelperActorPath := path }
    · refine ⟨?_, ?_, rfl, hres _ rfl⟩
      · simp only [InitHelpers, hObject, hnact, hcomp, hown, hP, Bool.false_eq_true,
          if_false, if_true]
      · simp only [FixObjectReferenceFromEditorHelpers, hF, if_neg hcls, hchild, if_true]
        cases hc : GetComponentsOfClass W T (W.GetClass X) with
        | nil => rw [hc] at hmem; exact absurd hmem (List.not_mem_nil _)
        | cons a l =>
          cases l with
          | nil =>
            rw [hc] at hmem
            have : X = a := by simpa using hmem
            subst this
            rfl
          | cons b l =>
            rw [hc] at hfind
            simp only [hfind]

/-- C10 (amended), at an instance: the reference to the component 41, named "Light", of
the actor 4, which is reached from the context actor 1 by the path "X/Leaf", is repaired
to 41 again. -/
theorem C10_fix_recovers_target_on_unambiguous_path_witness :
    ∃ r1 r2, InitHelpers LevelWithTwinLabels 5 1 (ReferenceTo 41) = some (true, r1) ∧
      FixObjectReferenceFromEditorHelpers LevelWithTwinLabels 1 { r1 with Object := none }
        = some (true, r2) ∧
      r2.Object = some 41 ∧ Resolve LevelWithTwinLabels r2 = some 41 :=
  C10_fix_recovers_target_on_unambiguous_path LevelWithTwinLabels 5 1 4 41 [2, 4]
    (ReferenceTo 41) none (Or.inr ⟨by decide, by decide⟩)
    ⟨by decide, by decide, by decide, by decide, by decide, by decide, by decide, by decide,
      trivial⟩
    (by decide) (fun _ => by decide) rfl (by decide)
    (Or.inr ⟨by decide, by decide, by decide, by decide, by decide, by decide⟩)

end LPrefab

namespace LPrefab

open FLPrefabSequenceObjectReference

/-! # Theorems about the lookup by path and the resolution of a reference -/

/-- C11: when `GetActorFromContextActorByRelativePath` reaches no actor along the cached
`HelperActorPath`, `FixObjectReferenceFromEditorHelpers` returns false and leaves the
reference as it was, the target handle and every helper field, so that it resolves to
what it resolved to before. -/
theorem C11_fix_returns_false_when_no_actor_is_reached (W : World) (InContextActor : UObject)
    (r : FLPrefabSequenceObjectReference)
    (h : GetActorFromContextActorByRelativePath W InContextActor r.HelperActorPath = none) :
    FixObjectReferenceFromEditorHelpers W InContextActor r = some (false, r) ∧
    ∀ flag r1, FixObjectReferenceFromEditorHelpers W InContextActor r = some (flag, r1) →
      flag = false ∧ r1.Object = r.Object ∧ Resolve W r1 = Resolve W r := by
  have h1 : FixObjectReferenceFromEditorHelpers W InContextActor r = some (false, r) := by
    simp only [FixObjectReferenceFromEditorHelpers, h]
  refine ⟨h1, ?_⟩
  intro flag r1 h2
  rw [h1] at h2
  simp only [Option.some.injEq, Prod.mk.injEq] at h2
  obtain ⟨hf, hr⟩ := h2
  subst hf
  subst hr
  exact ⟨rfl, rfl, rfl⟩

/-- C11 (witness): the cached path "X/Gone" names a label that no actor attached to the
actor 2 carries any more; the repair of the reference, whose handle is null, fails. -/
theorem C11_fix_returns_false_when_no_actor_is_reached_witness :
    FixObjectReferenceFromEditorHelpers LevelWithTwinLabels 1
        { Object := none, HelperActor := some 4, HelperClass := some 1,
          HelperComponentName := "Actor".data, HelperActorLabel := "Gone".data,
          HelperActorPath := "X/Gone".data }
      = some (false, { Object := none, HelperActor := some 4, HelperClass := some 1,
                       HelperComponentName := "Actor".data, HelperActorLabel := "Gone".data,
                       HelperActorPath := "X/Gone".data }) :=
  (C11_fix_returns_false_when_no_actor_is_reached LevelWithTwinLabels 1
    { Object := none, HelperActor := some 4, HelperClass := some 1,
      HelperComponentName := "Actor".data, HelperActorLabel := "Gone".data,
      HelperActorPath := "X/Gone".data } (by decide)).1

/-- C13: `Resolve` returns the field `Object`, and leaves the reference as it is, when
that object is valid. Otherwise, when the helper actor and the helper class are valid, it
returns, and stores in `Object`, the helper actor if the helper class is the class of
actors, the one component of the helper class if the helper actor has exactly one, and
the first component whose name equals `HelperComponentName` if it has several; the
helper fields are never written. -/
theorem C13_Resolve_returns_handle_or_recomputes_from_helpers (W : World) :
    (∀ (r : FLPrefabSequenceObjectReference) (o : UObject), r.Object = some o →
      W.IsValid o = true →
      Resolve W r = some o ∧ CheckTargetObject W r = (true, r)) ∧
    (∀ (r : FLPrefabSequenceObjectReference) (a : UObject), IsValidObject W r.Object = false →
      r.HelperActor = some a → W.IsValid a = true →
      r.HelperClass = some W.AActor_StaticClass → W.IsValidClass W.AActor_StaticClass = true →
      Resolve W r = some a ∧ CheckTargetObject W r = (true, { r with Object := some a })) ∧
    (∀ (r : FLPrefabSequenceObjectReference) (a : UObject) (c : UClass) (x : UObject),
      IsValidObject W r.Object = false →
      r.HelperActor = some a → W.IsValid a = true →
      r.HelperClass = some c → W.IsValidClass c = true → c ≠ W.AActor_StaticClass →
      GetComponentsOfClass W a c = [x] →
      Resolve W r = some x ∧ CheckTargetObject W r = (true, { r with Object := some x })) ∧
    (∀ (r : FLPrefabSequenceObjectReference) (a : UObject) (c : UClass) (x : UObject),
      IsValidObject W r.Object = false →
      r.HelperActor = some a → W.IsValid a = true →
      r.HelperClass = some c → W.IsValidClass c = true → c ≠ W.AActor_StaticClass →
      2 ≤ (GetComponentsOfClass W a c).length →
      (GetComponentsOfClass W a c).find?
        (fun Comp => FName_Equals (W.GetFName Comp) r.HelperComponentName) = some x →
      Resolve W r = some x ∧ CheckTargetObject W r = (true, { r with Object := some x })) := by
  refine ⟨?_, ?_, ?_, ?_⟩
  · intro r o ho hv
    have hc : CheckTargetObject W r = (true, r) := by
      simp [CheckTargetObject, ho, IsValidObject, hv]
    exact ⟨by rw [Resolve, hc]; exact ho, hc⟩
  · intro r a hinv ha hva hc hvc
    have hva1 : IsValidObject W (some a) = true := hva
    have hvc1 : IsValidHelperClass W (some W.AActor_StaticClass) = true := hvc
    have hcheck : CheckTargetObject W r = (true, { r with Object := some a }) := by
      unfold CheckTargetObject
      rw [hinv, ha, hc]
      simp [hva1, hvc1]
    exact ⟨by rw [Resolve, hcheck], hcheck⟩
  · intro r a c x hinv ha hva hc hvc hne hcomps
    have hva1 : IsValidObject W (some a) = true := hva
    have hvc1 : IsValidHelperClass W (some c) = true := hvc
    have hcheck : CheckTargetObject W r = (true, { r with Object := some x }) := by
      unfold CheckTargetObject
      rw [hinv, ha, hc]
      simp [hva1, hvc1, hne, hcomps]
    exact ⟨by rw [Resolve, hcheck], hcheck⟩
  · intro r a c x hinv ha hva hc hvc hne hlen hfind
    have hva1 : IsValidObject W (some a) = true := hva
    have hvc1 : IsValidHelperClass W (some c) = true := hvc
    have hcheck : CheckTargetObject W r = (true, { r with Object := some x }) := by
      cases hl : GetComponentsOfClass W a c with
      | nil => rw [hl] at hlen; simp at hlen
      | cons y l =>
        cases l with
        | nil => rw [hl] at hlen; simp at hlen
        | cons z l =>
          rw [hl] at hfind
          unfold CheckTargetObject
          rw [hinv, ha, hc]
          simp [hva1, hvc1, hne, hl, hfind]
    exact ⟨by rw [Resolve, hcheck], hcheck⟩

/-- C14, evaluated on a failing input: the cached path "X/Leaf" leads to the actor 4,
which has the two components 40 and 41 of the stored class 5, none of them named "Gone";
the target handle before the call is the stale object 99.
`FixObjectReferenceFromEditorHelpers` returns true and the target is still 99, not the
first component 40. -/
theorem C14_stale_handle_kept_when_no_component_has_the_name :
    GetActorFromContextActorByRelativePath LevelWithTwinLabels 1 "X/Leaf".data = some 4 ∧
    GetComponentsOfClass LevelWithTwinLabels 4 5 = [40, 41] ∧
    LevelWithTwinLabels.IsValid 99 = false ∧
    FixObjectReferenceFromEditorHelpers LevelWithTwinLabels 1
        { Object := some 99, HelperActor := none, HelperClass := some 5,
          HelperComponentName := "Gone".data, HelperActorLabel := [],
          HelperActorPath := "X/Leaf".data }
      = some (true, { Object := some 99, HelperActor := some 4, HelperClass := some 5,
                      HelperComponentName := "Gone".data, HelperActorLabel := "Leaf".data,
                      HelperActorPath := "X/Leaf".data }) := by
  decide

/-- C20 (counterexample): the actor 2, labelled "/", is attached to the context actor 1.
Its relative path is "/" although it is not the context actor, and the lookup of that
path returns the context actor 1. -/
theorem C20_path_of_actor_labelled_slash_is_slash :
    LevelWithSlashLabel.IsAttachedTo 2 1 = true ∧
    LevelWithSlashLabel.GetActorLabel 2 = "/".data ∧
    GetActorPathRelativeToContextActor LevelWithSlashLabel 5 1 2 = some "/".data ∧
    GetActorFromContextActorByRelativePath LevelWithSlashLabel 1 "/".data = some 1 := by
  decide

/-- C20 (amended): `GetActorPathRelativeToContextActor(C, C)` is "/", and
`GetActorFromContextActorByRelativePath(C, "/")` is C. For an actor A other than C the
path returned is "/" only if the label of A is empty or is "/" itself: the path "/" stands
for the context actor alone as long as labels are neither empty nor "/". -/
theorem C20_slash_is_the_path_of_the_context_actor (W : World) :
    (∀ fuel C, GetActorPathRelativeToContextActor W fuel C C = some "/".data) ∧
    (∀ C, GetActorFromContextActorByRelativePath W C "/".data = some C) ∧
    (∀ fuel C A, A ≠ C → GetActorPathRelativeToContextActor W fuel C A = some "/".data →
      W.GetActorLabel A = [] ∨ W.GetActorLabel A = "/".data) := by
  refine ⟨?_, ?_, ?_⟩
  · intro fuel C
    simp [GetActorPathRelativeToContextActor]
  · intro C
    unfold GetActorFromContextActorByRelativePath
    rw [(FString_Equals_slash _).2 rfl]
    rfl
  · intro fuel C A hne h
    unfold GetActorPathRelativeToContextActor at h
    rw [if_neg hne] at h
    split at h
    · obtain ⟨pre, hpre⟩ := path_while_suffix W C fuel _ _ _ h
      cases hl : W.GetActorLabel A with
      | nil => exact Or.inl rfl
      | cons ch l =>
        right
        rw [hl] at hpre
        cases pre with
        | nil => simpa using hpre.symm
        | cons d pre =>
          exfalso
          have hlen := congrArg List.length hpre
          simp at hlen
    · simp only [Option.some.injEq] at h
      exact absurd h (by decide)

end LPrefab

namespace LPrefab

open FLPrefabSequenceObjectReference

/-! # Theorems about the checks of a reference -/

/-- C12 (counterexample): the actor 2 is attached to the context actor 1 and lives in the
level 1, which belongs to the same world as the level 0 of the context actor. The
reference resolves to the actor 2, which is in the same world as the context actor and
attached beneath it, yet `IsObjectReferenceGood` returns false: it compares the levels. -/
theorem C12_not_good_in_another_level_of_the_same_world :
    Resolve LevelWithSublevel (ReferenceTo 2) = some 2 ∧
    ActorOfObject LevelWithSublevel (some 2) = some 2 ∧
    LevelWithSublevel.OwningWorld (LevelWithSublevel.GetLevel 2)
      = LevelWithSublevel.OwningWorld (LevelWithSublevel.GetLevel 1) ∧
    LevelWithSublevel.IsAttachedTo 2 1 = true ∧
    (IsObjectReferenceGood LevelWithSublevel 1 (ReferenceTo 2)).1 = false := by
  decide

/-- C12 (amended): `IsObjectReferenceGood(C)` returns true if and only if the reference
resolves to an object whose actor (the object itself, or its owner when the object is a
component) lives in the same level as the context actor C (`GetLevel`) and is either C
itself or attached to C; an actor for which it returns true is then in the same world
as C as well. -/
theorem C12_good_iff_same_level_and_self_or_attached (W : World) (C : UObject)
    (r : FLPrefabSequenceObjectReference) :
    ((IsObjectReferenceGood W C r).1 = true ↔
      ∃ o A, Resolve W r = some o ∧ ActorOfObject W (some o) = some A ∧
        W.GetLevel A = W.GetLevel C ∧ (A = C ∨ W.IsAttachedTo A C = true)) ∧
    ((IsObjectReferenceGood W C r).1 = true →
      ∃ o A, Resolve W r = some o ∧ ActorOfObject W (some o) = some A ∧
        W.OwningWorld (W.GetLevel A) = W.OwningWorld (W.GetLevel C)) := by
  have key : (IsObjectReferenceGood W C r).1 = true ↔
      ∃ o A, Resolve W r = some o ∧ ActorOfObject W (some o) = some A ∧
        W.GetLevel A = W.GetLevel C ∧ (A = C ∨ W.IsAttachedTo A C = true) := by
    unfold IsObjectReferenceGood Resolve
    dsimp only
    cases ho : (CheckTargetObject W r).2.Object with
    | none => simp [ActorOfObject]
    | some o =>
      cases hA : ActorOfObject W (some o) with
      | none => simp [hA]
      | some A => simp [hA]
  refine ⟨key, ?_⟩
  intro h
  obtain ⟨o, A, h1, h2, h3, _⟩ := key.1 h
  exact ⟨o, A, h1, h2, by rw [h3]⟩

/-- C15: for a reference whose handle is a valid actor, or a valid component with a valid
owner, `InitHelpers(C)` returns true and `IsEditorHelpersGood(C)` holds right after it:
the helper actor is the actor (or the owner), the helper class and the component name
are those of the target (the class of actors and "Actor" for an actor), and the cached
path is the relative path of the helper actor. The classes involved are taken to be
valid, the name of a component not to be `None`, and the attachment hierarchy to have
no cycle, so that the climb to the context actor ends. -/
theorem C15_helpers_good_after_InitHelpers (W : World) (fuel : Nat) (C X A : UObject)
    (r : FLPrefabSequenceObjectReference) (rank : UObject → Nat)
    (hrank : ∀ a p, W.GetAttachParentActor a = some p → rank p < rank a)
    (hfuel : rank A ≤ fuel)
    (hObject : r.Object = some X) (hvalid : W.IsValid X = true)
    (hX : (W.IsActor X = true ∧ A = X ∧ W.IsValidClass W.AActor_StaticClass = true) ∨
      (W.IsActor X = false ∧ W.IsActorComponent X = true ∧ W.GetOwner X = some A ∧
        W.IsValid A = true ∧ W.IsValidClass (W.GetClass X) = true ∧
        FName_IsNone (W.GetFName X) = false)) :
    ∃ r1 Path, InitHelpers W fuel C r = some (true, r1) ∧
      IsEditorHelpersGood W fuel C r1 = some true ∧
      r1.Object = some X ∧ r1.HelperActor = some A ∧
      r1.HelperActorLabel = W.GetActorLabel A ∧
      GetActorPathRelativeToContextActor W fuel C A = some Path ∧ r1.HelperActorPath = Path ∧
      (W.IsActor X = true →
        r1.HelperClass = some W.AActor_StaticClass ∧ r1.HelperComponentName = "Actor".data) ∧
      (W.IsActor X = false →
        r1.HelperClass = some (W.GetClass X) ∧ r1.HelperComponentName = W.GetFName X) := by
  obtain ⟨Path, hPath⟩ := GetActorPath_returns W C A rank hrank fuel hfuel
  have heq : FString_Equals Path Path = true := by simp [FString_Equals]
  rcases hX with ⟨hact, hA, hcls⟩ | ⟨hnact, hcomp, hown, hvA, hcls, hname⟩
  · subst hA
    refine ⟨?_, Path, ?_, ?_, ?_⟩
    · exact { r with HelperActor := some A, HelperClass := some W.AActor_StaticClass,
                     HelperComponentName := "Actor".data,
                     HelperActorLabel := W.GetActorLabel A, HelperActorPath := Path }
    · simp only [InitHelpers, hObject, hact, if_true, hPath]
    · have hn : FName_IsNone "Actor".data = false := by decide
      simp only [IsEditorHelpersGood, IsValidObject, IsValidHelperClass, hvalid, hcls, hn,
        hPath, heq, Bool.not_false, Bool.and_self, if_true]
    · refine ⟨hObject, rfl, rfl, hPath, rfl, fun _ => ⟨rfl, rfl⟩, fun h => ?_⟩
      rw [hact] at h
      cases h
  · refine ⟨?_, Path, ?_, ?_, ?_⟩
    · exact { r with HelperActor := some A, HelperClass := some (W.GetClass X),
                     HelperComponentName := W.GetFName X,
                     HelperActorLabel := W.GetActorLabel A, HelperActorPath := Path }
    · simp only [InitHelpers, hObject, hnact, hcomp, hown, hPath, Bool.false_eq_true,
        if_false, if_true]
    · simp only [IsEditorHelpersGood, IsValidObject, IsValidHelperClass, hvA, hcls, hname,
        hPath, heq, Bool.not_false, Bool.and_self, if_true]
    · refine ⟨hObject, rfl, rfl, hPath, rfl, fun h => ?_, fun _ => ⟨rfl, rfl⟩⟩
      rw [hnact] at h
      cases h

/-- C15 (witness): the reference to the component 41 of the actor 4, initialised from
the context actor 1, caches the owner 4, the class 5, the name "Light" and the path
"X/Leaf", and its helpers are good. -/
theorem C15_helpers_good_after_InitHelpers_witness :
    ∃ r1 Path, InitHelpers LevelWithTwinLabels 5 1 (ReferenceTo 41) = some (true, r1) ∧
      IsEditorHelpersGood LevelWithTwinLabels 5 1 r1 = some true ∧
      r1.Object = some 41 ∧ r1.HelperActor = some 4 ∧
      r1.HelperActorLabel = LevelWithTwinLabels.GetActorLabel 4 ∧
      GetActorPathRelativeToContextActor LevelWithTwinLabels 5 1 4 = some Path ∧
      r1.HelperActorPath = Path ∧
      (LevelWithTwinLabels.IsActor 41 = true →
        r1.HelperClass = some LevelWithTwinLabels.AActor_StaticClass ∧
        r1.HelperComponentName = "Actor".data) ∧
      (LevelWithTwinLabels.IsActor 41 = false →
        r1.HelperClass = some (LevelWithTwinLabels.GetClass 41) ∧
        r1.HelperComponentName = LevelWithTwinLabels.GetFName 41) :=
  C15_helpers_good_after_InitHelpers LevelWithTwinLabels 5 1 41 4 (ReferenceTo 41)
    (fun o => if o = 1 then 0 else if o = 2 ∨ o = 3 then 1 else 2)
    (by
      intro a p h
      have h1 : LevelWithTwinLabels.GetAttachParentActor a
          = if a = 2 ∨ a = 3 then some 1 else if a = 4 then some 2 else none := rfl
      rw [h1] at h
      split at h
      · cases h
        rename_i h23
        rcases h23 with rfl | rfl <;> decide
      · split at h
        · cases h
          rename_i h4
          subst h4
          decide
        · cases h)
    (by decide) rfl (by decide)
    (Or.inr ⟨by decide, by decide, by decide, by decide, by decide, by decide⟩)

/-- C16, evaluated on failing inputs: two calls of `FixObjectReferences` that return
false although a stored reference has changed. In the first the one reference has a null
handle and helpers that name the actor 3, with the path "X"; the path leads to the actor
2, which has no component of the helper class 5, so the repair fails, and the stored
helper actor has gone from 3 to 2. In the second the one reference has a null handle and
helpers that name the actor 3; the check of the reference stores the actor 3 in the
handle, the reference is good, and the handle has gone from null to 3. -/
theorem C16_FixObjectReferences_returns_false_after_a_change :
    FLPrefabSequenceObjectReferenceMap.FixObjectReferences LevelWithTwinLabels 1
        { BindingIds := [7], References := [⟨[ReferenceWithHelperActor3]⟩] }
      = some (false,
          { BindingIds := [7],
            References := [⟨[{ ReferenceWithHelperActor3 with HelperActor := some 2 }]⟩] }) ∧
    ReferenceWithHelperActor3.HelperActor = some 3 ∧
    FLPrefabSequenceObjectReferenceMap.FixObjectReferences LevelWithTwinLabels 1
        { BindingIds := [7], References := [⟨[ReferenceToActorX none 3 []]⟩] }
      = some (false,
          { BindingIds := [7], References := [⟨[ReferenceToActorX (some 3) 3 []]⟩] }) := by
  decide

end LPrefab

namespace LPrefab

open FLPrefabSequenceObjectReference FLPrefabSequenceObjectReferenceMap

/-! # Theorems about the reference map -/

/-- C17: starting from the empty map, every sequence of `CreateBinding` and
`RemoveBinding` calls returns, and afterwards `HasBinding(id)` is true if and only if
the sequence has a call that names the id and the last such call is a `CreateBinding`. -/
theorem C17_HasBinding_iff_last_call_naming_id_created_it (Calls : List BindingCall) :
    ∃ m, ApplyBindingCalls Calls EmptyReferenceMap = some m ∧
      ∀ id, HasBinding m id = true ↔
        ∃ c, (Calls.filter (fun c => decide (c.ObjectId = id))).getLast? = some c ∧
          c.IsCreateBinding = true := by
  obtain ⟨m, h1, _, h3⟩ := ApplyBindingCalls_spec Calls
  exact ⟨m, h1, fun id => (HasBinding_iff m id).trans (h3 id)⟩

/-- C18: on a well-formed map, `CreateBinding(id, r)` returns and binds the id to the array
it had before (the empty array for a new id) after `AddUnique`: when the array holds a
reference that resolves to the same object as r, the array resolves as before and keeps
its length; otherwise the array gets one more reference, at the end, which resolves to
the object of r. The arrays of all other ids are untouched. A second call with the same
id and reference returns, keeps the ids and keeps the length of every array. -/
theorem C18_CreateBinding_adds_reference_once (W : World)
    (m : FLPrefabSequenceObjectReferenceMap) (hwf : WellFormed m) (id : FGuid)
    (r : FLPrefabSequenceObjectReference) :
    ∃ m1 arr1, CreateBinding W m id r = some m1 ∧ HasBinding m1 id = true ∧
      ArrayOf m1 id = some arr1 ∧
      ((∃ e ∈ (ArrayOf m id).getD [], Resolve W e = Resolve W r) →
        arr1.map (Resolve W) = ((ArrayOf m id).getD []).map (Resolve W) ∧
        arr1.length = ((ArrayOf m id).getD []).length) ∧
      ((¬ ∃ e ∈ (ArrayOf m id).getD [], Resolve W e = Resolve W r) →
        arr1.map (Resolve W) = ((ArrayOf m id).getD []).map (Resolve W) ++ [Resolve W r] ∧
        arr1.length = ((ArrayOf m id).getD []).length + 1) ∧
      (∀ x, x ≠ id → ArrayOf m1 x = ArrayOf m x ∧ HasBinding m1 x = HasBinding m x) ∧
      ∃ m2, CreateBinding W m1 id r = some m2 ∧ m2.BindingIds = m1.BindingIds ∧
        ∀ x, (ArrayOf m2 x).map List.length = (ArrayOf m1 x).map List.length := by
  obtain ⟨m1, h1, hwf1, hmem1, hz1⟩ := CreateBinding_spec W m hwf id r
  obtain ⟨m2, h2, hwf2, hmem2, hz2⟩ := CreateBinding_spec W m1 hwf1 id r
  obtain ⟨s1, s2, s3⟩ := TArray_AddUnique_spec W ((ArrayOf m id).getD []) r
  have harr1 : ArrayOf m1 id = some (TArray_AddUnique W ((ArrayOf m id).getD []) r) := by
    rw [ArrayOf_of_WellFormed m1 hwf1, hz1, TMap.Find_Add_self]
    rfl
  have hin1 : id ∈ m1.BindingIds := (hmem1 id).2 (Or.inr rfl)
  refine ⟨m1, _, h1, (HasBinding_iff m1 id).2 hin1, harr1, ?_, ?_, ?_, m2, h2, ?_, ?_⟩
  · intro hex
    have := s1 hex
    exact ⟨this, by simpa using congrArg List.length this⟩
  · intro hnex
    have := s2 hnex
    exact ⟨this, by simpa using congrArg List.length this⟩
  · intro x hx
    constructor
    · rw [ArrayOf_of_WellFormed m1 hwf1, ArrayOf_of_WellFormed m hwf, hz1,
        TMap.Find_Add_ne _ _ _ _ (Ne.symm hx)]
    · have hiff : x ∈ m1.BindingIds ↔ x ∈ m.BindingIds := by
        rw [hmem1 x]
        constructor
        · rintro (h | h)
          · exact h
          · exact absurd h hx
        · exact fun h => Or.inl h
      cases hb : HasBinding m x with
      | true => exact (HasBinding_iff m1 x).2 (hiff.2 ((HasBinding_iff m x).1 hb))
      | false =>
        cases hb1 : HasBinding m1 x with
        | false => rfl
        | true =>
          have := (HasBinding_iff m x).2 (hiff.1 ((HasBinding_iff m1 x).1 hb1))
          rw [hb] at this
          cases this
  · have hk1 : TMap.Keys (m1.BindingIds.zip m1.References) = m1.BindingIds :=
      List.map_fst_zip _ _ (Nat.le_of_eq hwf1.1)
    have hk2 : TMap.Keys (m2.BindingIds.zip m2.References) = m2.BindingIds :=
      List.map_fst_zip _ _ (Nat.le_of_eq hwf2.1)
    rw [← hk2, hz2, TMap.Keys_Add_of_mem _ _ _ (by rw [hk1]; exact hin1), hk1]
  · intro x
    rw [ArrayOf_of_WellFormed m2 hwf2, hz2]
    by_cases hx : x = id
    · subst hx
      rw [TMap.Find_Add_self, harr1]
      simp only [Option.map_some', Option.getD_some, Option.some.injEq]
      have := (TArray_AddUnique_spec W (TArray_AddUnique W ((ArrayOf m x).getD []) r) r).1 s3
      simpa using congrArg List.length this
    · rw [TMap.Find_Add_ne _ _ _ _ (Ne.symm hx), ← ArrayOf_of_WellFormed m1 hwf1]

/-- C18 (witness): in the map of three bindings, a second reference to the actor 3 is
not added to the binding 8, which holds a reference to the actor 3 already. -/
theorem C18_CreateBinding_adds_reference_once_witness :
    ∃ m1 arr1, CreateBinding LevelWithTwinLabels MapOfThreeBindings 8 (ReferenceTo 3) = some m1 ∧
      HasBinding m1 8 = true ∧ ArrayOf m1 8 = some arr1 ∧
      arr1.length = ((ArrayOf MapOfThreeBindings 8).getD []).length :=
  match C18_CreateBinding_adds_reference_once LevelWithTwinLabels MapOfThreeBindings
      ⟨rfl, by decide⟩ 8 (ReferenceTo 3) with
  | ⟨m1, arr1, h1, h2, h3, h4, _⟩ =>
    ⟨m1, arr1, h1, h2, h3, (h4 ⟨ReferenceTo 3, by decide, rfl⟩).2⟩

/-- C19: on a well-formed map, `RemoveBinding(id)` returns a well-formed map in which
the id is not bound and has no array, and in which every other id is bound exactly as
before, to the same array of references, so that `ResolveBinding` for another id adds
the same objects; when the id is not bound the map is the one before. -/
theorem C19_RemoveBinding_removes_only_the_id (m : FLPrefabSequenceObjectReferenceMap)
    (hwf : WellFormed m) (id : FGuid) :
    ∃ m1, RemoveBinding m id = some m1 ∧ WellFormed m1 ∧
      HasBinding m1 id = false ∧ ArrayOf m1 id = none ∧
      (∀ x, x ≠ id → HasBinding m1 x = HasBinding m x ∧ ArrayOf m1 x = ArrayOf m x ∧
        ∀ (W : World) (Out : List UObject),
          (ResolveBinding W m1 x Out).map Prod.fst = (ResolveBinding W m x Out).map Prod.fst) ∧
      (HasBinding m id = false → m1 = m) := by
  obtain ⟨m1, h1, hwf1, hmem, hfind⟩ := RemoveBinding_spec m hwf id
  have hnot : id ∉ m1.BindingIds := fun h => ((hmem id).1 h).2 rfl
  have harr : ∀ x, x ≠ id → ArrayOf m1 x = ArrayOf m x := by
    intro x hx
    rw [ArrayOf_of_WellFormed m1 hwf1, ArrayOf_of_WellFormed m hwf, hfind x hx]
  refine ⟨m1, h1, hwf1, ?_, ?_, ?_, ?_⟩
  · cases hb : HasBinding m1 id with
    | false => rfl
    | true => exact absurd ((HasBinding_iff m1 id).1 hb) hnot
  · unfold ArrayOf
    rw [(TArray_IndexOfByKey_eq_none _ _).2 hnot]
  · intro x hx
    refine ⟨?_, harr x hx, ?_⟩
    · have hiff : x ∈ m1.BindingIds ↔ x ∈ m.BindingIds := by
        rw [hmem x]
        exact ⟨fun h => h.1, fun h => ⟨h, hx⟩⟩
      cases hb : HasBinding m x with
      | true => exact (HasBinding_iff m1 x).2 (hiff.2 ((HasBinding_iff m x).1 hb))
      | false =>
        cases hb1 : HasBinding m1 x with
        | false => rfl
        | true =>
          have := (HasBinding_iff m x).2 (hiff.1 ((HasBinding_iff m1 x).1 hb1))
          rw [hb] at this
          cases this
    · intro W Out
      rw [ResolveBinding_objects W m1 hwf1, ResolveBinding_objects W m hwf, harr x hx]
  · intro hb
    have hnin : id ∉ m.BindingIds := by
      intro h
      have := (HasBinding_iff m id).2 h
      rw [hb] at this
      cases this
    have hi := (TArray_IndexOfByKey_eq_none _ _).2 hnin
    simp only [RemoveBinding, hi, Option.some.injEq] at h1
    exact h1.symm

/-- C19 (witness): removing the first of three bindings puts the last one in its place;
the ids 8 and 9 keep their arrays. -/
theorem C19_RemoveBinding_removes_only_the_id_witness :
    RemoveBinding MapOfThreeBindings 7
      = some { BindingIds := [9, 8], References := [⟨[ReferenceTo 4]⟩, ⟨[ReferenceTo 3]⟩] } ∧
    ∃ m1, RemoveBinding MapOfThreeBindings 7 = some m1 ∧ WellFormed m1 ∧
      HasBinding m1 7 = false ∧ ArrayOf m1 7 = none ∧
      (∀ x, x ≠ 7 → HasBinding m1 x = HasBinding MapOfThreeBindings x ∧
        ArrayOf m1 x = ArrayOf MapOfThreeBindings x ∧
        ∀ (W : World) (Out : List UObject),
          (ResolveBinding W m1 x Out).map Prod.fst
            = (ResolveBinding W MapOfThreeBindings x Out).map Prod.fst) ∧
      (HasBinding MapOfThreeBindings 7 = false → m1 = MapOfThreeBindings) :=
  ⟨by decide, C19_RemoveBinding_removes_only_the_id MapOfThreeBindings ⟨rfl, by decide⟩ 7⟩

end LPrefab

namespace LPrefab

open FLPrefabSequenceObjectReference

/-! # Root validation of generation 3, skipped children of generation 6, failed checks -/

/-- C21, evaluated on a failing input: the root actor 1 of the level is valid, has a world
and is transient. `SavePrefab` of generation 3 does not abort: it returns a prefab asset
that differs from the one passed in and an identity map with a new entry for the root,
whereas `SavePrefab` of the generations 6 and 7 return the asset and the map unchanged. -/
theorem C21_generation_3_saves_a_transient_root :
    LevelWithTransientRoot.IsTransient 1 = true ∧
    (LPrefabSystem3.SavePrefab LevelWithTransientRoot 5 (some 1) (some default) [] [] true).1
      ≠ some default ∧
    (LPrefabSystem3.SavePrefab LevelWithTransientRoot 5 (some 1) (some default) [] [] true).2
      = [(1, 1000)] ∧
    LPrefabSystem6.SavePrefab LevelWithTransientRoot 5 (some 1) (some default) [] [] true
      = (some default, []) ∧
    LPrefabSystem7.SavePrefab LevelWithTransientRoot 5 (some 1) (some default) [] [] true
      = (some default, []) := by
  decide

/-- C24, evaluated on a failing input: in build mode the collector of generation 6 skips
the transient child 2 and the editor-only child 3 of the actor 1, so the actor 1 alone is
in `WillSerializeActorArray`; the child-record list of the record of 1 has two records all
the same, both default-constructed with the zero GUID. -/
theorem C24_skipped_children_leave_default_records :
    ActorSerializer.WillSerializeActorArray
      (LPrefabSystem6.SerializeActorToData LevelWithSkipped 5
        (LPrefabSystem6.SavePrefab_serializer LevelWithSkipped [] [] false) 1).1 = [1] ∧
    LPrefabSystem6.FLGUIActorSaveData.ChildrenActorDataArray
      (LPrefabSystem6.SerializeActorToData LevelWithSkipped 5
        (LPrefabSystem6.SavePrefab_serializer LevelWithSkipped [] [] false) 1).2.SavedActor
      = [LPrefabSystem6.FLGUIActorSaveData.New, LPrefabSystem6.FLGUIActorSaveData.New] :=
  ⟨by decide, rfl⟩

/-- C25 fails: the handle of the reference is the object 99, which is not valid, and no
helper is cached; `CheckTargetObject` returns false and `Resolve` returns 99, not null. -/
theorem C25_Resolve_returns_the_stale_handle :
    (CheckTargetObject LevelWithTwinLabels (ReferenceTo 99)).1 = false ∧
    LevelWithTwinLabels.IsValid 99 = false ∧
    Resolve LevelWithTwinLabels (ReferenceTo 99) = some 99 := by
  decide

/-- C25 (amended): whenever `CheckTargetObject` returns false it leaves the reference as
it is, and `Resolve` returns the direct handle as it stands, which is null or an object
that is not valid; so `Resolve` then returns null exactly when the handle is null. -/
theorem C25_Resolve_returns_handle_unchanged_on_failed_check (W : World)
    (r : FLPrefabSequenceObjectReference) (h : (CheckTargetObject W r).1 = false) :
    (CheckTargetObject W r).2 = r ∧ Resolve W r = r.Object ∧
    IsValidObject W r.Object = false ∧ (Resolve W r = none ↔ r.Object = none) := by
  have heq := CheckTargetObject_eq W r
  cases hv : IsValidObject W r.Object with
  | true =>
    rw [heq, hv] at h
    simp at h
  | false =>
    have h2 : (CheckTargetObject W r).2 = r := by
      rw [heq, hv] at h ⊢
      cases ho : ObjectFromHelpers W r with
      | none => simp [ho]
      | some x => simp [ho] at h
    have h3 : Resolve W r = r.Object := by
      unfold Resolve
      rw [h2]
    exact ⟨h2, h3, rfl, by rw [h3]⟩

/-- C25 (amended), at an instance: the stale handle 99 is what `Resolve` returns. -/
theorem C25_Resolve_returns_handle_unchanged_on_failed_check_witness :
    (CheckTargetObject LevelWithTwinLabels (ReferenceTo 99)).2 = ReferenceTo 99 ∧
    Resolve LevelWithTwinLabels (ReferenceTo 99) = (ReferenceTo 99).Object ∧
    IsValidObject LevelWithTwinLabels (ReferenceTo 99).Object = false ∧
    (Resolve LevelWithTwinLabels (ReferenceTo 99) = none ↔ (ReferenceTo 99).Object = none) :=
  C25_Resolve_returns_handle_unchanged_on_failed_check LevelWithTwinLabels (ReferenceTo 99)
    (by decide)

/-- C26 fails: the helpers of the reference name the actor 3 and the path "X", which
leads from the context actor 1 to the actor 2; the actor 2 has no component of the helper
class, so `FixObjectReferenceFromEditorHelpers` returns false, and `HelperActor` is then
the actor 2. -/
theorem C26_failed_fix_overwrites_HelperActor :
    ∃ r1, FixObjectReferenceFromEditorHelpers LevelWithTwinLabels 1 ReferenceWithHelperActor3
        = some (false, r1) ∧
      ReferenceWithHelperActor3.HelperActor = some 3 ∧ r1.HelperActor = some 2 :=
  ⟨{ ReferenceWithHelperActor3 with HelperActor := some 2 }, by decide, rfl, rfl⟩

/-- C26 (amended): whenever `FixObjectReferenceFromEditorHelpers` returns false, the
target handle, `HelperClass`, `HelperComponentName` and `HelperActorPath` have the value
they had before the call; when the path led to no actor, `HelperActor` and
`HelperActorLabel` have it too, and when the path led to an actor, `HelperActor` is that
actor and `HelperActorLabel` its label. -/
theorem C26_failed_fix_keeps_handle_class_name_path (W : World) (C : UObject)
    (r r1 : FLPrefabSequenceObjectReference)
    (h : FixObjectReferenceFromEditorHelpers W C r = some (false, r1)) :
    r1.Object = r.Object ∧ r1.HelperClass = r.HelperClass ∧
    r1.HelperComponentName = r.HelperComponentName ∧
    r1.HelperActorPath = r.HelperActorPath ∧
    (GetActorFromContextActorByRelativePath W C r.HelperActorPath = none → r1 = r) ∧
    (∀ A, GetActorFromContextActorByRelativePath W C r.HelperActorPath = some A →
      r1.HelperActor = some A ∧ r1.HelperActorLabel = W.GetActorLabel A) := by
  unfold FixObjectReferenceFromEditorHelpers at h
  cases hA : GetActorFromContextActorByRelativePath W C r.HelperActorPath with
  | none =>
    rw [hA] at h
    simp only [Option.some.injEq, Prod.mk.injEq, true_and] at h
    subst h
    exact ⟨rfl, rfl, rfl, rfl, fun _ => rfl, fun A hA1 => (by cases hA1)⟩
  | some A =>
    rw [hA] at h
    dsimp only at h
    split at h
    · cases h
    · split at h
      · cases h
      · split at h
        · split at h
          · cases h
            exact ⟨rfl, rfl, rfl, rfl, fun h0 => (by cases h0),
              fun B hB => (by cases hB; exact ⟨rfl, rfl⟩)⟩
          · cases h
          · split at h
            · split at h <;> cases h
            · split at h <;> cases h
        · cases h
          exact ⟨rfl, rfl, rfl, rfl, fun h0 => (by cases h0),
            fun B hB => (by cases hB; exact ⟨rfl, rfl⟩)⟩

/-- C26 (amended), at an instance: the failed repair of the reference with the helper
actor 3 keeps the handle, the class, the name and the path, and caches the actor 2. -/
theorem C26_failed_fix_keeps_handle_class_name_path_witness :
    ∃ r1, FixObjectReferenceFromEditorHelpers LevelWithTwinLabels 1 ReferenceWithHelperActor3
        = some (false, r1) ∧
      r1.Object = ReferenceWithHelperActor3.Object ∧
      r1.HelperClass = ReferenceWithHelperActor3.HelperClass ∧
      r1.HelperComponentName = ReferenceWithHelperActor3.HelperComponentName ∧
      r1.HelperActorPath = ReferenceWithHelperActor3.HelperActorPath ∧
      (GetActorFromContextActorByRelativePath LevelWithTwinLabels 1
          ReferenceWithHelperActor3.HelperActorPath = none → r1 = ReferenceWithHelperActor3) ∧
      (∀ A, GetActorFromContextActorByRelativePath LevelWithTwinLabels 1
          ReferenceWithHelperActor3.HelperActorPath = some A →
        r1.HelperActor = some A ∧ r1.HelperActorLabel = LevelWithTwinLabels.GetActorLabel A) :=
  ⟨{ ReferenceWithHelperActor3 with HelperActor := some 2 }, by decide,
    C26_failed_fix_keeps_handle_class_name_path LevelWithTwinLabels 1
      ReferenceWithHelperActor3 { ReferenceWithHelperActor3 with HelperActor := some 2 }
      (by decide)⟩

/-- C28: every sequence of `CreateBinding` and `RemoveBinding` calls made from the empty
map runs through and ends in a map whose arrays `BindingIds` and `References` have the
same length and whose ids are pairwise distinct, so every index that the search in
`BindingIds` finds is an index into `References`. -/
theorem C28_reachable_maps_keep_parallel_arrays (Calls : List BindingCall) :
    ∃ m, ApplyBindingCalls Calls EmptyReferenceMap = some m ∧
      m.BindingIds.length = m.References.length ∧
      m.BindingIds.Pairwise (fun a b => a ≠ b) ∧
      ∀ ObjectId Index, TArray_IndexOfByKey m.BindingIds ObjectId = some Index →
        Index < m.References.length ∧ m.BindingIds.get? Index = some ObjectId := by
  obtain ⟨m, hm, ⟨hlen, hnd⟩, _⟩ := ApplyBindingCalls_spec Calls
  refine ⟨m, hm, hlen, hnd, ?_⟩
  intro ObjectId Index h
  obtain ⟨pre, post, hl, hpre, _⟩ := TArray_IndexOfByKey_decomp _ _ _ h
  constructor
  · rw [← hlen, hl, ← hpre]
    simp
  · rw [hl, ← hpre, List.get?_eq_getElem?, List.getElem?_append_right (le_refl _)]
    simp

/-- C30, evaluated on a failing input: among the existing names "P_9999" and "P_10000"
the largest trailing number of at most four digits is 9999 (the last four digits of
"P_10000" spell 0), so for the prefix "P" the name returned is "P_10000", an element of
the existing names. -/
theorem C30_name_after_9999_is_an_existing_name :
    LPrefabEditorTools.ExtractNumetric "P_10000".data = some 0 ∧
    LPrefabEditorTools.MaxNumSuffix ["P_9999".data, "P_10000".data] = 9999 ∧
    LPrefabEditorTools.GetUniqueNumetricName "P".data ["P_9999".data, "P_10000".data]
      = "P_10000".data ∧
    LPrefabEditorTools.GetUniqueNumetricName "P".data ["P_9999".data, "P_10000".data]
      ∈ ["P_9999".data, "P_10000".data] := by
  decide

end LPrefab

namespace LPrefab

/-! # The order of `SavedActors` and the checked lookups of generation 7 -/

/-- C22: in generation 7, over a tree-shaped hierarchy and with a sort hook, if one is
bound, that returns the children it was given: the records of `SavedActors` are those of
the worklist `TrySerializeActorArray` in reverse order, each with the GUID of its actor;
the worklist holds only the root and actors attached beneath it, and in the reversed
worklist no actor is beneath (or is) an actor that stands before it, so the record of an
actor comes after the records of all collected actors attached beneath it; the root, when
it is in the worklist, is the last of the reversed worklist and its GUID is that of the
last record. -/
theorem C22_SavedActors_is_the_preorder_worklist_reversed (W : World) (hp : HookPermutes W)
    (rank : UObject → Nat) (ht : TreeShaped W rank) (fuel : Nat) (Root : UObject)
    (M : TMap UObject FGuid) (Sub : TMap UObject FLSubPrefabData) (editor : Bool) :
    (LPrefabSystem7.SerializeActorToData W fuel
      (LPrefabSystem7.SavePrefab_serializer W M Sub editor) Root).2.SavedActors.map (·.ActorGuid)
      = (LPrefabSystem7.CollectActorRecursive W fuel Root
          (LPrefabSystem7.SavePrefab_serializer W M Sub editor)).TrySerializeActorArray.reverse.map
        (TMap.FindChecked (LPrefabSystem7.CollectActorRecursive W fuel Root
          (LPrefabSystem7.SavePrefab_serializer W M Sub editor)).MapObjectToGuid) ∧
    (∀ x ∈ (LPrefabSystem7.CollectActorRecursive W fuel Root
        (LPrefabSystem7.SavePrefab_serializer W M Sub editor)).TrySerializeActorArray,
      AttachedBeneath W Root x) ∧
    List.Pairwise (fun x y => ¬ AttachedBeneath W x y)
      (LPrefabSystem7.CollectActorRecursive W fuel Root
        (LPrefabSystem7.SavePrefab_serializer W M Sub editor)).TrySerializeActorArray.reverse ∧
    (Root ∈ (LPrefabSystem7.CollectActorRecursive W fuel Root
        (LPrefabSystem7.SavePrefab_serializer W M Sub editor)).TrySerializeActorArray →
      (LPrefabSystem7.CollectActorRecursive W fuel Root
        (LPrefabSystem7.SavePrefab_serializer W M Sub editor)).TrySerializeActorArray.reverse.getLast?
        = some Root ∧
      ((LPrefabSystem7.SerializeActorToData W fuel
        (LPrefabSystem7.SavePrefab_serializer W M Sub editor) Root).2.SavedActors.map
          (·.ActorGuid)).getLast?
        = some (TMap.FindChecked (LPrefabSystem7.CollectActorRecursive W fuel Root
            (LPrefabSystem7.SavePrefab_serializer W M Sub editor)).MapObjectToGuid Root)) := by
  have hrec : (LPrefabSystem7.SerializeActorToData W fuel
      (LPrefabSystem7.SavePrefab_serializer W M Sub editor) Root).2.SavedActors.map (·.ActorGuid)
      = (LPrefabSystem7.CollectActorRecursive W fuel Root
          (LPrefabSystem7.SavePrefab_serializer W M Sub editor)).TrySerializeActorArray.reverse.map
        (TMap.FindChecked (LPrefabSystem7.CollectActorRecursive W fuel Root
          (LPrefabSystem7.SavePrefab_serializer W M Sub editor)).MapObjectToGuid) := by
    have hmapped := LPrefabSystem7.CollectActorRecursive7_try_mapped W fuel Root
      (LPrefabSystem7.SavePrefab_serializer W M Sub editor) (fun x hx => by cases hx)
    obtain ⟨_, hrecs, _⟩ := LPrefabSystem7.SerializeActorArray7_fold_records W
      (LPrefabSystem7.CollectActorRecursive W fuel Root
        (LPrefabSystem7.SavePrefab_serializer W M Sub editor)).TrySerializeActorArray.reverse
      (LPrefabSystem7.CollectActorRecursive W fuel Root
        (LPrefabSystem7.SavePrefab_serializer W M Sub editor), default)
      (fun x hx => hmapped x (List.mem_reverse.mp hx))
    have hsa : (LPrefabSystem7.SerializeActorToData W fuel
        (LPrefabSystem7.SavePrefab_serializer W M Sub editor) Root).2.SavedActors
        = (LPrefabSystem7.SerializeActorArray W
            (LPrefabSystem7.CollectActorRecursive W fuel Root
              (LPrefabSystem7.SavePrefab_serializer W M Sub editor), default)).2.SavedActors :=
      LPrefabSystem7.SerializeObjectArray7_SavedActors W fuel 0 _
    rw [hsa]
    unfold LPrefabSystem7.SerializeActorArray
    rw [hrecs]
    rfl
  obtain ⟨t, ht1, ht2, ht3⟩ := LPrefabSystem7.CollectActorRecursive7_preorder W hp rank ht fuel
    Root (LPrefabSystem7.SavePrefab_serializer W M Sub editor)
  have hnil : (LPrefabSystem7.SavePrefab_serializer W M Sub editor).TrySerializeActorArray = [] :=
    rfl
  rw [hnil, List.nil_append] at ht1
  rw [hrec, ht1]
  refine ⟨rfl, ht2, ?_, ?_⟩
  · rw [List.pairwise_reverse]
    exact ht3
  · intro hroot
    have hhead : t.head? = some Root := by
      cases t with
      | nil => cases hroot
      | cons u t =>
        rw [List.pairwise_cons] at ht3
        rcases List.mem_cons.mp hroot with h | h
        · rw [h]; rfl
        · exact absurd (ht2 u (List.mem_cons_self _ _)) (ht3.1 Root h)
    constructor
    · rw [List.getLast?_reverse]
      exact hhead
    · rw [List.map_reverse, List.getLast?_reverse, List.head?_map, hhead]
      rfl

/-- The level "Root" with "B" and "A" has no sort hook, so every bound hook permutes. -/
theorem RootWithBA_hookPermutes : HookPermutes RootWithBA := by
  intro hook h
  cases h

/-- C22, at an instance: for "Root" with "B" and "A" the worklist is "Root", "A", "B" and
the GUIDs of the records are those of "B", "A" and "Root", the root last. -/
theorem C22_SavedActors_is_the_preorder_worklist_reversed_witness :
    (LPrefabSystem7.SerializeActorToData RootWithBA 5
      (LPrefabSystem7.SavePrefab_serializer RootWithBA [] [] true) 1).2.SavedActors.map
        (·.ActorGuid) = [1002, 1001, 1000] ∧
    (LPrefabSystem7.CollectActorRecursive RootWithBA 5 1
      (LPrefabSystem7.SavePrefab_serializer RootWithBA [] [] true)).TrySerializeActorArray
      = [1, 3, 2] ∧
    List.Pairwise (fun x y => ¬ AttachedBeneath RootWithBA x y) [2, 3, 1] := by
  have h := C22_SavedActors_is_the_preorder_worklist_reversed RootWithBA
    RootWithBA_hookPermutes _ RootWithBA_treeShaped 5 1 [] [] true
  exact ⟨by decide, by decide, h.2.2.1⟩

/-- C23: in generation 7, after `CollectActorRecursive` has run on the root, every actor
of the worklist `TrySerializeActorArray` has an entry in the identity map; when
`SerializeActorArray` comes to an actor of the worklist, after the actors before it in the
reversed worklist, the lookup of the actor in the map still finds that GUID (also after
the asset table has been extended for a sub-prefab), which is the GUID that the checked
lookup returns and the one in the record emitted at that position. -/
theorem C23_worklist_lookups_succeed (W : World) (fuel : Nat) (Root : UObject)
    (M : TMap UObject FGuid) (Sub : TMap UObject FLSubPrefabData) (editor : Bool)
    (pre post : List UObject) (Actor : UObject) :
    (LPrefabSystem7.CollectActorRecursive W fuel Root
      (LPrefabSystem7.SavePrefab_serializer W M Sub editor)).TrySerializeActorArray.reverse
      = pre ++ Actor :: post →
    ∃ g, TMap.Find (LPrefabSystem7.CollectActorRecursive W fuel Root
        (LPrefabSystem7.SavePrefab_serializer W M Sub editor)).MapObjectToGuid Actor = some g ∧
      TMap.Find (pre.foldl (LPrefabSystem7.SerializeActorArray_body W)
        (LPrefabSystem7.CollectActorRecursive W fuel Root
          (LPrefabSystem7.SavePrefab_serializer W M Sub editor), default)).1.MapObjectToGuid Actor
        = some g ∧
      (∀ Asset, TMap.Find (FindOrAddAssetIdFromList
        (pre.foldl (LPrefabSystem7.SerializeActorArray_body W)
          (LPrefabSystem7.CollectActorRecursive W fuel Root
            (LPrefabSystem7.SavePrefab_serializer W M Sub editor), default)).1
        Asset).2.MapObjectToGuid Actor = some g) ∧
      TMap.FindChecked (pre.foldl (LPrefabSystem7.SerializeActorArray_body W)
        (LPrefabSystem7.CollectActorRecursive W fuel Root
          (LPrefabSystem7.SavePrefab_serializer W M Sub editor), default)).1.MapObjectToGuid Actor
        = g ∧
      ((LPrefabSystem7.SerializeActorToData W fuel
        (LPrefabSystem7.SavePrefab_serializer W M Sub editor) Root).2.SavedActors.map
          (·.ActorGuid))[pre.length]? = some g := by
  intro hsplit
  have hmapped := LPrefabSystem7.CollectActorRecursive7_try_mapped W fuel Root
    (LPrefabSystem7.SavePrefab_serializer W M Sub editor) (fun x hx => by cases hx)
  have hin : ∀ x ∈ pre ++ Actor :: post,
      TMap.Contains (LPrefabSystem7.CollectActorRecursive W fuel Root
        (LPrefabSystem7.SavePrefab_serializer W M Sub editor)).MapObjectToGuid x = true := by
    intro x hx
    rw [← hsplit] at hx
    exact hmapped x (List.mem_reverse.mp hx)
  obtain ⟨g, hg⟩ := (TMap.Contains_eq_true_iff _ _).mp (hin Actor (by simp))
  obtain ⟨hgrow, _, _⟩ := LPrefabSystem7.SerializeActorArray7_fold_records W pre
    (LPrefabSystem7.CollectActorRecursive W fuel Root
      (LPrefabSystem7.SavePrefab_serializer W M Sub editor), default)
    (fun x hx => hin x (List.mem_append_left _ hx))
  have hfind := hgrow.2.2.2.2.2.1.1 Actor g hg
  obtain ⟨_, hrecs, _⟩ := LPrefabSystem7.SerializeActorArray7_fold_records W
    (pre ++ Actor :: post)
    (LPrefabSystem7.CollectActorRecursive W fuel Root
      (LPrefabSystem7.SavePrefab_serializer W M Sub editor), default) hin
  have hsa : (LPrefabSystem7.SerializeActorToData W fuel
      (LPrefabSystem7.SavePrefab_serializer W M Sub editor) Root).2.SavedActors
      = (LPrefabSystem7.SerializeActorArray W
          (LPrefabSystem7.CollectActorRecursive W fuel Root
            (LPrefabSystem7.SavePrefab_serializer W M Sub editor), default)).2.SavedActors :=
    LPrefabSystem7.SerializeObjectArray7_SavedActors W fuel 0 _
  refine ⟨g, hg, hfind, ?_, TMap.FindChecked_of_Find _ _ _ hfind, ?_⟩
  · intro Asset
    exact (FindOrAddAssetIdFromList_grows W _ Asset).2.2.2.2.2.1.1 Actor g hfind
  · rw [hsa]
    unfold LPrefabSystem7.SerializeActorArray
    rw [hsplit, hrecs]
    have hd : (default : LPrefabSystem7.FLPrefabSaveData).SavedActors = [] := rfl
    rw [hd, List.map_nil, List.nil_append, List.map_append, List.map_cons,
      List.getElem?_append_right (by simp)]
    simp [TMap.FindChecked_of_Find _ _ _ hg]

/-- C23, at an instance: for "Root" with "B" and "A" the reversed worklist is 2, 3, 1;
when the actor pass comes to the actor 3, after the actor 2, the lookup finds the GUID
1001, which the second record carries. -/
theorem C23_worklist_lookups_succeed_witness :
    (LPrefabSystem7.CollectActorRecursive RootWithBA 5 1
      (LPrefabSystem7.SavePrefab_serializer RootWithBA [] [] true)).TrySerializeActorArray.reverse
      = [2] ++ 3 :: [1] ∧
    ∃ g, TMap.Find (LPrefabSystem7.CollectActorRecursive RootWithBA 5 1
        (LPrefabSystem7.SavePrefab_serializer RootWithBA [] [] true)).MapObjectToGuid 3 = some g ∧
      TMap.Find ([2].foldl (LPrefabSystem7.SerializeActorArray_body RootWithBA)
        (LPrefabSystem7.CollectActorRecursive RootWithBA 5 1
          (LPrefabSystem7.SavePrefab_serializer RootWithBA [] [] true),
            default)).1.MapObjectToGuid 3 = some g ∧
      ((LPrefabSystem7.SerializeActorToData RootWithBA 5
        (LPrefabSystem7.SavePrefab_serializer RootWithBA [] [] true) 1).2.SavedActors.map
          (·.ActorGuid))[1]? = some g ∧ g = 1001 := by
  obtain ⟨g, h1, h2, _, _, h5⟩ :=
    C23_worklist_lookups_succeed RootWithBA 5 1 [] [] true [2] [1] 3 (by decide)
  have hg : g = 1001 := by
    have h0 : TMap.Find (LPrefabSystem7.CollectActorRecursive RootWithBA 5 1
        (LPrefabSystem7.SavePrefab_serializer RootWithBA [] [] true)).MapObjectToGuid 3
        = some 1001 := by decide
    rw [h0] at h1
    exact (Option.some.inj h1).symm
  exact ⟨by decide, g, h1, h2, h5, hg⟩

end LPrefab

namespace LPrefab

/-! # The roots of a selection -/

namespace LPrefabEditorTools

/-- The climb of `GetRootActorListFromSelection` ends within the fuel when the hierarchy
has no cycle, and finds a selected actor exactly when the actor it starts from, or an
attachment ancestor of it, is selected. -/
theorem GetRootActorListFromSelection_while_spec (W : World) (rank : UObject → Nat)
    (hrank : ∀ a p, W.GetAttachParentActor a = some p → rank p < rank a)
    (selectedActors : List UObject) :
    ∀ (fuel : Nat) (P : Option UObject), (∀ p, P = some p → rank p < fuel) →
      ∃ isRootActor, GetRootActorListFromSelection_while W selectedActors fuel P
          = some isRootActor ∧
        (isRootActor = false ↔
          ∃ q ∈ selectedActors, ∃ p, P = some p ∧ (q = p ∨ AttachAncestor W q p)) := by
  intro fuel
  induction fuel with
  | zero =>
    intro P h
    cases P with
    | none =>
      refine ⟨true, rfl, ?_⟩
      simp
    | some p => exact absurd (h p rfl) (Nat.not_lt_zero _)
  | succ n ih =>
    intro P h
    cases P with
    | none =>
      refine ⟨true, rfl, ?_⟩
      simp
    | some p =>
      simp only [GetRootActorListFromSelection_while]
      by_cases hsel : selectedActors.contains p = true
      · rw [if_pos hsel]
        refine ⟨false, rfl, ?_⟩
        have hmem : p ∈ selectedActors := by simpa using hsel
        simp only [true_iff]
        exact ⟨p, hmem, p, rfl, Or.inl rfl⟩
      · rw [if_neg hsel]
        have hnot : p ∉ selectedActors := by simpa using hsel
        obtain ⟨b, hb, hiff⟩ := ih (W.GetAttachParentActor p) (fun q hq => by
          have h1 := hrank p q hq
          have h2 := h p rfl
          omega)
        refine ⟨b, hb, ?_⟩
        rw [hiff]
        constructor
        · rintro ⟨q, hq, p1, hp1, hor⟩
          refine ⟨q, hq, p, rfl, Or.inr ?_⟩
          rcases hor with rfl | hor
          · exact AttachAncestor.parent hp1
          · exact AttachAncestor.step hp1 hor
        · rintro ⟨q, hq, p1, hp1, hor⟩
          cases hp1
          rcases hor with rfl | hor
          · exact absurd hq hnot
          · cases hor with
            | parent hpar => exact ⟨q, hq, q, hpar, Or.inl rfl⟩
            | step hpar hanc => exact ⟨q, hq, _, hpar, Or.inr hanc⟩

/-- The loop over the selection appends the actors for which the climb ends without
finding a selected actor. -/
theorem GetRootActorListFromSelection_for_spec (W : World) (fuel : Nat)
    (selectedActors : List UObject) (keep : UObject → Bool) :
    ∀ (rest RootActorList : List UObject),
      (∀ a ∈ rest, GetRootActorListFromSelection_while W selectedActors fuel
        (W.GetAttachParentActor a) = some (keep a)) →
      GetRootActorListFromSelection_for W fuel selectedActors rest RootActorList
        = some (RootActorList ++ rest.filter keep) := by
  intro rest
  induction rest with
  | nil => intro acc _; simp [GetRootActorListFromSelection_for]
  | cons a rest ih =>
    intro acc h
    simp only [GetRootActorListFromSelection_for]
    rw [h a (List.mem_cons_self _ _)]
    simp only
    rw [ih _ (fun x hx => h x (List.mem_cons_of_mem _ hx))]
    cases hk : keep a with
    | true => simp [List.filter_cons, hk]
    | false => simp [List.filter_cons, hk]

end LPrefabEditorTools

/-- C29: over an attachment hierarchy without a cycle (`rank` grows from parent to
child, and the fuel covers the rank of the selected actors),
`GetRootActorListFromSelection` returns the selected actors none of whose attachment
ancestors is selected, in selection order: the selection filtered by that test; so no
returned actor has a selected actor among its attachment ancestors. -/
theorem C29_roots_of_selection (W : World) (rank : UObject → Nat)
    (hrank : ∀ a p, W.GetAttachParentActor a = some p → rank p < rank a)
    (fuel : Nat) (selectedActors : List UObject)
    (hfuel : ∀ a ∈ selectedActors, rank a ≤ fuel) :
    ∃ keep : UObject → Bool,
      (∀ a ∈ selectedActors,
        (keep a = true ↔ ¬ ∃ b ∈ selectedActors, AttachAncestor W b a)) ∧
      LPrefabEditorTools.GetRootActorListFromSelection W fuel selectedActors
        = some (selectedActors.filter keep) ∧
      ∀ a ∈ selectedActors.filter keep, a ∈ selectedActors ∧
        ∀ b ∈ selectedActors, ¬ AttachAncestor W b a := by
  have hspec : ∀ a ∈ selectedActors, ∃ isRootActor,
      LPrefabEditorTools.GetRootActorListFromSelection_while W selectedActors fuel
          (W.GetAttachParentActor a) = some isRootActor ∧
        (isRootActor = false ↔ ∃ b ∈ selectedActors, AttachAncestor W b a) := by
    intro a ha
    obtain ⟨b, hb, hiff⟩ := LPrefabEditorTools.GetRootActorListFromSelection_while_spec W rank
      hrank selectedActors fuel (W.GetAttachParentActor a) (fun q hq => by
        have h1 := hrank a q hq
        have h2 := hfuel a ha
        omega)
    refine ⟨b, hb, ?_⟩
    rw [hiff]
    constructor
    · rintro ⟨q, hq, p, hp, hor⟩
      refine ⟨q, hq, ?_⟩
      rcases hor with rfl | hor
      · exact AttachAncestor.parent hp
      · exact AttachAncestor.step hp hor
    · rintro ⟨q, hq, hanc⟩
      cases hanc with
      | parent hpar => exact ⟨q, hq, q, hpar, Or.inl rfl⟩
      | step hpar hanc => exact ⟨q, hq, _, hpar, Or.inr hanc⟩
  have hkeep : ∀ a ∈ selectedActors,
      ((LPrefabEditorTools.GetRootActorListFromSelection_while W selectedActors fuel
          (W.GetAttachParentActor a)).getD true = true ↔
        ¬ ∃ b ∈ selectedActors, AttachAncestor W b a) := by
    intro a ha
    obtain ⟨b, hb, hiff⟩ := hspec a ha
    rw [hb, Option.getD_some, ← hiff]
    cases b <;> simp
  refine ⟨fun a => (LPrefabEditorTools.GetRootActorListFromSelection_while W selectedActors fuel
      (W.GetAttachParentActor a)).getD true, hkeep, ?_, ?_⟩
  · unfold LPrefabEditorTools.GetRootActorListFromSelection
    rw [LPrefabEditorTools.GetRootActorListFromSelection_for_spec W fuel selectedActors
      (fun a => (LPrefabEditorTools.GetRootActorListFromSelection_while W selectedActors fuel
        (W.GetAttachParentActor a)).getD true) selectedActors []]
    · rw [List.nil_append]
    · intro a ha
      obtain ⟨b, hb, _⟩ := hspec a ha
      rw [hb, Option.getD_some]
  · intro a ha
    rw [List.mem_filter] at ha
    refine ⟨ha.1, ?_⟩
    intro b hb hanc
    exact (hkeep a ha.1).mp ha.2 ⟨b, hb, hanc⟩

/-- C29, at an instance: in the level where 4 is attached to 2 and 5 to 3, both beneath
the actor 1, the selection 4, 2, 5 has the roots 2 and 5. -/
theorem C29_roots_of_selection_witness :
    LPrefabEditorTools.GetRootActorListFromSelection LevelWithSkipped 5 [4, 2, 5]
      = some [2, 5] ∧
    ∃ keep : UObject → Bool,
      (∀ a ∈ [4, 2, 5],
        (keep a = true ↔ ¬ ∃ b ∈ [4, 2, 5], AttachAncestor LevelWithSkipped b a)) ∧
      LPrefabEditorTools.GetRootActorListFromSelection LevelWithSkipped 5 [4, 2, 5]
        = some ([4, 2, 5].filter keep) ∧
      ∀ a ∈ [4, 2, 5].filter keep, a ∈ [4, 2, 5] ∧
        ∀ b ∈ [4, 2, 5], ¬ AttachAncestor LevelWithSkipped b a :=
  ⟨by decide,
    C29_roots_of_selection LevelWithSkipped (fun o => o)
      (by
        intro a p h
        simp only [LevelWithSkipped] at h
        split_ifs at h with h1 h2 h3
        · cases h; rcases h1 with rfl | rfl <;> decide
        · cases h; subst h2; decide
        · cases h; subst h3; decide)
      5 [4, 2, 5] (by decide)⟩

end LPrefab

namespace LPrefab

open FLPrefabSequenceObjectReference

/-! # The path of the actor that a path leads to -/

/-- C27 fails: path items are compared with the labels ignoring case, so the path "x"
leads from the context actor 1 to the actor 2, labelled "X", whose relative path is "X";
the repair of a reference with the cached path "x" succeeds, caches the actor 2 and keeps
the path "x". -/
theorem C27_lower_case_path_finds_actor_with_another_path :
    GetActorFromContextActorByRelativePath LevelWithTwinLabels 1 "x".data = some 2 ∧
    GetActorPathRelativeToContextActor LevelWithTwinLabels 5 1 2 = some "X".data ∧
    "X".data ≠ "x".data ∧
    ∃ r1, FixObjectReferenceFromEditorHelpers LevelWithTwinLabels 1 ReferenceWithLowerCasePath
        = some (true, r1) ∧
      r1.HelperActor = some 2 ∧ r1.HelperActorPath = "x".data :=
  ⟨by decide, by decide, by decide,
    { ReferenceWithLowerCasePath with
      Object := some 2, HelperActor := some 2, HelperActorLabel := "X".data },
    by decide, rfl, rfl⟩

/-- C27 (amended): for every context actor C in a tree-shaped attachment hierarchy, where
`IsAttachedTo(C)` holds for the actors attached beneath C, and every path string p: if
`GetActorFromContextActorByRelativePath(C, p)` returns an actor A, then
`GetActorPathRelativeToContextActor(C, A)` equals p when the case of the letters is
ignored; hence after a successful `FixObjectReferenceFromEditorHelpers(C)` the cached
`HelperActorPath` equals, ignoring case, the relative path of the new `HelperActor`. -/
theorem C27_path_of_found_actor_is_the_path_ignoring_case (W : World) (rank : UObject → Nat)
    (ht : TreeShaped W rank) (C : UObject)
    (hatt : ∀ A, A ≠ C → AttachedBeneath W C A → W.IsAttachedTo A C = true)
    (fuel : Nat) (hfuel : rank C ≤ fuel) :
    (∀ p A, GetActorFromContextActorByRelativePath W C p = some A →
      ∃ path, GetActorPathRelativeToContextActor W fuel C A = some path ∧
        FString_Equals path p = true) ∧
    (∀ r r1, FixObjectReferenceFromEditorHelpers W C r = some (true, r1) →
      ∃ A path, r1.HelperActor = some A ∧
        GetActorPathRelativeToContextActor W fuel C A = some path ∧
        FString_Equals path r1.HelperActorPath = true) := by
  constructor
  · intro p A h
    exact GetActorPath_of_found W rank ht C hatt fuel hfuel p A h
  · intro r r1 h
    obtain ⟨A, hA, hHelper, hPath⟩ := Fix_true_HelperActor W C r r1 h
    obtain ⟨path, h1, h2⟩ := GetActorPath_of_found W rank ht C hatt fuel hfuel _ A hA
    exact ⟨A, path, hHelper, h1, by rw [hPath]; exact h2⟩

/-- The level with the twin labels is tree-shaped. -/
theorem LevelWithTwinLabels_treeShaped :
    TreeShaped LevelWithTwinLabels (fun o => if o = 1 then 2 else if o = 2 then 1 else 0) := by
  have hatt : ∀ p, LevelWithTwinLabels.GetAttachedActors p
      = if p = 1 then [2, 3] else if p = 2 then [4] else [] := fun _ => rfl
  refine ⟨?_, ?_, ?_⟩
  · intro p c h
    rw [hatt] at h
    split_ifs at h with h1 h2
    · subst h1
      have hc : c = 2 ∨ c = 3 := by simpa using h
      rcases hc with rfl | rfl <;> rfl
    · subst h2
      have hc : c = 4 := by simpa using h
      subst hc
      rfl
    · cases h
  · intro p c h
    rw [hatt] at h
    split_ifs at h with h1 h2
    · subst h1
      have hc : c = 2 ∨ c = 3 := by simpa using h
      rcases hc with rfl | rfl <;> decide
    · subst h2
      have hc : c = 4 := by simpa using h
      subst hc
      decide
    · cases h
  · intro p
    rw [hatt]
    split_ifs <;> decide

/-- In the level with the twin labels the actors beneath the actor 1 are attached to it. -/
theorem LevelWithTwinLabels_attached (A : UObject) (hne : A ≠ 1)
    (h : AttachedBeneath LevelWithTwinLabels 1 A) :
    LevelWithTwinLabels.IsAttachedTo A 1 = true := by
  have hatt : ∀ p, LevelWithTwinLabels.GetAttachedActors p
      = if p = 1 then [2, 3] else if p = 2 then [4] else [] := fun _ => rfl
  have key : ∀ X, AttachedBeneath LevelWithTwinLabels 1 X → X = 1 ∨ X = 2 ∨ X = 3 ∨ X = 4 := by
    intro X hX
    induction hX with
    | self => exact Or.inl rfl
    | @step Parent Child _ hmem _ =>
      rw [hatt] at hmem
      split_ifs at hmem with h1 h2
      · have hc : Child = 2 ∨ Child = 3 := by simpa using hmem
        rcases hc with hc | hc
        · exact Or.inr (Or.inl hc)
        · exact Or.inr (Or.inr (Or.inl hc))
      · have hc : Child = 4 := by simpa using hmem
        exact Or.inr (Or.inr (Or.inr hc))
      · cases hmem
  rcases key A h with rfl | rfl | rfl | rfl
  · exact absurd rfl hne
  · decide
  · decide
  · decide

/-- C27 (amended), at an instance: the path "x/leaf" leads from the actor 1 to the actor
4, whose relative path "X/Leaf" equals it ignoring case. -/
theorem C27_path_of_found_actor_is_the_path_ignoring_case_witness :
    GetActorFromContextActorByRelativePath LevelWithTwinLabels 1 "x/leaf".data = some 4 ∧
    ∃ path, GetActorPathRelativeToContextActor LevelWithTwinLabels 5 1 4 = some path ∧
      FString_Equals path "x/leaf".data = true :=
  ⟨by decide,
    (C27_path_of_found_actor_is_the_path_ignoring_case LevelWithTwinLabels _
      LevelWithTwinLabels_treeShaped 1 LevelWithTwinLabels_attached 5 (by decide)).1
      "x/leaf".data 4 (by decide)⟩

end LPrefab

namespace LPrefab

/-! # The root validation of `SavePrefab` and what follows it -/

/-- C4: `SavePrefab` of generation 7 hands back the prefab asset and the caller's identity map
untouched when the root or the prefab is null or the root is not valid, has no world,
is transient, or is editor-only in build mode. In every other case, an editor-only root
in editor mode among them, it hands back what `SerializeActor` makes of the prefab and of
the preprocessed map: the asset is the one written from the archive of the save data,
unless the archive is empty; and, the actor flag `bIsEditorOnlyActor` of the root being
what `IsEditorOnly()` returns, the root is collected: the map handed back holds a GUID
for the root and, unless the root is an actor of a sub-prefab other than its root actor,
the root is in the worklist and `SavedActors` has a record with that GUID. -/
theorem C4_SavePrefab_rejects_or_serializes (W : World) (fuel : Nat)
    (OriginRootActor : Option UObject) (InPrefab : Option ULPrefab) (M : TMap UObject FGuid)
    (Sub : TMap UObject FLSubPrefabData) (editor : Bool) :
    (RootRejected W OriginRootActor InPrefab editor →
      LPrefabSystem7.SavePrefab W fuel OriginRootActor InPrefab M Sub editor = (InPrefab, M)) ∧
    (¬ RootRejected W OriginRootActor InPrefab editor →
      ∃ Root Prefab, OriginRootActor = some Root ∧ InPrefab = some Prefab ∧
        LPrefabSystem7.SavePrefab W fuel OriginRootActor InPrefab M Sub editor =
          (some (LPrefabSystem7.SerializeActor W fuel
              (LPrefabSystem7.SavePrefab_serializer W M Sub editor) Root Prefab).2,
            (LPrefabSystem7.SerializeActor W fuel
              (LPrefabSystem7.SavePrefab_serializer W M Sub editor) Root Prefab).1.MapObjectToGuid) ∧
        (LPrefabSystem7.SavePrefab W fuel OriginRootActor InPrefab M Sub editor).1 =
          some (if (W.ToBinary7 editor (LPrefabSystem7.SerializeActorToData W fuel
              (LPrefabSystem7.SavePrefab_serializer W M Sub editor) Root).2).length ≤ 0
            then Prefab
            else WritePrefabAsset W (LPrefabSystem7.SerializeActorToData W fuel
                (LPrefabSystem7.SavePrefab_serializer W M Sub editor) Root).1
              (W.ToBinary7 editor (LPrefabSystem7.SerializeActorToData W fuel
                (LPrefabSystem7.SavePrefab_serializer W M Sub editor) Root).2)
              W.UtcNow Prefab) ∧
        (0 < fuel → W.bIsEditorOnlyActor Root = W.IsEditorOnly Root →
          ∃ g, TMap.Find
              (LPrefabSystem7.SavePrefab W fuel OriginRootActor InPrefab M Sub editor).2 Root
              = some g ∧
            ((Root ∉ LPrefabSystem7.CollectSubPrefabActors W Sub ∨
                TMap.Contains Sub Root = true) →
              Root ∈ (LPrefabSystem7.SerializeActorToData W fuel
                (LPrefabSystem7.SavePrefab_serializer W M Sub editor)
                Root).1.TrySerializeActorArray ∧
              g ∈ (LPrefabSystem7.SerializeActorToData W fuel
                (LPrefabSystem7.SavePrefab_serializer W M Sub editor)
                Root).2.SavedActors.map (·.ActorGuid)))) ∧
    (∀ Root Prefab, W.IsValid Root = true → W.HasWorld Root = true →
      W.IsTransient Root = false → W.IsEditorOnly Root = true →
      ¬ RootRejected W (some Root) (some Prefab) true) := by
  refine ⟨?_, ?_, ?_⟩
  · intro h
    rcases h with h | h | ⟨r, hr, h⟩
    · subst h; simp [LPrefabSystem7.SavePrefab]
    · subst h; cases OriginRootActor <;> simp [LPrefabSystem7.SavePrefab]
    · subst hr
      cases InPrefab with
      | none => simp [LPrefabSystem7.SavePrefab]
      | some P =>
        rcases h with h | h | h | ⟨h1, h2⟩
        · simp [LPrefabSystem7.SavePrefab, h]
        · simp [LPrefabSystem7.SavePrefab, h]
        · simp [LPrefabSystem7.SavePrefab, h]
        · simp [LPrefabSystem7.SavePrefab, h1, h2]
  · intro h
    cases OriginRootActor with
    | none => exact absurd (Or.inl rfl) h
    | some Root =>
      cases InPrefab with
      | none => exact absurd (Or.inr (Or.inl rfl)) h
      | some Prefab =>
        have hv : W.IsValid Root = true := by
          cases h' : W.IsValid Root with
          | true => rfl
          | false => exact absurd (Or.inr (Or.inr ⟨Root, rfl, Or.inl h'⟩)) h
        have hw : W.HasWorld Root = true := by
          cases h' : W.HasWorld Root with
          | true => rfl
          | false => exact absurd (Or.inr (Or.inr ⟨Root, rfl, Or.inr (Or.inl h')⟩)) h
        have ht : W.IsTransient Root = false := by
          cases h' : W.IsTransient Root with
          | false => rfl
          | true => exact absurd (Or.inr (Or.inr ⟨Root, rfl, Or.inr (Or.inr (Or.inl h'))⟩)) h
        have he : (!editor && W.IsEditorOnly Root) = false := by
          cases h1 : editor with
          | true => rfl
          | false =>
            cases h2 : W.IsEditorOnly Root with
            | false => rfl
            | true =>
              exact absurd (Or.inr (Or.inr ⟨Root, rfl, Or.inr (Or.inr (Or.inr ⟨h1, h2⟩))⟩)) h
        have hsave : LPrefabSystem7.SavePrefab W fuel (some Root) (some Prefab) M Sub editor =
            (some (LPrefabSystem7.SerializeActor W fuel
                (LPrefabSystem7.SavePrefab_serializer W M Sub editor) Root Prefab).2,
              (LPrefabSystem7.SerializeActor W fuel
                (LPrefabSystem7.SavePrefab_serializer W M Sub editor)
                Root Prefab).1.MapObjectToGuid) := by
          simp [LPrefabSystem7.SavePrefab, hv, hw, ht, he]
        have hmap : (LPrefabSystem7.SerializeActor W fuel
            (LPrefabSystem7.SavePrefab_serializer W M Sub editor) Root Prefab).1
            = (LPrefabSystem7.SerializeActorToData W fuel
                (LPrefabSystem7.SavePrefab_serializer W M Sub editor) Root).1 := by
          unfold LPrefabSystem7.SerializeActor
          dsimp only
          split <;> rfl
        obtain ⟨hguids, hgrow⟩ := LPrefabSystem7.SerializeActorToData7_guids W fuel
          (LPrefabSystem7.SavePrefab_serializer W M Sub editor) Root (fun x hx => by cases hx)
        have hmode : (LPrefabSystem7.SerializeActorToData W fuel
            (LPrefabSystem7.SavePrefab_serializer W M Sub editor) Root).1.bIsEditorOrRuntime
            = editor := by
          rw [hgrow.1]
          exact (LPrefabSystem7.CollectActorRecursive7_keeps W fuel Root _).1
        refine ⟨Root, Prefab, rfl, rfl, hsave, ?_, ?_⟩
        · rw [hsave]
          unfold LPrefabSystem7.SerializeActor
          dsimp only
          rw [hmode]
          split <;> rfl
        · intro hfuel hflag
          obtain ⟨n, hn⟩ : ∃ n, fuel = n + 1 := ⟨fuel - 1, by omega⟩
          have hcol : Collectable W
              (LPrefabSystem7.SavePrefab_serializer W M Sub editor).bIsEditorOrRuntime Root := by
            refine ⟨hv, ht, ?_⟩
            cases h1 : editor with
            | true => exact Or.inl rfl
            | false =>
              right
              rw [hflag]
              rw [h1] at he
              simpa using he
          obtain ⟨hcont, htry⟩ := LPrefabSystem7.CollectActorRecursive7_root W n Root
            (LPrefabSystem7.SavePrefab_serializer W M Sub editor) hcol
          rw [← hn] at hcont htry
          obtain ⟨g, hg⟩ := (TMap.Contains_eq_true_iff _ _).mp hcont
          have hfinal := hgrow.2.2.2.2.2.1.1 Root g hg
          refine ⟨g, ?_, ?_⟩
          · rw [hsave]
            show TMap.Find (LPrefabSystem7.SerializeActor W fuel
              (LPrefabSystem7.SavePrefab_serializer W M Sub editor) Root Prefab).1.MapObjectToGuid
              Root = some g
            rw [hmap]
            exact hfinal
          · intro hsub
            have hin := htry hsub
            refine ⟨?_, ?_⟩
            · rw [hgrow.2.2.2.2.1]
              exact hin
            · rw [hguids]
              rw [List.mem_map]
              exact ⟨Root, List.mem_reverse.mpr hin, TMap.FindChecked_of_Find _ _ _ hg⟩
  · intro Root Prefab hv hw ht _ h
    rcases h with h | h | ⟨r, hr, h⟩
    · cases h
    · cases h
    · injection hr with hr
      subst hr
      rcases h with h | h | h | ⟨h1, _⟩
      · rw [hv] at h; cases h
      · rw [hw] at h; cases h
      · rw [ht] at h; cases h
      · cases h1

/-- C4, at an instance: the editor-only actor 3, saved in editor mode, is not rejected;
the map handed back holds a GUID for it, and `SavedActors` has a record with that
GUID. -/
theorem C4_SavePrefab_rejects_or_serializes_witness :
    ∃ g, TMap.Find (LPrefabSystem7.SavePrefab LevelWithSkipped 5 (some 3) (some default)
        [] [] true).2 3 = some g ∧
      3 ∈ (LPrefabSystem7.SerializeActorToData LevelWithSkipped 5
        (LPrefabSystem7.SavePrefab_serializer LevelWithSkipped [] [] true)
        3).1.TrySerializeActorArray ∧
      g ∈ (LPrefabSystem7.SerializeActorToData LevelWithSkipped 5
        (LPrefabSystem7.SavePrefab_serializer LevelWithSkipped [] [] true)
        3).2.SavedActors.map (·.ActorGuid) := by
  have hC4 := C4_SavePrefab_rejects_or_serializes LevelWithSkipped 5 (some 3) (some default)
    [] [] true
  obtain ⟨Root, Prefab, hR, _, _, _, hcol⟩ :=
    hC4.2.1 (hC4.2.2 3 default (by decide) (by decide) (by decide) (by decide))
  cases hR
  obtain ⟨g, hg, himp⟩ := hcol (by decide) (by decide)
  obtain ⟨h1, h2⟩ := himp (Or.inl (by decide))
  exact ⟨g, hg, h1, h2⟩

end LPrefab
